import Mathlib

/-!
# SLProject: monocular ORB-SLAM tracking core

A shallow embedding of the frame grid (`SLCVFrame.cpp`), the map and its
global transforms (`SLCVMap.cpp`), map persistence (`SLCVMapIO.cpp`) and the
per-frame tracking pipeline (`SLCVOrbTracking.cpp`), followed by the theorems
proved about them.

Conventions of the embedding:
* `float` coordinates and matrix entries are exact numbers (rationals, or a
  field), so the statements are about the algorithms under exact arithmetic;
  the grid code of `SLCVFrame` is also given over a machine arithmetic
  (`SLCVFrame.FloatArith`, namespace `SLCVFrame.Fl`), in which every `float`
  operation is rounded, with IEEE 754 binary32 as `SLCVFrame.binary32`;
* `int` values are unbounded integers (over a machine arithmetic the
  conversion of a `float` to `int` is part of the arithmetic);
* a pointer to a heap object is the position of that object in the list of
  objects of its kind; a null pointer is `none`;
* an operation whose behaviour is undefined in C++ (reading past the end of a
  vector, `top()` of an empty queue, dereferencing null) makes the embedded
  function return an error value; in the tracker it sets the flag `fault` of
  the tracker state;
* the code the tracker calls that is not part of the sources (matchers, PnP
  solver, pose optimizer, keyframe database, OpenCV) is a parameter of the
  embedding (`Env`); a tracker function returns, with its result, the list of
  the calls it makes;
* the RANSAC loop of the relocalization, which has no bound of its own, takes
  a bound on its number of passes and returns `none` when the bound is reached.
-/

set_option autoImplicit false

/-! ## Definitions -/

/-! ### SLCVFrame: the spatial bucket index -/

namespace SLCVFrame

/-- The fields of `cv::KeyPoint` read by the grid code: `pt.x`, `pt.y`, `octave`. -/
structure KeyPoint where
  x : ℚ
  y : ℚ
  octave : Int

/-- C `round`: the nearest integer, halfway cases away from zero. -/
def cRound (t : ℚ) : Int :=
  if 0 ≤ t then ⌊t + 1 / 2⌋ else -⌊-t + 1 / 2⌋

/-- What the grid code reads of a frame: the undistorted keypoints, the image
bounds, and the two grid dimensions `FRAME_GRID_COLS`, `FRAME_GRID_ROWS`
(constants of a header that is not part of the sources, kept as parameters). -/
structure Frame where
  FRAME_GRID_COLS : Nat
  FRAME_GRID_ROWS : Nat
  mvKeysUn : List KeyPoint
  mnMinX : ℚ
  mnMaxX : ℚ
  mnMinY : ℚ
  mnMaxY : ℚ

/-- Feature count `N = mvKeys.size()`. -/
def Frame.N (f : Frame) : Nat := f.mvKeysUn.length

/-- `mfGridElementWidthInv = FRAME_GRID_COLS / (mnMaxX - mnMinX)`. -/
def Frame.mfGridElementWidthInv (f : Frame) : ℚ :=
  (f.FRAME_GRID_COLS : ℚ) / (f.mnMaxX - f.mnMinX)

/-- `mfGridElementHeightInv = FRAME_GRID_ROWS / (mnMaxY - mnMinY)`. -/
def Frame.mfGridElementHeightInv (f : Frame) : ℚ :=
  (f.FRAME_GRID_ROWS : ℚ) / (f.mnMaxY - f.mnMinY)

/-- `SLCVFrame::PosInGrid`: the cell of a keypoint, `none` when the function
returns false. -/
def PosInGrid (f : Frame) (kp : KeyPoint) : Option (Int × Int) :=
  let posX := cRound ((kp.x - f.mnMinX) * f.mfGridElementWidthInv)
  let posY := cRound ((kp.y - f.mnMinY) * f.mfGridElementHeightInv)
  if posX < 0 ∨ posX ≥ (f.FRAME_GRID_COLS : Int) ∨ posY < 0 ∨ posY ≥ (f.FRAME_GRID_ROWS : Int) then
    none
  else
    some (posX, posY)

/-- The array `mGrid[FRAME_GRID_COLS][FRAME_GRID_ROWS]` of index vectors. -/
abbrev Grid := Int → Int → List Nat

/-- `mGrid[px][py].push_back(i)`. -/
def Grid.push (g : Grid) (px py : Int) (i : Nat) : Grid :=
  fun a b => if a = px ∧ b = py then g a b ++ [i] else g a b

/-- The loop of `AssignFeaturesToGrid` from index `i` on, over the keypoints
that remain. -/
def assignFrom (f : Frame) : List KeyPoint → Nat → Grid → Grid
  | [], _, g => g
  | kp :: rest, i, g =>
    assignFrom f rest (i + 1)
      (match PosInGrid f kp with
       | some (px, py) => g.push px py i
       | none => g)

end SLCVFrame

/-! ### SLCVMap: the map and its global transforms -/

/-- A 4×4 `cv::Mat`: a pose `Tcw` (world to camera) or its inverse. -/
abbrev Mat4 (F : Type) := Matrix (Fin 4) (Fin 4) F

/-- A 3×1 `cv::Mat`: a world position or a translation. -/
abbrev Vec3 (F : Type) := Fin 3 → F

/-- What the map code reads and writes of a keyframe object. `mpParent` is the
spanning-tree parent pointer, `inMap` tells whether `SLCVMap::mspKeyFrames`
holds the address of this object (the `std::set` of pointers is kept as its
characteristic function and iterated by address). -/
structure SLCVKeyFrame (F : Type) where
  mnId : Int
  Tcw : Mat4 F
  mbBad : Bool
  mpParent : Option Nat
  inMap : Bool

/-- What the map code reads and writes of a map-point object. `mObservations`
is the `std::map` from observing keyframe (pointer) to feature index, `inMap`
tells whether `SLCVMap::mspMapPoints` holds the address of this object. -/
structure SLCVMapPoint (F : Type) where
  mnId : Int
  mWorldPos : Vec3 F
  mbBad : Bool
  mObservations : List (Nat × Int)
  mpRefKF : Option Nat
  inMap : Bool

/-- The map together with the keyframe and map-point objects its pointers
refer to: `keyFrames[p]` is the object at address `p`. -/
structure SLCVMap (F : Type) where
  keyFrames : List (SLCVKeyFrame F)
  mapPoints : List (SLCVMapPoint F)
  mnMaxKFid : Int
  mnBigChangeIdx : Int

/-- `enum TransformType` of `SLCVMap`. -/
inductive TransformType where
  | ROT_X
  | ROT_Y
  | ROT_Z
  | TRANS_X
  | TRANS_Y
  | TRANS_Z
  | SCALE
deriving DecidableEq

/-- The library functions `cos`, `sin` and the constant `SL_DEG2RAD` used by
`rotate`, kept as parameters so that the code runs over any field. -/
structure Trig (F : Type) where
  cos : F → F
  sin : F → F
  SL_DEG2RAD : F

namespace SLCVMap

variable {F : Type}

/-- The map the constructor builds: no objects, both counters 0. -/
def empty : SLCVMap F where
  keyFrames := []
  mapPoints := []
  mnMaxKFid := 0
  mnBigChangeIdx := 0

/-- `SLCVMap::AddKeyFrame`, for the keyframe object at address `pKF`. -/
def AddKeyFrame (m : SLCVMap F) (pKF : Nat) : SLCVMap F :=
  match m.keyFrames[pKF]? with
  | none => m
  | some kf =>
    { m with
      keyFrames := m.keyFrames.set pKF { kf with inMap := true }
      mnMaxKFid := if kf.mnId > m.mnMaxKFid then kf.mnId else m.mnMaxKFid }

/-- `SLCVMap::AddMapPoint`. -/
def AddMapPoint (m : SLCVMap F) (pMP : Nat) : SLCVMap F :=
  match m.mapPoints[pMP]? with
  | none => m
  | some mp => { m with mapPoints := m.mapPoints.set pMP { mp with inMap := true } }

/-- `SLCVMap::EraseMapPoint`: only the pointer is erased. -/
def EraseMapPoint (m : SLCVMap F) (pMP : Nat) : SLCVMap F :=
  match m.mapPoints[pMP]? with
  | none => m
  | some mp => { m with mapPoints := m.mapPoints.set pMP { mp with inMap := false } }

/-- `SLCVMap::EraseKeyFrame`: only the pointer is erased. -/
def EraseKeyFrame (m : SLCVMap F) (pKF : Nat) : SLCVMap F :=
  match m.keyFrames[pKF]? with
  | none => m
  | some kf => { m with keyFrames := m.keyFrames.set pKF { kf with inMap := false } }

/-- `SLCVMap::InformNewBigChange`. -/
def InformNewBigChange (m : SLCVMap F) : SLCVMap F :=
  { m with mnBigChangeIdx := m.mnBigChangeIdx + 1 }

/-- `SLCVMap::GetLastBigChangeIdx`. -/
def GetLastBigChangeIdx (m : SLCVMap F) : Int := m.mnBigChangeIdx

/-- `SLCVMap::GetAllKeyFrames`: the pointers of `mspKeyFrames`, by address. -/
def GetAllKeyFrames (m : SLCVMap F) : List Nat :=
  (List.range m.keyFrames.length).filter fun p =>
    match m.keyFrames[p]? with
    | some kf => kf.inMap
    | none => false

/-- `SLCVMap::GetAllMapPoints`: the pointers of `mspMapPoints`, by address. -/
def GetAllMapPoints (m : SLCVMap F) : List Nat :=
  (List.range m.mapPoints.length).filter fun p =>
    match m.mapPoints[p]? with
    | some mp => mp.inMap
    | none => false

/-- `SLCVMap::KeyFramesInMap`. -/
def KeyFramesInMap (m : SLCVMap F) : Nat := m.GetAllKeyFrames.length

/-- `SLCVMap::MapPointsInMap`. -/
def MapPointsInMap (m : SLCVMap F) : Nat := m.GetAllMapPoints.length

/-- `SLCVMap::GetMaxKFid`. -/
def GetMaxKFid (m : SLCVMap F) : Int := m.mnMaxKFid

/-- `SLCVMap::clear`: both pointer sets are emptied (their objects deleted)
and `mnMaxKFid` is reset; `mnBigChangeIdx` is not touched. -/
def clear (m : SLCVMap F) : SLCVMap F :=
  { m with
    keyFrames := m.keyFrames.map fun kf => { kf with inMap := false }
    mapPoints := m.mapPoints.map fun mp => { mp with inMap := false }
    mnMaxKFid := 0 }

variable [Field F]

/-- `cv::Mat::inv()` (LU): the inverse, and the zero matrix for a singular one. -/
def cvInv (A : Mat4 F) : Mat4 F := (A.det)⁻¹ • A.adjugate

/-- `SLCVMap::buildTransMat`: the 3×1 translation for axis `type`, with the
sign of the y and z coordinates turned. -/
def buildTransMat (val : F) (type : Nat) : Vec3 F :=
  match type with
  | 0 => ![val, 0, 0]
  | 1 => ![0, -val, 0]
  | 2 => ![0, 0, -val]
  | _ => ![0, 0, 0]

/-- `SLCVMap::buildRotMat`: the 4×4 rotation about axis `type`, inverted for y
and z; the all-ones matrix for any other `type`. -/
def buildRotMat (tr : Trig F) (valDeg : F) (type : Nat) : Mat4 F :=
  match type with
  | 0 =>
    !![1, 0, 0, 0;
       0, tr.cos valDeg, -tr.sin valDeg, 0;
       0, tr.sin valDeg, tr.cos valDeg, 0;
       0, 0, 0, 1]
  | 1 =>
    cvInv !![tr.cos valDeg, 0, tr.sin valDeg, 0;
             0, 1, 0, 0;
             -tr.sin valDeg, 0, tr.cos valDeg, 0;
             0, 0, 0, 1]
  | 2 =>
    cvInv !![tr.cos valDeg, -tr.sin valDeg, 0, 0;
             tr.sin valDeg, tr.cos valDeg, 0, 0;
             0, 0, 1, 0;
             0, 0, 0, 1]
  | _ => fun _ _ => 1

/-- `rot.rowRange(0, 3).colRange(0, 3)`. -/
def rot33 (R : Mat4 F) : Matrix (Fin 3) (Fin 3) F :=
  fun i j => R (Fin.castSucc i) (Fin.castSucc j)

/-- `T.rowRange(0, 3).col(3) += t`. -/
def addToTranslation (T : Mat4 F) (t : Vec3 F) : Mat4 F :=
  fun i j => if h : i.val < 3 ∧ j = 3 then T i j + t ⟨i.val, h.1⟩ else T i j

/-- `T.rowRange(0, 3).col(3) *= value`. -/
def scaleTranslation (T : Mat4 F) (value : F) : Mat4 F :=
  fun i j => if i.val < 3 ∧ j = 3 then T i j * value else T i j

/-- `SLCVMap::rotate`: every keyframe of the set gets the pose
`(rot * Tcw.inv()).inv()`, every map point of the set the position
`rot33 * pos`. -/
def rotate (tr : Trig F) (value : F) (type : Nat) (m : SLCVMap F) : SLCVMap F :=
  let value := value * tr.SL_DEG2RAD
  let rot := buildRotMat tr value type
  { m with
    keyFrames := m.keyFrames.map fun kf =>
      if kf.inMap then { kf with Tcw := cvInv (rot * cvInv kf.Tcw) } else kf
    mapPoints := m.mapPoints.map fun pt =>
      if pt.inMap then { pt with mWorldPos := (rot33 rot).mulVec pt.mWorldPos } else pt }

/-- `SLCVMap::translate`. -/
def translate (value : F) (type : Nat) (m : SLCVMap F) : SLCVMap F :=
  let trans := buildTransMat value type
  { m with
    keyFrames := m.keyFrames.map fun kf =>
      if kf.inMap then { kf with Tcw := cvInv (addToTranslation (cvInv kf.Tcw) trans) } else kf
    mapPoints := m.mapPoints.map fun pt =>
      if pt.inMap then { pt with mWorldPos := trans + pt.mWorldPos } else pt }

/-- `SLCVMap::scale`. -/
def scale (value : F) (m : SLCVMap F) : SLCVMap F :=
  { m with
    keyFrames := m.keyFrames.map fun kf =>
      if kf.inMap then { kf with Tcw := scaleTranslation kf.Tcw value } else kf
    mapPoints := m.mapPoints.map fun pt =>
      if pt.inMap then { pt with mWorldPos := value • pt.mWorldPos } else pt }

/-- `SLCVMap::applyTransformation`. The calls that follow the switch
(`UpdateNormalAndDepth`, `ComputeDistinctiveDescriptors`, the update of the
scene node) touch no field of the model. -/
def applyTransformation (tr : Trig F) (value : F) (type : TransformType) (m : SLCVMap F) :
    SLCVMap F :=
  match type with
  | .ROT_X => rotate tr value 0 m
  | .ROT_Y => rotate tr value 1 m
  | .ROT_Z => rotate tr value 2 m
  | .TRANS_X => translate value 0 m
  | .TRANS_Y => translate value 1 m
  | .TRANS_Z => translate value 2 m
  | .SCALE => scale value m

/-- A pose applied to a world position: the first three rows of
`Tcw * (P, 1)`, the coordinates of `P` in the camera frame. -/
def applyPose (T : Mat4 F) (P : Vec3 F) : Vec3 F :=
  fun i => (∑ j : Fin 3, T (Fin.castSucc i) (Fin.castSucc j) * P j) + T (Fin.castSucc i) 3

/-- The camera centre of a pose: the translation part of its inverse. -/
def cameraCentre (T : Mat4 F) : Vec3 F :=
  fun i => cvInv T (Fin.castSucc i) 3

/-- The observation ray of (keyframe pose, point): from the camera centre to
the point. -/
def observationRay (T : Mat4 F) (P : Vec3 F) : Vec3 F :=
  P - cameraCentre T

/-- The scalar product of two 3-vectors. -/
def dot (u v : Vec3 F) : F := ∑ i : Fin 3, u i * v i

/-- A pose in homogeneous form: its last row is `(0, 0, 0, 1)`. -/
def IsHomogeneous (T : Mat4 F) : Prop :=
  T 3 0 = 0 ∧ T 3 1 = 0 ∧ T 3 2 = 0 ∧ T 3 3 = 1

/-- Homogeneous coordinates `(P, 1)` of a position. -/
def hom (P : Vec3 F) : Fin 4 → F := ![P 0, P 1, P 2, 1]

/-- The diagonal matrix `diag(a, a, a, 1)`. -/
def scaleMat4 (a : F) : Mat4 F :=
  !![a, 0, 0, 0;
     0, a, 0, 0;
     0, 0, a, 0;
     0, 0, 0, 1]

/-- A keyframe with id 0 whose pose is the translation by `(1, 2, 3)`. -/
def sampleKeyFrame : SLCVKeyFrame F where
  mnId := 0
  Tcw := !![1, 0, 0, 1; 0, 1, 0, 2; 0, 0, 1, 3; 0, 0, 0, 1]
  mbBad := false
  mpParent := none
  inMap := true

/-- A map point at `(1, 1, 1)` seen by the keyframe at address 0. -/
def samplePoint0 : SLCVMapPoint F where
  mnId := 0
  mWorldPos := ![1, 1, 1]
  mbBad := false
  mObservations := [(0, 0)]
  mpRefKF := some 0
  inMap := true

/-- A map point at `(0, 2, 5)` seen by the keyframe at address 0. -/
def samplePoint1 : SLCVMapPoint F where
  mnId := 1
  mWorldPos := ![0, 2, 5]
  mbBad := false
  mObservations := [(0, 1)]
  mpRefKF := some 0
  inMap := true

/-- A map of `sampleKeyFrame` at address 0 and the two sample points at
addresses 0 and 1, all three in the map. -/
def sampleMap : SLCVMap F where
  keyFrames := [sampleKeyFrame]
  mapPoints := [samplePoint0, samplePoint1]
  mnMaxKFid := 0
  mnBigChangeIdx := 0

/-- The homogeneous matrix of the translation by `t`. -/
def transMat4 (t : Vec3 F) : Mat4 F :=
  !![1, 0, 0, t 0;
     0, 1, 0, t 1;
     0, 0, 1, t 2;
     0, 0, 0, 1]

end SLCVMap

/-! ### SLCVMapIO: saving and loading the map -/

namespace SLCVMapIO

variable {F : Type}

/-- A record of the `KeyFrames` sequence of the file: `id`, `parentId` (absent
in legacy files) and the pose `Tcw`. The other fields of a record (loop edges,
descriptors, keypoints, pyramid, intrinsics, image bounds) are copied through
by `save` and `load` and take no part in what follows. -/
structure KfRecord (F : Type) where
  id : Int
  parentId : Option Int
  Tcw : Mat4 F

/-- A record of the `MapPoints` sequence of the file. -/
structure MpRecord (F : Type) where
  id : Int
  mWorldPos : Vec3 F
  observingKfIds : List Int
  corrKpIndices : List Int
  refKfId : Int

/-- The content of a `cv::FileStorage`: the two sequences. A file without a
`KeyFrames` (or `MapPoints`) node reads as one with an empty sequence. -/
structure Document (F : Type) where
  KeyFrames : List (KfRecord F)
  MapPoints : List (MpRecord F)

/-- The body of the keyframe loop of `save` for a keyframe that is not bad.
`none`: `kf->GetParent()` is null (or dangling) where the code dereferences it. -/
def saveKeyFrame (m : SLCVMap F) (kf : SLCVKeyFrame F) : Option (KfRecord F) :=
  if kf.mnId ≠ 0 then
    match kf.mpParent with
    | none => none
    | some p =>
      match m.keyFrames[p]? with
      | none => none
      | some parent => some { id := kf.mnId, parentId := some parent.mnId, Tcw := kf.Tcw }
  else
    some { id := kf.mnId, parentId := some (-1), Tcw := kf.Tcw }

/-- The keyframe loop of `save` over the pointers `kfs`. -/
def saveKeyFrames (m : SLCVMap F) : List Nat → Option (List (KfRecord F))
  | [] => some []
  | p :: rest =>
    match m.keyFrames[p]? with
    | none => none
    | some kf =>
      if kf.mbBad then saveKeyFrames m rest
      else
        match saveKeyFrame m kf with
        | none => none
        | some r =>
          match saveKeyFrames m rest with
          | none => none
          | some rs => some (r :: rs)

/-- The loop of `save` over the observations of a map point: the two vectors
`observingKfIds`, `corrKpIndices` grow together, by the observations whose
keyframe is not bad. -/
def saveObservations (m : SLCVMap F) :
    List (Nat × Int) → List Int × List Int → Option (List Int × List Int)
  | [], acc => some acc
  | (p, idx) :: rest, (observingKfIds, corrKpIndices) =>
    match m.keyFrames[p]? with
    | none => none
    | some kf =>
      if !kf.mbBad then
        saveObservations m rest (observingKfIds ++ [kf.mnId], corrKpIndices ++ [idx])
      else
        saveObservations m rest (observingKfIds, corrKpIndices)

/-- The body of the map-point loop of `save` for a map point that is not bad.
`none`: `mpt->refKf()` is null (or dangling) where the code dereferences it;
the two tests before that only print. -/
def saveMapPoint (m : SLCVMap F) (mpt : SLCVMapPoint F) : Option (MpRecord F) :=
  match saveObservations m mpt.mObservations ([], []) with
  | none => none
  | some (observingKfIds, corrKpIndices) =>
    match mpt.mpRefKF with
    | none => none
    | some r =>
      match m.keyFrames[r]? with
      | none => none
      | some refKf =>
        some { id := mpt.mnId, mWorldPos := mpt.mWorldPos, observingKfIds := observingKfIds,
               corrKpIndices := corrKpIndices, refKfId := refKf.mnId }

/-- The map-point loop of `save` over the pointers `mpts`. -/
def saveMapPoints (m : SLCVMap F) : List Nat → Option (List (MpRecord F))
  | [] => some []
  | p :: rest =>
    match m.mapPoints[p]? with
    | none => none
    | some mpt =>
      if mpt.mbBad then saveMapPoints m rest
      else
        match saveMapPoint m mpt with
        | none => none
        | some r =>
          match saveMapPoints m rest with
          | none => none
          | some rs => some (r :: rs)

/-- `SLCVMapIO::save`: the document written, `none` when the code dereferences
a null pointer. With no keyframe in the map nothing is written. -/
def save (m : SLCVMap F) : Option (Document F) :=
  let kfs := m.GetAllKeyFrames
  if kfs.length = 0 then some { KeyFrames := [], MapPoints := [] }
  else
    match saveKeyFrames m kfs with
    | none => none
    | some kfRecs =>
      match saveMapPoints m m.GetAllMapPoints with
      | none => none
      | some mpRecs => some { KeyFrames := kfRecs, MapPoints := mpRecs }

/-- How `load` can fail: the assertion on `firstKF`, and the two places where
its behaviour is undefined. `outOfFuel` is the loop bound of the model; it is
never reached. -/
inductive LoadError where
  | noKeyFrame0
  | emptyQueue
  | indexOutOfRange
  | outOfFuel
deriving DecidableEq

/-- `m.find(k)` for a `std::map<int, T>` kept as a list of bindings, the most
recent first. -/
def mapFind {β : Type} (k : Int) : List (Int × β) → Option β
  | [] => none
  | (k2, v) :: rest => if k = k2 then some v else mapFind k rest

/-- Modelled from the spec: `SLCVKeyFrame::ChangeParent` (its code is not part
of the sources), "reassigns spanning-tree parent"; the child sets it also
updates are not part of the model. -/
def ChangeParent (map : SLCVMap F) (p newParent : Nat) : SLCVMap F :=
  match map.keyFrames[p]? with
  | none => map
  | some kf => { map with keyFrames := map.keyFrames.set p { kf with mpParent := some newParent } }

/-- Modelled from the spec: `SLCVMapPoint::AddObservation` (its code is not
part of the sources), "idempotent per keyframe". Entries are kept in the
order of insertion. -/
def AddObservation (obs : List (Nat × Int)) (kf : Nat) (idx : Int) : List (Nat × Int) :=
  if obs.any (fun o => o.1 == kf) then obs else obs ++ [(kf, idx)]

/-- The first loop of `loadKeyFrames`: one new keyframe object per record,
added to the map and registered in `_kfsMap` under its id; `parentIdMap` gets
the record's parent id when it has one. The constructor (not part of the
sources) is taken to leave the parent null and the bad flag unset. -/
def loadKeyFrameRecords :
    List (KfRecord F) → SLCVMap F × List (Int × Nat) × List (Int × Int) →
      SLCVMap F × List (Int × Nat) × List (Int × Int)
  | [], st => st
  | r :: rest, (map, _kfsMap, parentIdMap) =>
    let parentIdMap :=
      match r.parentId with
      | some parentId => (r.id, parentId) :: parentIdMap
      | none => parentIdMap
    let newKf := map.keyFrames.length
    let map := SLCVMap.AddKeyFrame
      { map with keyFrames := map.keyFrames ++
          [{ mnId := r.id, Tcw := r.Tcw, mbBad := false, mpParent := none, inMap := false }] }
      newKf
    loadKeyFrameRecords rest (map, (r.id, newKf) :: _kfsMap, parentIdMap)

/-- The second loop of `loadKeyFrames`: every keyframe of the map with an id
other than 0 whose parent id is known and registered gets that parent. -/
def setParents (_kfsMap : List (Int × Nat)) (parentIdMap : List (Int × Int)) :
    List Nat → SLCVMap F → SLCVMap F
  | [], map => map
  | p :: rest, map =>
    match map.keyFrames[p]? with
    | none => setParents _kfsMap parentIdMap rest map
    | some kf =>
      if kf.mnId ≠ 0 then
        match mapFind kf.mnId parentIdMap with
        | some parentId =>
          match mapFind parentId _kfsMap with
          | some parentKf => setParents _kfsMap parentIdMap rest (ChangeParent map p parentKf)
          | none => setParents _kfsMap parentIdMap rest map
        | none => setParents _kfsMap parentIdMap rest map
      else setParents _kfsMap parentIdMap rest map

/-- `SLCVMapIO::loadKeyFrames` (without the loop edges): the map and `_kfsMap`
it leaves. -/
def loadKeyFrames (doc : Document F) (map : SLCVMap F) : SLCVMap F × List (Int × Nat) :=
  let (map, _kfsMap, parentIdMap) := loadKeyFrameRecords doc.KeyFrames (map, [], [])
  (setParents _kfsMap parentIdMap map.GetAllKeyFrames map, _kfsMap)

/-- The loop of `loadMapPoints` over `observingKfIds` from position `i` on:
an id registered in `_kfsMap` adds the observation `(kf, corrKpIndices[i])`,
an unknown id is skipped. Reading `corrKpIndices[i]` past the end is an error. -/
def loadObservations (_kfsMap : List (Int × Nat)) (corrKpIndices : List Int) :
    List Int → Nat → List (Nat × Int) → Except LoadError (List (Nat × Int))
  | [], _, obs => .ok obs
  | kfId :: rest, i, obs =>
    match mapFind kfId _kfsMap with
    | some kf =>
      match corrKpIndices[i]? with
      | none => .error .indexOutOfRange
      | some idx =>
        loadObservations _kfsMap corrKpIndices rest (i + 1) (AddObservation obs kf idx)
    | none => loadObservations _kfsMap corrKpIndices rest (i + 1) obs

/-- The reference keyframe `loadMapPoints` gives a map point: the one
registered under `refKfId`, else the one registered under the first observing
id, else none. -/
def loadRefKf (_kfsMap : List (Int × Nat)) (r : MpRecord F) : Option Nat :=
  match mapFind r.refKfId _kfsMap with
  | some kf => some kf
  | none =>
    match r.observingKfIds with
    | [] => none
    | kfId :: _ => mapFind kfId _kfsMap

/-- `SLCVMapIO::loadMapPoints`: one new map-point object per record, added to
the map. The constructor (not part of the sources) is taken to leave the
observations empty, the reference keyframe null and the bad flag unset; the
call `kf->AddMapPoint` fills a per-feature table of the keyframe that is not
part of the model. -/
def loadMapPoints (_kfsMap : List (Int × Nat)) :
    List (MpRecord F) → SLCVMap F → Except LoadError (SLCVMap F)
  | [], map => .ok map
  | r :: rest, map =>
    match loadObservations _kfsMap r.corrKpIndices r.observingKfIds 0 [] with
    | .error e => .error e
    | .ok obs =>
      let newPt := map.mapPoints.length
      let map := SLCVMap.AddMapPoint
        { map with mapPoints := map.mapPoints ++
            [{ mnId := r.id, mWorldPos := r.mWorldPos, mbBad := false, mObservations := obs,
               mpRefKF := loadRefKf _kfsMap r, inMap := false }] }
        newPt
      loadMapPoints _kfsMap rest map

/-- The first loop of `load` over the keyframes of the map: `firstKF` is the
last keyframe with id 0, `buildSpanningTree` is set when a keyframe with
another id has no parent. (`UpdateConnections(false)`, called here on every
keyframe, is not part of the sources; the covisibility weights it leaves are
the parameter `conn` of `load`.) -/
def scanKeyFrames (map : SLCVMap F) : List Nat → Option Nat × Bool → Option Nat × Bool
  | [], acc => acc
  | p :: rest, (firstKF, buildSpanningTree) =>
    match map.keyFrames[p]? with
    | none => scanKeyFrames map rest (firstKF, buildSpanningTree)
    | some kf =>
      if kf.mnId = 0 then scanKeyFrames map rest (some p, buildSpanningTree)
      else if kf.mpParent = none then scanKeyFrames map rest (firstKF, true)
      else scanKeyFrames map rest (firstKF, buildSpanningTree)

/-- `s.insert(x)` for a `std::set` of pointers kept as an ascending list. -/
def setInsert (x : Nat) : List Nat → List Nat
  | [] => [x]
  | y :: ys => if x < y then x :: y :: ys else if x = y then y :: ys else y :: setInsert x ys

/-- `s.erase(x)` for a `std::set` of pointers. -/
def setErase (x : Nat) (s : List Nat) : List Nat := s.filter fun y => y ≠ x

/-- The priority queue `q` of one iteration of the repair loop, in the order
of the pushes: for every out-of-tree keyframe `unconKf` and every in-tree
keyframe `graphKf` found in its weight map, the element
`(unconKf, graphKf, weight)`. `conn u g` is the result of
`u->GetConnectedKfWeights().find(g)`. -/
def buildQueue (conn : Nat → Nat → Option Int) (unconKfs graph : List Nat) :
    List (Nat × Nat × Int) :=
  unconKfs.flatMap fun unconKf =>
    graph.filterMap fun graphKf =>
      match conn unconKf graphKf with
      | some w => some (unconKf, graphKf, w)
      | none => none

/-- `q.top()` for the comparison `cmpQueue` (by weight): an element of
greatest weight, the first pushed among those; `none` for an empty queue. -/
def queueTop : List (Nat × Nat × Int) → Option (Nat × Nat × Int)
  | [] => none
  | e :: rest =>
    match queueTop rest with
    | none => some e
    | some t => if e.2.2 < t.2.2 then some t else some e

/-- The loop `while (unconKfs.size())` of `load`, bounded by `fuel`
iterations. -/
def repairLoop (conn : Nat → Nat → Option Int) :
    Nat → List Nat → List Nat → SLCVMap F → Except LoadError (SLCVMap F)
  | _, _, [], map => .ok map
  | 0, _, _ :: _, _ => .error .outOfFuel
  | fuel + 1, graph, u :: us, map =>
    match queueTop (buildQueue conn (u :: us) graph) with
    | none => .error .emptyQueue
    | some (newGraphKf, parent, _) =>
      repairLoop conn fuel (setInsert newGraphKf graph) (setErase newGraphKf (u :: us))
        (ChangeParent map newGraphKf parent)

/-- `SLCVMapIO::load` (without the scene-node matrix and the loop edges), for
the covisibility weights `conn` that `UpdateConnections(false)` leaves. -/
def load (conn : Nat → Nat → Option Int) (doc : Document F) (map : SLCVMap F) :
    Except LoadError (SLCVMap F) :=
  let (map, _kfsMap) := loadKeyFrames doc map
  match loadMapPoints _kfsMap doc.MapPoints map with
  | .error e => .error e
  | .ok map =>
    let kfs := map.GetAllKeyFrames
    match scanKeyFrames map kfs (none, false) with
    | (none, _) => .error .noKeyFrame0
    | (some firstKF, buildSpanningTree) =>
      if buildSpanningTree then
        let unconKfs := kfs.foldl (fun s kf => setInsert kf s) []
        repairLoop conn unconKfs.length [firstKF] (setErase firstKF unconKfs) map
      else .ok map

/-- The parent pointer of the keyframe at address `p`. -/
def parentOf (map : SLCVMap F) (p : Nat) : Option Nat :=
  match map.keyFrames[p]? with
  | some kf => kf.mpParent
  | none => none

/-- Whether following parent pointers from `p` reaches `root` in at most `n`
steps. -/
def reaches (map : SLCVMap F) (root : Nat) : Nat → Nat → Bool
  | 0, p => p == root
  | n + 1, p =>
    p == root ||
      match parentOf map p with
      | some q => reaches map root n q
      | none => false

/-- The keyframe object `loadKeyFrames` builds from a record and adds to the
map, before its parent is set. -/
def newKeyFrame (r : KfRecord F) : SLCVKeyFrame F :=
  { mnId := r.id, Tcw := r.Tcw, mbBad := false, mpParent := none, inMap := true }

/-- The value of the local variable `buildSpanningTree` of `load` for a
document loaded into an empty map: whether some keyframe with an id other
than 0 is left without a parent by `loadKeyFrames`. -/
def buildSpanningTree (doc : Document F) : Bool :=
  let map := (loadKeyFrames doc SLCVMap.empty).1
  (scanKeyFrames map map.GetAllKeyFrames (none, false)).2

/-- No covisibility edge at all. -/
def noConn : Nat → Nat → Option Int := fun _ _ => none

/-- Covisibility weight 20 between the keyframes at addresses 0 and 1. -/
def conn20 : Nat → Nat → Option Int :=
  fun u g => if (u = 1 ∧ g = 0) ∨ (u = 0 ∧ g = 1) then some 20 else none

/-- A document whose parent ids form a cycle: keyframe 1 names 2 as its
parent and keyframe 2 names 1. -/
def cycleDoc : Document ℚ where
  KeyFrames := [{ id := 0, parentId := some (-1), Tcw := 1 },
                { id := 1, parentId := some 2, Tcw := 1 },
                { id := 2, parentId := some 1, Tcw := 1 }]
  MapPoints := []

/-- A legacy document: keyframes 0 and 1 without parent ids, and one map point
seen by both. -/
def legacyDoc : Document ℚ where
  KeyFrames := [{ id := 0, parentId := none, Tcw := 1 },
                { id := 1, parentId := none, Tcw := 1 }]
  MapPoints := [{ id := 7, mWorldPos := ![0, 0, 1], observingKfIds := [0, 1],
                  corrKpIndices := [3, 4], refKfId := 0 }]

/-- A document without a keyframe 0: one keyframe with id 1, one map point. -/
def rootlessDoc : Document ℚ where
  KeyFrames := [{ id := 1, parentId := none, Tcw := 1 }]
  MapPoints := [{ id := 7, mWorldPos := ![0, 0, 1], observingKfIds := [1],
                  corrKpIndices := [3], refKfId := 1 }]

/-- Whether the keyframe at address `p` exists and is not bad. -/
def keyFrameNotBad (m : SLCVMap F) (p : Nat) : Bool :=
  match m.keyFrames[p]? with
  | some kf => !kf.mbBad
  | none => false

/-- Whether the map point at address `p` exists and is not bad. -/
def mapPointNotBad (m : SLCVMap F) (p : Nat) : Bool :=
  match m.mapPoints[p]? with
  | some mp => !mp.mbBad
  | none => false

/-- The observations `(keyframe id, feature index)` of a map point whose
keyframe is not bad, in the order of the observations. -/
def keptObservations (m : SLCVMap F) (obs : List (Nat × Int)) : List (Int × Int) :=
  obs.filterMap fun o =>
    match m.keyFrames[o.1]? with
    | some kf => if kf.mbBad then none else some (kf.mnId, o.2)
    | none => none

/-- What the keyframe loop of `save` writes for the pointer `p`: nothing for a
bad keyframe, else the record of `saveKeyFrame`. -/
def savedKeyFrame (m : SLCVMap F) (p : Nat) : Option (KfRecord F) :=
  match m.keyFrames[p]? with
  | some kf => if kf.mbBad then none else saveKeyFrame m kf
  | none => none

/-- What the map-point loop of `save` writes for the pointer `p`. -/
def savedMapPoint (m : SLCVMap F) (p : Nat) : Option (MpRecord F) :=
  match m.mapPoints[p]? with
  | some mp => if mp.mbBad then none else saveMapPoint m mp
  | none => none

/-- A document with keyframe 0 and one map point that names an unknown
reference keyframe and has no observation. -/
def noRefDoc : Document ℚ where
  KeyFrames := [{ id := 0, parentId := some (-1), Tcw := 1 }]
  MapPoints := [{ id := 7, mWorldPos := ![0, 0, 1], observingKfIds := [],
                  corrKpIndices := [], refKfId := 5 }]

/-- A map with four keyframe objects and two map-point objects: keyframes 0
and 1 (parent 0) are in the map and not bad, keyframe 2 is in the map and
bad, keyframe 3 is not bad and not in the map (erased); map point 10 is seen
by all four, map point 11 is bad. -/
def mixedMap : SLCVMap ℚ where
  keyFrames := [{ mnId := 0, Tcw := 1, mbBad := false, mpParent := none, inMap := true },
                { mnId := 1, Tcw := 1, mbBad := false, mpParent := some 0, inMap := true },
                { mnId := 2, Tcw := 1, mbBad := true, mpParent := some 0, inMap := true },
                { mnId := 3, Tcw := 1, mbBad := false, mpParent := some 0, inMap := false }]
  mapPoints := [{ mnId := 10, mWorldPos := ![0, 0, 1], mbBad := false,
                  mObservations := [(0, 5), (1, 6), (2, 7), (3, 8)], mpRefKF := some 0,
                  inMap := true },
                { mnId := 11, mWorldPos := ![0, 0, 2], mbBad := true,
                  mObservations := [(0, 9)], mpRefKF := some 0, inMap := true }]
  mnMaxKFid := 3
  mnBigChangeIdx := 0

/-- The observations `loadMapPoints` gives the map point of a record (none
if reading the record fails). -/
def loadedObservations (_kfsMap : List (Int × Nat)) (r : MpRecord F) : List (Nat × Int) :=
  match loadObservations _kfsMap r.corrKpIndices r.observingKfIds 0 [] with
  | .ok obs => obs
  | .error _ => []

/-- The map-point object `loadMapPoints` builds from a record and adds to the
map. -/
def loadedMapPoint (_kfsMap : List (Int × Nat)) (r : MpRecord F) : SLCVMapPoint F :=
  { mnId := r.id, mWorldPos := r.mWorldPos, mbBad := false,
    mObservations := loadedObservations _kfsMap r, mpRefKF := loadRefKf _kfsMap r, inMap := true }

/-- The pairs `(observing id, feature index)` of a record whose id is
registered in `_kfsMap`, as `(keyframe pointer, feature index)`. -/
def foundObservations (_kfsMap : List (Int × Nat)) (pairs : List (Int × Int)) :
    List (Nat × Int) :=
  pairs.filterMap fun x =>
    match mapFind x.1 _kfsMap with
    | some kf => some (kf, x.2)
    | none => none

/-- The links `(keyframe id, feature index)` of a map point to the keyframes
that are not bad and are in the map. -/
def keyFrameLinks (m : SLCVMap F) (obs : List (Nat × Int)) : List (Int × Int) :=
  obs.filterMap fun o =>
    match m.keyFrames[o.1]? with
    | some kf => if !kf.mbBad && kf.inMap then some (kf.mnId, o.2) else none
    | none => none

/-- The ids and poses of the keyframes of the map that are not bad, in the
order of `GetAllKeyFrames`. -/
def keyFramePoses (m : SLCVMap F) : List (Int × Mat4 F) :=
  m.GetAllKeyFrames.filterMap fun p =>
    match m.keyFrames[p]? with
    | some kf => if kf.mbBad then none else some (kf.mnId, kf.Tcw)
    | none => none

/-- The document `save` writes for `mixedMap`. -/
def mixedDoc : Document ℚ where
  KeyFrames := [{ id := 0, parentId := some (-1), Tcw := 1 },
                { id := 1, parentId := some 0, Tcw := 1 }]
  MapPoints := [{ id := 10, mWorldPos := ![0, 0, 1], observingKfIds := [0, 1, 3],
                  corrKpIndices := [5, 6, 8], refKfId := 0 }]

/-- The map `load` builds from `mixedDoc`. -/
def mixedLoaded : SLCVMap ℚ where
  keyFrames := [{ mnId := 0, Tcw := 1, mbBad := false, mpParent := none, inMap := true },
                { mnId := 1, Tcw := 1, mbBad := false, mpParent := some 0, inMap := true }]
  mapPoints := [{ mnId := 10, mWorldPos := ![0, 0, 1], mbBad := false,
                  mObservations := [(0, 5), (1, 6)], mpRefKF := some 0, inMap := true }]
  mnMaxKFid := 1
  mnBigChangeIdx := 0

/-- A legacy document with keyframes 0 and 1 and no map point: the two
keyframes share nothing, so `UpdateConnections` leaves no covisibility edge. -/
def isolatedDoc : Document ℚ where
  KeyFrames := [{ id := 0, parentId := none, Tcw := 1 },
                { id := 1, parentId := none, Tcw := 1 }]
  MapPoints := []

/-- No map point of the snapshot `GetAllMapPoints` is bad. -/
def NoBadInSnapshot (m : SLCVMap F) : Prop :=
  ∀ p ∈ m.GetAllMapPoints, mapPointNotBad m p = true

/-- A keyframe without its parent pointer. -/
def stripParent (kf : SLCVKeyFrame F) : SLCVKeyFrame F := { kf with mpParent := none }

/-- Two maps that differ at most in the parent pointers of their keyframes. -/
def SameUpToParents (a b : SLCVMap F) : Prop :=
  a.mapPoints = b.mapPoints ∧ a.keyFrames.map stripParent = b.keyFrames.map stripParent

/-- The parent `setParents` leaves in a keyframe it visits. -/
def resolveParent (_kfsMap : List (Int × Nat)) (parentIdMap : List (Int × Int))
    (kf : SLCVKeyFrame F) : Option Nat :=
  if kf.mnId ≠ 0 then
    match mapFind kf.mnId parentIdMap with
    | some parentId =>
      match mapFind parentId _kfsMap with
      | some parentKf => some parentKf
      | none => kf.mpParent
    | none => kf.mpParent
  else kf.mpParent

end SLCVMapIO

/-! ### SLCVOrbTracking: the per-frame tracking pipeline -/

namespace SLCVOrbTracking

variable {F : Type}

/-- The members of `SLCVFrame` that the tracker reads and writes. An empty
`cv::Mat` pose is `none`; a keypoint is its position `pt`; `mBowVec` tells
whether the bag-of-words vector has been computed. -/
structure Frame (F : Type) where
  mnId : Int
  mTimeStamp : F
  N : Nat
  mvKeys : List (F × F)
  mvpMapPoints : List (Option Nat)
  mvbOutlier : List Bool
  mTcw : Option (Mat4 F)
  mpReferenceKF : Option Nat
  mBowVec : Bool

/-- `SLCVFrame::SLCVFrame(imGray, timeStamp, ...)` for the keypoints `mvKeys`
that `ExtractORB` finds in the image: the frame takes the next id, `N` is the
number of keypoints, and the two per-feature vectors get `N` entries (none for
a frame without keypoints, where the constructor returns early). -/
def Frame.construct (nNextId : Int) (timeStamp : F) (mvKeys : List (F × F)) : Frame F :=
  { mnId := nNextId, mTimeStamp := timeStamp, N := mvKeys.length, mvKeys := mvKeys,
    mvpMapPoints := List.replicate mvKeys.length none,
    mvbOutlier := List.replicate mvKeys.length false,
    mTcw := none, mpReferenceKF := none, mBowVec := false }

/-- The members of a map point that the tracker writes while it tracks. -/
structure PointTrack where
  mnVisible : Int
  mnFound : Int
  mnLastFrameSeen : Int
  mbTrackInView : Bool
  mnTrackReferenceForFrame : Int

/-- The states of `SLCVTrackingStateMachine` (its declaration is not part of
the sources; the tracker code names `TRACKING_LOST` and the idle state). -/
inductive TrackingState where
  | IDLE
  | INITIALIZING
  | TRACKING_OK
  | TRACKING_LOST
deriving DecidableEq

/-- `enum TrackingType`. -/
inductive TrackingType where
  | TrackingType_None
  | TrackingType_ORBSLAM
  | TrackingType_MotionModel
  | TrackingType_OptFlow
deriving DecidableEq

/-- The calls the embedding records, in the order they are made: the tracking
strategies, and the calls into code that is not part of the sources.
`TrackWithMotionModel e` records whether the motion model was empty at the
call; `nGoodTested i n` records that the test `if (nGood >= 50)` of
`Relocalization` was reached for candidate `i` with `nGood = n`. -/
inductive Call where
  | Relocalization
  | TrackWithOptFlow
  | TrackWithMotionModel (velocityEmpty : Bool)
  | TrackReferenceKeyFrame
  | TrackLocalMap
  | ComputeBoW
  | DetectRelocalizationCandidates
  | SearchByBoW
  | PnPsolver
  | iterate
  | PoseOptimization
  | SearchByProjection
  | calcOpticalFlowPyrLK
  | solvePnP
  | decorateSceneAndVideo
  | updatePose
  | nGoodTested (i : Nat) (nGood : Int)
deriving DecidableEq

/-- The tracker: the members of `SLCVOrbTracking` (and of its base class) that
the tracking code reads and writes, the map with the heap of keyframe and
map-point objects, the two static id counters, and `fault`, which is set when
the code reads or writes past the end of a vector, dereferences a null pointer
or takes `back()` of an empty list. `keyFrameDB` is the set of keyframes
indexed by the keyframe database. -/
structure State (F : Type) where
  _map : SLCVMap F
  keyFrameDB : List Nat
  frameNextId : Int
  keyFrameNextId : Int
  smState : TrackingState
  mCurrentFrame : Frame F
  mLastFrame : Frame F
  mVelocity : Option (Mat4 F)
  mbVO : Bool
  mnLastRelocFrameId : Int
  mMaxFrames : Int
  mpReferenceKF : Option Nat
  mvpLocalKeyFrames : List Nat
  mvpLocalMapPoints : List Nat
  mnMatchesInliers : Int
  mlRelativeFramePoses : List (Mat4 F)
  mlpReferences : List (Option Nat)
  mlFrameTimes : List F
  mlbLost : List Bool
  _bOK : Bool
  _initialized : Bool
  trackingType : TrackingType
  _optFlowFrames : Int
  pointTrack : Nat → PointTrack
  kfTrackReferenceForFrame : Nat → Int
  fault : Bool

/-- What one call of `PnPsolver::iterate` returns: the pose (empty or not),
`bNoMore`, `vbInliers` and `nInliers`. -/
structure IterateResult (F : Type) where
  Tcw : Option (Mat4 F)
  bNoMore : Bool
  vbInliers : List Bool
  nInliers : Int

/-- What `Optimizer::PoseOptimization` does to the frame it is given: the
value it returns, the pose it leaves in `mTcw`, and the entries of
`mvbOutlier` it writes. -/
structure PoseOptResult (F : Type) where
  nGood : Int
  Tcw : Option (Mat4 F)
  outliers : List (Nat × Bool)

/-- The code the tracker calls that is not part of the sources, as functions
of the tracker state at the call. A matcher returns its match count and the
entries of `mvpMapPoints` it writes (`SearchByBoW`: the vector it fills); a
PnP solver is given by the results of its successive `iterate` calls. -/
structure Env (F : Type) where
  DetectRelocalizationCandidates : State F → List Nat
  SearchByBoW : ℚ → State F → Option Nat → Int × List (Option Nat)
  PnPsolver : State F → List (Option Nat) → Nat → IterateResult F
  PoseOptimization : State F → PoseOptResult F
  SearchByProjectionKF :
    ℚ → State F → Nat → List (Option Nat) → Int → Int → Int × List (Nat × Nat)
  SearchByProjectionLast : ℚ → State F → Int → Int × List (Nat × Nat)
  SearchByProjectionLocal : ℚ → State F → Int → Int × List (Nat × Nat)
  calcOpticalFlowPyrLK : State F → List (F × F) → List (Bool × (F × F))
  solvePnP : State F → List Nat → List (F × F) →
    Bool × Matrix (Fin 3) (Fin 3) F × Vec3 F
  isInFrustum : State F → Nat → Bool
  GetBestCovisibilityKeyFrames : State F → Nat → Int → List Nat
  GetChilds : State F → Nat → List Nat
  GetMapPointMatches : State F → Nat → List (Option Nat)
  GetPoseInverse : State F → Nat → Mat4 F
  GetRotationInverse : Frame F → Matrix (Fin 3) (Fin 3) F
  GetCameraCenter : Frame F → Vec3 F

/-- `pMP->isBad()`; a pointer to no object reads as bad. -/
def mapPointIsBad (s : State F) (pMP : Nat) : Bool :=
  match s._map.mapPoints[pMP]? with
  | some mp => mp.mbBad
  | none => true

/-- `pKF->isBad()`; a pointer to no object reads as bad. -/
def keyFrameIsBad (s : State F) (pKF : Nat) : Bool :=
  match s._map.keyFrames[pKF]? with
  | some kf => kf.mbBad
  | none => true

/-- `pMP->Observations()`: the number of keyframes that observe the point. -/
def Observations (s : State F) (pMP : Nat) : Int :=
  match s._map.mapPoints[pMP]? with
  | some mp => (mp.mObservations.length : Int)
  | none => 0

/-- `pMP->GetObservations()`. -/
def GetObservations (s : State F) (pMP : Nat) : List (Nat × Int) :=
  match s._map.mapPoints[pMP]? with
  | some mp => mp.mObservations
  | none => []

/-- `pKF->GetParent()`. -/
def GetParent (s : State F) (pKF : Nat) : Option Nat :=
  match s._map.keyFrames[pKF]? with
  | some kf => kf.mpParent
  | none => none

/-- `pMP->IncreaseFound()`. -/
def IncreaseFound (s : State F) (pMP : Nat) : State F :=
  let t := s.pointTrack pMP
  { s with pointTrack := Function.update s.pointTrack pMP { t with mnFound := t.mnFound + 1 } }

/-- `pMP->IncreaseVisible()`. -/
def IncreaseVisible (s : State F) (pMP : Nat) : State F :=
  let t := s.pointTrack pMP
  { s with pointTrack := Function.update s.pointTrack pMP { t with mnVisible := t.mnVisible + 1 } }

/-- `mCurrentFrame.SetPose(Tcw)`. -/
def SetPose (s : State F) (Tcw : Option (Mat4 F)) : State F :=
  { s with mCurrentFrame := { s.mCurrentFrame with mTcw := Tcw } }

/-- `mCurrentFrame.mvpMapPoints[i] = v`. -/
def setLink (s : State F) (i : Nat) (v : Option Nat) : State F :=
  if i < s.mCurrentFrame.mvpMapPoints.length then
    { s with mCurrentFrame :=
        { s.mCurrentFrame with mvpMapPoints := s.mCurrentFrame.mvpMapPoints.set i v } }
  else { s with fault := true }

/-- `mCurrentFrame.mvbOutlier[i] = b`. -/
def setOutlier (s : State F) (i : Nat) (b : Bool) : State F :=
  if i < s.mCurrentFrame.mvbOutlier.length then
    { s with mCurrentFrame :=
        { s.mCurrentFrame with mvbOutlier := s.mCurrentFrame.mvbOutlier.set i b } }
  else { s with fault := true }

/-- The entries a matcher writes into `mCurrentFrame.mvpMapPoints`. -/
def writeLinks (s : State F) (w : List (Nat × Nat)) : State F :=
  w.foldl (fun s a => setLink s a.1 (some a.2)) s

/-- `Optimizer::PoseOptimization(&mCurrentFrame)`: the frame after the call. -/
def applyPoseOptimization (s : State F) (r : PoseOptResult F) : State F :=
  r.outliers.foldl (fun s a => setOutlier s a.1 a.2) (SetPose s r.Tcw)

/-- `fill(mvpMapPoints.begin(), mvpMapPoints.end(), NULL)`. -/
def fillLinksNull (s : State F) : State F :=
  { s with mCurrentFrame :=
      { s.mCurrentFrame with
        mvpMapPoints := List.replicate s.mCurrentFrame.mvpMapPoints.length none } }

/-- `mCurrentFrame.ComputeBoW()`. -/
def ComputeBoW (s : State F) : State F :=
  { s with mCurrentFrame := { s.mCurrentFrame with mBowVec := true } }

/-- The loop `for (io < N) if (mvbOutlier[io]) mvpMapPoints[io] = NULL`. -/
def nullOutlierLinks (s : State F) : State F :=
  (List.range s.mCurrentFrame.N).foldl
    (fun s io =>
      match s.mCurrentFrame.mvbOutlier[io]? with
      | none => { s with fault := true }
      | some true => setLink s io none
      | some false => s)
    s

/-- The product of two `cv::Mat`; with an empty factor there is no product. -/
def mulPose [Mul F] [AddCommMonoid F] (A B : Option (Mat4 F)) : Option (Mat4 F) :=
  match A, B with
  | some a, some b => some (a * b)
  | _, _ => none

/-- The 4×4 matrix `eye(4, 4)` with `R` copied to its upper left 3×3 block and
`t` to the first three rows of its last column. -/
def poseOf [Zero F] [One F] (R : Matrix (Fin 3) (Fin 3) F) (t : Vec3 F) : Mat4 F :=
  fun i j =>
    if hi : i.val < 3 then
      if hj : j.val < 3 then R ⟨i.val, hi⟩ ⟨j.val, hj⟩ else t ⟨i.val, hi⟩
    else if j.val < 3 then 0 else 1

/-- The per-candidate local variables of `Relocalization`:
`vpCandidateKFs[i]`, `vbDiscarded[i]`, `vvpMapPointMatches[i]`,
`vpPnPsolvers[i]` (null: `none`) and the number of `iterate` calls made on
that solver. -/
structure Candidate (F : Type) where
  pKF : Nat
  vbDiscarded : Bool
  vvpMapPointMatches : List (Option Nat)
  pSolver : Option (Nat → IterateResult F)
  nIterate : Nat

/-- The body of the first loop of `Relocalization` for the candidate `pKF`:
the candidate's local variables, whether `nCandidates` is incremented, and
the calls made. -/
def relocCandidate (env : Env F) (s : State F) (pKF : Nat) : Candidate F × Bool × List Call :=
  if keyFrameIsBad s pKF then
    ({ pKF := pKF, vbDiscarded := true, vvpMapPointMatches := [], pSolver := none,
       nIterate := 0 }, false, [])
  else
    let r := env.SearchByBoW (3 / 4) s (some pKF)
    if r.1 < 15 then
      ({ pKF := pKF, vbDiscarded := true, vvpMapPointMatches := r.2, pSolver := none,
         nIterate := 0 }, false, [.SearchByBoW])
    else
      ({ pKF := pKF, vbDiscarded := false, vvpMapPointMatches := r.2,
         pSolver := some (env.PnPsolver s r.2), nIterate := 0 }, true,
        [.SearchByBoW, .PnPsolver])

/-- The first loop of `Relocalization` over the candidates: the local
variables, `nCandidates`, and the calls made. -/
def relocSetup (env : Env F) (s : State F) : List Nat → List (Candidate F) × Int × List Call
  | [] => ([], 0, [])
  | pKF :: rest =>
    let c := relocCandidate env s pKF
    let r := relocSetup env s rest
    (c.1 :: r.1, (if c.2.1 then 1 else 0) + r.2.1, c.2.2 ++ r.2.2)

/-- The loop `for (j < np)` of `Relocalization` that copies the inlier matches
of candidate matches `m` into the frame; returns `sFound` too. -/
def copyInliers (m : List (Option Nat)) (vbInliers : List Bool) (s : State F) :
    State F × List (Option Nat) :=
  (List.range vbInliers.length).foldl
    (fun (acc : State F × List (Option Nat)) j =>
      if vbInliers.getD j false then
        match m[j]? with
        | none => ({ acc.1 with fault := true }, acc.2)
        | some v => (setLink acc.1 j v, acc.2 ++ [v])
      else (setLink acc.1 j none, acc.2))
    (s, [])

/-- The map points linked by the frame, `for (ip < N) if (mvpMapPoints[ip])
sFound.insert(mvpMapPoints[ip])`. -/
def linkedPoints (s : State F) : State F × List (Option Nat) :=
  (List.range s.mCurrentFrame.N).foldl
    (fun (acc : State F × List (Option Nat)) ip =>
      match acc.1.mCurrentFrame.mvpMapPoints[ip]? with
      | none => ({ acc.1 with fault := true }, acc.2)
      | some none => acc
      | some (some pMP) => (acc.1, acc.2 ++ [some pMP]))
    (s, [])

/-- The part of the RANSAC loop body of `Relocalization` that follows a
computed pose `Tcw` for the candidate keyframe `pKF`, up to the test
`if (nGood >= 50)`: the value of `nGood` at that test (`none` when the body is
left by `continue` at `nGood < 10`), the tracker after it, and the calls made. -/
def relocRefine (env : Env F) (s : State F) (pKF : Nat) (m : List (Option Nat))
    (Tcw : Mat4 F) (vbInliers : List Bool) : Option Int × State F × List Call :=
  let s := { s with mCurrentFrame := { s.mCurrentFrame with mTcw := some Tcw } }
  let ci := copyInliers m vbInliers s
  let s := ci.1
  let sFound := ci.2
  let po1 := env.PoseOptimization s
  let s := applyPoseOptimization s po1
  if po1.nGood < 10 then (none, s, [.PoseOptimization])
  else
    let s := nullOutlierLinks s
    if po1.nGood < 50 then
      let sp1 := env.SearchByProjectionKF (9 / 10) s pKF sFound 10 100
      let s := writeLinks s sp1.2
      if sp1.1 + po1.nGood ≥ 50 then
        let po2 := env.PoseOptimization s
        let s := applyPoseOptimization s po2
        if po2.nGood > 30 ∧ po2.nGood < 50 then
          let lp := linkedPoints s
          let s := lp.1
          let sp2 := env.SearchByProjectionKF (9 / 10) s pKF lp.2 3 64
          let s := writeLinks s sp2.2
          if po2.nGood + sp2.1 ≥ 50 then
            let po3 := env.PoseOptimization s
            let s := nullOutlierLinks (applyPoseOptimization s po3)
            (some po3.nGood, s,
              [.PoseOptimization, .SearchByProjection, .PoseOptimization, .SearchByProjection,
               .PoseOptimization])
          else
            (some po2.nGood, s,
              [.PoseOptimization, .SearchByProjection, .PoseOptimization, .SearchByProjection])
        else (some po2.nGood, s, [.PoseOptimization, .SearchByProjection, .PoseOptimization])
      else (some po1.nGood, s, [.PoseOptimization, .SearchByProjection])
    else (some po1.nGood, s, [.PoseOptimization])

/-- The local variables of the RANSAC loop of `Relocalization`, with the
tracker and the calls made so far. -/
structure RelocLoop (F : Type) where
  s : State F
  cands : List (Candidate F)
  nCandidates : Int
  bMatch : Bool
  calls : List Call

/-- The body of the loop `for (i < nKFs)` of the RANSAC loop for a candidate
`c = cands[i]` that is not discarded. -/
def relocBody (env : Env F) (i : Nat) (c : Candidate F) (L : RelocLoop F) : RelocLoop F :=
  match c.pSolver with
  | none => { L with s := { L.s with fault := true } }
  | some pSolver =>
    let r := pSolver c.nIterate
    let c1 := { c with nIterate := c.nIterate + 1,
                       vbDiscarded := if r.bNoMore then true else c.vbDiscarded }
    let L := { L with cands := L.cands.set i c1,
                      nCandidates := if r.bNoMore then L.nCandidates - 1 else L.nCandidates,
                      calls := L.calls ++ [.iterate] }
    match r.Tcw with
    | none => L
    | some Tcw =>
      let rr := relocRefine env L.s c.pKF c.vvpMapPointMatches Tcw r.vbInliers
      match rr.1 with
      | none => { L with s := rr.2.1, calls := L.calls ++ rr.2.2 }
      | some nGood =>
        { L with s := rr.2.1, calls := L.calls ++ rr.2.2 ++ [.nGoodTested i nGood],
                 bMatch := decide (nGood ≥ 50) }

/-- The loop `for (i < nKFs)` of the RANSAC loop, over the indices still to
visit; it is left by `break` when a match is found. -/
def relocFor (env : Env F) : List Nat → RelocLoop F → RelocLoop F
  | [], L => L
  | i :: rest, L =>
    match L.cands[i]? with
    | none => relocFor env rest L
    | some c =>
      if c.vbDiscarded then relocFor env rest L
      else
        let L1 := relocBody env i c L
        if L1.bMatch then L1 else relocFor env rest L1

/-- The loop `while (nCandidates > 0 && !bMatch)`, bounded by `fuel`
iterations; `none` when the bound is reached. -/
def relocWhile (env : Env F) (nKFs : Nat) : Nat → RelocLoop F → Option (RelocLoop F)
  | fuel, L =>
    if L.nCandidates > 0 ∧ L.bMatch = false then
      match fuel with
      | 0 => none
      | fuel + 1 => relocWhile env nKFs fuel (relocFor env (List.range nKFs) L)
    else some L

/-- The local variables of `Relocalization` at the start of the RANSAC loop,
after the first loop over the candidates `vpCandidateKFs`. -/
def relocStart (env : Env F) (s : State F) (vpCandidateKFs : List Nat) : RelocLoop F :=
  { s := s, cands := (relocSetup env s vpCandidateKFs).1,
    nCandidates := (relocSetup env s vpCandidateKFs).2.1, bMatch := false,
    calls := [.Relocalization, .ComputeBoW, .DetectRelocalizationCandidates] ++
      (relocSetup env s vpCandidateKFs).2.2 }

/-- `SLCVOrbTracking::Relocalization`: the value returned, the tracker after
the call and the calls made; `none` when the RANSAC loop does not end within
`fuel` iterations. -/
def Relocalization (env : Env F) (fuel : Nat) (s : State F) :
    Option (Bool × State F × List Call) :=
  let s := ComputeBoW s
  let vpCandidateKFs := env.DetectRelocalizationCandidates s
  if vpCandidateKFs.isEmpty then
    some (false, s, [.Relocalization, .ComputeBoW, .DetectRelocalizationCandidates])
  else
    match relocWhile env vpCandidateKFs.length fuel (relocStart env s vpCandidateKFs) with
    | none => none
    | some L =>
      if L.bMatch = false then some (false, L.s, L.calls)
      else
        some (true, { L.s with mnLastRelocFrameId := L.s.mCurrentFrame.mnId }, L.calls)

/-- The loop of `TrackWithOptFlow` over the last frame's links: the map point
and the keypoint of every feature with a link that is not an outlier
(`matchedMapPoints`, `matchedKeyPoints`), and whether a vector was read past
its end. -/
def matchedOfLastFrame (f : Frame F) : List (Nat × (F × F)) × Bool :=
  (List.range f.mvpMapPoints.length).foldl
    (fun (acc : List (Nat × (F × F)) × Bool) i =>
      match f.mvpMapPoints[i]? with
      | some (some pMP) =>
        match f.mvbOutlier[i]? with
        | none => (acc.1, true)
        | some true => acc
        | some false =>
          match f.mvKeys[i]? with
          | none => (acc.1, true)
          | some kp => (acc.1 ++ [(pMP, kp)], acc.2)
      | _ => acc)
    ([], false)

/-- The loop of `TrackWithOptFlow` over `status`: the map point and the
predicted position of every matched point that optical flow found
(`trackedMapPoints`, `trackedKeyPoints`). `calcOpticalFlowPyrLK` gives one
status and one predicted position per point it is given; entries beyond the
matched points are not read. -/
def trackedOfStatus (matched : List (Nat × (F × F))) (flow : List (Bool × (F × F))) :
    List (Nat × (F × F)) :=
  (List.zip matched flow).filterMap fun x => if x.2.1 then some (x.1.1, x.2.2) else none

/-- The tracker at the call of `calcOpticalFlowPyrLK` in `TrackWithOptFlow`
(after the loop over the last frame's links). -/
def beforeOptFlow (s : State F) : State F :=
  { s with fault := s.fault || (matchedOfLastFrame s.mLastFrame).2 }

/-- The points `TrackWithOptFlow` attempts to track: `matchedMapPoints` and
`matchedKeyPoints` side by side. -/
def attemptedPoints (s : State F) : List (Nat × (F × F)) :=
  (matchedOfLastFrame s.mLastFrame).1

/-- The points `TrackWithOptFlow` tracks: `trackedMapPoints` and
`trackedKeyPoints` side by side. -/
def trackedPoints (env : Env F) (s : State F) : List (Nat × (F × F)) :=
  trackedOfStatus (attemptedPoints s)
    (env.calcOpticalFlowPyrLK (beforeOptFlow s) ((attemptedPoints s).map fun x => x.2))

/-- `SLCVOrbTracking::TrackWithOptFlow`. -/
def TrackWithOptFlow [Zero F] [One F] (env : Env F) (s : State F) :
    Bool × State F × List Call :=
  if s.mLastFrame.mvKeys.length < 100 then (false, s, [.TrackWithOptFlow])
  else
    let tracked := trackedPoints env s
    let s1 := { beforeOptFlow s with mnMatchesInliers := (tracked.length : Int) }
    if (tracked.length : ℚ) < ((attemptedPoints s).length : ℚ) * (3 / 4) then
      (false, s1, [.TrackWithOptFlow, .calcOpticalFlowPyrLK])
    else
      let r := env.solvePnP s1 (tracked.map fun x => x.1) (tracked.map fun x => x.2)
      if r.1 then
        (true,
          { s1 with
            mCurrentFrame :=
              { s1.mCurrentFrame with
                mTcw := some (poseOf r.2.1 r.2.2)
                mvKeys := tracked.map fun x => x.2
                mvpMapPoints := tracked.map fun x => some x.1 }
            mbVO := true
            trackingType := .TrackingType_OptFlow },
          [.TrackWithOptFlow, .calcOpticalFlowPyrLK, .solvePnP])
      else (false, s1, [.TrackWithOptFlow, .calcOpticalFlowPyrLK, .solvePnP])

/-- `SLCVOrbTracking::UpdateLastFrame`. -/
def UpdateLastFrame [Mul F] [AddCommMonoid F] (s : State F) : State F :=
  match s.mLastFrame.mpReferenceKF, s.mlRelativeFramePoses.getLast? with
  | some pRef, some Tlr =>
    match s._map.keyFrames[pRef]? with
    | some kf => { s with mLastFrame := { s.mLastFrame with mTcw := some (Tlr * kf.Tcw) } }
    | none => { s with fault := true }
  | _, _ => { s with fault := true }

/-- The local variables of the loop "Discard outliers" of
`TrackWithMotionModel` and `TrackReferenceKeyFrame`. -/
structure Discard (F : Type) where
  s : State F
  nmatches : Int
  nmatchesMap : Int

/-- The loop "Discard outliers" of `TrackWithMotionModel` and
`TrackReferenceKeyFrame`. -/
def discardOutliers (s : State F) (nmatches : Int) : Discard F :=
  (List.range s.mCurrentFrame.N).foldl
    (fun (d : Discard F) i =>
      match d.s.mCurrentFrame.mvpMapPoints[i]? with
      | none => { d with s := { d.s with fault := true } }
      | some none => d
      | some (some pMP) =>
        match d.s.mCurrentFrame.mvbOutlier[i]? with
        | none => { d with s := { d.s with fault := true } }
        | some true =>
          let s1 := setOutlier (setLink d.s i none) i false
          let t := s1.pointTrack pMP
          let t1 := { t with mbTrackInView := false, mnLastFrameSeen := s1.mCurrentFrame.mnId }
          { d with
            s := { s1 with pointTrack := Function.update s1.pointTrack pMP t1 }
            nmatches := d.nmatches - 1 }
        | some false =>
          if Observations d.s pMP > 0 then { d with nmatchesMap := d.nmatchesMap + 1 } else d)
    { s := s, nmatches := nmatches, nmatchesMap := 0 }

/-- `SLCVOrbTracking::TrackWithMotionModel`. -/
def TrackWithMotionModel [Mul F] [AddCommMonoid F] (env : Env F) (s : State F) :
    Bool × State F × List Call :=
  let velocityEmpty := s.mVelocity.isNone
  let s := UpdateLastFrame s
  let s := SetPose s (mulPose s.mVelocity s.mLastFrame.mTcw)
  let s := fillLinksNull s
  let sp1 := env.SearchByProjectionLast (9 / 10) s 15
  let s := writeLinks s sp1.2
  if sp1.1 < 20 then
    let s := fillLinksNull s
    let sp2 := env.SearchByProjectionLast (9 / 10) s (2 * 15)
    let s := writeLinks s sp2.2
    if sp2.1 < 20 then
      (false, s, [.TrackWithMotionModel velocityEmpty, .SearchByProjection, .SearchByProjection])
    else
      let d := discardOutliers (applyPoseOptimization s (env.PoseOptimization s)) sp2.1
      (decide (d.nmatches > 20), { d.s with mbVO := decide (d.nmatchesMap < 10) },
        [.TrackWithMotionModel velocityEmpty, .SearchByProjection, .SearchByProjection,
         .PoseOptimization])
  else
    let d := discardOutliers (applyPoseOptimization s (env.PoseOptimization s)) sp1.1
    (decide (d.nmatches > 20), { d.s with mbVO := decide (d.nmatchesMap < 10) },
      [.TrackWithMotionModel velocityEmpty, .SearchByProjection, .PoseOptimization])

/-- `SLCVOrbTracking::TrackReferenceKeyFrame`. -/
def TrackReferenceKeyFrame (env : Env F) (s : State F) : Bool × State F × List Call :=
  let s := ComputeBoW s
  let r := env.SearchByBoW (7 / 10) s s.mpReferenceKF
  if r.1 < 15 then (false, s, [.TrackReferenceKeyFrame, .ComputeBoW, .SearchByBoW])
  else
    let s := { s with mCurrentFrame := { s.mCurrentFrame with mvpMapPoints := r.2 } }
    let s := SetPose s s.mLastFrame.mTcw
    let d := discardOutliers (applyPoseOptimization s (env.PoseOptimization s)) r.1
    (decide (d.nmatchesMap ≥ 10), d.s,
      [.TrackReferenceKeyFrame, .ComputeBoW, .SearchByBoW, .PoseOptimization])

/-- `keyframeCounter[kf]++` for the `std::map<SLCVKeyFrame*, int>` kept as the
list of its bindings in ascending order of the keys. -/
def counterIncr (kf : Nat) : List (Nat × Int) → List (Nat × Int)
  | [] => [(kf, 1)]
  | (k, n) :: rest =>
    if kf < k then (kf, 1) :: (k, n) :: rest
    else if kf = k then (k, n + 1) :: rest
    else (k, n) :: counterIncr kf rest

/-- The first loop of `UpdateLocalKeyFrames`: every linked map point that is
not bad votes for the keyframes that observe it, a link to a bad point is set
to null. -/
def voteKeyFrames (s : State F) : State F × List (Nat × Int) :=
  (List.range s.mCurrentFrame.N).foldl
    (fun (acc : State F × List (Nat × Int)) i =>
      match acc.1.mCurrentFrame.mvpMapPoints[i]? with
      | none => ({ acc.1 with fault := true }, acc.2)
      | some none => acc
      | some (some pMP) =>
        if mapPointIsBad acc.1 pMP then (setLink acc.1 i none, acc.2)
        else (acc.1, (GetObservations acc.1 pMP).foldl (fun c o => counterIncr o.1 c) acc.2))
    (s, [])

/-- `mvpLocalKeyFrames.push_back(pKF); pKF->mnTrackReferenceForFrame =
mCurrentFrame.mnId`. -/
def pushLocalKeyFrame (s : State F) (pKF : Nat) : State F :=
  { s with
    mvpLocalKeyFrames := s.mvpLocalKeyFrames ++ [pKF]
    kfTrackReferenceForFrame :=
      Function.update s.kfTrackReferenceForFrame pKF s.mCurrentFrame.mnId }

/-- The local variables `max`, `pKFmax` of `UpdateLocalKeyFrames`, with the
tracker. -/
structure Voted (F : Type) where
  s : State F
  max : Int
  pKFmax : Option Nat

/-- The second loop of `UpdateLocalKeyFrames`, over the bindings of
`keyframeCounter`: every keyframe that is not bad is added to the local
keyframes, the one with most votes is remembered. -/
def collectVoted (s : State F) (keyframeCounter : List (Nat × Int)) : Voted F :=
  keyframeCounter.foldl
    (fun (v : Voted F) it =>
      if keyFrameIsBad v.s it.1 then v
      else
        { s := pushLocalKeyFrame v.s it.1
          max := if it.2 > v.max then it.2 else v.max
          pKFmax := if it.2 > v.max then some it.1 else v.pKFmax })
    { s := { s with mvpLocalKeyFrames := [] }, max := 0, pKFmax := none }

/-- The first keyframe of `l` that is not bad and not yet marked for the
current frame, added to the local keyframes (the loops over the neighbours and
over the children in `UpdateLocalKeyFrames`, each left by `break` after the
first addition). -/
def addFirstUnmarked (s : State F) (l : List Nat) : State F :=
  match l.find? fun k =>
      !keyFrameIsBad s k && decide (s.kfTrackReferenceForFrame k ≠ s.mCurrentFrame.mnId) with
  | some k => pushLocalKeyFrame s k
  | none => s

/-- The third loop of `UpdateLocalKeyFrames`, over the keyframes added by the
second loop: it ends when the local keyframes are more than 80, and also, by
the `break` of the parent branch, after the first parent added. -/
def addNeighbours (env : Env F) : List Nat → State F → State F
  | [], s => s
  | pKF :: rest, s =>
    if s.mvpLocalKeyFrames.length > 80 then s
    else
      let s := addFirstUnmarked s (env.GetBestCovisibilityKeyFrames s pKF 10)
      let s := addFirstUnmarked s (env.GetChilds s pKF)
      match GetParent s pKF with
      | some pParent =>
        if s.kfTrackReferenceForFrame pParent ≠ s.mCurrentFrame.mnId then
          pushLocalKeyFrame s pParent
        else addNeighbours env rest s
      | none => addNeighbours env rest s

/-- `SLCVOrbTracking::UpdateLocalKeyFrames`. -/
def UpdateLocalKeyFrames (env : Env F) (s : State F) : State F :=
  let v := voteKeyFrames s
  if v.2.isEmpty then v.1
  else
    let c := collectVoted v.1 v.2
    let s := addNeighbours env c.s.mvpLocalKeyFrames c.s
    match c.pKFmax with
    | some pKFmax =>
      { s with mpReferenceKF := some pKFmax,
               mCurrentFrame := { s.mCurrentFrame with mpReferenceKF := some pKFmax } }
    | none => s

/-- `SLCVOrbTracking::UpdateLocalPoints`. -/
def UpdateLocalPoints (env : Env F) (s : State F) : State F :=
  s.mvpLocalKeyFrames.foldl
    (fun s pKF =>
      (env.GetMapPointMatches s pKF).foldl
        (fun s o =>
          match o with
          | none => s
          | some pMP =>
            if (s.pointTrack pMP).mnTrackReferenceForFrame = s.mCurrentFrame.mnId then s
            else if mapPointIsBad s pMP then s
            else
              let t := s.pointTrack pMP
              let t1 := { t with mnTrackReferenceForFrame := s.mCurrentFrame.mnId }
              { s with
                mvpLocalMapPoints := s.mvpLocalMapPoints ++ [pMP]
                pointTrack := Function.update s.pointTrack pMP t1 })
        s)
    { s with mvpLocalMapPoints := [] }

/-- `SLCVOrbTracking::UpdateLocalMap`. -/
def UpdateLocalMap (env : Env F) (s : State F) : State F :=
  UpdateLocalPoints env (UpdateLocalKeyFrames env s)

/-- The first loop of `SearchLocalPoints`, over the links of the frame. -/
def markMatchedPoints (s : State F) : State F :=
  (List.range s.mCurrentFrame.mvpMapPoints.length).foldl
    (fun s i =>
      match s.mCurrentFrame.mvpMapPoints[i]? with
      | some (some pMP) =>
        if mapPointIsBad s pMP then setLink s i none
        else
          let s := IncreaseVisible s pMP
          let t := s.pointTrack pMP
          let t1 := { t with mnLastFrameSeen := s.mCurrentFrame.mnId, mbTrackInView := false }
          { s with pointTrack := Function.update s.pointTrack pMP t1 }
      | _ => s)
    s

/-- The second loop of `SearchLocalPoints`, over the local map points: the
tracker and `nToMatch`. What `isInFrustum` caches in the map point is not part
of the model. -/
def countToMatch (env : Env F) (s : State F) : State F × Int :=
  s.mvpLocalMapPoints.foldl
    (fun (acc : State F × Int) pMP =>
      if (acc.1.pointTrack pMP).mnLastFrameSeen = acc.1.mCurrentFrame.mnId then acc
      else if mapPointIsBad acc.1 pMP then acc
      else if env.isInFrustum acc.1 pMP then (IncreaseVisible acc.1 pMP, acc.2 + 1)
      else acc)
    (s, 0)

/-- `SLCVOrbTracking::SearchLocalPoints`. -/
def SearchLocalPoints (env : Env F) (s : State F) : State F × List Call :=
  let r := countToMatch env (markMatchedPoints s)
  if r.2 > 0 then
    let th : Int := if r.1.mCurrentFrame.mnId < r.1.mnLastRelocFrameId + 2 then 5 else 1
    (writeLinks r.1 (env.SearchByProjectionLocal (8 / 10) r.1 th).2, [.SearchByProjection])
  else (r.1, [])

/-- The body of the loop "Update MapPoints Statistics" of `TrackLocalMap`. -/
def countInlierStep (s : State F) (i : Nat) : State F :=
  match s.mCurrentFrame.mvpMapPoints[i]? with
  | none => { s with fault := true }
  | some none => s
  | some (some pMP) =>
    match s.mCurrentFrame.mvbOutlier[i]? with
    | none => { s with fault := true }
    | some true => s
    | some false =>
      let s := IncreaseFound s pMP
      if Observations s pMP > 0 then { s with mnMatchesInliers := s.mnMatchesInliers + 1 }
      else s

/-- The loop "Update MapPoints Statistics" of `TrackLocalMap`. -/
def countInliers (s : State F) : State F :=
  (List.range s.mCurrentFrame.N).foldl countInlierStep s

/-- The tracker in `TrackLocalMap` after `UpdateLocalMap`, `SearchLocalPoints`
and the pose optimization, before the inliers are counted. -/
def afterLocalMapOptimization (env : Env F) (s : State F) : State F :=
  let sl := SearchLocalPoints env (UpdateLocalMap env s)
  applyPoseOptimization sl.1 (env.PoseOptimization sl.1)

/-- Whether feature `i` of the current frame has a link, is not flagged as
outlier, and its map point has an observation. -/
def isInlierFeature (s : State F) (i : Nat) : Bool :=
  match s.mCurrentFrame.mvpMapPoints[i]?, s.mCurrentFrame.mvbOutlier[i]? with
  | some (some pMP), some false => decide (Observations s pMP > 0)
  | _, _ => false

/-- The features of the current frame with a link that is not flagged as
outlier and whose map point has an observation. -/
def inlierFeatures (s : State F) : List Nat :=
  (List.range s.mCurrentFrame.N).filter (isInlierFeature s)

/-- `mnMatchesInliers = 0`. -/
def resetMatchesInliers (s : State F) : State F := { s with mnMatchesInliers := 0 }

/-- `SLCVOrbTracking::TrackLocalMap`. -/
def TrackLocalMap (env : Env F) (s : State F) : Bool × State F × List Call :=
  let s1 := countInliers (resetMatchesInliers (afterLocalMapOptimization env s))
  let calls :=
    [Call.TrackLocalMap] ++ (SearchLocalPoints env (UpdateLocalMap env s)).2 ++
      [Call.PoseOptimization]
  if s1.mCurrentFrame.mnId < s1.mnLastRelocFrameId + s1.mMaxFrames ∧ s1.mnMatchesInliers < 50 then
    (false, s1, calls)
  else if s1.mnMatchesInliers < 30 then (false, s1, calls)
  else (true, s1, calls)

/-- The loop of the VO branch of `track3DPts` that counts the points found:
`IncreaseFound` for every link that is not an outlier. -/
def increaseFoundVO (s : State F) : State F :=
  (List.range s.mCurrentFrame.N).foldl
    (fun s i =>
      match s.mCurrentFrame.mvpMapPoints[i]? with
      | none => { s with fault := true }
      | some none => s
      | some (some pMP) =>
        match s.mCurrentFrame.mvbOutlier[i]? with
        | none => { s with fault := true }
        | some true => s
        | some false => IncreaseFound s pMP)
    s

/-- The block `if (!mVelocity.empty()) { bOKMM = TrackWithMotionModel(); ... }`
of the VO branch of `track3DPts`: `bOKMM`, the tracker after it and the calls
made. -/
def motionModelVO [Mul F] [AddCommMonoid F] (env : Env F) (s : State F) :
    Bool × State F × List Call :=
  if s.mVelocity.isSome then TrackWithMotionModel env s else (false, s, [])

/-- The branch of `track3DPts` for `mbVO` set ("In last frame we tracked
mainly visual odometry points"): motion-model tracking when there is a motion
model, then relocalization. -/
def trackVO [Mul F] [AddCommMonoid F] (env : Env F) (fuel : Nat) (s : State F) :
    Option (State F × List Call) :=
  let mm := motionModelVO env s
  let bOKMM := mm.1
  let vpMPsMM := if s.mVelocity.isSome then mm.2.1.mCurrentFrame.mvpMapPoints else []
  let vbOutMM := if s.mVelocity.isSome then mm.2.1.mCurrentFrame.mvbOutlier else []
  let TcwMM := if s.mVelocity.isSome then mm.2.1.mCurrentFrame.mTcw else none
  match Relocalization env fuel mm.2.1 with
  | none => none
  | some (bOKReloc, s2, c2) =>
    let s3 :=
      if bOKMM = true ∧ bOKReloc = false then
        let s := { s2 with mCurrentFrame :=
                    { s2.mCurrentFrame with
                      mTcw := TcwMM, mvpMapPoints := vpMPsMM, mvbOutlier := vbOutMM } }
        if s.mbVO then increaseFoundVO s else s
      else if bOKReloc then { s2 with mbVO := false }
      else s2
    some ({ s3 with _bOK := bOKReloc || bOKMM, trackingType := .TrackingType_None },
      mm.2.2 ++ c2)

/-- The tracker in `track3DPts` after `_bOK = TrackWithOptFlow()`. -/
def afterOptFlow [Zero F] [One F] (env : Env F) (s : State F) : State F :=
  { (TrackWithOptFlow env s).2.1 with _bOK := (TrackWithOptFlow env s).1 }

/-- The strategy stage of `track3DPts`: relocalization when tracking is lost,
else optical flow and, when it fails, motion model, reference keyframe or the
VO branch; `_bOK` tells whether it succeeded. -/
def trackStrategy [Field F] (env : Env F) (fuel : Nat) (s : State F) :
    Option (State F × List Call) :=
  if s.smState = .TRACKING_LOST then
    match Relocalization env fuel s with
    | none => none
    | some r => some ({ r.2.1 with _bOK := r.1 }, r.2.2)
  else
    let of := TrackWithOptFlow env s
    let s := afterOptFlow env s
    let r : Option (State F × List Call) :=
      if s._bOK = false then
        if s.mbVO = false then
          if s.mVelocity.isSome then
            let mm := TrackWithMotionModel env s
            some ({ mm.2.1 with _bOK := mm.1, trackingType := .TrackingType_MotionModel },
              mm.2.2)
          else
            let rk := TrackReferenceKeyFrame env s
            some ({ rk.2.1 with _bOK := rk.1, trackingType := .TrackingType_ORBSLAM }, rk.2.2)
        else trackVO env fuel s
      else some (s, [])
    match r with
    | none => none
    | some r => some ({ r.1 with _optFlowFrames := r.1._optFlowFrames + 1 }, of.2.2 ++ r.2)

/-- "Update motion model" of `track3DPts`. -/
def updateMotionModel [Field F] (env : Env F) (s : State F) : State F :=
  match s.mLastFrame.mTcw with
  | some _ =>
    let LastTwc := poseOf (env.GetRotationInverse s.mLastFrame) (env.GetCameraCenter s.mLastFrame)
    { s with mVelocity := mulPose s.mCurrentFrame.mTcw (some LastTwc) }
  | none => { s with mVelocity := none }

/-- The loop "Clean VO matches" of `track3DPts`. -/
def cleanVOMatches (s : State F) : State F :=
  (List.range s.mCurrentFrame.N).foldl
    (fun s i =>
      match s.mCurrentFrame.mvpMapPoints[i]? with
      | none => { s with fault := true }
      | some none => s
      | some (some pMP) =>
        if Observations s pMP < 1 then setLink (setOutlier s i false) i none else s)
    s

/-- The loop of `track3DPts` that discards the outlier links: `if
(mvpMapPoints[i] && mvbOutlier[i]) mvpMapPoints[i] = NULL`. -/
def discardOutlierLinks (s : State F) : State F :=
  (List.range s.mCurrentFrame.N).foldl
    (fun s i =>
      match s.mCurrentFrame.mvpMapPoints[i]? with
      | none => { s with fault := true }
      | some none => s
      | some (some _) =>
        match s.mCurrentFrame.mvbOutlier[i]? with
        | none => { s with fault := true }
        | some true => setLink s i none
        | some false => s)
    s

/-- "Store frame pose information" of `track3DPts`. -/
def logTrajectory [Mul F] [AddCommMonoid F] (env : Env F) (s : State F) : State F :=
  let lost := decide (s.smState = .TRACKING_LOST)
  match s.mCurrentFrame.mpReferenceKF, s.mCurrentFrame.mTcw with
  | some pRef, some Tcw =>
    { s with
      mlRelativeFramePoses := s.mlRelativeFramePoses ++ [Tcw * env.GetPoseInverse s pRef]
      mlpReferences := s.mlpReferences ++ [s.mpReferenceKF]
      mlFrameTimes := s.mlFrameTimes ++ [s.mCurrentFrame.mTimeStamp]
      mlbLost := s.mlbLost ++ [lost] }
  | _, _ =>
    match s.mlRelativeFramePoses.getLast?, s.mlpReferences.getLast?,
        s.mlFrameTimes.getLast? with
    | some Tcr, some pRef, some t =>
      { s with
        mlRelativeFramePoses := s.mlRelativeFramePoses ++ [Tcr]
        mlpReferences := s.mlpReferences ++ [pRef]
        mlFrameTimes := s.mlFrameTimes ++ [t]
        mlbLost := s.mlbLost ++ [lost] }
    | _, _, _ => s

/-- The start of `track3DPts`: the current frame is built from the image, in
which `ExtractORB` finds the keypoints `mvKeys`; `_bOK` and `trackingType` are
reset. -/
def nextFrame [Zero F] (mvKeys : List (F × F)) (s : State F) : State F :=
  { s with
    mCurrentFrame := Frame.construct s.frameNextId 0 mvKeys
    frameNextId := s.frameNextId + 1
    _bOK := false
    trackingType := .TrackingType_None }

/-- The part of `track3DPts` that follows the strategy stage: local-map
tracking, the updates after a tracked frame, the hand-over to the last frame
and the trajectory log. -/
def trackFinish [Field F] (env : Env F) (st : State F × List Call) : State F × List Call :=
  let lm : State F × List Call :=
    if st.1._bOK = true ∧ st.1.mbVO = false then
      let r := TrackLocalMap env st.1
      ({ r.2.1 with _bOK := r.1 }, r.2.2)
    else (st.1, [])
  let s1 :=
    if lm.1._bOK then discardOutlierLinks (cleanVOMatches (updateMotionModel env lm.1))
    else lm.1
  let c3 : List Call :=
    if lm.1._bOK then [.decorateSceneAndVideo, .updatePose] else [.decorateSceneAndVideo]
  let s2 :=
    if s1.mCurrentFrame.mpReferenceKF.isNone then
      { s1 with mCurrentFrame := { s1.mCurrentFrame with mpReferenceKF := s1.mpReferenceKF } }
    else s1
  (logTrajectory env { s2 with mLastFrame := s2.mCurrentFrame }, st.2 ++ lm.2 ++ c3)

/-- `SLCVOrbTracking::track3DPts` for an image in which `ExtractORB` finds the
keypoints `mvKeys`: the tracker after the call and the calls made, `none` when
a relocalization does not end within `fuel` iterations of its RANSAC loop. -/
def track3DPts [Field F] (env : Env F) (fuel : Nat) (mvKeys : List (F × F)) (s : State F) :
    Option (State F × List Call) :=
  match trackStrategy env fuel (nextFrame mvKeys s) with
  | none => none
  | some st => some (trackFinish env st)

/-- Whether a recorded call is the call of a tracking strategy. -/
def Call.isStrategy : Call → Bool
  | .Relocalization => true
  | .TrackWithOptFlow => true
  | .TrackWithMotionModel _ => true
  | .TrackReferenceKeyFrame => true
  | .TrackLocalMap => true
  | _ => false

/-- `SLCVOrbTracking::Reset`. The keyframe database is cleared, the map is
cleared, the two static id counters are set to 0. -/
def Reset (s : State F) : State F :=
  { s with
    keyFrameDB := []
    _map := s._map.clear
    keyFrameNextId := 0
    frameNextId := 0
    _bOK := false
    _initialized := false
    mlRelativeFramePoses := []
    mlpReferences := []
    mlFrameTimes := []
    mlbLost := []
    mpReferenceKF := none
    mvpLocalMapPoints := []
    mvpLocalKeyFrames := []
    mnMatchesInliers := 0 }

/-- The tracker the constructor builds, before any frame is processed: an
empty map, no frame yet, empty matrices and containers, counters at 0. The
constructor sets `_bOK` and `_initialized`; the members it does not set take
the values of their declaration, which is not part of the sources: those of
`mbVO`, `mnLastRelocFrameId` and `mMaxFrames` are parameters. -/
def State.construct [Zero F] (mbVO : Bool) (mnLastRelocFrameId mMaxFrames : Int) : State F :=
  { _map := SLCVMap.empty
    keyFrameDB := []
    frameNextId := 0
    keyFrameNextId := 0
    smState := .IDLE
    mCurrentFrame := Frame.construct 0 0 []
    mLastFrame := Frame.construct 0 0 []
    mVelocity := none
    mbVO := mbVO
    mnLastRelocFrameId := mnLastRelocFrameId
    mMaxFrames := mMaxFrames
    mpReferenceKF := none
    mvpLocalKeyFrames := []
    mvpLocalMapPoints := []
    mnMatchesInliers := 0
    mlRelativeFramePoses := []
    mlpReferences := []
    mlFrameTimes := []
    mlbLost := []
    _bOK := false
    _initialized := false
    trackingType := .TrackingType_None
    _optFlowFrames := 0
    pointTrack := fun _ => ⟨0, 0, 0, false, 0⟩
    kfTrackReferenceForFrame := fun _ => 0
    fault := false }

/-- The members of the tracker that no loop over the features, no matcher and
no pose optimization writes: everything but the links, outlier flags, pose,
reference keyframe and bag-of-words flag of the current frame, the tracking
members of map points and keyframes, the local map, the reference keyframe,
the inlier counter and `fault`. -/
structure Kept (F : Type) where
  _map : SLCVMap F
  keyFrameDB : List Nat
  frameNextId : Int
  keyFrameNextId : Int
  smState : TrackingState
  mnId : Int
  mTimeStamp : F
  N : Nat
  mvKeys : List (F × F)
  mLastFrame : Frame F
  mVelocity : Option (Mat4 F)
  mbVO : Bool
  mnLastRelocFrameId : Int
  mMaxFrames : Int
  mlRelativeFramePoses : List (Mat4 F)
  mlpReferences : List (Option Nat)
  mlFrameTimes : List F
  mlbLost : List Bool
  _bOK : Bool
  _initialized : Bool
  trackingType : TrackingType
  _optFlowFrames : Int

/-- The members of a tracker state listed in `Kept`. -/
def State.kept (s : State F) : Kept F :=
  { _map := s._map, keyFrameDB := s.keyFrameDB, frameNextId := s.frameNextId,
    keyFrameNextId := s.keyFrameNextId, smState := s.smState,
    mnId := s.mCurrentFrame.mnId, mTimeStamp := s.mCurrentFrame.mTimeStamp,
    N := s.mCurrentFrame.N, mvKeys := s.mCurrentFrame.mvKeys, mLastFrame := s.mLastFrame,
    mVelocity := s.mVelocity, mbVO := s.mbVO, mnLastRelocFrameId := s.mnLastRelocFrameId,
    mMaxFrames := s.mMaxFrames, mlRelativeFramePoses := s.mlRelativeFramePoses,
    mlpReferences := s.mlpReferences, mlFrameTimes := s.mlFrameTimes, mlbLost := s.mlbLost,
    _bOK := s._bOK, _initialized := s._initialized, trackingType := s.trackingType,
    _optFlowFrames := s._optFlowFrames }

/-- Capabilities that find nothing: no candidate, no match, no flow, no pose. -/
def quietEnv : Env ℚ where
  DetectRelocalizationCandidates := fun _ => []
  SearchByBoW := fun _ _ _ => (0, [])
  PnPsolver := fun _ _ _ => ⟨none, true, [], 0⟩
  PoseOptimization := fun s => ⟨0, s.mCurrentFrame.mTcw, []⟩
  SearchByProjectionKF := fun _ _ _ _ _ _ => (0, [])
  SearchByProjectionLast := fun _ _ _ => (0, [])
  SearchByProjectionLocal := fun _ _ _ => (0, [])
  calcOpticalFlowPyrLK := fun _ pts => pts.map fun p => (false, p)
  solvePnP := fun _ _ _ => (false, 0, 0)
  isInFrustum := fun _ _ => false
  GetBestCovisibilityKeyFrames := fun _ _ _ => []
  GetChilds := fun _ _ => []
  GetMapPointMatches := fun _ _ => []
  GetPoseInverse := fun _ _ => 1
  GetRotationInverse := fun _ => 1
  GetCameraCenter := fun _ => 0

/-- A tracker that has tracked frames: it has a motion model, is in
VO-fallback mode and has relocalized at frame 7. -/
def trackedState : State ℚ :=
  { (State.construct false 0 30 : State ℚ) with
    frameNextId := 9
    smState := .TRACKING_OK
    mVelocity := some 1
    mbVO := true
    mnLastRelocFrameId := 7
    mlbLost := [false]
    mnMatchesInliers := 40
    _bOK := true
    _initialized := true }

/-- Whether a recorded call is the test `if (nGood >= 50)` of `Relocalization`. -/
def Call.isTest : Call → Bool
  | .nGoodTested _ _ => true
  | _ => false

/-- The results of the successive `iterate` calls of the PnP solver that
`Relocalization`, run in the tracker state `s` (after `ComputeBoW`), builds
for the candidate keyframe `pKF` from its bag-of-words matches. -/
def candidateSolver (env : Env F) (s : State F) (pKF : Nat) : Nat → IterateResult F :=
  env.PnPsolver s (env.SearchByBoW (3 / 4) s (some pKF)).2

/-- A candidate as the first loop of `Relocalization` leaves it when it is not
discarded: the keyframe is not bad, has at least 15 bag-of-words matches, and
the matches and the solver are those built for it. -/
def Candidate.admitted (env : Env F) (s : State F) (c : Candidate F) : Prop :=
  keyFrameIsBad s c.pKF = false ∧ (env.SearchByBoW (3 / 4) s (some c.pKF)).1 ≥ 15 ∧
  c.vvpMapPointMatches = (env.SearchByBoW (3 / 4) s (some c.pKF)).2 ∧
  c.pSolver = some (candidateSolver env s c.pKF)

/-- The number of candidates that are not discarded. -/
def liveCandidates : List (Candidate F) → Int
  | [] => 0
  | c :: rest => (if c.vbDiscarded then 0 else 1) + liveCandidates rest

/-- The PnP solver of every candidate keyframe that is not bad and has at
least 15 bag-of-words matches reports `bNoMore` in one of its first `B` calls
of `iterate` (`s` is the tracker after `ComputeBoW`). -/
def SolversGiveUp (env : Env F) (B : Nat) (s : State F) : Prop :=
  ∀ pKF ∈ env.DetectRelocalizationCandidates s, keyFrameIsBad s pKF = false →
    (env.SearchByBoW (3 / 4) s (some pKF)).1 ≥ 15 →
    ∃ k, k < B ∧ (candidateSolver env s pKF k).bNoMore = true

/-- The test `if (nGood >= 50)` is reached for candidate `i` of `kfs` with
`nGood = n`: the candidate keyframe is not bad and has at least 15
bag-of-words matches, one of the `iterate` calls of its solver has given a
pose, and from that pose and its inliers the pose optimizations and
projection searches of `relocRefine` (run in some tracker state `st`) end with
`nGood = n`. -/
def ReachesTest (env : Env F) (s : State F) (kfs : List Nat) (i : Nat) (n : Int) : Prop :=
  ∃ pKF, kfs[i]? = some pKF ∧ keyFrameIsBad s pKF = false ∧
    (env.SearchByBoW (3 / 4) s (some pKF)).1 ≥ 15 ∧
    ∃ (st : State F) (k : Nat) (Tcw : Mat4 F),
      (candidateSolver env s pKF k).Tcw = some Tcw ∧
      (relocRefine env st pKF (env.SearchByBoW (3 / 4) s (some pKF)).2 Tcw
        (candidateSolver env s pKF k).vbInliers).1 = some n

/-- The invariant of the RANSAC loop of `Relocalization`, run in the tracker
state `s` for the candidates `kfs`, in pass `t` of the `while` loop when the
candidates before index `j` have been visited: `nCandidates` counts the
candidates not discarded, each of them is admitted and has had `t` calls of
`iterate` (`t + 1` before `j`), none of which reported `bNoMore`; every test
recorded was reached, `bMatch` is set exactly when a test saw 50 or more, and
the members in `Kept` are those of `s`. -/
structure RelocInv (env : Env F) (s : State F) (kfs : List Nat) (t j : Nat)
    (L : RelocLoop F) : Prop where
  count_eq : L.nCandidates = liveCandidates L.cands
  cand : ∀ i c, L.cands[i]? = some c → kfs[i]? = some c.pKF ∧
    (c.vbDiscarded = false → Candidate.admitted env s c ∧
      c.nIterate = (if i < j then t + 1 else t) ∧
      ∀ k, k < c.nIterate → (candidateSolver env s c.pKF k).bNoMore = false)
  tested : ∀ i n, Call.nGoodTested i n ∈ L.calls → ReachesTest env s kfs i n
  matched : L.bMatch = true ↔ ∃ i n, Call.nGoodTested i n ∈ L.calls ∧ n ≥ 50
  kept : L.s.kept = s.kept

/-- Capabilities for a relocalization that succeeds: the database proposes the
keyframes 2 and 0, each has 20 bag-of-words matches, the solver gives no pose
at its first `iterate` and a pose at the second, where it reports `bNoMore`,
and the pose optimization finds 60 inliers. -/
def relocEnv : Env ℚ :=
  { quietEnv with
    DetectRelocalizationCandidates := fun _ => [2, 0]
    SearchByBoW := fun _ _ _ => (20, [])
    PnPsolver := fun _ _ k => ⟨if k = 0 then none else some 1, decide (1 ≤ k), [], 0⟩
    PoseOptimization := fun s => ⟨60, s.mCurrentFrame.mTcw, []⟩ }

/-- A lost tracker on `mixedMap` (keyframe 0 is not bad, keyframe 2 is bad)
whose current frame has id 4. -/
def lostState : State ℚ :=
  { (State.construct false 0 30 : State ℚ) with
    _map := SLCVMapIO.mixedMap
    smState := .TRACKING_LOST
    frameNextId := 5
    mCurrentFrame := Frame.construct 4 0 [] }

/-- Capabilities for a motion-model tracking that succeeds while the
relocalization finds no candidate: the projection search from the last frame
reports 25 matches, nothing else is found. -/
def motionEnv : Env ℚ :=
  { quietEnv with SearchByProjectionLast := fun _ _ _ => (25, []) }

/-- Capabilities with an optical flow that finds every point and a `solvePnP`
that succeeds; nothing else is found. -/
def flowEnv : Env ℚ :=
  { quietEnv with
    calcOpticalFlowPyrLK := fun _ pts => pts.map fun p => (true, p)
    solvePnP := fun _ _ _ => (true, 1, 0) }

/-- A last frame with 100 keypoints, a pose, and links of its first four
features to map point 0 of `mixedMap`; no feature is flagged as outlier. -/
def flowLastFrame : Frame ℚ :=
  { (Frame.construct 4 0 (List.replicate 100 (0, 0)) : Frame ℚ) with
    mvpMapPoints := List.replicate 4 (some 0) ++ List.replicate 96 none
    mTcw := some 1 }

/-- A tracker on `mixedMap` in state OK whose last frame is `flowLastFrame`;
no fault has occurred. -/
def flowState : State ℚ :=
  { (State.construct false 0 30 : State ℚ) with
    _map := SLCVMapIO.mixedMap
    smState := .TRACKING_OK
    frameNextId := 5
    mLastFrame := flowLastFrame }

/-- A tracker in VO-fallback mode on `mixedMap`: the state is OK, there is a
motion model, the next frame has id 5. -/
def fallbackState : State ℚ :=
  { (State.construct false 0 30 : State ℚ) with
    _map := SLCVMapIO.mixedMap
    smState := .TRACKING_OK
    frameNextId := 5
    mVelocity := some 1
    mbVO := true }

/-- A tracker that tracks from the map with a motion model: the state is OK,
the VO-fallback mode is off. -/
def modelState : State ℚ :=
  { (State.construct false 0 30 : State ℚ) with
    smState := .TRACKING_OK
    mVelocity := some 1 }

end SLCVOrbTracking

/-! ### SLCVFrame: a keypoint left of the image -/

namespace SLCVFrame

end SLCVFrame

/-! ### SLCVMapIO: the scale tables -/

namespace SLCVMapIO

/-- The four members `_vScaleFactor`, `_vLevelSigma2`, `_vInvScaleFactor` and
`_vInvLevelSigma2` of `SLCVMapIO`. -/
structure ScaleTables (F : Type) where
  _vScaleFactor : List F
  _vLevelSigma2 : List F
  _vInvScaleFactor : List F
  _vInvLevelSigma2 : List F

/-- `v.resize(n)` for a `std::vector<float>`: the first `n` entries are kept,
missing entries are 0. -/
def vectorResize {F : Type} [Zero F] (v : List F) (n : Nat) : List F :=
  v.take n ++ List.replicate (n - v.length) 0

/-- The body of the first loop of `calculateScaleFactors` on `_vScaleFactor`
and `_vLevelSigma2`; `none` when an index is past the end of its vector. -/
def scaleStep {F : Type} [Mul F] (scaleFactor : F) (t : Option (List F × List F)) (i : Nat) :
    Option (List F × List F) :=
  match t with
  | none => none
  | some (vScaleFactor, vLevelSigma2) =>
    match vScaleFactor[i - 1]? with
    | none => none
    | some prev =>
      if i < vScaleFactor.length ∧ i < vLevelSigma2.length then
        some (vScaleFactor.set i (prev * scaleFactor),
          vLevelSigma2.set i (prev * scaleFactor * (prev * scaleFactor)))
      else none

/-- The body of the second loop of `calculateScaleFactors` on
`_vInvScaleFactor` and `_vInvLevelSigma2`, for the tables `vScaleFactor` and
`vLevelSigma2` of the first loop. -/
def invScaleStep {F : Type} [One F] [Div F] (vScaleFactor vLevelSigma2 : List F)
    (t : Option (List F × List F)) (i : Nat) : Option (List F × List F) :=
  match t with
  | none => none
  | some (vInvScaleFactor, vInvLevelSigma2) =>
    match vScaleFactor[i]?, vLevelSigma2[i]? with
    | some a, some b =>
      if i < vInvScaleFactor.length ∧ i < vInvLevelSigma2.length then
        some (vInvScaleFactor.set i (1 / a), vInvLevelSigma2.set i (1 / b))
      else none
    | _, _ => none

/-- `SLCVMapIO::calculateScaleFactors`; `none` when a vector is written past
its end (`nlevels < 1`: the assignments to index 0 of empty vectors). -/
def calculateScaleFactors {F : Type} [Field F] (scaleFactor : F) (nlevels : Int)
    (t : ScaleTables F) : Option (ScaleTables F) :=
  if nlevels < 1 then none
  else
    let n := nlevels.toNat
    let vScaleFactor := (vectorResize ([] : List F) n).set 0 1
    let vLevelSigma2 := (vectorResize ([] : List F) n).set 0 1
    match (List.range' 1 (n - 1)).foldl (scaleStep scaleFactor)
        (some (vScaleFactor, vLevelSigma2)) with
    | none => none
    | some (vScaleFactor, vLevelSigma2) =>
      match (List.range n).foldl (invScaleStep vScaleFactor vLevelSigma2)
          (some (vectorResize t._vInvScaleFactor n, vectorResize t._vInvLevelSigma2 n)) with
      | none => none
      | some (vInvScaleFactor, vInvLevelSigma2) =>
        some { _vScaleFactor := vScaleFactor, _vLevelSigma2 := vLevelSigma2,
               _vInvScaleFactor := vInvScaleFactor, _vInvLevelSigma2 := vInvLevelSigma2 }

/-- The scale tables of the specification for `nlevels = n`: the powers of
`scaleFactor`, their squares, and the inverses of both. -/
def scaleTablesSpec {F : Type} [Field F] (scaleFactor : F) (n : Nat) : ScaleTables F :=
  { _vScaleFactor := (List.range n).map fun i => scaleFactor ^ i
    _vLevelSigma2 := (List.range n).map fun i => (scaleFactor ^ i) ^ 2
    _vInvScaleFactor := (List.range n).map fun i => 1 / scaleFactor ^ i
    _vInvLevelSigma2 := (List.range n).map fun i => 1 / (scaleFactor ^ i) ^ 2 }

/-! Spanning trees of the covisibility graph, for the repair loop of `load`. -/

/-- The weight of the covisibility edge from `a` to `b` (0 when there is
none). -/
def edgeWeight (conn : Nat → Nat → Option Int) (a b : Nat) : Int := (conn a b).getD 0

/-- The parent pointer of the keyframe at address `v`, as a function (a
keyframe without parent is sent to itself). -/
def parentFn {F : Type} (map : SLCVMap F) (v : Nat) : Nat := (parentOf map v).getD v

/-- A spanning tree of the covisibility graph on the keyframes
`root :: others`, its edges directed towards `root`: `p v` is the parent of
the keyframe `v`, every keyframe other than the root is joined to its parent,
another keyframe of the graph, by a covisibility edge, and following parents
leads from every keyframe to the root. -/
structure IsSpanningTree (conn : Nat → Nat → Option Int) (root : Nat) (others : List Nat)
    (p : Nat → Nat) : Prop where
  edge : ∀ v ∈ others, p v ∈ root :: others ∧ (conn v (p v)).isSome = true
  reach : ∀ v ∈ others, ∃ k, p^[k] v = root

/-- The total edge weight of the tree with parents `p`: the sum over the
keyframes other than the root of the weight of the edge to the parent. -/
def treeWeight (conn : Nat → Nat → Option Int) (others : List Nat) (p : Nat → Nat) : Int :=
  (others.map fun v => edgeWeight conn v (p v)).sum

/-- The keyframe `v` is connected to `root` through covisibility edges between
keyframes of `root :: others`. -/
def Connected (conn : Nat → Nat → Option Int) (root : Nat) (others : List Nat) (v : Nat) : Prop :=
  Relation.ReflTransGen (fun a b => b ∈ root :: others ∧ (conn a b).isSome = true) v root

/-- The addresses of the `n` keyframes loaded from a document, without the
address `root`. -/
def otherKeyFrames (n root : Nat) : List Nat := setErase root (List.range n)

/-- The keyframe `firstKF` that the first loop of `load` finds for a
document loaded into an empty map. -/
def firstKF {F : Type} (doc : Document F) : Option Nat :=
  let map := (loadKeyFrames doc SLCVMap.empty).1
  (scanKeyFrames map map.GetAllKeyFrames (none, false)).1

/-- A legacy document of three keyframes with ids 0, 1, 2, none with a parent
id, and no map point. -/
def triangleDoc : Document ℚ where
  KeyFrames := [{ id := 0, parentId := none, Tcw := 1 },
                { id := 1, parentId := none, Tcw := 1 },
                { id := 2, parentId := none, Tcw := 1 }]
  MapPoints := []

/-- Symmetric covisibility weights on three keyframes: 5 between 0 and 1, 7
between 1 and 2, 3 between 0 and 2. -/
def connTriangle : Nat → Nat → Option Int :=
  fun u g =>
    if (u = 0 ∧ g = 1) ∨ (u = 1 ∧ g = 0) then some 5
    else if (u = 1 ∧ g = 2) ∨ (u = 2 ∧ g = 1) then some 7
    else if (u = 0 ∧ g = 2) ∨ (u = 2 ∧ g = 0) then some 3
    else none

end SLCVMapIO

/-! ### SLCVOrbTracking: further fixtures and loop bodies -/

namespace SLCVOrbTracking

/-- The four trajectory lists and the state of the state machine: the members
that, within `track3DPts`, only the trajectory log writes (the state machine
is driven by the caller). -/
def State.history {F : Type} (s : State F) :
    List (Mat4 F) × List (Option Nat) × List F × List Bool × TrackingState :=
  (s.mlRelativeFramePoses, s.mlpReferences, s.mlFrameTimes, s.mlbLost, s.smState)

/-- The tracker and the calls in `track3DPts` after `if (_bOK && !mbVO) _bOK =
TrackLocalMap();`, for the outcome `st` of the strategy stage. -/
def afterLocalMap {F : Type} (env : Env F) (st : State F × List Call) : State F × List Call :=
  if st.1._bOK = true ∧ st.1.mbVO = false then
    let r := TrackLocalMap env st.1
    ({ r.2.1 with _bOK := r.1 }, r.2.2)
  else (st.1, [])

/-- The block `if (_bOK) { ... }` of `track3DPts`: the motion model is updated
and the links to unobserved points and to outliers are discarded. -/
def afterSuccess {F : Type} [Field F] (env : Env F) (s : State F) : State F :=
  if s._bOK then discardOutlierLinks (cleanVOMatches (updateMotionModel env s)) else s

/-- The tracker in `track3DPts` at the trajectory log: after the block `if
(_bOK)`, the reference keyframe of the frame is set if it has none, and the
frame is copied to `mLastFrame`. -/
def beforeLog {F : Type} [Field F] (env : Env F) (st : State F × List Call) : State F :=
  let s1 := afterSuccess env (afterLocalMap env st).1
  let s2 :=
    if s1.mCurrentFrame.mpReferenceKF.isNone then
      { s1 with mCurrentFrame := { s1.mCurrentFrame with mpReferenceKF := s1.mpReferenceKF } }
    else s1
  { s2 with mLastFrame := s2.mCurrentFrame }

/-- A tracker in state OK that has logged one frame: each of the four
trajectory lists has one entry. -/
def loggedState : State ℚ :=
  { (State.construct false 0 30 : State ℚ) with
    smState := .TRACKING_OK
    frameNextId := 2
    mlRelativeFramePoses := [1]
    mlpReferences := [some 0]
    mlFrameTimes := [0]
    mlbLost := [false] }

/-- A map of 81 keyframes, none bad, that all observe its one map point. -/
def crowdedMap : SLCVMap ℚ where
  keyFrames := (List.range 81).map fun i =>
    { mnId := (i : Int), Tcw := 1, mbBad := false, mpParent := none, inMap := true }
  mapPoints := [{ mnId := 0, mWorldPos := ![0, 0, 1], mbBad := false,
                  mObservations := (List.range 81).map fun i => (i, 0), mpRefKF := some 0,
                  inMap := true }]
  mnMaxKFid := 80
  mnBigChangeIdx := 0

/-- A tracker on `crowdedMap` whose current frame has one feature, linked to
the map point; the local keyframe set is empty. -/
def crowdedState : State ℚ :=
  { (State.construct false 0 30 : State ℚ) with
    _map := crowdedMap
    smState := .TRACKING_OK
    frameNextId := 2
    mCurrentFrame :=
      { (Frame.construct 1 0 [(0, 0)] : Frame ℚ) with mvpMapPoints := [some 0] } }

/-- The keyframes the second loop of `UpdateLocalKeyFrames` adds for the
current frame: those voted for by the linked map points that are not bad, in
the order of `keyframeCounter`. -/
def votedKeyFrames {F : Type} (s : State F) : List Nat :=
  ((voteKeyFrames s).2.map fun it => it.1).filter fun k => !keyFrameIsBad s k

/-- The first part of `TrackWithMotionModel`, up to the test `if (nmatches <
20) return false`: the last frame is updated, the pose is predicted, and the
points of the last frame are searched by projection, again with the doubled
window when fewer than 20 matches are found. The value of `nmatches` and the
tracker at that test. -/
def searchLastFrame {F : Type} [Mul F] [AddCommMonoid F] (env : Env F) (s : State F) :
    Int × State F :=
  let s := UpdateLastFrame s
  let s := SetPose s (mulPose s.mVelocity s.mLastFrame.mTcw)
  let s := fillLinksNull s
  let sp1 := env.SearchByProjectionLast (9 / 10) s 15
  let s := writeLinks s sp1.2
  if sp1.1 < 20 then
    let s := fillLinksNull s
    let sp2 := env.SearchByProjectionLast (9 / 10) s (2 * 15)
    (sp2.1, writeLinks s sp2.2)
  else (sp1.1, s)

/-- The body of the loop "Discard outliers" of `TrackWithMotionModel` and
`TrackReferenceKeyFrame`. -/
def discardStep {F : Type} (d : Discard F) (i : Nat) : Discard F :=
  match d.s.mCurrentFrame.mvpMapPoints[i]? with
  | none => { d with s := { d.s with fault := true } }
  | some none => d
  | some (some pMP) =>
    match d.s.mCurrentFrame.mvbOutlier[i]? with
    | none => { d with s := { d.s with fault := true } }
    | some true =>
      let s1 := setOutlier (setLink d.s i none) i false
      let t := s1.pointTrack pMP
      let t1 := { t with mbTrackInView := false, mnLastFrameSeen := s1.mCurrentFrame.mnId }
      { d with
        s := { s1 with pointTrack := Function.update s1.pointTrack pMP t1 }
        nmatches := d.nmatches - 1 }
    | some false =>
      if Observations d.s pMP > 0 then { d with nmatchesMap := d.nmatchesMap + 1 } else d

/-- Whether feature `i` of the current frame has a link and is flagged as
outlier. -/
def isOutlierLink {F : Type} (s : State F) (i : Nat) : Bool :=
  match s.mCurrentFrame.mvpMapPoints[i]?, s.mCurrentFrame.mvbOutlier[i]? with
  | some (some _), some true => true
  | _, _ => false

/-- The features of the current frame with a link that are flagged as
outlier. -/
def outlierLinks {F : Type} (s : State F) : List Nat :=
  (List.range s.mCurrentFrame.N).filter (isOutlierLink s)

/-- Capabilities for a motion-model tracking with 25 matches of which the
pose optimization flags feature 0 as outlier: the projection search links the
features 0 to 24 to map point 0. -/
def outlierEnv : Env ℚ :=
  { quietEnv with
    SearchByProjectionLast := fun _ _ _ => (25, (List.range 25).map fun i => (i, 0))
    PoseOptimization := fun s => ⟨25, s.mCurrentFrame.mTcw, [(0, true)]⟩ }

/-- A tracker on `mixedMap` in state OK with a motion model, whose last frame
has a pose and keyframe 0 as reference keyframe, and one logged frame. -/
def motionState : State ℚ :=
  { (State.construct false 0 30 : State ℚ) with
    _map := SLCVMapIO.mixedMap
    smState := .TRACKING_OK
    frameNextId := 5
    mVelocity := some 1
    mLastFrame :=
      { (Frame.construct 4 0 [] : Frame ℚ) with mTcw := some 1, mpReferenceKF := some 0 }
    mlRelativeFramePoses := [1]
    mlpReferences := [some 0]
    mlFrameTimes := [0]
    mlbLost := [false] }

/-- The members listed in `State.history`, read from the members in `Kept`. -/
def Kept.history {F : Type} (k : Kept F) :
    List (Mat4 F) × List (Option Nat) × List F × List Bool × TrackingState :=
  (k.mlRelativeFramePoses, k.mlpReferences, k.mlFrameTimes, k.mlbLost, k.smState)

end SLCVOrbTracking

/-! ### SLCVFrame: the grid code over machine arithmetic -/

namespace SLCVFrame

/-- The arithmetic of the machine that runs the grid code: `fl q` is the
`float` that is stored for an operation on `float` operands whose exact result
is `q`, and `toInt n` is the `int` that the conversion of the `float` with the
integral value `n` gives. -/
structure FloatArith where
  fl : ℚ → ℚ
  toInt : Int → Int

/-- The nearest integer, a halfway case going to the even neighbour. -/
def roundHalfEven (t : ℚ) : Int :=
  if t - ⌊t⌋ < 1 / 2 then ⌊t⌋
  else if 1 / 2 < t - ⌊t⌋ then ⌊t⌋ + 1
  else if ⌊t⌋ % 2 = 0 then ⌊t⌋ else ⌊t⌋ + 1

/-- The exponent of the unit in the last place of the binary32 numbers next
to `q ≠ 0`: 24 significant bits, and exponent -126 for the subnormal ones. -/
def ulpExponent (q : ℚ) : Int := max (Int.log 2 |q|) (-126) - 23

/-- IEEE 754 binary32 rounding, to nearest with ties to even, of an exact
result `q` (for results of magnitude below `2 ^ 128`, which do not round to
infinity): the nearest multiple of the unit in the last place. -/
def fl32 (q : ℚ) : ℚ :=
  if q = 0 then 0 else (roundHalfEven (q / 2 ^ ulpExponent q) : ℚ) * 2 ^ ulpExponent q

namespace Fl

/-- `mfGridElementWidthInv = static_cast<float>(FRAME_GRID_COLS) /
static_cast<float>(mnMaxX - mnMinX)`, as the constructor computes it. -/
def mfGridElementWidthInv (ar : FloatArith) (f : Frame) : ℚ :=
  ar.fl ((f.FRAME_GRID_COLS : ℚ) / ar.fl (f.mnMaxX - f.mnMinX))

/-- `mfGridElementHeightInv = static_cast<float>(FRAME_GRID_ROWS) /
static_cast<float>(mnMaxY - mnMinY)`. -/
def mfGridElementHeightInv (ar : FloatArith) (f : Frame) : ℚ :=
  ar.fl ((f.FRAME_GRID_ROWS : ℚ) / ar.fl (f.mnMaxY - f.mnMinY))

/-- `SLCVFrame::PosInGrid` over the arithmetic `ar`: the subtraction and the
product are rounded, and the rounded value is converted to `int`. -/
def PosInGrid (ar : FloatArith) (f : Frame) (kp : KeyPoint) : Option (Int × Int) :=
  let posX := ar.toInt (cRound (ar.fl (ar.fl (kp.x - f.mnMinX) * mfGridElementWidthInv ar f)))
  let posY := ar.toInt (cRound (ar.fl (ar.fl (kp.y - f.mnMinY) * mfGridElementHeightInv ar f)))
  if posX < 0 ∨ posX ≥ (f.FRAME_GRID_COLS : Int) ∨ posY < 0 ∨ posY ≥ (f.FRAME_GRID_ROWS : Int) then
    none
  else
    some (posX, posY)

/-- The loop of `AssignFeaturesToGrid` from index `i` on, over the arithmetic
`ar`. -/
def assignFrom (ar : FloatArith) (f : Frame) : List KeyPoint → Nat → Grid → Grid
  | [], _, g => g
  | kp :: rest, i, g =>
    assignFrom ar f rest (i + 1)
      (match PosInGrid ar f kp with
       | some (px, py) => g.push px py i
       | none => g)

end Fl

end SLCVFrame

/-! ### SLCVOrbTracking: a map point that no keyframe observes -/

namespace SLCVOrbTracking

/-- The map `mixedMap` with a third map-point object, at address 2, that is
not bad and that no keyframe observes. -/
def orphanMap : SLCVMap ℚ :=
  { SLCVMapIO.mixedMap with
    mapPoints := SLCVMapIO.mixedMap.mapPoints ++
      [{ mnId := 12, mWorldPos := ![0, 0, 3], mbBad := false, mObservations := [],
         mpRefKF := some 0, inMap := true }] }

/-- A last frame with 100 keypoints, a pose, and links of its first four
features to map point 2 of `orphanMap`; no feature is flagged as outlier. -/
def orphanLastFrame : Frame ℚ :=
  { (Frame.construct 4 0 (List.replicate 100 (0, 0)) : Frame ℚ) with
    mvpMapPoints := List.replicate 4 (some 2) ++ List.replicate 96 none
    mTcw := some 1 }

/-- A tracker on `orphanMap` in state OK whose last frame is
`orphanLastFrame`; no fault has occurred. -/
def orphanState : State ℚ :=
  { (State.construct false 0 30 : State ℚ) with
    _map := orphanMap
    smState := .TRACKING_OK
    frameNextId := 5
    mLastFrame := orphanLastFrame }

end SLCVOrbTracking

/-! ## Theorems -/

namespace SLCVFrame

end SLCVFrame

namespace SLCVMap

variable {F : Type} [Field F]

theorem cvInv_eq_inv (A : Mat4 F) : cvInv A = A⁻¹ := by
  unfold cvInv
  rw [Matrix.inv_def, Ring.inverse_eq_inv']

theorem applyPose_eq_mulVec (T : Mat4 F) (P : Vec3 F) (i : Fin 3) :
    applyPose T P i = T.mulVec (hom P) (Fin.castSucc i) := by
  have h2 : (Fin.castSucc (2 : Fin 3) : Fin 4) = 2 := rfl
  simp [applyPose, Matrix.mulVec, Matrix.dotProduct, Fin.sum_univ_four, Fin.sum_univ_three, hom,
    h2]

/-- The common core of `rotate` and `translate`: when the world is moved by
an invertible `G`, the pose `(G * Tcw.inv()).inv()` sees the moved point
where `Tcw` saw the point. -/
theorem applyPose_moved (T G : Mat4 F) (hT : IsUnit T.det) (hG : IsUnit G.det) (P Q : Vec3 F)
    (hQ : hom Q = G.mulVec (hom P)) :
    applyPose (cvInv (G * cvInv T)) Q = applyPose T P := by
  funext i
  rw [applyPose_eq_mulVec, applyPose_eq_mulVec, hQ, cvInv_eq_inv, cvInv_eq_inv,
    Matrix.mul_inv_rev, Matrix.nonsing_inv_nonsing_inv _ hT, Matrix.mulVec_mulVec,
    Matrix.mul_assoc, Matrix.nonsing_inv_mul _ hG, Matrix.mul_one]

/-- The inverse of an invertible homogeneous pose is homogeneous. -/
theorem isHomogeneous_inv (T : Mat4 F) (hT : IsUnit T.det) (h : IsHomogeneous T) :
    IsHomogeneous (cvInv T) := by
  rw [cvInv_eq_inv]
  have hrow : Matrix.vecMul (Pi.single 3 1) T = Pi.single 3 1 := by
    obtain ⟨h0, h1, h2, h3⟩ := h
    funext j
    rw [Matrix.single_vecMul]
    fin_cases j <;> simp [h0, h1, h2, h3]
  have hinv : Matrix.vecMul (Pi.single 3 1) T⁻¹ = Pi.single 3 1 := by
    conv_lhs => rw [← hrow]
    rw [Matrix.vecMul_vecMul, Matrix.mul_nonsing_inv _ hT, Matrix.vecMul_one]
  have key : ∀ j, T⁻¹ 3 j = (Pi.single 3 1 : Fin 4 → F) j := by
    intro j
    rw [← hinv, Matrix.single_vecMul]
    simp
  exact ⟨by simpa using key 0, by simpa using key 1, by simpa using key 2, by simpa using key 3⟩

theorem addToTranslation_eq_mul (X : Mat4 F) (t : Vec3 F) (h : IsHomogeneous X) :
    addToTranslation X t = transMat4 t * X := by
  obtain ⟨h0, h1, h2, h3⟩ := h
  ext i j
  fin_cases i <;> fin_cases j <;>
    simp [addToTranslation, transMat4, Matrix.mul_apply, Fin.sum_univ_four, h0, h1, h2, h3]

theorem transMat4_mul_neg (t : Vec3 F) : transMat4 t * transMat4 (-t) = 1 := by
  ext i j
  fin_cases i <;> fin_cases j <;>
    simp [transMat4, Matrix.mul_apply, Fin.sum_univ_four, Matrix.one_apply, Matrix.vecHead,
      Matrix.vecTail]

theorem isUnit_det_transMat4 (t : Vec3 F) : IsUnit (transMat4 t).det :=
  Matrix.isUnit_det_of_right_inverse (transMat4_mul_neg t)

theorem hom_add (t P : Vec3 F) : hom (t + P) = (transMat4 t).mulVec (hom P) := by
  funext i
  fin_cases i <;>
    simp [hom, transMat4, Matrix.mulVec, Matrix.dotProduct, Fin.sum_univ_four, add_comm]

/-- The three rotations of `buildRotMat` written out (y and z already
inverted), for `c = cos`, `s = sin` of the angle. -/
theorem buildRotMat_eq (tr : Trig F) (v : F) (h : tr.cos v ^ 2 + tr.sin v ^ 2 = 1) :
    buildRotMat tr v 0 = !![1, 0, 0, 0; 0, tr.cos v, -tr.sin v, 0; 0, tr.sin v, tr.cos v, 0;
      0, 0, 0, 1] ∧
    buildRotMat tr v 1 = !![tr.cos v, 0, -tr.sin v, 0; 0, 1, 0, 0; tr.sin v, 0, tr.cos v, 0;
      0, 0, 0, 1] ∧
    buildRotMat tr v 2 = !![tr.cos v, tr.sin v, 0, 0; -tr.sin v, tr.cos v, 0, 0; 0, 0, 1, 0;
      0, 0, 0, 1] := by
  have h1 : tr.cos v * tr.cos v + tr.sin v * tr.sin v = 1 := by rw [← h]; ring
  have h2 : tr.sin v * tr.sin v + tr.cos v * tr.cos v = 1 := by rw [← h]; ring
  refine ⟨rfl, ?_, ?_⟩
  · simp only [buildRotMat]
    rw [cvInv_eq_inv]
    apply Matrix.inv_eq_right_inv
    ext i j
    fin_cases i <;> fin_cases j <;>
      simp [Matrix.mul_apply, Fin.sum_univ_four, Matrix.one_apply, Matrix.vecHead,
        Matrix.vecTail, h1, h2, mul_comm]
  · simp only [buildRotMat]
    rw [cvInv_eq_inv]
    apply Matrix.inv_eq_right_inv
    ext i j
    fin_cases i <;> fin_cases j <;>
      simp [Matrix.mul_apply, Fin.sum_univ_four, Matrix.one_apply, Matrix.vecHead,
        Matrix.vecTail, h1, h2, mul_comm]

theorem hom_rot33_mulVec (G : Mat4 F) (hrow : IsHomogeneous G)
    (hcol : G 0 3 = 0 ∧ G 1 3 = 0 ∧ G 2 3 = 0) (P : Vec3 F) :
    hom ((rot33 G).mulVec P) = G.mulVec (hom P) := by
  obtain ⟨h0, h1, h2, h3⟩ := hrow
  obtain ⟨c0, c1, c2⟩ := hcol
  have e2 : (Fin.castSucc (2 : Fin 3) : Fin 4) = 2 := rfl
  funext i
  fin_cases i <;>
    simp [hom, rot33, Matrix.mulVec, Matrix.dotProduct, Fin.sum_univ_four, Fin.sum_univ_three,
      h0, h1, h2, h3, c0, c1, c2, e2]

/-- For the three axes, `buildRotMat` is invertible and acts on homogeneous
coordinates as its 3×3 block acts on positions. -/
theorem buildRotMat_spec (tr : Trig F) (v : F) (h : tr.cos v ^ 2 + tr.sin v ^ 2 = 1)
    (type : Nat) (ht : type < 3) :
    IsUnit (buildRotMat tr v type).det ∧
      ∀ P : Vec3 F, hom ((rot33 (buildRotMat tr v type)).mulVec P)
        = (buildRotMat tr v type).mulVec (hom P) := by
  have h1 : tr.cos v * tr.cos v + tr.sin v * tr.sin v = 1 := by rw [← h]; ring
  have h2 : tr.sin v * tr.sin v + tr.cos v * tr.cos v = 1 := by rw [← h]; ring
  obtain ⟨e0, e1, e2⟩ := buildRotMat_eq tr v h
  have hcases : type = 0 ∨ type = 1 ∨ type = 2 := by omega
  rcases hcases with rfl | rfl | rfl
  · rw [e0]
    refine ⟨?_, fun P => hom_rot33_mulVec _
      (by simp [IsHomogeneous, Matrix.vecHead, Matrix.vecTail])
      (by simp [Matrix.vecHead, Matrix.vecTail]) P⟩
    apply Matrix.isUnit_det_of_right_inverse
      (B := !![1, 0, 0, 0; 0, tr.cos v, tr.sin v, 0; 0, -tr.sin v, tr.cos v, 0; 0, 0, 0, 1])
    ext i j
    fin_cases i <;> fin_cases j <;>
      simp [Matrix.mul_apply, Fin.sum_univ_four, Matrix.one_apply, Matrix.vecHead,
        Matrix.vecTail, h1, h2, mul_comm]
  · rw [e1]
    refine ⟨?_, fun P => hom_rot33_mulVec _
      (by simp [IsHomogeneous, Matrix.vecHead, Matrix.vecTail])
      (by simp [Matrix.vecHead, Matrix.vecTail]) P⟩
    apply Matrix.isUnit_det_of_right_inverse
      (B := !![tr.cos v, 0, tr.sin v, 0; 0, 1, 0, 0; -tr.sin v, 0, tr.cos v, 0; 0, 0, 0, 1])
    ext i j
    fin_cases i <;> fin_cases j <;>
      simp [Matrix.mul_apply, Fin.sum_univ_four, Matrix.one_apply, Matrix.vecHead,
        Matrix.vecTail, h1, h2, mul_comm]
  · rw [e2]
    refine ⟨?_, fun P => hom_rot33_mulVec _
      (by simp [IsHomogeneous, Matrix.vecHead, Matrix.vecTail])
      (by simp [Matrix.vecHead, Matrix.vecTail]) P⟩
    apply Matrix.isUnit_det_of_right_inverse
      (B := !![tr.cos v, -tr.sin v, 0, 0; tr.sin v, tr.cos v, 0, 0; 0, 0, 1, 0; 0, 0, 0, 1])
    ext i j
    fin_cases i <;> fin_cases j <;>
      simp [Matrix.mul_apply, Fin.sum_univ_four, Matrix.one_apply, Matrix.vecHead,
        Matrix.vecTail, h1, h2, mul_comm]

/-- One keyframe and one map point under `rotate`. -/
theorem applyPose_rotate (tr : Trig F) (v : F) (h : tr.cos v ^ 2 + tr.sin v ^ 2 = 1)
    (type : Nat) (ht : type < 3) (T : Mat4 F) (hT : T.det ≠ 0) (P : Vec3 F) :
    applyPose (cvInv (buildRotMat tr v type * cvInv T))
      ((rot33 (buildRotMat tr v type)).mulVec P) = applyPose T P := by
  obtain ⟨hu, hP⟩ := buildRotMat_spec tr v h type ht
  exact applyPose_moved T _ (isUnit_iff_ne_zero.mpr hT) hu P _ (hP P)

/-- One keyframe and one map point under `translate`. -/
theorem applyPose_translate (t : Vec3 F) (T : Mat4 F) (hT : T.det ≠ 0) (hh : IsHomogeneous T)
    (P : Vec3 F) :
    applyPose (cvInv (addToTranslation (cvInv T) t)) (t + P) = applyPose T P := by
  have hu : IsUnit T.det := isUnit_iff_ne_zero.mpr hT
  rw [addToTranslation_eq_mul _ _ (isHomogeneous_inv T hu hh)]
  exact applyPose_moved T _ hu (isUnit_det_transMat4 t) P _ (hom_add t P)

theorem rotate_keyFrame (tr : Trig F) (value : F) (type : Nat) (m : SLCVMap F) (k : Nat)
    (K : SLCVKeyFrame F) (hK : m.keyFrames[k]? = some K) (hin : K.inMap = true) :
    (rotate tr value type m).keyFrames[k]? = some { K with
      Tcw := cvInv (buildRotMat tr (value * tr.SL_DEG2RAD) type * cvInv K.Tcw) } := by
  simp [rotate, List.getElem?_map, hK, hin]

theorem rotate_mapPoint (tr : Trig F) (value : F) (type : Nat) (m : SLCVMap F) (p : Nat)
    (P : SLCVMapPoint F) (hP : m.mapPoints[p]? = some P) (hin : P.inMap = true) :
    (rotate tr value type m).mapPoints[p]? = some { P with
      mWorldPos := (rot33 (buildRotMat tr (value * tr.SL_DEG2RAD) type)).mulVec P.mWorldPos } := by
  simp [rotate, List.getElem?_map, hP, hin]

theorem translate_keyFrame (value : F) (type : Nat) (m : SLCVMap F) (k : Nat)
    (K : SLCVKeyFrame F) (hK : m.keyFrames[k]? = some K) (hin : K.inMap = true) :
    (translate value type m).keyFrames[k]? = some { K with
      Tcw := cvInv (addToTranslation (cvInv K.Tcw) (buildTransMat value type)) } := by
  simp [translate, List.getElem?_map, hK, hin]

theorem translate_mapPoint (value : F) (type : Nat) (m : SLCVMap F) (p : Nat)
    (P : SLCVMapPoint F) (hP : m.mapPoints[p]? = some P) (hin : P.inMap = true) :
    (translate value type m).mapPoints[p]? = some { P with
      mWorldPos := buildTransMat value type + P.mWorldPos } := by
  simp [translate, List.getElem?_map, hP, hin]

theorem scale_keyFrame (value : F) (m : SLCVMap F) (k : Nat)
    (K : SLCVKeyFrame F) (hK : m.keyFrames[k]? = some K) (hin : K.inMap = true) :
    (scale value m).keyFrames[k]? = some { K with Tcw := scaleTranslation K.Tcw value } := by
  simp [scale, List.getElem?_map, hK, hin]

theorem scale_mapPoint (value : F) (m : SLCVMap F) (p : Nat)
    (P : SLCVMapPoint F) (hP : m.mapPoints[p]? = some P) (hin : P.inMap = true) :
    (scale value m).mapPoints[p]? = some { P with mWorldPos := value • P.mWorldPos } := by
  simp [scale, List.getElem?_map, hP, hin]

/-- Rotations and translations of the map over any field in which the
parameters `cos`, `sin` satisfy `cos² + sin² = 1` at the angle used: the
camera-frame coordinates of a map point of the map in a keyframe of the map
with an invertible homogeneous pose do not change. -/
theorem applyTransformation_rigid (tr : Trig F) (value : F) (type : TransformType)
    (htype : type ≠ TransformType.SCALE)
    (htrig : tr.cos (value * tr.SL_DEG2RAD) ^ 2 + tr.sin (value * tr.SL_DEG2RAD) ^ 2 = 1)
    (m : SLCVMap F) (k p : Nat) (K : SLCVKeyFrame F) (P : SLCVMapPoint F)
    (hK : m.keyFrames[k]? = some K) (hKin : K.inMap = true)
    (hP : m.mapPoints[p]? = some P) (hPin : P.inMap = true)
    (hinv : K.Tcw.det ≠ 0) (hhom : IsHomogeneous K.Tcw) :
    ∃ K2 P2, (applyTransformation tr value type m).keyFrames[k]? = some K2 ∧
      (applyTransformation tr value type m).mapPoints[p]? = some P2 ∧
      applyPose K2.Tcw P2.mWorldPos = applyPose K.Tcw P.mWorldPos := by
  cases type with
  | SCALE => exact absurd rfl htype
  | ROT_X =>
    exact ⟨_, _, rotate_keyFrame tr value 0 m k K hK hKin, rotate_mapPoint tr value 0 m p P hP hPin,
      applyPose_rotate tr _ htrig 0 (by omega) K.Tcw hinv P.mWorldPos⟩
  | ROT_Y =>
    exact ⟨_, _, rotate_keyFrame tr value 1 m k K hK hKin, rotate_mapPoint tr value 1 m p P hP hPin,
      applyPose_rotate tr _ htrig 1 (by omega) K.Tcw hinv P.mWorldPos⟩
  | ROT_Z =>
    exact ⟨_, _, rotate_keyFrame tr value 2 m k K hK hKin, rotate_mapPoint tr value 2 m p P hP hPin,
      applyPose_rotate tr _ htrig 2 (by omega) K.Tcw hinv P.mWorldPos⟩
  | TRANS_X =>
    exact ⟨_, _, translate_keyFrame value 0 m k K hK hKin, translate_mapPoint value 0 m p P hP hPin,
      applyPose_translate _ K.Tcw hinv hhom P.mWorldPos⟩
  | TRANS_Y =>
    exact ⟨_, _, translate_keyFrame value 1 m k K hK hKin, translate_mapPoint value 1 m p P hP hPin,
      applyPose_translate _ K.Tcw hinv hhom P.mWorldPos⟩
  | TRANS_Z =>
    exact ⟨_, _, translate_keyFrame value 2 m k K hK hKin, translate_mapPoint value 2 m p P hP hPin,
      applyPose_translate _ K.Tcw hinv hhom P.mWorldPos⟩

/-- C6: over the reals, with `cos` and `sin` the real functions,
`applyTransformation` with a rotation (ROT_X, ROT_Y, ROT_Z) or a translation
(TRANS_X, TRANS_Y, TRANS_Z) of any value keeps, for every keyframe `K` of the
map whose pose is invertible (and homogeneous, last row `0 0 0 1`) and every
map point `P` of the map, the coordinates of `P` in the camera frame of `K`:
`Tcw_K` applied to the position of `P` is the same after the call as before. -/
theorem applyTransformation_keeps_camera_coordinates (deg2rad value : ℝ) (type : TransformType)
    (htype : type ≠ TransformType.SCALE) (m : SLCVMap ℝ) (k p : Nat)
    (K : SLCVKeyFrame ℝ) (P : SLCVMapPoint ℝ)
    (hK : m.keyFrames[k]? = some K) (hKin : K.inMap = true)
    (hP : m.mapPoints[p]? = some P) (hPin : P.inMap = true)
    (hinv : K.Tcw.det ≠ 0) (hhom : IsHomogeneous K.Tcw) :
    ∃ K2 P2,
      (applyTransformation ⟨Real.cos, Real.sin, deg2rad⟩ value type m).keyFrames[k]? = some K2 ∧
      (applyTransformation ⟨Real.cos, Real.sin, deg2rad⟩ value type m).mapPoints[p]? = some P2 ∧
      applyPose K2.Tcw P2.mWorldPos = applyPose K.Tcw P.mWorldPos :=
  applyTransformation_rigid ⟨Real.cos, Real.sin, deg2rad⟩ value type htype
    (Real.cos_sq_add_sin_sq _) m k p K P hK hKin hP hPin hinv hhom

theorem sampleKeyFrame_det_ne_zero : (sampleKeyFrame : SLCVKeyFrame F).Tcw.det ≠ 0 :=
  (isUnit_det_transMat4 ![1, 2, 3]).ne_zero

theorem sampleKeyFrame_isHomogeneous : IsHomogeneous (sampleKeyFrame : SLCVKeyFrame F).Tcw := by
  simp [IsHomogeneous, sampleKeyFrame, Matrix.vecHead, Matrix.vecTail]

/-- C6, witness: `sampleMap` over the reals, rotated by 90 degrees about the
y axis; keyframe 0 (pose the translation by `(1, 2, 3)`) and map point 0. -/
theorem applyTransformation_keeps_camera_coordinates_witness :
    ∃ K2 P2,
      (applyTransformation ⟨Real.cos, Real.sin, Real.pi / 180⟩ 90 TransformType.ROT_Y
        (sampleMap : SLCVMap ℝ)).keyFrames[0]? = some K2 ∧
      (applyTransformation ⟨Real.cos, Real.sin, Real.pi / 180⟩ 90 TransformType.ROT_Y
        (sampleMap : SLCVMap ℝ)).mapPoints[0]? = some P2 ∧
      applyPose K2.Tcw P2.mWorldPos
        = applyPose (sampleKeyFrame : SLCVKeyFrame ℝ).Tcw (samplePoint0 : SLCVMapPoint ℝ).mWorldPos :=
  applyTransformation_keeps_camera_coordinates (Real.pi / 180) 90 TransformType.ROT_Y
    (by decide) sampleMap 0 0 sampleKeyFrame samplePoint0 rfl rfl rfl rfl
    sampleKeyFrame_det_ne_zero sampleKeyFrame_isHomogeneous

theorem scaleMat4_mul_inv (a : F) (ha : a ≠ 0) : scaleMat4 a * scaleMat4 a⁻¹ = 1 := by
  ext i j
  fin_cases i <;> fin_cases j <;>
    simp [scaleMat4, Matrix.mul_apply, Fin.sum_univ_four, Matrix.one_apply, Matrix.vecHead,
      Matrix.vecTail, ha]

theorem scaleTranslation_eq_conj (T : Mat4 F) (a : F) (ha : a ≠ 0) (h : IsHomogeneous T) :
    scaleTranslation T a = scaleMat4 a * T * scaleMat4 a⁻¹ := by
  obtain ⟨h0, h1, h2, h3⟩ := h
  ext i j
  fin_cases i <;> fin_cases j <;>
    simp [scaleTranslation, scaleMat4, Matrix.mul_apply, Fin.sum_univ_four, Matrix.vecHead,
      Matrix.vecTail, Matrix.vecMul, Matrix.dotProduct, h0, h1, h2, h3, ha] <;>
    first
      | ring1
      | field_simp

/-- Scaling the translation column of a homogeneous pose scales its camera
centre. -/
theorem cameraCentre_scaleTranslation (T : Mat4 F) (a : F) (ha : a ≠ 0) (h : IsHomogeneous T) :
    cameraCentre (scaleTranslation T a) = a • cameraCentre T := by
  have hinv1 : (scaleMat4 a)⁻¹ = scaleMat4 a⁻¹ := Matrix.inv_eq_right_inv (scaleMat4_mul_inv a ha)
  have hinv2 : (scaleMat4 a⁻¹)⁻¹ = scaleMat4 a := by
    apply Matrix.inv_eq_left_inv
    exact scaleMat4_mul_inv a ha
  have e2 : (Fin.castSucc (2 : Fin 3) : Fin 4) = 2 := rfl
  funext i
  simp only [cameraCentre, Pi.smul_apply, smul_eq_mul]
  rw [scaleTranslation_eq_conj T a ha h, cvInv_eq_inv, cvInv_eq_inv, Matrix.mul_inv_rev,
    Matrix.mul_inv_rev, hinv1, hinv2]
  fin_cases i <;>
    simp [scaleMat4, Matrix.mul_apply, Fin.sum_univ_four, Matrix.vecHead, Matrix.vecTail,
      Matrix.vecMul, Matrix.dotProduct, e2]

theorem dot_smul_smul (a : F) (u v : Vec3 F) : dot (a • u) (a • v) = a * a * dot u v := by
  simp only [dot, Fin.sum_univ_three, Pi.smul_apply, smul_eq_mul]
  ring

theorem sqrt_dot_smul (a : ℝ) (ha : 0 < a) (u : Vec3 ℝ) :
    Real.sqrt (dot (a • u) (a • u)) = a * Real.sqrt (dot u u) := by
  rw [dot_smul_smul, Real.sqrt_mul (mul_self_nonneg a), Real.sqrt_mul_self ha.le]

/-- C7: `applyTransformation(s, SCALE)` with `s > 0` (so with `s = 2`)
multiplies the Euclidean distance between any two map points of the map by
`s` and leaves unchanged the angle between the observation rays of any two
(keyframe, point) pairs of the map, the ray of `(K, P)` being the vector from
the camera centre of `K` (the translation part of the inverse of its pose) to
`P`. Poses are homogeneous (last row `0 0 0 1`); distance and angle are
written out with `sqrt` and `arccos` of scalar products. -/
theorem applyTransformation_scale_distance_angle (tr : Trig ℝ) (s : ℝ) (hs : 0 < s)
    (m : SLCVMap ℝ) (k1 k2 p1 p2 : Nat) (K1 K2 : SLCVKeyFrame ℝ) (P1 P2 : SLCVMapPoint ℝ)
    (hK1 : m.keyFrames[k1]? = some K1) (hK1in : K1.inMap = true) (hK1h : IsHomogeneous K1.Tcw)
    (hK2 : m.keyFrames[k2]? = some K2) (hK2in : K2.inMap = true) (hK2h : IsHomogeneous K2.Tcw)
    (hP1 : m.mapPoints[p1]? = some P1) (hP1in : P1.inMap = true)
    (hP2 : m.mapPoints[p2]? = some P2) (hP2in : P2.inMap = true) :
    ∃ L1 L2 Q1 Q2,
      (applyTransformation tr s TransformType.SCALE m).keyFrames[k1]? = some L1 ∧
      (applyTransformation tr s TransformType.SCALE m).keyFrames[k2]? = some L2 ∧
      (applyTransformation tr s TransformType.SCALE m).mapPoints[p1]? = some Q1 ∧
      (applyTransformation tr s TransformType.SCALE m).mapPoints[p2]? = some Q2 ∧
      Real.sqrt (dot (Q2.mWorldPos - Q1.mWorldPos) (Q2.mWorldPos - Q1.mWorldPos))
        = s * Real.sqrt (dot (P2.mWorldPos - P1.mWorldPos) (P2.mWorldPos - P1.mWorldPos)) ∧
      Real.arccos
          (dot (observationRay L1.Tcw Q1.mWorldPos) (observationRay L2.Tcw Q2.mWorldPos) /
            (Real.sqrt (dot (observationRay L1.Tcw Q1.mWorldPos)
                (observationRay L1.Tcw Q1.mWorldPos)) *
              Real.sqrt (dot (observationRay L2.Tcw Q2.mWorldPos)
                (observationRay L2.Tcw Q2.mWorldPos))))
        = Real.arccos
          (dot (observationRay K1.Tcw P1.mWorldPos) (observationRay K2.Tcw P2.mWorldPos) /
            (Real.sqrt (dot (observationRay K1.Tcw P1.mWorldPos)
                (observationRay K1.Tcw P1.mWorldPos)) *
              Real.sqrt (dot (observationRay K2.Tcw P2.mWorldPos)
                (observationRay K2.Tcw P2.mWorldPos)))) := by
  have hs0 : s ≠ 0 := hs.ne'
  refine ⟨_, _, _, _, scale_keyFrame s m k1 K1 hK1 hK1in, scale_keyFrame s m k2 K2 hK2 hK2in,
    scale_mapPoint s m p1 P1 hP1 hP1in, scale_mapPoint s m p2 P2 hP2 hP2in, ?_, ?_⟩
  · simp only
    rw [← smul_sub, sqrt_dot_smul s hs]
  · have hray : ∀ (T : Mat4 ℝ) (P : Vec3 ℝ), IsHomogeneous T →
        observationRay (scaleTranslation T s) (s • P) = s • observationRay T P := by
      intro T P hT
      unfold observationRay
      rw [cameraCentre_scaleTranslation T s hs0 hT, smul_sub]
    simp only
    rw [hray _ _ hK1h, hray _ _ hK2h, sqrt_dot_smul s hs, sqrt_dot_smul s hs, dot_smul_smul]
    congr 1
    rw [show s * Real.sqrt (dot (observationRay K1.Tcw P1.mWorldPos)
          (observationRay K1.Tcw P1.mWorldPos)) *
        (s * Real.sqrt (dot (observationRay K2.Tcw P2.mWorldPos)
          (observationRay K2.Tcw P2.mWorldPos)))
        = s * s * (Real.sqrt (dot (observationRay K1.Tcw P1.mWorldPos)
          (observationRay K1.Tcw P1.mWorldPos)) *
          Real.sqrt (dot (observationRay K2.Tcw P2.mWorldPos)
          (observationRay K2.Tcw P2.mWorldPos))) by ring]
    exact mul_div_mul_left _ _ (mul_ne_zero hs0 hs0)

/-- C7, witness: `sampleMap` over the reals scaled by 2, keyframe 0 with the
map points 0 and 1. -/
theorem applyTransformation_scale_distance_angle_witness :
    (0 : ℝ) < 2 ∧
    ∃ L1 L2 Q1 Q2,
      (applyTransformation ⟨Real.cos, Real.sin, Real.pi / 180⟩ 2 TransformType.SCALE
        (sampleMap : SLCVMap ℝ)).keyFrames[0]? = some L1 ∧
      (applyTransformation ⟨Real.cos, Real.sin, Real.pi / 180⟩ 2 TransformType.SCALE
        (sampleMap : SLCVMap ℝ)).keyFrames[0]? = some L2 ∧
      (applyTransformation ⟨Real.cos, Real.sin, Real.pi / 180⟩ 2 TransformType.SCALE
        (sampleMap : SLCVMap ℝ)).mapPoints[0]? = some Q1 ∧
      (applyTransformation ⟨Real.cos, Real.sin, Real.pi / 180⟩ 2 TransformType.SCALE
        (sampleMap : SLCVMap ℝ)).mapPoints[1]? = some Q2 ∧
      Real.sqrt (dot (Q2.mWorldPos - Q1.mWorldPos) (Q2.mWorldPos - Q1.mWorldPos))
        = 2 * Real.sqrt (dot
            ((samplePoint1 : SLCVMapPoint ℝ).mWorldPos - (samplePoint0 : SLCVMapPoint ℝ).mWorldPos)
            ((samplePoint1 : SLCVMapPoint ℝ).mWorldPos - (samplePoint0 : SLCVMapPoint ℝ).mWorldPos)) ∧
      Real.arccos
          (dot (observationRay L1.Tcw Q1.mWorldPos) (observationRay L2.Tcw Q2.mWorldPos) /
            (Real.sqrt (dot (observationRay L1.Tcw Q1.mWorldPos)
                (observationRay L1.Tcw Q1.mWorldPos)) *
              Real.sqrt (dot (observationRay L2.Tcw Q2.mWorldPos)
                (observationRay L2.Tcw Q2.mWorldPos))))
        = Real.arccos
          (dot (observationRay (sampleKeyFrame : SLCVKeyFrame ℝ).Tcw
                (samplePoint0 : SLCVMapPoint ℝ).mWorldPos)
              (observationRay (sampleKeyFrame : SLCVKeyFrame ℝ).Tcw
                (samplePoint1 : SLCVMapPoint ℝ).mWorldPos) /
            (Real.sqrt (dot (observationRay (sampleKeyFrame : SLCVKeyFrame ℝ).Tcw
                  (samplePoint0 : SLCVMapPoint ℝ).mWorldPos)
                (observationRay (sampleKeyFrame : SLCVKeyFrame ℝ).Tcw
                  (samplePoint0 : SLCVMapPoint ℝ).mWorldPos)) *
              Real.sqrt (dot (observationRay (sampleKeyFrame : SLCVKeyFrame ℝ).Tcw
                  (samplePoint1 : SLCVMapPoint ℝ).mWorldPos)
                (observationRay (sampleKeyFrame : SLCVKeyFrame ℝ).Tcw
                  (samplePoint1 : SLCVMapPoint ℝ).mWorldPos)))) :=
  ⟨by norm_num,
    applyTransformation_scale_distance_angle ⟨Real.cos, Real.sin, Real.pi / 180⟩ 2 (by norm_num)
      sampleMap 0 0 0 1 sampleKeyFrame sampleKeyFrame samplePoint0 samplePoint1
      rfl rfl sampleKeyFrame_isHomogeneous rfl rfl sampleKeyFrame_isHomogeneous rfl rfl rfl rfl⟩

end SLCVMap

namespace SLCVMapIO

variable {F : Type}

theorem queueTop_eq_none (q : List (Nat × Nat × Int)) : queueTop q = none ↔ q = [] := by
  cases q with
  | nil => simp [queueTop]
  | cons e rest =>
    simp only [queueTop]
    cases queueTop rest with
    | none => simp
    | some t =>
      simp only
      split_ifs <;> simp

theorem queueTop_mem (q : List (Nat × Nat × Int)) (t : Nat × Nat × Int)
    (h : queueTop q = some t) : t ∈ q := by
  induction q generalizing t with
  | nil => simp [queueTop] at h
  | cons e rest ih =>
    simp only [queueTop] at h
    cases hr : queueTop rest with
    | none =>
      rw [hr] at h
      simp only [Option.some.injEq] at h
      subst h
      exact List.mem_cons_self _ _
    | some t2 =>
      rw [hr] at h
      simp only at h
      split_ifs at h
      · simp only [Option.some.injEq] at h
        subst h
        exact List.mem_cons_of_mem _ (ih t2 hr)
      · simp only [Option.some.injEq] at h
        subst h
        exact List.mem_cons_self _ _

theorem queueTop_max (q : List (Nat × Nat × Int)) (t : Nat × Nat × Int)
    (h : queueTop q = some t) : ∀ e ∈ q, e.2.2 ≤ t.2.2 := by
  induction q generalizing t with
  | nil => simp [queueTop] at h
  | cons e rest ih =>
    simp only [queueTop] at h
    cases hr : queueTop rest with
    | none =>
      rw [hr] at h
      simp only [Option.some.injEq] at h
      subst h
      have hnil : rest = [] := (queueTop_eq_none rest).mp hr
      subst hnil
      intro e2 he2
      simp only [List.mem_singleton] at he2
      subst he2
      exact le_refl _
    | some t2 =>
      rw [hr] at h
      simp only at h
      intro e2 he2
      have hrest := ih t2 hr
      split_ifs at h with hlt
      · simp only [Option.some.injEq] at h
        subst h
        rcases List.mem_cons.mp he2 with rfl | hm
        · exact le_of_lt hlt
        · exact hrest e2 hm
      · simp only [Option.some.injEq] at h
        subst h
        rcases List.mem_cons.mp he2 with rfl | hm
        · exact le_refl _
        · exact le_trans (hrest e2 hm) (not_lt.mp hlt)

theorem mem_buildQueue (conn : Nat → Nat → Option Int) (unconKfs graph : List Nat)
    (u g : Nat) (w : Int) :
    (u, g, w) ∈ buildQueue conn unconKfs graph ↔ u ∈ unconKfs ∧ g ∈ graph ∧ conn u g = some w := by
  unfold buildQueue
  simp only [List.mem_flatMap, List.mem_filterMap]
  constructor
  · rintro ⟨u2, hu2, g2, hg2, h⟩
    cases hc : conn u2 g2 with
    | none => rw [hc] at h; cases h
    | some w2 =>
      rw [hc] at h
      simp only [Option.some.injEq, Prod.mk.injEq] at h
      obtain ⟨rfl, rfl, rfl⟩ := h
      exact ⟨hu2, hg2, hc⟩
  · rintro ⟨hu, hg, hc⟩
    exact ⟨u, hu, g, hg, by rw [hc]⟩

theorem SameUpToParents.refl (a : SLCVMap F) : SameUpToParents a a := ⟨rfl, rfl⟩

theorem SameUpToParents.trans {a b c : SLCVMap F} (h1 : SameUpToParents a b)
    (h2 : SameUpToParents b c) : SameUpToParents a c :=
  ⟨h1.1.trans h2.1, h1.2.trans h2.2⟩

theorem SameUpToParents.symm {a b : SLCVMap F} (h : SameUpToParents a b) :
    SameUpToParents b a := ⟨h.1.symm, h.2.symm⟩

theorem SameUpToParents.length_eq {a b : SLCVMap F} (h : SameUpToParents a b) :
    a.keyFrames.length = b.keyFrames.length := by
  have := congrArg List.length h.2
  simpa using this

theorem SameUpToParents.getElem? {a b : SLCVMap F} (h : SameUpToParents a b) (i : Nat)
    (ka : SLCVKeyFrame F) (hi : a.keyFrames[i]? = some ka) :
    ∃ kb, b.keyFrames[i]? = some kb ∧ kb.mnId = ka.mnId ∧ kb.Tcw = ka.Tcw ∧
      kb.mbBad = ka.mbBad ∧ kb.inMap = ka.inMap := by
  have h2 := congrArg (fun l => l[i]?) h.2
  simp only [List.getElem?_map, hi, Option.map_some'] at h2
  cases hb : b.keyFrames[i]? with
  | none => rw [hb] at h2; cases h2
  | some kb =>
    rw [hb] at h2
    simp only [Option.map_some', Option.some.injEq, stripParent] at h2
    refine ⟨kb, rfl, ?_⟩
    cases ka
    cases kb
    simp only [SLCVKeyFrame.mk.injEq] at h2
    simp only
    tauto

theorem SameUpToParents.getAllKeyFrames {a b : SLCVMap F} (h : SameUpToParents a b) :
    a.GetAllKeyFrames = b.GetAllKeyFrames := by
  unfold SLCVMap.GetAllKeyFrames
  rw [h.length_eq]
  apply List.filter_congr
  intro p _
  cases ha : a.keyFrames[p]? with
  | none =>
    cases hb : b.keyFrames[p]? with
    | none => rfl
    | some kb =>
      obtain ⟨ka, hka, _⟩ := h.symm.getElem? p kb hb
      rw [ha] at hka
      cases hka
  | some ka =>
    obtain ⟨kb, hkb, _, _, _, hin⟩ := h.getElem? p ka ha
    rw [hkb]
    exact hin.symm

theorem changeParent_getElem? (map : SLCVMap F) (p q i : Nat) :
    (ChangeParent map p q).keyFrames[i]? =
      if i = p then (map.keyFrames[p]?).map (fun kf => { kf with mpParent := some q })
      else map.keyFrames[i]? := by
  unfold ChangeParent
  cases hp : map.keyFrames[p]? with
  | none =>
    simp only [Option.map_none']
    split_ifs with h
    · rw [h, hp]
    · rfl
  | some kf =>
    simp only [Option.map_some']
    rw [List.getElem?_set]
    have hlt : p < map.keyFrames.length := by
      by_contra hc
      rw [List.getElem?_eq_none (by omega)] at hp
      cases hp
    by_cases h : i = p
    · rw [if_pos h.symm, if_pos hlt, if_pos h]
    · rw [if_neg (fun e => h e.symm), if_neg h]

theorem changeParent_same (map : SLCVMap F) (p q : Nat) :
    SameUpToParents (ChangeParent map p q) map := by
  refine ⟨?_, ?_⟩
  · unfold ChangeParent
    cases map.keyFrames[p]? <;> rfl
  · apply List.ext_getElem?
    intro i
    rw [List.getElem?_map, List.getElem?_map, changeParent_getElem?]
    split_ifs with h
    · subst h
      cases map.keyFrames[i]? <;> rfl
    · rfl

theorem parentOf_changeParent (map : SLCVMap F) (p q i : Nat) :
    parentOf (ChangeParent map p q) i =
      if i = p ∧ p < map.keyFrames.length then some q else parentOf map i := by
  unfold parentOf
  rw [changeParent_getElem?]
  by_cases h : i = p
  · subst h
    rw [if_pos rfl]
    cases hi : map.keyFrames[i]? with
    | none =>
      have : ¬ i < map.keyFrames.length := by
        intro hlt
        rw [List.getElem?_eq_getElem hlt] at hi
        cases hi
      simp [this]
    | some kf =>
      have : i < map.keyFrames.length := by
        by_contra hc
        rw [List.getElem?_eq_none (by omega)] at hi
        cases hi
      simp [this]
  · rw [if_neg h, if_neg (fun hc => h hc.1)]

theorem set_append_singleton {α : Type} (ks : List α) (a b : α) :
    (ks ++ [a]).set ks.length b = ks ++ [b] := by
  rw [List.set_append_right _ _ (le_refl _)]
  simp

theorem loadKeyFrameRecords_keyFrames (rs : List (KfRecord F)) (map : SLCVMap F)
    (km : List (Int × Nat)) (pm : List (Int × Int)) :
    (loadKeyFrameRecords rs (map, km, pm)).1.keyFrames = map.keyFrames ++ rs.map newKeyFrame ∧
    (loadKeyFrameRecords rs (map, km, pm)).1.mapPoints = map.mapPoints := by
  induction rs generalizing map km pm with
  | nil => simp [loadKeyFrameRecords]
  | cons r rest ih =>
    simp only [loadKeyFrameRecords]
    have hadd : SLCVMap.AddKeyFrame
        { map with keyFrames := map.keyFrames ++
            [{ mnId := r.id, Tcw := r.Tcw, mbBad := false, mpParent := none, inMap := false }] }
        map.keyFrames.length
        = { map with
            keyFrames := map.keyFrames ++ [newKeyFrame r]
            mnMaxKFid := if r.id > map.mnMaxKFid then r.id else map.mnMaxKFid } := by
      unfold SLCVMap.AddKeyFrame
      simp only [List.getElem?_concat_length, set_append_singleton, newKeyFrame]
    rw [hadd]
    obtain ⟨h1, h2⟩ := ih _ ((r.id, map.keyFrames.length) :: km)
      (match r.parentId with
        | some parentId => (r.id, parentId) :: pm
        | none => pm)
    rw [h1, h2]
    simp

theorem getAllKeyFrames_eq_range (map : SLCVMap F)
    (h : ∀ kf ∈ map.keyFrames, kf.inMap = true) :
    map.GetAllKeyFrames = List.range map.keyFrames.length := by
  unfold SLCVMap.GetAllKeyFrames
  rw [List.filter_eq_self]
  intro p hp
  rw [List.mem_range] at hp
  rw [List.getElem?_eq_getElem hp]
  exact h _ (List.getElem_mem _)

theorem getAllKeyFrames_nodup (map : SLCVMap F) : map.GetAllKeyFrames.Nodup :=
  (List.nodup_range _).filter _

theorem mem_getAllKeyFrames (map : SLCVMap F) (p : Nat) :
    p ∈ map.GetAllKeyFrames ↔ ∃ kf, map.keyFrames[p]? = some kf ∧ kf.inMap = true := by
  unfold SLCVMap.GetAllKeyFrames
  rw [List.mem_filter, List.mem_range]
  constructor
  · rintro ⟨hp, h⟩
    rw [List.getElem?_eq_getElem hp] at h
    exact ⟨_, List.getElem?_eq_getElem hp, h⟩
  · rintro ⟨kf, hk, hin⟩
    have hp : p < map.keyFrames.length := by
      by_contra hc
      rw [List.getElem?_eq_none (by omega)] at hk
      cases hk
    refine ⟨hp, ?_⟩
    rw [hk]
    exact hin

/-- What `setParents` leaves at every address, when the pointers it visits
are distinct. -/
theorem setParents_getElem? (km : List (Int × Nat)) (pm : List (Int × Int)) (ps : List Nat)
    (hnd : ps.Nodup) (map : SLCVMap F) (i : Nat) :
    (setParents km pm ps map).keyFrames[i]? =
      if i ∈ ps then
        (map.keyFrames[i]?).map (fun kf => { kf with mpParent := resolveParent km pm kf })
      else map.keyFrames[i]? := by
  induction ps generalizing map with
  | nil => simp [setParents]
  | cons p rest ih =>
    have hp : p ∉ rest := (List.nodup_cons.mp hnd).1
    have hrest : rest.Nodup := (List.nodup_cons.mp hnd).2
    have key : ∀ m2 : SLCVMap F,
        (∀ j, j ≠ p → m2.keyFrames[j]? = map.keyFrames[j]?) →
        m2.keyFrames[p]? =
          (map.keyFrames[p]?).map (fun kf => { kf with mpParent := resolveParent km pm kf }) →
        (setParents km pm rest m2).keyFrames[i]? =
          if i ∈ p :: rest then
            (map.keyFrames[i]?).map (fun kf => { kf with mpParent := resolveParent km pm kf })
          else map.keyFrames[i]? := by
      intro m2 hne heq
      rw [ih hrest m2]
      by_cases hip : i = p
      · subst hip
        rw [if_neg hp, if_pos (List.mem_cons_self _ _), heq]
      · rw [hne i hip]
        simp only [List.mem_cons, hip, false_or]
    simp only [setParents]
    cases hk : map.keyFrames[p]? with
    | none =>
      simp only
      exact key map (fun _ _ => rfl) (by rw [hk]; rfl)
    | some kf =>
      simp only
      by_cases hid : kf.mnId ≠ 0
      · rw [if_pos hid]
        cases hpm : mapFind kf.mnId pm with
        | none =>
          simp only
          refine key map (fun _ _ => rfl) ?_
          rw [hk]
          simp [resolveParent, hid, hpm]
        | some parentId =>
          simp only
          cases hkm : mapFind parentId km with
          | none =>
            simp only
            refine key map (fun _ _ => rfl) ?_
            rw [hk]
            simp [resolveParent, hid, hpm, hkm]
          | some q =>
            simp only
            refine key _ (fun j hj => ?_) ?_
            · rw [changeParent_getElem?, if_neg hj]
            · rw [changeParent_getElem?, if_pos rfl, hk]
              simp [resolveParent, hid, hpm, hkm]
      · rw [if_neg hid]
        refine key map (fun _ _ => rfl) ?_
        rw [hk]
        have hr : resolveParent km pm kf = kf.mpParent := by
          unfold resolveParent
          rw [if_neg hid]
        simp only [Option.map_some', hr]

theorem loadObservations_ok (km : List (Int × Nat)) (corr : List Int) (ids : List Int) (i : Nat)
    (obs : List (Nat × Int)) (h : i + ids.length ≤ corr.length) :
    ∃ obs2, loadObservations km corr ids i obs = .ok obs2 := by
  induction ids generalizing i obs with
  | nil => exact ⟨obs, rfl⟩
  | cons kfId rest ih =>
    simp only [List.length_cons] at h
    simp only [loadObservations]
    cases mapFind kfId km with
    | none => exact ih (i + 1) obs (by omega)
    | some kf =>
      simp only
      have hi : i < corr.length := by omega
      rw [List.getElem?_eq_getElem hi]
      exact ih (i + 1) _ (by omega)

theorem addMapPoint_append (map : SLCVMap F) (mp : SLCVMapPoint F) :
    SLCVMap.AddMapPoint { map with mapPoints := map.mapPoints ++ [mp] } map.mapPoints.length
      = { map with mapPoints := map.mapPoints ++ [{ mp with inMap := true }] } := by
  unfold SLCVMap.AddMapPoint
  simp only [List.getElem?_concat_length, set_append_singleton]

theorem loadMapPoints_keyFrames (km : List (Int × Nat)) (rs : List (MpRecord F))
    (map map2 : SLCVMap F) (h : loadMapPoints km rs map = .ok map2) :
    map2.keyFrames = map.keyFrames := by
  induction rs generalizing map with
  | nil =>
    simp only [loadMapPoints, Except.ok.injEq] at h
    rw [← h]
  | cons r rest ih =>
    simp only [loadMapPoints] at h
    cases hobs : loadObservations km r.corrKpIndices r.observingKfIds 0 [] with
    | error e => rw [hobs] at h; cases h
    | ok obs =>
      rw [hobs] at h
      simp only [addMapPoint_append] at h
      rw [ih _ h]

theorem loadMapPoints_ok (km : List (Int × Nat)) (rs : List (MpRecord F)) (map : SLCVMap F)
    (hwf : ∀ r ∈ rs, r.observingKfIds.length ≤ r.corrKpIndices.length) :
    ∃ map2, loadMapPoints km rs map = .ok map2 := by
  induction rs generalizing map with
  | nil => exact ⟨map, rfl⟩
  | cons r rest ih =>
    simp only [loadMapPoints]
    obtain ⟨obs, hobs⟩ := loadObservations_ok km r.corrKpIndices r.observingKfIds 0 []
      (by have := hwf r (List.mem_cons_self _ _); omega)
    rw [hobs]
    exact ih _ (fun r2 hr2 => hwf r2 (List.mem_cons_of_mem _ hr2))

/-- The result of the first loop of `load`: `firstKF` stays null exactly when
no keyframe visited has id 0. -/
theorem scanKeyFrames_fst_eq_none (map : SLCVMap F) (ps : List Nat) (f : Option Nat) (b : Bool) :
    (scanKeyFrames map ps (f, b)).1 = none ↔
      f = none ∧ ∀ p ∈ ps, ∀ kf, map.keyFrames[p]? = some kf → kf.mnId ≠ 0 := by
  induction ps generalizing f b with
  | nil => simp [scanKeyFrames]
  | cons p rest ih =>
    simp only [scanKeyFrames]
    cases hk : map.keyFrames[p]? with
    | none =>
      simp only
      rw [ih]
      simp [hk]
    | some kf =>
      simp only
      by_cases h0 : kf.mnId = 0
      · rw [if_pos h0, ih]
        simp [hk, h0]
      · rw [if_neg h0]
        by_cases hp : kf.mpParent = none
        · rw [if_pos hp, ih]
          simp [hk, h0]
        · rw [if_neg hp, ih]
          simp [hk, h0]

/-- The keyframe `firstKF` found by the first loop of `load` has id 0. -/
theorem scanKeyFrames_fst_eq_some (map : SLCVMap F) (ps : List Nat) (f : Option Nat) (b : Bool)
    (root : Nat) (h : (scanKeyFrames map ps (f, b)).1 = some root) :
    f = some root ∨ (root ∈ ps ∧ ∃ kf, map.keyFrames[root]? = some kf ∧ kf.mnId = 0) := by
  induction ps generalizing f b with
  | nil => left; simpa [scanKeyFrames] using h
  | cons p rest ih =>
    simp only [scanKeyFrames] at h
    cases hk : map.keyFrames[p]? with
    | none =>
      rw [hk] at h
      rcases ih f b h with h1 | ⟨h1, h2⟩
      · exact Or.inl h1
      · exact Or.inr ⟨List.mem_cons_of_mem _ h1, h2⟩
    | some kf =>
      rw [hk] at h
      simp only at h
      by_cases h0 : kf.mnId = 0
      · rw [if_pos h0] at h
        rcases ih _ _ h with h1 | ⟨h1, h2⟩
        · simp only [Option.some.injEq] at h1
          subst h1
          exact Or.inr ⟨List.mem_cons_self _ _, kf, hk, h0⟩
        · exact Or.inr ⟨List.mem_cons_of_mem _ h1, h2⟩
      · rw [if_neg h0] at h
        by_cases hp : kf.mpParent = none
        · rw [if_pos hp] at h
          rcases ih _ _ h with h1 | ⟨h1, h2⟩
          · exact Or.inl h1
          · exact Or.inr ⟨List.mem_cons_of_mem _ h1, h2⟩
        · rw [if_neg hp] at h
          rcases ih _ _ h with h1 | ⟨h1, h2⟩
          · exact Or.inl h1
          · exact Or.inr ⟨List.mem_cons_of_mem _ h1, h2⟩

/-- The flag `buildSpanningTree` after the first loop of `load`. -/
theorem scanKeyFrames_snd (map : SLCVMap F) (ps : List Nat) (f : Option Nat) (b : Bool) :
    (scanKeyFrames map ps (f, b)).2 = true ↔
      b = true ∨ ∃ p ∈ ps, ∃ kf, map.keyFrames[p]? = some kf ∧ kf.mnId ≠ 0 ∧ kf.mpParent = none := by
  induction ps generalizing f b with
  | nil => simp [scanKeyFrames]
  | cons p rest ih =>
    simp only [scanKeyFrames]
    cases hk : map.keyFrames[p]? with
    | none =>
      simp only
      rw [ih]
      simp [hk]
    | some kf =>
      simp only
      by_cases h0 : kf.mnId = 0
      · rw [if_pos h0, ih]
        simp [hk, h0]
      · rw [if_neg h0]
        by_cases hp : kf.mpParent = none
        · rw [if_pos hp, ih]
          simp [hk, h0, hp]
        · rw [if_neg hp, ih]
          simp [hk, h0, hp]

theorem mem_setInsert (x y : Nat) (l : List Nat) : y ∈ setInsert x l ↔ y = x ∨ y ∈ l := by
  induction l with
  | nil => simp [setInsert]
  | cons z zs ih =>
    simp only [setInsert]
    split_ifs with h1 h2
    · simp
    · subst h2
      simp
    · simp only [List.mem_cons, ih]
      tauto

theorem length_setInsert_le (x : Nat) (l : List Nat) : (setInsert x l).length ≤ l.length + 1 := by
  induction l with
  | nil => simp [setInsert]
  | cons z zs ih =>
    simp only [setInsert]
    split_ifs <;> simp only [List.length_cons] <;> omega

theorem mem_setErase (x y : Nat) (l : List Nat) : y ∈ setErase x l ↔ y ∈ l ∧ y ≠ x := by
  simp [setErase]

theorem length_setErase_lt (x : Nat) (l : List Nat) (h : x ∈ l) :
    (setErase x l).length < l.length := by
  unfold setErase
  induction l with
  | nil => cases h
  | cons z zs ih =>
    by_cases hz : z = x
    · have hle := List.length_filter_le (fun y => decide (y ≠ x)) zs
      simp only [List.filter_cons, hz, ne_eq, not_true_eq_false, decide_False, List.length_cons]
      simp only [ne_eq] at hle
      simp only [Bool.false_eq_true, if_false]
      omega
    · have hx : x ∈ zs := by
        rcases List.mem_cons.mp h with h1 | h1
        · exact absurd h1.symm hz
        · exact h1
      have := ih hx
      simp only [List.filter_cons, ne_eq, hz, not_false_eq_true, decide_True, if_true,
        List.length_cons]
      simp only [ne_eq] at this
      omega

theorem mem_foldl_setInsert (kfs acc : List Nat) (y : Nat) :
    y ∈ kfs.foldl (fun s kf => setInsert kf s) acc ↔ y ∈ kfs ∨ y ∈ acc := by
  induction kfs generalizing acc with
  | nil => simp
  | cons k rest ih =>
    simp only [List.foldl_cons, ih, mem_setInsert, List.mem_cons]
    tauto

theorem length_foldl_setInsert_le (kfs acc : List Nat) :
    (kfs.foldl (fun s kf => setInsert kf s) acc).length ≤ kfs.length + acc.length := by
  induction kfs generalizing acc with
  | nil => simp
  | cons k rest ih =>
    simp only [List.foldl_cons, List.length_cons]
    have h1 := ih (setInsert k acc)
    have h2 := length_setInsert_le k acc
    omega

/-- One iteration of the repair loop for a state with out-of-tree keyframes
left: with an empty queue `top()` is undefined; otherwise the element taken
joins an out-of-tree keyframe to an in-tree keyframe over an edge of greatest
weight, and the loop goes on from the state in which that keyframe has moved
into the tree with the in-tree keyframe as its parent. -/
theorem repairLoop_step (conn : Nat → Nat → Option Int) (fuel : Nat) (graph unconKfs : List Nat)
    (hne : unconKfs ≠ []) (map : SLCVMap F) :
    (buildQueue conn unconKfs graph = [] ∧
      repairLoop conn (fuel + 1) graph unconKfs map = .error .emptyQueue) ∨
    ∃ u g w, queueTop (buildQueue conn unconKfs graph) = some (u, g, w) ∧
      u ∈ unconKfs ∧ g ∈ graph ∧ conn u g = some w ∧
      (∀ u2 ∈ unconKfs, ∀ g2 ∈ graph, ∀ w2, conn u2 g2 = some w2 → w2 ≤ w) ∧
      repairLoop conn (fuel + 1) graph unconKfs map =
        repairLoop conn fuel (setInsert u graph) (setErase u unconKfs) (ChangeParent map u g) := by
  cases unconKfs with
  | nil => exact absurd rfl hne
  | cons u0 us =>
    cases hq : queueTop (buildQueue conn (u0 :: us) graph) with
    | none =>
      left
      refine ⟨(queueTop_eq_none _).mp hq, ?_⟩
      simp only [repairLoop, hq]
    | some t =>
      right
      obtain ⟨u, g, w⟩ := t
      have hmem := (mem_buildQueue conn (u0 :: us) graph u g w).mp (queueTop_mem _ _ hq)
      refine ⟨u, g, w, rfl, hmem.1, hmem.2.1, hmem.2.2, ?_, ?_⟩
      · intro u2 hu2 g2 hg2 w2 hc
        exact queueTop_max _ _ hq (u2, g2, w2) ((mem_buildQueue conn _ _ u2 g2 w2).mpr ⟨hu2, hg2, hc⟩)
      · simp only [repairLoop, hq]

theorem reaches_mono (map : SLCVMap F) (root : Nat) (n : Nat) (p : Nat)
    (h : reaches map root n p = true) : reaches map root (n + 1) p = true := by
  induction n generalizing p with
  | zero =>
    simp only [reaches] at h
    simp only [reaches, h, Bool.true_or]
  | succ n ih =>
    simp only [reaches, Bool.or_eq_true] at h
    rcases h with h | h
    · simp only [reaches, h, Bool.true_or]
    · cases hq : parentOf map p with
      | none => rw [hq] at h; cases h
      | some q =>
        rw [hq] at h
        have := ih q h
        rw [reaches, hq, Bool.or_eq_true]
        exact Or.inr this

theorem reaches_mono_le (map : SLCVMap F) (root : Nat) (n k : Nat) (p : Nat) (hle : n ≤ k)
    (h : reaches map root n p = true) : reaches map root k p = true := by
  induction k with
  | zero =>
    have : n = 0 := by omega
    subst this
    exact h
  | succ k ih =>
    by_cases hk : n ≤ k
    · exact reaches_mono map root k p (ih hk)
    · have : n = k + 1 := by omega
      subst this
      exact h

/-- Reachability of the root inside a set of keyframes that is closed under
`parent` does not depend on the parents of the keyframes outside the set. -/
theorem reaches_congr (map map2 : SLCVMap F) (root : Nat) (graph : List Nat)
    (hclosed : ∀ g ∈ graph, g ≠ root → ∃ q ∈ graph, parentOf map g = some q)
    (hsame : ∀ g ∈ graph, parentOf map2 g = parentOf map g)
    (n : Nat) (p : Nat) (hp : p ∈ graph) (h : reaches map root n p = true) :
    reaches map2 root n p = true := by
  induction n generalizing p with
  | zero => simpa [reaches] using h
  | succ n ih =>
    by_cases hr : p = root
    · simp [reaches, hr]
    · obtain ⟨q, hq, hpq⟩ := hclosed p hp hr
      simp only [reaches, hpq, Bool.or_eq_true] at h
      rcases h with h | h
      · simp only [beq_iff_eq] at h
        exact absurd h hr
      · rw [reaches, hsame p hp, hpq, Bool.or_eq_true]
        exact Or.inr (ih q hq h)

/-- The invariant of the repair loop: the in-tree keyframes form a tree
rooted at `root` whose depth grows by at most one per iteration, and the
parents of in-tree keyframes are never reassigned. When the loop ends
normally every keyframe of `all` is in the tree. -/
theorem repairLoop_tree (conn : Nat → Nat → Option Int) (root : Nat) (all : List Nat)
    (fuel : Nat) (graph unconKfs : List Nat) (map map2 : SLCVMap F) (d : Nat)
    (hres : repairLoop conn fuel graph unconKfs map = .ok map2)
    (hroot : root ∈ graph)
    (hclosed : ∀ g ∈ graph, g ≠ root → ∃ q ∈ graph, parentOf map g = some q)
    (hreach : ∀ g ∈ graph, reaches map root d g = true)
    (hdisj : ∀ u ∈ unconKfs, u ∉ graph)
    (hvalid : ∀ u ∈ unconKfs, u < map.keyFrames.length)
    (hall : ∀ x ∈ all, x ∈ graph ∨ x ∈ unconKfs) :
    (∀ x ∈ all, reaches map2 root (d + unconKfs.length) x = true) ∧
      (∀ g ∈ graph, parentOf map2 g = parentOf map g) ∧ SameUpToParents map2 map := by
  induction fuel generalizing graph unconKfs map d with
  | zero =>
    cases unconKfs with
    | nil =>
      simp only [repairLoop, Except.ok.injEq] at hres
      subst hres
      refine ⟨fun x hx => ?_, fun _ _ => rfl, SameUpToParents.refl _⟩
      rcases hall x hx with h | h
      · exact hreach x h
      · cases h
    | cons u us => simp [repairLoop] at hres
  | succ fuel ih =>
    cases hun : unconKfs with
    | nil =>
      subst hun
      simp only [repairLoop, Except.ok.injEq] at hres
      subst hres
      refine ⟨fun x hx => ?_, fun _ _ => rfl, SameUpToParents.refl _⟩
      rcases hall x hx with h | h
      · exact hreach x h
      · cases h
    | cons u0 us =>
      have hne : unconKfs ≠ [] := by rw [hun]; exact List.cons_ne_nil _ _
      rcases repairLoop_step conn fuel graph unconKfs hne map with ⟨_, herr⟩ | ⟨u, g, w, _, hu, hg, _, _, hstep⟩
      · rw [herr] at hres
        cases hres
      · rw [hstep] at hres
        have hult : u < map.keyFrames.length := hvalid u hu
        have hug : u ∉ graph := hdisj u hu
        have hpar : ∀ x ∈ graph, parentOf (ChangeParent map u g) x = parentOf map x := by
          intro x hx
          rw [parentOf_changeParent, if_neg]
          rintro ⟨rfl, _⟩
          exact hug hx
        have hparu : parentOf (ChangeParent map u g) u = some g := by
          rw [parentOf_changeParent, if_pos ⟨rfl, hult⟩]
        have hlen : (ChangeParent map u g).keyFrames.length = map.keyFrames.length :=
          (changeParent_same map u g).length_eq
        have hreach_old : ∀ x ∈ graph, reaches (ChangeParent map u g) root d x = true :=
          fun x hx => reaches_congr map _ root graph hclosed hpar d x hx (hreach x hx)
        obtain ⟨r1, r2, r3⟩ := ih (setInsert u graph) (setErase u unconKfs)
          (ChangeParent map u g) (d + 1) hres
          ((mem_setInsert _ _ _).mpr (Or.inr hroot))
          (by
            intro x hx hxr
            rcases (mem_setInsert _ _ _).mp hx with rfl | hx
            · exact ⟨g, (mem_setInsert _ _ _).mpr (Or.inr hg), hparu⟩
            · obtain ⟨q, hq, hpq⟩ := hclosed x hx hxr
              exact ⟨q, (mem_setInsert _ _ _).mpr (Or.inr hq), by rw [hpar x hx, hpq]⟩)
          (by
            intro x hx
            rcases (mem_setInsert _ _ _).mp hx with rfl | hx
            · rw [reaches, hparu, Bool.or_eq_true]
              exact Or.inr (hreach_old g hg)
            · exact reaches_mono _ _ _ _ (hreach_old x hx))
          (by
            intro x hx hxg
            obtain ⟨hx1, hx2⟩ := (mem_setErase _ _ _).mp hx
            rcases (mem_setInsert _ _ _).mp hxg with h | h
            · exact hx2 h
            · exact hdisj x hx1 h)
          (by
            intro x hx
            rw [hlen]
            exact hvalid x ((mem_setErase _ _ _).mp hx).1)
          (by
            intro x hx
            rcases hall x hx with h | h
            · exact Or.inl ((mem_setInsert _ _ _).mpr (Or.inr h))
            · by_cases hxu : x = u
              · exact Or.inl ((mem_setInsert _ _ _).mpr (Or.inl hxu))
              · exact Or.inr ((mem_setErase _ _ _).mpr ⟨h, hxu⟩))
        have hlt := length_setErase_lt u unconKfs hu
        refine ⟨fun x hx => ?_, fun x hx => ?_, r3.trans (changeParent_same map u g)⟩
        · rw [← hun]
          exact reaches_mono_le _ _ _ _ _ (by omega) (r1 x hx)
        · rw [r2 x ((mem_setInsert _ _ _).mpr (Or.inr hx)), hpar x hx]

theorem repairLoop_ne_noKeyFrame0 (conn : Nat → Nat → Option Int) (fuel : Nat)
    (graph unconKfs : List Nat) (map : SLCVMap F) :
    repairLoop conn fuel graph unconKfs map ≠ .error .noKeyFrame0 := by
  induction fuel generalizing graph unconKfs map with
  | zero => cases unconKfs <;> simp [repairLoop]
  | succ fuel ih =>
    cases unconKfs with
    | nil => simp [repairLoop]
    | cons u us =>
      simp only [repairLoop]
      cases queueTop (buildQueue conn (u :: us) graph) with
      | none => simp
      | some t => exact ih _ _ _

theorem scanKeyFrames_congr (a b : SLCVMap F) (h : a.keyFrames = b.keyFrames) (ps : List Nat)
    (acc : Option Nat × Bool) : scanKeyFrames a ps acc = scanKeyFrames b ps acc := by
  induction ps generalizing acc with
  | nil => rfl
  | cons p rest ih =>
    obtain ⟨f, bs⟩ := acc
    simp only [scanKeyFrames, h, ih]

theorem getAllKeyFrames_congr (a b : SLCVMap F) (h : a.keyFrames = b.keyFrames) :
    a.GetAllKeyFrames = b.GetAllKeyFrames := by
  unfold SLCVMap.GetAllKeyFrames
  rw [h]

theorem loadKeyFrames_eq (doc : Document F) (map : SLCVMap F) :
    loadKeyFrames doc map =
      (setParents (loadKeyFrameRecords doc.KeyFrames (map, [], [])).2.1
          (loadKeyFrameRecords doc.KeyFrames (map, [], [])).2.2
          (loadKeyFrameRecords doc.KeyFrames (map, [], [])).1.GetAllKeyFrames
          (loadKeyFrameRecords doc.KeyFrames (map, [], [])).1,
        (loadKeyFrameRecords doc.KeyFrames (map, [], [])).2.1) := rfl

/-- The keyframe objects after `loadKeyFrames` into an empty map: the object
at address `i` is built from record `i`, with the parent `setParents` gives. -/
theorem loadKeyFrames_getElem? (doc : Document F) (i : Nat) :
    (loadKeyFrames doc SLCVMap.empty).1.keyFrames[i]? =
      (doc.KeyFrames[i]?).map (fun r =>
        { newKeyFrame r with
          mpParent := resolveParent (loadKeyFrameRecords doc.KeyFrames (SLCVMap.empty, [], [])).2.1
            (loadKeyFrameRecords doc.KeyFrames (SLCVMap.empty, [], [])).2.2 (newKeyFrame r) }) := by
  rw [loadKeyFrames_eq]
  simp only
  have hk := (loadKeyFrameRecords_keyFrames doc.KeyFrames (SLCVMap.empty : SLCVMap F) [] []).1
  have hk2 : (loadKeyFrameRecords doc.KeyFrames ((SLCVMap.empty : SLCVMap F), [], [])).1.keyFrames
      = doc.KeyFrames.map newKeyFrame := by
    rw [hk]
    rfl
  rw [setParents_getElem? _ _ _ (getAllKeyFrames_nodup _),
    getAllKeyFrames_eq_range _ (by
      rw [hk2]
      intro kf hkf
      obtain ⟨r, _, rfl⟩ := List.mem_map.mp hkf
      rfl), hk2]
  simp only [List.length_map, List.mem_range, List.getElem?_map, Option.map_map]
  by_cases hi : i < doc.KeyFrames.length
  · rw [if_pos hi]
    rfl
  · rw [if_neg hi, List.getElem?_eq_none (by omega)]
    rfl

theorem loadKeyFrames_length (doc : Document F) :
    (loadKeyFrames doc SLCVMap.empty).1.keyFrames.length = doc.KeyFrames.length := by
  by_contra hne
  rcases Nat.lt_or_gt_of_ne hne with h | h
  · have h1 := loadKeyFrames_getElem? doc (loadKeyFrames doc SLCVMap.empty).1.keyFrames.length
    rw [List.getElem?_eq_none (le_refl _), List.getElem?_eq_getElem h] at h1
    cases h1
  · have h1 := loadKeyFrames_getElem? doc doc.KeyFrames.length
    rw [List.getElem?_eq_none (le_refl _), List.getElem?_eq_getElem h] at h1
    cases h1

theorem loadKeyFrames_inMap (doc : Document F) :
    ∀ kf ∈ (loadKeyFrames doc SLCVMap.empty).1.keyFrames, kf.inMap = true := by
  intro kf hkf
  obtain ⟨i, hi⟩ := List.mem_iff_getElem?.mp hkf
  rw [loadKeyFrames_getElem?] at hi
  cases hr : doc.KeyFrames[i]? with
  | none => rw [hr] at hi; cases hi
  | some r =>
    rw [hr] at hi
    simp only [Option.map_some', Option.some.injEq] at hi
    rw [← hi]
    rfl

/-- `load` into an empty map, once the map points are loaded: the keyframes
visited are the addresses `0 .. N-1` of the records. -/
theorem load_of_loadMapPoints (conn : Nat → Nat → Option Int) (doc : Document F)
    (m2 : SLCVMap F)
    (h : loadMapPoints (loadKeyFrames doc SLCVMap.empty).2 doc.MapPoints
      (loadKeyFrames doc SLCVMap.empty).1 = .ok m2) :
    m2.keyFrames = (loadKeyFrames doc SLCVMap.empty).1.keyFrames ∧
    m2.GetAllKeyFrames = List.range doc.KeyFrames.length ∧
    load conn doc SLCVMap.empty =
      match scanKeyFrames (loadKeyFrames doc SLCVMap.empty).1
          (List.range doc.KeyFrames.length) (none, false) with
      | (none, _) => .error .noKeyFrame0
      | (some firstKF, b) =>
        if b then
          repairLoop conn
            ((List.range doc.KeyFrames.length).foldl (fun s kf => setInsert kf s) []).length
            [firstKF]
            (setErase firstKF
              ((List.range doc.KeyFrames.length).foldl (fun s kf => setInsert kf s) []))
            m2
        else .ok m2 := by
  have hk := loadMapPoints_keyFrames _ _ _ _ h
  have hall : m2.GetAllKeyFrames = List.range doc.KeyFrames.length := by
    rw [getAllKeyFrames_congr m2 _ hk, getAllKeyFrames_eq_range _ (loadKeyFrames_inMap doc),
      loadKeyFrames_length]
  refine ⟨hk, hall, ?_⟩
  have hload : load conn doc SLCVMap.empty =
      match loadMapPoints (loadKeyFrames doc SLCVMap.empty).2 doc.MapPoints
          (loadKeyFrames doc SLCVMap.empty).1 with
      | .error e => .error e
      | .ok map =>
        match scanKeyFrames map map.GetAllKeyFrames (none, false) with
        | (none, _) => .error .noKeyFrame0
        | (some firstKF, buildSpanningTree) =>
          if buildSpanningTree then
            repairLoop conn (map.GetAllKeyFrames.foldl (fun s kf => setInsert kf s) []).length
              [firstKF]
              (setErase firstKF (map.GetAllKeyFrames.foldl (fun s kf => setInsert kf s) [])) map
          else .ok map := rfl
  rw [hload, h]
  simp only
  rw [hall, scanKeyFrames_congr m2 _ hk]

theorem buildSpanningTree_eq (doc : Document F) :
    buildSpanningTree doc =
      (scanKeyFrames (loadKeyFrames doc SLCVMap.empty).1
        (List.range doc.KeyFrames.length) (none, false)).2 := by
  unfold buildSpanningTree
  simp only
  rw [getAllKeyFrames_eq_range _ (loadKeyFrames_inMap doc), loadKeyFrames_length]

/-- C8: for a document whose map-point records have an index for every
observing id (so that reading them is defined), `load` into an empty map
fails with the assertion "Could not find keyframe with id 0" if and only if no
record of the KeyFrames sequence has id 0 (in particular when the sequence is
empty). This holds for all covisibility weights `conn`, whether or not the
document needs the spanning-tree repair: the assertion is checked before the
repair loop runs, so no parent is reassigned and no queue is read before it. -/
theorem load_assertion_iff_no_keyframe_zero (conn : Nat → Nat → Option Int) (doc : Document F)
    (hwf : ∀ r ∈ doc.MapPoints, r.observingKfIds.length ≤ r.corrKpIndices.length) :
    load conn doc SLCVMap.empty = .error .noKeyFrame0 ↔ ∀ r ∈ doc.KeyFrames, r.id ≠ 0 := by
  obtain ⟨m2, hm2⟩ := loadMapPoints_ok (loadKeyFrames doc SLCVMap.empty).2 doc.MapPoints
    (loadKeyFrames doc SLCVMap.empty).1 hwf
  obtain ⟨_, _, hload⟩ := load_of_loadMapPoints conn doc m2 hm2
  have hscan := scanKeyFrames_fst_eq_none (loadKeyFrames doc SLCVMap.empty).1
    (List.range doc.KeyFrames.length) none false
  have hids : (∀ p ∈ List.range doc.KeyFrames.length, ∀ kf,
        (loadKeyFrames doc SLCVMap.empty).1.keyFrames[p]? = some kf → kf.mnId ≠ 0) ↔
      ∀ r ∈ doc.KeyFrames, r.id ≠ 0 := by
    constructor
    · intro hp r hr
      obtain ⟨i, hi⟩ := List.mem_iff_getElem?.mp hr
      have hlt : i < doc.KeyFrames.length := by
        by_contra hc
        rw [List.getElem?_eq_none (by omega)] at hi
        cases hi
      have := hp i (List.mem_range.mpr hlt) _ (by rw [loadKeyFrames_getElem?, hi]; rfl)
      exact this
    · intro hr p _ kf hkf
      rw [loadKeyFrames_getElem?] at hkf
      cases hrec : doc.KeyFrames[p]? with
      | none => rw [hrec] at hkf; cases hkf
      | some r =>
        rw [hrec] at hkf
        simp only [Option.map_some', Option.some.injEq] at hkf
        rw [← hkf]
        exact hr r (List.mem_iff_getElem?.mpr ⟨p, hrec⟩)
  rw [← hids, hload]
  cases hs : scanKeyFrames (loadKeyFrames doc SLCVMap.empty).1
      (List.range doc.KeyFrames.length) (none, false) with
  | mk first b =>
    rw [hs] at hscan
    cases first with
    | none =>
      simp only [true_iff]
      exact (hscan.mp rfl).2
    | some root =>
      simp only
      constructor
      · intro hl
        by_cases hb : b = true
        · rw [if_pos hb] at hl
          exact absurd hl (repairLoop_ne_noKeyFrame0 _ _ _ _ _)
        · rw [if_neg hb] at hl
          cases hl
      · intro hp
        have := hscan.mpr ⟨rfl, hp⟩
        cases this

theorem load_ok_loadMapPoints (conn : Nat → Nat → Option Int) (doc : Document F)
    (map2 : SLCVMap F) (h : load conn doc SLCVMap.empty = .ok map2) :
    ∃ m2, loadMapPoints (loadKeyFrames doc SLCVMap.empty).2 doc.MapPoints
      (loadKeyFrames doc SLCVMap.empty).1 = .ok m2 := by
  cases hm : loadMapPoints (loadKeyFrames doc SLCVMap.empty).2 doc.MapPoints
      (loadKeyFrames doc SLCVMap.empty).1 with
  | ok m2 => exact ⟨m2, rfl⟩
  | error e =>
    have hload : load conn doc SLCVMap.empty =
        match loadMapPoints (loadKeyFrames doc SLCVMap.empty).2 doc.MapPoints
            (loadKeyFrames doc SLCVMap.empty).1 with
        | .error e => .error e
        | .ok map =>
          match scanKeyFrames map map.GetAllKeyFrames (none, false) with
          | (none, _) => .error .noKeyFrame0
          | (some firstKF, buildSpanningTree) =>
            if buildSpanningTree then
              repairLoop conn (map.GetAllKeyFrames.foldl (fun s kf => setInsert kf s) []).length
                [firstKF]
                (setErase firstKF (map.GetAllKeyFrames.foldl (fun s kf => setInsert kf s) [])) map
            else .ok map := rfl
    rw [hload, hm] at h
    cases h

/-- A keyframe with id 0 has no parent after `loadKeyFrames`. -/
theorem loadKeyFrames_root_parent (doc : Document F) (p : Nat) (kf : SLCVKeyFrame F)
    (hk : (loadKeyFrames doc SLCVMap.empty).1.keyFrames[p]? = some kf) (h0 : kf.mnId = 0) :
    kf.mpParent = none := by
  rw [loadKeyFrames_getElem?] at hk
  cases hr : doc.KeyFrames[p]? with
  | none => rw [hr] at hk; cases hk
  | some r =>
    rw [hr] at hk
    simp only [Option.map_some', Option.some.injEq] at hk
    rw [← hk] at h0 ⊢
    have hr0 : (newKeyFrame r).mnId = 0 := h0
    simp only [resolveParent, hr0, ne_eq, not_true_eq_false, if_false]
    rfl

/-- C3 (as amended): when `load` into an empty map completes, the keyframe
it takes as root (`firstKF`: id 0, the last loaded of them if several records
carry id 0) has no parent, whatever `parentId` its record carries; and if the
spanning-tree repair ran (`buildSpanningTree`: some keyframe with another id
was left without a parent by `loadKeyFrames`), then from every keyframe of
the map following parent pointers reaches the root in at most `N` steps, `N`
the number of keyframes. -/
theorem load_root_and_repaired_tree (conn : Nat → Nat → Option Int) (doc : Document F)
    (map2 : SLCVMap F) (h : load conn doc SLCVMap.empty = .ok map2) :
    ∃ root kf, map2.keyFrames[root]? = some kf ∧ kf.mnId = 0 ∧ kf.mpParent = none ∧
      map2.keyFrames.length = doc.KeyFrames.length ∧
      (buildSpanningTree doc = true →
        ∀ p, p < map2.keyFrames.length → reaches map2 root map2.keyFrames.length p = true) := by
  obtain ⟨m2, hm2⟩ := load_ok_loadMapPoints conn doc map2 h
  obtain ⟨hk, hall, hload⟩ := load_of_loadMapPoints conn doc m2 hm2
  rw [hload] at h
  have hlen2 : m2.keyFrames.length = doc.KeyFrames.length := by
    rw [hk, loadKeyFrames_length]
  rw [buildSpanningTree_eq]
  cases hs : scanKeyFrames (loadKeyFrames doc SLCVMap.empty).1
      (List.range doc.KeyFrames.length) (none, false) with
  | mk first b =>
    rw [hs] at h
    cases first with
    | none => cases h
    | some root =>
      simp only at h
      have hfirst := scanKeyFrames_fst_eq_some _ _ none false root (by rw [hs])
      rcases hfirst with hc | ⟨hrmem, kf, hkf, hkf0⟩
      · cases hc
      have hpar : kf.mpParent = none := loadKeyFrames_root_parent doc root kf hkf hkf0
      have hkf2 : m2.keyFrames[root]? = some kf := by rw [hk]; exact hkf
      by_cases hb : b = true
      · rw [if_pos hb] at h
        have hrlt : root < doc.KeyFrames.length := List.mem_range.mp hrmem
        have hrset : root ∈ (List.range doc.KeyFrames.length).foldl
            (fun s kf => setInsert kf s) [] :=
          (mem_foldl_setInsert _ _ _).mpr (Or.inl hrmem)
        obtain ⟨r1, r2, r3⟩ := repairLoop_tree conn root (List.range doc.KeyFrames.length)
          _ [root] _ m2 map2 0 h (List.mem_singleton.mpr rfl)
          (by
            intro g hg hgr
            exact absurd (List.mem_singleton.mp hg) hgr)
          (by
            intro g hg
            rw [List.mem_singleton.mp hg]
            simp [reaches])
          (by
            intro u hu hug
            exact ((mem_setErase _ _ _).mp hu).2 (List.mem_singleton.mp hug))
          (by
            intro u hu
            have := ((mem_foldl_setInsert _ _ _).mp ((mem_setErase _ _ _).mp hu).1)
            rcases this with h1 | h1
            · rw [hlen2]
              exact List.mem_range.mp h1
            · cases h1)
          (by
            intro x hx
            by_cases hxr : x = root
            · exact Or.inl (List.mem_singleton.mpr hxr)
            · exact Or.inr ((mem_setErase _ _ _).mpr
                ⟨(mem_foldl_setInsert _ _ _).mpr (Or.inl hx), hxr⟩))
        obtain ⟨kb, hkb, hkbid, _, _, _⟩ := r3.symm.getElem? root kf hkf2
        have hparb : kb.mpParent = none := by
          have h1 := r2 root (List.mem_singleton.mpr rfl)
          simp only [parentOf, hkb, hkf2] at h1
          rw [h1, hpar]
        have hlen3 : map2.keyFrames.length = doc.KeyFrames.length := by
          rw [r3.length_eq, hlen2]
        refine ⟨root, kb, hkb, by rw [hkbid, hkf0], hparb, hlen3, fun _ p hp => ?_⟩
        rw [hlen3] at hp ⊢
        refine reaches_mono_le _ _ _ _ _ ?_ (r1 p (List.mem_range.mpr hp))
        have hl1 := length_setErase_lt root _ hrset
        have hl2 := length_foldl_setInsert_le (List.range doc.KeyFrames.length) []
        simp only [List.length_range, List.length_nil] at hl2
        omega
      · rw [if_neg hb] at h
        simp only [Except.ok.injEq] at h
        subst h
        exact ⟨root, kf, hkf2, hkf0, hpar, hlen2, fun hb2 => absurd hb2 hb⟩

/-- C8, witness: `rootlessDoc` (one keyframe, id 1) with the weights `conn20`. -/
theorem load_assertion_iff_no_keyframe_zero_witness :
    (∀ r ∈ rootlessDoc.MapPoints, r.observingKfIds.length ≤ r.corrKpIndices.length) ∧
      (load conn20 rootlessDoc SLCVMap.empty = .error .noKeyFrame0 ↔
        ∀ r ∈ rootlessDoc.KeyFrames, r.id ≠ 0) :=
  ⟨by simp [rootlessDoc],
    load_assertion_iff_no_keyframe_zero conn20 rootlessDoc (by simp [rootlessDoc])⟩

/-- C3, witness: `legacyDoc` loads (with repair) under the weights `conn20`. -/
theorem load_root_and_repaired_tree_witness :
    ∃ map2, load conn20 legacyDoc SLCVMap.empty = .ok map2 ∧
      ∃ root kf, map2.keyFrames[root]? = some kf ∧ kf.mnId = 0 ∧ kf.mpParent = none ∧
        map2.keyFrames.length = legacyDoc.KeyFrames.length ∧
        (buildSpanningTree legacyDoc = true →
          ∀ p, p < map2.keyFrames.length → reaches map2 root map2.keyFrames.length p = true) :=
  ⟨_, rfl, load_root_and_repaired_tree conn20 legacyDoc _ rfl⟩

/-- C3, counterexample: `cycleDoc` loads without error and without repair
(every keyframe but 0 has a parent); the map has the three keyframes 0, 1, 2
at the addresses 0, 1, 2, the parent of 1 is 2 and the parent of 2 is 1, so
following parent pointers from keyframe 1 does not reach keyframe 0 in 3
steps (nor ever). -/
theorem load_keeps_parent_cycle :
    ∃ map2, load noConn cycleDoc SLCVMap.empty = .ok map2 ∧
      map2.keyFrames.map (fun kf => kf.mnId) = [0, 1, 2] ∧
      parentOf map2 1 = some 2 ∧ parentOf map2 2 = some 1 ∧
      reaches map2 0 3 1 = false := by
  refine ⟨_, rfl, ?_, ?_, ?_, ?_⟩ <;> decide

theorem scanKeyFrames_two (m1 : SLCVMap F) (k0 k1 : SLCVKeyFrame F)
    (e0 : m1.keyFrames[0]? = some k0) (e1 : m1.keyFrames[1]? = some k1)
    (h0 : k0.mnId = 0) (h1 : k1.mnId = 1) (hp : k1.mpParent = none) :
    scanKeyFrames m1 (List.range 2) (none, false) = (some 0, true) := by
  have hrange : List.range 2 = [0, 1] := rfl
  rw [hrange]
  simp only [scanKeyFrames, e0, e1, h0, h1, hp, if_true]
  rfl

theorem scanKeyFrames_two_swapped (m1 : SLCVMap F) (k0 k1 : SLCVKeyFrame F)
    (e0 : m1.keyFrames[0]? = some k1) (e1 : m1.keyFrames[1]? = some k0)
    (h0 : k0.mnId = 0) (h1 : k1.mnId = 1) (hp : k1.mpParent = none) :
    scanKeyFrames m1 (List.range 2) (none, false) = (some 1, true) := by
  have hrange : List.range 2 = [0, 1] := rfl
  rw [hrange]
  simp only [scanKeyFrames, e0, e1, h0, h1, hp, if_true]
  rfl

theorem repairLoop_two (conn : Nat → Nat → Option Int) (m2 : SLCVMap F) (w : Int)
    (hc : conn 1 0 = some w) :
    repairLoop conn ((List.range 2).foldl (fun s kf => setInsert kf s) []).length [0]
      (setErase 0 ((List.range 2).foldl (fun s kf => setInsert kf s) [])) m2
      = .ok (ChangeParent m2 1 0) := by
  have hset : (List.range 2).foldl (fun s kf => setInsert kf s) [] = [0, 1] := rfl
  have her : setErase 0 [0, 1] = [1] := rfl
  have her2 : setErase 1 [1] = [] := rfl
  rw [hset, her]
  simp only [List.length_cons, List.length_nil, repairLoop, buildQueue, List.flatMap_cons,
    List.flatMap_nil, List.filterMap_cons, List.filterMap_nil, hc, List.append_nil, queueTop, her2]

theorem repairLoop_two_swapped (conn : Nat → Nat → Option Int) (m2 : SLCVMap F) (w : Int)
    (hc : conn 0 1 = some w) :
    repairLoop conn ((List.range 2).foldl (fun s kf => setInsert kf s) []).length [1]
      (setErase 1 ((List.range 2).foldl (fun s kf => setInsert kf s) [])) m2
      = .ok (ChangeParent m2 0 1) := by
  have hset : (List.range 2).foldl (fun s kf => setInsert kf s) [] = [0, 1] := rfl
  have her : setErase 1 [0, 1] = [0] := rfl
  have her2 : setErase 0 [0] = [] := rfl
  rw [hset, her]
  simp only [List.length_cons, List.length_nil, repairLoop, buildQueue, List.flatMap_cons,
    List.flatMap_nil, List.filterMap_cons, List.filterMap_nil, hc, List.append_nil, queueTop, her2]

/-- The scenario of two keyframes 0 and 1, keyframe 1 without a parent id,
records in the order 0, 1. -/
theorem load_two_keyframes (conn : Nat → Nat → Option Int) (r0 r1 : KfRecord F)
    (mps : List (MpRecord F)) (h0 : r0.id = 0) (h1 : r1.id = 1) (hp : r1.parentId = none)
    (hwf : ∀ r ∈ mps, r.observingKfIds.length ≤ r.corrKpIndices.length)
    (hc : conn 1 0 = some 20) :
    ∃ map2, load conn { KeyFrames := [r0, r1], MapPoints := mps } SLCVMap.empty = .ok map2 ∧
      map2.keyFrames.map (fun kf => kf.mnId) = [0, 1] ∧ parentOf map2 1 = some 0 := by
  obtain ⟨m2, hm2⟩ := loadMapPoints_ok
    (loadKeyFrames { KeyFrames := [r0, r1], MapPoints := mps } SLCVMap.empty).2 mps
    (loadKeyFrames { KeyFrames := [r0, r1], MapPoints := mps } SLCVMap.empty).1 hwf
  obtain ⟨hk, hall, hload⟩ := load_of_loadMapPoints conn _ m2 hm2
  have e0 := loadKeyFrames_getElem? ({ KeyFrames := [r0, r1], MapPoints := mps } : Document F) 0
  have e1 := loadKeyFrames_getElem? ({ KeyFrames := [r0, r1], MapPoints := mps } : Document F) 1
  have hpm : mapFind 1
      (loadKeyFrameRecords [r0, r1] ((SLCVMap.empty : SLCVMap F), [], [])).2.2 = none := by
    simp only [loadKeyFrameRecords, hp]
    cases r0.parentId with
    | none => rfl
    | some pid => simp [mapFind, h0]
  simp only [List.getElem?_cons_zero, List.getElem?_cons_succ, Option.map_some'] at e0 e1
  have hr1 : resolveParent
      (loadKeyFrameRecords [r0, r1] ((SLCVMap.empty : SLCVMap F), [], [])).2.1
      (loadKeyFrameRecords [r0, r1] ((SLCVMap.empty : SLCVMap F), [], [])).2.2
      (newKeyFrame r1) = none := by
    unfold resolveParent
    have : (newKeyFrame r1).mnId = 1 := h1
    rw [this, hpm]
    rfl
  rw [hr1] at e1
  have hscan := scanKeyFrames_two _ _ _ e0 e1 h0 h1 rfl
  have hlen : ({ KeyFrames := [r0, r1], MapPoints := mps } : Document F).KeyFrames.length = 2 :=
    rfl
  rw [hlen, hscan] at hload
  simp only [if_true] at hload
  rw [repairLoop_two conn m2 20 hc] at hload
  have hlen2 : m2.keyFrames.length = 2 := by rw [hk, loadKeyFrames_length]; rfl
  refine ⟨_, hload, ?_, ?_⟩
  · have hsame := changeParent_same m2 1 0
    have hids : ∀ a b : SLCVMap F, SameUpToParents a b →
        a.keyFrames.map (fun kf => kf.mnId) = b.keyFrames.map (fun kf => kf.mnId) := by
      intro a b hab
      have := congrArg (List.map (fun kf : SLCVKeyFrame F => kf.mnId)) hab.2
      simpa [List.map_map, Function.comp_def, stripParent] using this
    rw [hids _ _ hsame]
    apply List.ext_getElem?
    intro i
    rw [List.getElem?_map, hk]
    rcases i with _ | _ | i
    · rw [e0]; simp [newKeyFrame, h0]
    · rw [e1]; simp [newKeyFrame, h1]
    · rw [List.getElem?_eq_none (by rw [loadKeyFrames_length]; simp)]
      simp
  · rw [parentOf_changeParent, if_pos]
    exact ⟨rfl, by omega⟩

/-- The scenario of two keyframes 0 and 1, keyframe 1 without a parent id,
records in the order 1, 0. -/
theorem load_two_keyframes_swapped (conn : Nat → Nat → Option Int) (r0 r1 : KfRecord F)
    (mps : List (MpRecord F)) (h0 : r0.id = 0) (h1 : r1.id = 1) (hp : r1.parentId = none)
    (hwf : ∀ r ∈ mps, r.observingKfIds.length ≤ r.corrKpIndices.length)
    (hc : conn 0 1 = some 20) :
    ∃ map2, load conn { KeyFrames := [r1, r0], MapPoints := mps } SLCVMap.empty = .ok map2 ∧
      map2.keyFrames.map (fun kf => kf.mnId) = [1, 0] ∧ parentOf map2 0 = some 1 := by
  obtain ⟨m2, hm2⟩ := loadMapPoints_ok
    (loadKeyFrames { KeyFrames := [r1, r0], MapPoints := mps } SLCVMap.empty).2 mps
    (loadKeyFrames { KeyFrames := [r1, r0], MapPoints := mps } SLCVMap.empty).1 hwf
  obtain ⟨hk, hall, hload⟩ := load_of_loadMapPoints conn _ m2 hm2
  have e0 := loadKeyFrames_getElem? ({ KeyFrames := [r1, r0], MapPoints := mps } : Document F) 0
  have e1 := loadKeyFrames_getElem? ({ KeyFrames := [r1, r0], MapPoints := mps } : Document F) 1
  have hpm : mapFind 1
      (loadKeyFrameRecords [r1, r0] ((SLCVMap.empty : SLCVMap F), [], [])).2.2 = none := by
    simp only [loadKeyFrameRecords, hp]
    cases r0.parentId with
    | none => rfl
    | some pid => simp [mapFind, h0]
  simp only [List.getElem?_cons_zero, List.getElem?_cons_succ, Option.map_some'] at e0 e1
  have hr1 : resolveParent
      (loadKeyFrameRecords [r1, r0] ((SLCVMap.empty : SLCVMap F), [], [])).2.1
      (loadKeyFrameRecords [r1, r0] ((SLCVMap.empty : SLCVMap F), [], [])).2.2
      (newKeyFrame r1) = none := by
    unfold resolveParent
    have : (newKeyFrame r1).mnId = 1 := h1
    rw [this, hpm]
    rfl
  rw [hr1] at e0
  have hscan := scanKeyFrames_two_swapped _ _ _ e0 e1 h0 h1 rfl
  have hlen : ({ KeyFrames := [r1, r0], MapPoints := mps } : Document F).KeyFrames.length = 2 :=
    rfl
  rw [hlen, hscan] at hload
  simp only [if_true] at hload
  rw [repairLoop_two_swapped conn m2 20 hc] at hload
  have hlen2 : m2.keyFrames.length = 2 := by rw [hk, loadKeyFrames_length]; rfl
  refine ⟨_, hload, ?_, ?_⟩
  · have hsame := changeParent_same m2 0 1
    have hids : ∀ a b : SLCVMap F, SameUpToParents a b →
        a.keyFrames.map (fun kf => kf.mnId) = b.keyFrames.map (fun kf => kf.mnId) := by
      intro a b hab
      have := congrArg (List.map (fun kf : SLCVKeyFrame F => kf.mnId)) hab.2
      simpa [List.map_map, Function.comp_def, stripParent] using this
    rw [hids _ _ hsame]
    apply List.ext_getElem?
    intro i
    rw [List.getElem?_map, hk]
    rcases i with _ | _ | i
    · rw [e0]; simp [newKeyFrame, h1]
    · rw [e1]; simp [newKeyFrame, h0]
    · rw [List.getElem?_eq_none (by rw [loadKeyFrames_length]; simp)]
      simp
  · rw [parentOf_changeParent, if_pos]
    exact ⟨rfl, by omega⟩

/-- C4: in every iteration of the repair loop of `load` whose queue is not
empty, the keyframe attached is an out-of-tree keyframe, its new parent is an
in-tree keyframe, and the weight of that pair is the greatest among all pairs
of an out-of-tree and an in-tree keyframe joined by a covisibility edge at
that moment; the loop goes on with that keyframe in the tree. (With an empty
queue `top()` is undefined; the model returns an error.) In particular a
document with only the keyframes 0 and 1, keyframe 1 without parent id, read
in either order with covisibility weight 20 between them, loads into a map in
which the parent of keyframe 1 is keyframe 0. -/
theorem load_repair_attaches_max_weight_edge :
    (∀ (F : Type) (conn : Nat → Nat → Option Int) (fuel : Nat) (graph unconKfs : List Nat)
        (_ : unconKfs ≠ []) (map : SLCVMap F),
      (buildQueue conn unconKfs graph = [] ∧
        repairLoop conn (fuel + 1) graph unconKfs map = .error .emptyQueue) ∨
      ∃ u g w, queueTop (buildQueue conn unconKfs graph) = some (u, g, w) ∧
        u ∈ unconKfs ∧ g ∈ graph ∧ conn u g = some w ∧
        (∀ u2 ∈ unconKfs, ∀ g2 ∈ graph, ∀ w2, conn u2 g2 = some w2 → w2 ≤ w) ∧
        repairLoop conn (fuel + 1) graph unconKfs map =
          repairLoop conn fuel (setInsert u graph) (setErase u unconKfs)
            (ChangeParent map u g)) ∧
    (∀ (F : Type) (conn : Nat → Nat → Option Int) (r0 r1 : KfRecord F) (mps : List (MpRecord F)),
      r0.id = 0 → r1.id = 1 → r1.parentId = none →
      (∀ r ∈ mps, r.observingKfIds.length ≤ r.corrKpIndices.length) →
      (conn 1 0 = some 20 →
        ∃ map2, load conn { KeyFrames := [r0, r1], MapPoints := mps } SLCVMap.empty = .ok map2 ∧
          map2.keyFrames.map (fun kf => kf.mnId) = [0, 1] ∧ parentOf map2 1 = some 0) ∧
      (conn 0 1 = some 20 →
        ∃ map2, load conn { KeyFrames := [r1, r0], MapPoints := mps } SLCVMap.empty = .ok map2 ∧
          map2.keyFrames.map (fun kf => kf.mnId) = [1, 0] ∧ parentOf map2 0 = some 1)) :=
  ⟨fun _ conn fuel graph unconKfs hne map => repairLoop_step conn fuel graph unconKfs hne map,
    fun _ conn r0 r1 mps h0 h1 hp hwf =>
      ⟨fun hc => load_two_keyframes conn r0 r1 mps h0 h1 hp hwf hc,
        fun hc => load_two_keyframes_swapped conn r0 r1 mps h0 h1 hp hwf hc⟩⟩

/-- C4, witness: the scenario at `legacyDoc` with the weights `conn20`. -/
theorem load_repair_attaches_max_weight_edge_witness :
    ∃ map2, load conn20 legacyDoc SLCVMap.empty = .ok map2 ∧
      map2.keyFrames.map (fun kf => kf.mnId) = [0, 1] ∧ parentOf map2 1 = some 0 :=
  (load_repair_attaches_max_weight_edge.2 ℚ conn20
    { id := 0, parentId := none, Tcw := 1 } { id := 1, parentId := none, Tcw := 1 }
    legacyDoc.MapPoints rfl rfl rfl (by simp [legacyDoc])).1 rfl

theorem forall₂_filterMap {α β : Type} (f : α → Option β) (l : List α) :
    List.Forall₂ (fun r p => f p = some r) (l.filterMap f)
      (l.filter fun p => (f p).isSome) := by
  induction l with
  | nil => exact List.Forall₂.nil
  | cons a rest ih =>
    cases ha : f a with
    | none =>
      rw [List.filterMap_cons_none ha, List.filter_cons_of_neg (by simp [ha])]
      exact ih
    | some b =>
      rw [List.filterMap_cons_some ha, List.filter_cons_of_pos (by simp [ha])]
      exact List.Forall₂.cons ha ih

/-- The keyframe loop of `save` succeeds when no null parent is dereferenced,
and writes the records of `savedKeyFrame` in the order of the pointers. -/
theorem saveKeyFrames_eq (m : SLCVMap F) (ps : List Nat)
    (h : ∀ p ∈ ps, ∃ kf, m.keyFrames[p]? = some kf ∧
      (kf.mbBad = false → (saveKeyFrame m kf).isSome = true)) :
    saveKeyFrames m ps = some (ps.filterMap (savedKeyFrame m)) := by
  induction ps with
  | nil => rfl
  | cons p rest ih =>
    obtain ⟨kf, hk, hs⟩ := h p (List.mem_cons_self _ _)
    have ih2 := ih (fun q hq => h q (List.mem_cons_of_mem _ hq))
    simp only [saveKeyFrames, hk]
    cases hb : kf.mbBad with
    | true =>
      simp only [if_true]
      rw [ih2, List.filterMap_cons_none]
      simp [savedKeyFrame, hk, hb]
    | false =>
      simp only [Bool.false_eq_true, if_false]
      cases hr : saveKeyFrame m kf with
      | none =>
        have := hs hb
        rw [hr] at this
        cases this
      | some r =>
        simp only
        rw [ih2]
        simp only
        rw [List.filterMap_cons_some]
        simp [savedKeyFrame, hk, hb, hr]

theorem saveMapPoints_eq (m : SLCVMap F) (ps : List Nat)
    (h : ∀ p ∈ ps, ∃ mp, m.mapPoints[p]? = some mp ∧
      (mp.mbBad = false → (saveMapPoint m mp).isSome = true)) :
    saveMapPoints m ps = some (ps.filterMap (savedMapPoint m)) := by
  induction ps with
  | nil => rfl
  | cons p rest ih =>
    obtain ⟨mp, hk, hs⟩ := h p (List.mem_cons_self _ _)
    have ih2 := ih (fun q hq => h q (List.mem_cons_of_mem _ hq))
    simp only [saveMapPoints, hk]
    cases hb : mp.mbBad with
    | true =>
      simp only [if_true]
      rw [ih2, List.filterMap_cons_none]
      simp [savedMapPoint, hk, hb]
    | false =>
      simp only [Bool.false_eq_true, if_false]
      cases hr : saveMapPoint m mp with
      | none =>
        have := hs hb
        rw [hr] at this
        cases this
      | some r =>
        simp only
        rw [ih2]
        simp only
        rw [List.filterMap_cons_some]
        simp [savedMapPoint, hk, hb, hr]

/-- The observation loop of `save`: with valid keyframe pointers it appends to
the two vectors, in step, the ids and the indices of the observations whose
keyframe is not bad. -/
theorem saveObservations_eq (m : SLCVMap F) (obs : List (Nat × Int)) (ids idxs : List Int)
    (h : ∀ o ∈ obs, o.1 < m.keyFrames.length) :
    saveObservations m obs (ids, idxs) =
      some (ids ++ (keptObservations m obs).map Prod.fst,
        idxs ++ (keptObservations m obs).map Prod.snd) := by
  induction obs generalizing ids idxs with
  | nil => simp [saveObservations, keptObservations]
  | cons o rest ih =>
    obtain ⟨p, idx⟩ := o
    have hp : p < m.keyFrames.length := h (p, idx) (List.mem_cons_self _ _)
    have ih2 := fun a b => ih a b (fun o ho => h o (List.mem_cons_of_mem _ ho))
    simp only [saveObservations, List.getElem?_eq_getElem hp]
    cases hb : (m.keyFrames[p]).mbBad with
    | true =>
      simp only [Bool.not_true, Bool.false_eq_true, if_false]
      rw [ih2]
      simp [keptObservations, List.getElem?_eq_getElem hp, hb]
    | false =>
      simp only [Bool.not_false, if_true]
      rw [ih2]
      simp [keptObservations, List.getElem?_eq_getElem hp, hb]

theorem mem_getAllMapPoints (map : SLCVMap F) (p : Nat) :
    p ∈ map.GetAllMapPoints ↔ ∃ mp, map.mapPoints[p]? = some mp ∧ mp.inMap = true := by
  unfold SLCVMap.GetAllMapPoints
  rw [List.mem_filter, List.mem_range]
  constructor
  · rintro ⟨hp, h⟩
    rw [List.getElem?_eq_getElem hp] at h
    exact ⟨_, List.getElem?_eq_getElem hp, h⟩
  · rintro ⟨mp, hk, hin⟩
    have hp : p < map.mapPoints.length := by
      by_contra hc
      rw [List.getElem?_eq_none (by omega)] at hk
      cases hk
    refine ⟨hp, ?_⟩
    rw [hk]
    exact hin

/-- What a record written by the keyframe loop of `save` holds. -/
theorem savedKeyFrame_eq_some (m : SLCVMap F) (p : Nat) (r : KfRecord F)
    (h : savedKeyFrame m p = some r) :
    ∃ kf, m.keyFrames[p]? = some kf ∧ kf.mbBad = false ∧ r.id = kf.mnId ∧ r.Tcw = kf.Tcw ∧
      ((kf.mnId = 0 ∧ r.parentId = some (-1)) ∨
        (kf.mnId ≠ 0 ∧ ∃ q par, kf.mpParent = some q ∧ m.keyFrames[q]? = some par ∧
          r.parentId = some par.mnId)) := by
  unfold savedKeyFrame at h
  cases hk : m.keyFrames[p]? with
  | none => rw [hk] at h; cases h
  | some kf =>
    rw [hk] at h
    simp only at h
    cases hb : kf.mbBad with
    | true => rw [hb] at h; cases h
    | false =>
      rw [hb] at h
      simp only [Bool.false_eq_true, if_false] at h
      refine ⟨kf, rfl, hb, ?_⟩
      unfold saveKeyFrame at h
      by_cases h0 : kf.mnId ≠ 0
      · rw [if_pos h0] at h
        cases hq : kf.mpParent with
        | none => rw [hq] at h; cases h
        | some q =>
          rw [hq] at h
          simp only at h
          cases hpar : m.keyFrames[q]? with
          | none => rw [hpar] at h; cases h
          | some par =>
            rw [hpar] at h
            simp only [Option.some.injEq] at h
            subst h
            exact ⟨rfl, rfl, Or.inr ⟨h0, q, par, rfl, hpar, rfl⟩⟩
      · rw [if_neg h0] at h
        simp only [Option.some.injEq] at h
        subst h
        exact ⟨rfl, rfl, Or.inl ⟨not_not.mp h0, rfl⟩⟩

/-- What a record written by the map-point loop of `save` holds. -/
theorem savedMapPoint_eq_some (m : SLCVMap F) (p : Nat) (r : MpRecord F)
    (h : savedMapPoint m p = some r) :
    ∃ mp, m.mapPoints[p]? = some mp ∧ mp.mbBad = false ∧ saveMapPoint m mp = some r := by
  unfold savedMapPoint at h
  cases hk : m.mapPoints[p]? with
  | none => rw [hk] at h; cases h
  | some mp =>
    rw [hk] at h
    simp only at h
    cases hb : mp.mbBad with
    | true => rw [hb] at h; cases h
    | false =>
      rw [hb] at h
      simp only [Bool.false_eq_true, if_false] at h
      exact ⟨mp, rfl, hb, h⟩

theorem saveMapPoint_eq_some (m : SLCVMap F) (mp : SLCVMapPoint F) (r : MpRecord F)
    (hobs : ∀ o ∈ mp.mObservations, o.1 < m.keyFrames.length)
    (h : saveMapPoint m mp = some r) :
    r.id = mp.mnId ∧ r.mWorldPos = mp.mWorldPos ∧
      r.observingKfIds = (keptObservations m mp.mObservations).map Prod.fst ∧
      r.corrKpIndices = (keptObservations m mp.mObservations).map Prod.snd ∧
      ∃ q ref, mp.mpRefKF = some q ∧ m.keyFrames[q]? = some ref ∧ r.refKfId = ref.mnId := by
  unfold saveMapPoint at h
  rw [saveObservations_eq m _ _ _ hobs] at h
  simp only [List.nil_append] at h
  cases hq : mp.mpRefKF with
  | none => rw [hq] at h; cases h
  | some q =>
    rw [hq] at h
    simp only at h
    cases href : m.keyFrames[q]? with
    | none => rw [href] at h; cases h
    | some ref =>
      rw [href] at h
      simp only [Option.some.injEq] at h
      subst h
      exact ⟨rfl, rfl, rfl, rfl, q, ref, rfl, href, rfl⟩

theorem saveMapPoint_isSome (m : SLCVMap F) (mp : SLCVMapPoint F)
    (hobs : ∀ o ∈ mp.mObservations, o.1 < m.keyFrames.length)
    (href : ∃ q ref, mp.mpRefKF = some q ∧ m.keyFrames[q]? = some ref) :
    (saveMapPoint m mp).isSome = true := by
  obtain ⟨q, ref, hq, hr⟩ := href
  unfold saveMapPoint
  rw [saveObservations_eq m _ _ _ hobs]
  simp only [hq, hr]
  rfl

theorem saveKeyFrame_isSome (m : SLCVMap F) (kf : SLCVKeyFrame F)
    (hpar : kf.mnId ≠ 0 → ∃ q par, kf.mpParent = some q ∧ m.keyFrames[q]? = some par) :
    (saveKeyFrame m kf).isSome = true := by
  unfold saveKeyFrame
  by_cases h0 : kf.mnId ≠ 0
  · obtain ⟨q, par, hq, hp⟩ := hpar h0
    rw [if_pos h0]
    simp only [hq, hp]
    rfl
  · rw [if_neg h0]
    rfl

/-- `save` on a map with a keyframe in which every keyframe that is written
has the parent it needs and every map point that is written has a reference
keyframe and valid observation pointers: the document is the one of
`savedKeyFrame` and `savedMapPoint`. -/
theorem save_eq (m : SLCVMap F) (hkfs : m.GetAllKeyFrames ≠ [])
    (hpar : ∀ p ∈ m.GetAllKeyFrames, ∀ kf, m.keyFrames[p]? = some kf → kf.mbBad = false →
      kf.mnId ≠ 0 → ∃ q par, kf.mpParent = some q ∧ m.keyFrames[q]? = some par)
    (href : ∀ p ∈ m.GetAllMapPoints, ∀ mp, m.mapPoints[p]? = some mp → mp.mbBad = false →
      (∃ q ref, mp.mpRefKF = some q ∧ m.keyFrames[q]? = some ref) ∧
        ∀ o ∈ mp.mObservations, o.1 < m.keyFrames.length) :
    save m = some { KeyFrames := m.GetAllKeyFrames.filterMap (savedKeyFrame m),
                    MapPoints := m.GetAllMapPoints.filterMap (savedMapPoint m) } := by
  unfold save
  simp only
  have hlen : m.GetAllKeyFrames.length ≠ 0 := by
    intro h
    exact hkfs (List.length_eq_zero.mp h)
  rw [if_neg hlen]
  rw [saveKeyFrames_eq m _ (by
    intro p hp
    obtain ⟨kf, hk, _⟩ := (mem_getAllKeyFrames m p).mp hp
    exact ⟨kf, hk, fun hb => saveKeyFrame_isSome m kf (hpar p hp kf hk hb)⟩)]
  simp only
  rw [saveMapPoints_eq m _ (by
    intro p hp
    obtain ⟨mp, hk, _⟩ := (mem_getAllMapPoints m p).mp hp
    exact ⟨mp, hk, fun hb =>
      saveMapPoint_isSome m mp (href p hp mp hk hb).2 (href p hp mp hk hb).1⟩)]

/-- C5 (as amended): for every map with at least one keyframe in which every
non-bad keyframe of the map with an id other than 0 has a parent and every
non-bad map point of the map has a reference keyframe (and its observations
point to keyframe objects), `save` writes a document whose KeyFrames records
are, one for one and in order, those of the non-bad keyframes of the map
(none for a bad one), with `parentId = -1` for id 0 and the parent's id for
every other keyframe, and whose MapPoints records are, one for one, those of
the non-bad map points of the map, each with `observingKfIds` and
`corrKpIndices` of equal length that enumerate, position by position, exactly
the observations (keyframe id, feature index) whose keyframe is not bad. -/
theorem save_writes_nonbad_records (m : SLCVMap F) (hkfs : m.GetAllKeyFrames ≠ [])
    (hpar : ∀ p ∈ m.GetAllKeyFrames, ∀ kf, m.keyFrames[p]? = some kf → kf.mbBad = false →
      kf.mnId ≠ 0 → ∃ q par, kf.mpParent = some q ∧ m.keyFrames[q]? = some par)
    (href : ∀ p ∈ m.GetAllMapPoints, ∀ mp, m.mapPoints[p]? = some mp → mp.mbBad = false →
      (∃ q ref, mp.mpRefKF = some q ∧ m.keyFrames[q]? = some ref) ∧
        ∀ o ∈ mp.mObservations, o.1 < m.keyFrames.length) :
    ∃ doc, save m = some doc ∧
      List.Forall₂
        (fun (r : KfRecord F) (p : Nat) =>
          ∃ kf, m.keyFrames[p]? = some kf ∧ r.id = kf.mnId ∧ r.Tcw = kf.Tcw ∧
            ((kf.mnId = 0 ∧ r.parentId = some (-1)) ∨
              (kf.mnId ≠ 0 ∧ ∃ q par, kf.mpParent = some q ∧ m.keyFrames[q]? = some par ∧
                r.parentId = some par.mnId)))
        doc.KeyFrames (m.GetAllKeyFrames.filter (keyFrameNotBad m)) ∧
      List.Forall₂
        (fun (r : MpRecord F) (p : Nat) =>
          ∃ mp, m.mapPoints[p]? = some mp ∧ r.id = mp.mnId ∧ r.mWorldPos = mp.mWorldPos ∧
            r.observingKfIds.length = r.corrKpIndices.length ∧
            List.zip r.observingKfIds r.corrKpIndices = keptObservations m mp.mObservations)
        doc.MapPoints (m.GetAllMapPoints.filter (mapPointNotBad m)) := by
  refine ⟨_, save_eq m hkfs hpar href, ?_, ?_⟩
  · have hf : m.GetAllKeyFrames.filter (fun p => (savedKeyFrame m p).isSome)
        = m.GetAllKeyFrames.filter (keyFrameNotBad m) := by
      apply List.filter_congr
      intro p hp
      obtain ⟨kf, hk, _⟩ := (mem_getAllKeyFrames m p).mp hp
      unfold savedKeyFrame keyFrameNotBad
      rw [hk]
      simp only
      cases hb : kf.mbBad with
      | true => rfl
      | false => exact saveKeyFrame_isSome m kf (hpar p hp kf hk hb)
    have h2 := forall₂_filterMap (savedKeyFrame m) m.GetAllKeyFrames
    rw [hf] at h2
    refine h2.imp ?_
    intro r p hrp
    obtain ⟨kf, hk, _, h1, h2, h3⟩ := savedKeyFrame_eq_some m p r hrp
    exact ⟨kf, hk, h1, h2, h3⟩
  · have hsome : ∀ p ∈ m.GetAllMapPoints, ∀ r, savedMapPoint m p = some r →
        ∃ mp, m.mapPoints[p]? = some mp ∧ r.id = mp.mnId ∧ r.mWorldPos = mp.mWorldPos ∧
          r.observingKfIds.length = r.corrKpIndices.length ∧
          List.zip r.observingKfIds r.corrKpIndices = keptObservations m mp.mObservations := by
      intro p hp r hr
      obtain ⟨mp, hk, hb, hs⟩ := savedMapPoint_eq_some m p r hr
      obtain ⟨h1, h2, h3, h4, _⟩ := saveMapPoint_eq_some m mp r (href p hp mp hk hb).2 hs
      refine ⟨mp, hk, h1, h2, by rw [h3, h4]; simp, ?_⟩
      rw [h3, h4]
      exact (List.zip_of_prod rfl rfl).symm
    have hf : m.GetAllMapPoints.filter (fun p => (savedMapPoint m p).isSome)
        = m.GetAllMapPoints.filter (mapPointNotBad m) := by
      apply List.filter_congr
      intro p hp
      obtain ⟨mp, hk, _⟩ := (mem_getAllMapPoints m p).mp hp
      unfold savedMapPoint mapPointNotBad
      rw [hk]
      simp only
      cases hb : mp.mbBad with
      | true => rfl
      | false =>
        exact saveMapPoint_isSome m mp (href p hp mp hk hb).2 (href p hp mp hk hb).1
    have h2 := forall₂_filterMap (savedMapPoint m) m.GetAllMapPoints
    rw [hf] at h2
    have hmem : ∀ (l1 : List (MpRecord F)) (l2 : List Nat),
        List.Forall₂ (fun r p => savedMapPoint m p = some r) l1 l2 →
        (∀ p ∈ l2, p ∈ m.GetAllMapPoints) →
        List.Forall₂
          (fun (r : MpRecord F) (p : Nat) =>
            ∃ mp, m.mapPoints[p]? = some mp ∧ r.id = mp.mnId ∧ r.mWorldPos = mp.mWorldPos ∧
              r.observingKfIds.length = r.corrKpIndices.length ∧
              List.zip r.observingKfIds r.corrKpIndices = keptObservations m mp.mObservations)
          l1 l2 := by
      intro l1 l2 hfa
      induction hfa with
      | nil => intro _; exact List.Forall₂.nil
      | cons hab _ ih =>
        intro hl
        exact List.Forall₂.cons (hsome _ (hl _ (List.mem_cons_self _ _)) _ hab)
          (ih (fun p hp => hl p (List.mem_cons_of_mem _ hp)))
    exact hmem _ _ h2 (fun p hp => (List.mem_filter.mp hp).1)

theorem mixedMap_getAllKeyFrames : mixedMap.GetAllKeyFrames = [0, 1, 2] := by decide

theorem mixedMap_getAllMapPoints : mixedMap.GetAllMapPoints = [0, 1] := by decide

theorem mixedMap_parents :
    ∀ p ∈ mixedMap.GetAllKeyFrames, ∀ kf, mixedMap.keyFrames[p]? = some kf → kf.mbBad = false →
      kf.mnId ≠ 0 → ∃ q par, kf.mpParent = some q ∧ mixedMap.keyFrames[q]? = some par := by
  intro p hp kf hk hb h0
  rw [mixedMap_getAllKeyFrames] at hp
  simp only [List.mem_cons, List.mem_singleton, List.not_mem_nil, or_false] at hp
  rcases hp with rfl | rfl | rfl
  · simp only [mixedMap, List.getElem?_cons_zero, Option.some.injEq] at hk
    subst hk
    exact absurd rfl h0
  · simp only [mixedMap, List.getElem?_cons_succ, List.getElem?_cons_zero,
      Option.some.injEq] at hk
    subst hk
    exact ⟨0, _, rfl, rfl⟩
  · simp only [mixedMap, List.getElem?_cons_succ, List.getElem?_cons_zero,
      Option.some.injEq] at hk
    subst hk
    cases hb

theorem mixedMap_refs :
    ∀ p ∈ mixedMap.GetAllMapPoints, ∀ mp, mixedMap.mapPoints[p]? = some mp → mp.mbBad = false →
      (∃ q ref, mp.mpRefKF = some q ∧ mixedMap.keyFrames[q]? = some ref) ∧
        ∀ o ∈ mp.mObservations, o.1 < mixedMap.keyFrames.length := by
  intro p hp mp hk hb
  rw [mixedMap_getAllMapPoints] at hp
  simp only [List.mem_cons, List.mem_singleton, List.not_mem_nil, or_false] at hp
  rcases hp with rfl | rfl
  · simp only [mixedMap, List.getElem?_cons_zero, Option.some.injEq] at hk
    subst hk
    refine ⟨⟨0, _, rfl, rfl⟩, ?_⟩
    intro o ho
    simp only [List.mem_cons, List.mem_singleton, List.not_mem_nil, or_false] at ho
    rcases ho with rfl | rfl | rfl | rfl <;> decide
  · simp only [mixedMap, List.getElem?_cons_succ, List.getElem?_cons_zero,
      Option.some.injEq] at hk
    subst hk
    cases hb

/-- C5, witness: the amended statement at `mixedMap`. -/
theorem save_writes_nonbad_records_witness :
    mixedMap.GetAllKeyFrames ≠ [] ∧
    ∃ doc, save mixedMap = some doc ∧
      List.Forall₂
        (fun (r : KfRecord ℚ) (p : Nat) =>
          ∃ kf, mixedMap.keyFrames[p]? = some kf ∧ r.id = kf.mnId ∧ r.Tcw = kf.Tcw ∧
            ((kf.mnId = 0 ∧ r.parentId = some (-1)) ∨
              (kf.mnId ≠ 0 ∧ ∃ q par, kf.mpParent = some q ∧
                mixedMap.keyFrames[q]? = some par ∧ r.parentId = some par.mnId)))
        doc.KeyFrames (mixedMap.GetAllKeyFrames.filter (keyFrameNotBad mixedMap)) ∧
      List.Forall₂
        (fun (r : MpRecord ℚ) (p : Nat) =>
          ∃ mp, mixedMap.mapPoints[p]? = some mp ∧ r.id = mp.mnId ∧
            r.mWorldPos = mp.mWorldPos ∧
            r.observingKfIds.length = r.corrKpIndices.length ∧
            List.zip r.observingKfIds r.corrKpIndices
              = keptObservations mixedMap mp.mObservations)
        doc.MapPoints (mixedMap.GetAllMapPoints.filter (mapPointNotBad mixedMap)) :=
  ⟨by decide, save_writes_nonbad_records mixedMap (by decide) mixedMap_parents mixedMap_refs⟩

/-- C5, counterexample: `noRefDoc` (keyframe 0 and a map point without
observations whose `refKfId` 5 is the id of no keyframe) loads into a map with
one keyframe and one non-bad map point whose reference keyframe is null; on
that map `save` dereferences the null pointer and writes no record for the
map point. -/
theorem save_fails_without_reference_keyframe :
    ∃ m, load noConn noRefDoc SLCVMap.empty = .ok m ∧
      m.GetAllKeyFrames = [0] ∧ m.GetAllMapPoints = [0] ∧ mapPointNotBad m 0 = true ∧
      (save m).isNone = true := by
  refine ⟨_, rfl, ?_, ?_, ?_, ?_⟩ <;> decide

theorem mapFind_mem {β : Type} (k : Int) (l : List (Int × β)) (v : β)
    (h : mapFind k l = some v) : (k, v) ∈ l := by
  induction l with
  | nil => cases h
  | cons e rest ih =>
    obtain ⟨k2, v2⟩ := e
    simp only [mapFind] at h
    split_ifs at h with hk
    · simp only [Option.some.injEq] at h
      subst h
      subst hk
      exact List.mem_cons_self _ _
    · exact List.mem_cons_of_mem _ (ih h)

theorem mapFind_isSome_of_mem {β : Type} (k : Int) (l : List (Int × β)) (v : β)
    (h : (k, v) ∈ l) : ∃ v2, mapFind k l = some v2 := by
  induction l with
  | nil => cases h
  | cons e rest ih =>
    obtain ⟨k2, v2⟩ := e
    simp only [mapFind]
    by_cases hk : k = k2
    · exact ⟨v2, by rw [if_pos hk]⟩
    · rw [if_neg hk]
      rcases List.mem_cons.mp h with h1 | h1
      · simp only [Prod.mk.injEq] at h1
        exact absurd h1.1 hk
      · exact ih h1

/-- The step of the first loop of `loadKeyFrames`, with the new object
written out. -/
theorem loadKeyFrameRecords_cons (r : KfRecord F) (rest : List (KfRecord F)) (map : SLCVMap F)
    (km : List (Int × Nat)) (pm : List (Int × Int)) :
    ∃ map2 : SLCVMap F, map2.keyFrames = map.keyFrames ++ [newKeyFrame r] ∧
      map2.mapPoints = map.mapPoints ∧
      loadKeyFrameRecords (r :: rest) (map, km, pm) =
        loadKeyFrameRecords rest (map2, (r.id, map.keyFrames.length) :: km,
          match r.parentId with
          | some parentId => (r.id, parentId) :: pm
          | none => pm) := by
  refine ⟨SLCVMap.AddKeyFrame
      { map with keyFrames := map.keyFrames ++
          [{ mnId := r.id, Tcw := r.Tcw, mbBad := false, mpParent := none, inMap := false }] }
      map.keyFrames.length, ?_, ?_, rfl⟩
  · unfold SLCVMap.AddKeyFrame
    simp only [List.getElem?_concat_length, set_append_singleton, newKeyFrame]
  · unfold SLCVMap.AddKeyFrame
    simp only [List.getElem?_concat_length]

/-- The bindings of `_kfsMap` after the first loop of `loadKeyFrames`: the
earlier ones, and `(id of record j, address of its object)` for every record. -/
theorem mem_kfsMap (rs : List (KfRecord F)) (map : SLCVMap F) (km : List (Int × Nat))
    (pm : List (Int × Int)) (id : Int) (i : Nat) :
    (id, i) ∈ (loadKeyFrameRecords rs (map, km, pm)).2.1 ↔
      (id, i) ∈ km ∨
        ∃ r, map.keyFrames.length ≤ i ∧ rs[i - map.keyFrames.length]? = some r ∧ r.id = id := by
  induction rs generalizing map km pm with
  | nil => simp [loadKeyFrameRecords]
  | cons r rest ih =>
    obtain ⟨map2, hk2, _, hstep⟩ := loadKeyFrameRecords_cons r rest map km pm
    rw [hstep, ih]
    have hlen : map2.keyFrames.length = map.keyFrames.length + 1 := by
      rw [hk2]; simp
    rw [hlen]
    constructor
    · rintro (h | ⟨r2, hle, hr2, hid⟩)
      · rcases List.mem_cons.mp h with h1 | h1
        · simp only [Prod.mk.injEq] at h1
          obtain ⟨rfl, rfl⟩ := h1
          exact Or.inr ⟨r, le_refl _, by simp, rfl⟩
        · exact Or.inl h1
      · refine Or.inr ⟨r2, by omega, ?_, hid⟩
        have : i - map.keyFrames.length = (i - (map.keyFrames.length + 1)) + 1 := by omega
        rw [this, List.getElem?_cons_succ]
        exact hr2
    · rintro (h | ⟨r2, hle, hr2, hid⟩)
      · exact Or.inl (List.mem_cons_of_mem _ h)
      · by_cases hi : i = map.keyFrames.length
        · subst hi
          simp only [Nat.sub_self, List.getElem?_cons_zero, Option.some.injEq] at hr2
          subst hr2
          subst hid
          exact Or.inl (List.mem_cons_self _ _)
        · refine Or.inr ⟨r2, by omega, ?_, hid⟩
          have : i - map.keyFrames.length = (i - (map.keyFrames.length + 1)) + 1 := by omega
          rw [this, List.getElem?_cons_succ] at hr2
          exact hr2

/-- The bindings of `parentIdMap` after the first loop of `loadKeyFrames`. -/
theorem mem_parentIdMap (rs : List (KfRecord F)) (map : SLCVMap F) (km : List (Int × Nat))
    (pm : List (Int × Int)) (id pid : Int) :
    (id, pid) ∈ (loadKeyFrameRecords rs (map, km, pm)).2.2 ↔
      (id, pid) ∈ pm ∨ ∃ r ∈ rs, r.id = id ∧ r.parentId = some pid := by
  induction rs generalizing map km pm with
  | nil => simp [loadKeyFrameRecords]
  | cons r rest ih =>
    obtain ⟨map2, _, _, hstep⟩ := loadKeyFrameRecords_cons r rest map km pm
    rw [hstep, ih]
    cases hp : r.parentId with
    | none =>
      simp only [List.mem_cons, exists_eq_or_imp, hp]
      constructor
      · rintro (h | h)
        · exact Or.inl h
        · exact Or.inr (Or.inr h)
      · rintro (h | h | h)
        · exact Or.inl h
        · exact absurd h.2 (by simp)
        · exact Or.inr h
    | some pid2 =>
      simp only [List.mem_cons, Prod.mk.injEq, exists_eq_or_imp, hp, Option.some.injEq]
      constructor
      · rintro ((⟨h1, h2⟩ | h) | h)
        · exact Or.inr (Or.inl ⟨h1.symm, h2.symm⟩)
        · exact Or.inl h
        · exact Or.inr (Or.inr h)
      · rintro (h | ⟨h1, h2⟩ | h)
        · exact Or.inl (Or.inr h)
        · exact Or.inl (Or.inl ⟨h1.symm, h2.symm⟩)
        · exact Or.inr h

theorem addObservation_of_not_mem (obs : List (Nat × Int)) (kf : Nat) (idx : Int)
    (h : kf ∉ obs.map Prod.fst) : AddObservation obs kf idx = obs ++ [(kf, idx)] := by
  unfold AddObservation
  have : obs.any (fun o => o.1 == kf) = false := by
    rw [Bool.eq_false_iff]
    intro hany
    rw [List.any_eq_true] at hany
    obtain ⟨o, ho, hok⟩ := hany
    simp only [beq_iff_eq] at hok
    exact h (List.mem_map.mpr ⟨o, ho, hok⟩)
  rw [this]
  rfl

theorem foldl_addObservation (found obs0 : List (Nat × Int))
    (h : (obs0.map Prod.fst ++ found.map Prod.fst).Nodup) :
    found.foldl (fun obs o => AddObservation obs o.1 o.2) obs0 = obs0 ++ found := by
  induction found generalizing obs0 with
  | nil => simp
  | cons o rest ih =>
    simp only [List.foldl_cons]
    have hnot : o.1 ∉ obs0.map Prod.fst := by
      intro hmem
      rw [List.nodup_append] at h
      exact h.2.2 hmem (by simp)
    rw [addObservation_of_not_mem _ _ _ hnot, ih]
    · simp
    · simp only [List.map_append, List.map_cons, List.map_nil, List.append_assoc,
        List.singleton_append]
      simpa using h

/-- The observation loop of `loadMapPoints` from position `i` on, when every
observing id from there has an index. -/
theorem loadObservations_eq (km : List (Int × Nat)) (corr : List Int) (ids : List Int) (i : Nat)
    (obs0 : List (Nat × Int)) (h : i + ids.length ≤ corr.length) :
    loadObservations km corr ids i obs0 =
      .ok ((foundObservations km (List.zip ids (corr.drop i))).foldl
        (fun obs o => AddObservation obs o.1 o.2) obs0) := by
  induction ids generalizing i obs0 with
  | nil => simp [loadObservations, foundObservations]
  | cons kfId rest ih =>
    simp only [List.length_cons] at h
    have hi : i < corr.length := by omega
    have hdrop : corr.drop i = corr[i] :: corr.drop (i + 1) := List.drop_eq_getElem_cons hi
    simp only [loadObservations, List.getElem?_eq_getElem hi]
    rw [hdrop, List.zip_cons_cons]
    cases hf : mapFind kfId km with
    | none =>
      simp only
      rw [ih (i + 1) obs0 (by omega)]
      simp [foundObservations, hf]
    | some kf =>
      simp only
      rw [ih (i + 1) _ (by omega)]
      simp [foundObservations, hf]

theorem loadMapPoints_eq (km : List (Int × Nat)) (rs : List (MpRecord F)) (map : SLCVMap F)
    (hwf : ∀ r ∈ rs, r.observingKfIds.length ≤ r.corrKpIndices.length) :
    loadMapPoints km rs map =
      .ok { map with mapPoints := map.mapPoints ++ rs.map (loadedMapPoint km) } := by
  induction rs generalizing map with
  | nil => simp [loadMapPoints]
  | cons r rest ih =>
    have hr := hwf r (List.mem_cons_self _ _)
    have hobs := loadObservations_eq km r.corrKpIndices r.observingKfIds 0 [] (by omega)
    simp only [loadMapPoints]
    rw [hobs]
    simp only [addMapPoint_append]
    rw [ih _ (fun r2 hr2 => hwf r2 (List.mem_cons_of_mem _ hr2))]
    simp only [List.map_cons, List.append_assoc, List.singleton_append, Except.ok.injEq]
    congr 2
    simp only [loadedMapPoint, loadedObservations, hobs]

theorem mem_addObservation (obs : List (Nat × Int)) (kf : Nat) (idx : Int) (x : Nat × Int)
    (h : ∀ a ∈ obs, a.1 = kf → a.2 = idx) :
    x ∈ AddObservation obs kf idx ↔ x ∈ obs ∨ x = (kf, idx) := by
  unfold AddObservation
  by_cases hany : obs.any (fun o => o.1 == kf) = true
  · rw [if_pos hany]
    rw [List.any_eq_true] at hany
    obtain ⟨o, ho, hok⟩ := hany
    simp only [beq_iff_eq] at hok
    constructor
    · exact Or.inl
    · rintro (hx | hx)
      · exact hx
      · have ho2 : o = (kf, idx) := Prod.ext hok (h o ho hok)
        rw [hx, ← ho2]
        exact ho
  · rw [if_neg hany]
    simp [List.mem_append]

/-- The observations left by a run of `AddObservation` calls in which every
keyframe comes with one index only: those there before and those added. -/
theorem mem_foldl_addObservation (found obs0 : List (Nat × Int)) (x : Nat × Int)
    (h : ∀ a ∈ obs0 ++ found, ∀ b ∈ obs0 ++ found, a.1 = b.1 → a.2 = b.2) :
    x ∈ found.foldl (fun obs o => AddObservation obs o.1 o.2) obs0 ↔ x ∈ obs0 ∨ x ∈ found := by
  induction found generalizing obs0 with
  | nil => simp
  | cons o rest ih =>
    simp only [List.foldl_cons]
    have hadd : ∀ y, y ∈ AddObservation obs0 o.1 o.2 ↔ y ∈ obs0 ∨ y = o := by
      intro y
      exact mem_addObservation obs0 o.1 o.2 y
        (fun a ha ha1 => h a (by simp [ha]) o (by simp) ha1)
    have hsub : ∀ y, y ∈ AddObservation obs0 o.1 o.2 ++ rest → y ∈ obs0 ++ o :: rest := by
      intro y hy
      rw [List.mem_append, hadd] at hy
      simp only [List.mem_append, List.mem_cons]
      tauto
    rw [ih _ (fun a ha b hb => h a (hsub a ha) b (hsub b hb)), hadd]
    simp only [List.mem_cons]
    tauto

theorem getAllMapPoints_eq_range (map : SLCVMap F)
    (h : ∀ mp ∈ map.mapPoints, mp.inMap = true) :
    map.GetAllMapPoints = List.range map.mapPoints.length := by
  unfold SLCVMap.GetAllMapPoints
  rw [List.filter_eq_self]
  intro p hp
  rw [List.mem_range] at hp
  rw [List.getElem?_eq_getElem hp]
  exact h _ (List.getElem_mem _)

/-- A relation between two lists, position by position, read on the positions
of the first list. -/
theorem forall₂_range {α β : Type} (S : α → β → Prop) (l : List α) (l2 : List β)
    (h : List.Forall₂ S l l2) :
    List.Forall₂ (fun i b => ∃ a, l[i]? = some a ∧ S a b) (List.range l.length) l2 := by
  rw [List.forall₂_iff_get] at h ⊢
  obtain ⟨hlen, hget⟩ := h
  refine ⟨by rw [List.length_range]; exact hlen, ?_⟩
  intro i h1 h2
  rw [List.length_range] at h1
  refine ⟨l[i], ?_, ?_⟩
  · simp [List.getElem?_eq_getElem h1]
  · exact hget i h1 h2

/-- The bindings of `_kfsMap` after `loadKeyFrames` into an empty map: the id
of record `i` is bound to the address `i`. -/
theorem mem_loadKeyFrames_kfsMap (doc : Document F) (id : Int) (i : Nat) :
    (id, i) ∈ (loadKeyFrames doc SLCVMap.empty).2 ↔
      ∃ r, doc.KeyFrames[i]? = some r ∧ r.id = id := by
  rw [loadKeyFrames_eq]
  simp only
  rw [mem_kfsMap]
  simp [SLCVMap.empty]

theorem mapFind_loadKeyFrames_kfsMap (doc : Document F) (id : Int) (i : Nat)
    (h : mapFind id (loadKeyFrames doc SLCVMap.empty).2 = some i) :
    ∃ r, doc.KeyFrames[i]? = some r ∧ r.id = id :=
  (mem_loadKeyFrames_kfsMap doc id i).mp (mapFind_mem _ _ _ h)

theorem mapFind_loadKeyFrames_isSome (doc : Document F) (r : KfRecord F)
    (h : r ∈ doc.KeyFrames) : ∃ i, mapFind r.id (loadKeyFrames doc SLCVMap.empty).2 = some i := by
  obtain ⟨i, hi, hr⟩ := List.getElem_of_mem h
  exact mapFind_isSome_of_mem _ _ i
    ((mem_loadKeyFrames_kfsMap doc r.id i).mpr ⟨r, by rw [List.getElem?_eq_getElem hi, hr], rfl⟩)

/-- With a parent id in every record of a keyframe other than 0, and a record
under each such parent id, `setParents` gives every such keyframe a parent. -/
theorem resolveParent_isSome (doc : Document F) (r : KfRecord F) (hr : r ∈ doc.KeyFrames)
    (h0 : r.id ≠ 0)
    (hpar : ∀ r ∈ doc.KeyFrames, r.id ≠ 0 →
      ∃ pid, r.parentId = some pid ∧ ∃ r2 ∈ doc.KeyFrames, r2.id = pid) :
    resolveParent (loadKeyFrameRecords doc.KeyFrames (SLCVMap.empty, [], [])).2.1
      (loadKeyFrameRecords doc.KeyFrames (SLCVMap.empty, [], [])).2.2 (newKeyFrame r) ≠ none := by
  obtain ⟨pid, hpid, _⟩ := hpar r hr h0
  have hmem : (r.id, pid) ∈ (loadKeyFrameRecords doc.KeyFrames (SLCVMap.empty, [], [])).2.2 :=
    (mem_parentIdMap _ _ _ _ _ _).mpr (Or.inr ⟨r, hr, rfl, hpid⟩)
  obtain ⟨pid2, hfind⟩ := mapFind_isSome_of_mem _ _ _ hmem
  have hmem2 := (mem_parentIdMap _ _ _ _ _ _).mp (mapFind_mem _ _ _ hfind)
  simp only [List.not_mem_nil, false_or] at hmem2
  obtain ⟨r2, hr2, hid2, hp2⟩ := hmem2
  obtain ⟨pid3, hp3, r3, hr3, hid3⟩ := hpar r2 hr2 (by rw [hid2]; exact h0)
  rw [hp2, Option.some.injEq] at hp3
  obtain ⟨i, hi⟩ := mapFind_loadKeyFrames_isSome doc r3 hr3
  rw [hid3, ← hp3, loadKeyFrames_eq] at hi
  simp only at hi
  unfold resolveParent
  have hid : (newKeyFrame r).mnId = r.id := rfl
  rw [hid, if_pos h0, hfind]
  simp only [hi]
  exact Option.some_ne_none _

/-- Loading a document that has a record with id 0, in which every record of
another id names a parent id that some record carries, and every map-point
record has an index per observing id: `load` completes without the repair
loop, and the map is the one `loadKeyFrames` leaves plus one map point per
record. -/
theorem load_without_repair (conn : Nat → Nat → Option Int) (doc : Document F)
    (hroot : ∃ r ∈ doc.KeyFrames, r.id = 0)
    (hpar : ∀ r ∈ doc.KeyFrames, r.id ≠ 0 →
      ∃ pid, r.parentId = some pid ∧ ∃ r2 ∈ doc.KeyFrames, r2.id = pid)
    (hwf : ∀ r ∈ doc.MapPoints, r.observingKfIds.length ≤ r.corrKpIndices.length) :
    load conn doc SLCVMap.empty =
      .ok { (loadKeyFrames doc SLCVMap.empty).1 with
            mapPoints := (loadKeyFrames doc SLCVMap.empty).1.mapPoints ++
              doc.MapPoints.map (loadedMapPoint (loadKeyFrames doc SLCVMap.empty).2) } := by
  have hm := loadMapPoints_eq (loadKeyFrames doc SLCVMap.empty).2 doc.MapPoints
    (loadKeyFrames doc SLCVMap.empty).1 hwf
  obtain ⟨_, _, hload⟩ := load_of_loadMapPoints conn doc _ hm
  rw [hload]
  cases hsc : scanKeyFrames (loadKeyFrames doc SLCVMap.empty).1
      (List.range doc.KeyFrames.length) (none, false) with
  | mk f b =>
    have hf : (scanKeyFrames (loadKeyFrames doc SLCVMap.empty).1
      (List.range doc.KeyFrames.length) (none, false)).1 = f := by rw [hsc]
    have hb : (scanKeyFrames (loadKeyFrames doc SLCVMap.empty).1
      (List.range doc.KeyFrames.length) (none, false)).2 = b := by rw [hsc]
    have hbf : b = false := by
      rw [← hb, Bool.eq_false_iff]
      intro htrue
      rw [scanKeyFrames_snd] at htrue
      rcases htrue with h | ⟨p, _, kf, hk, hid, hnone⟩
      · cases h
      · rw [loadKeyFrames_getElem?] at hk
        cases hrec : doc.KeyFrames[p]? with
        | none => rw [hrec] at hk; cases hk
        | some r =>
          rw [hrec, Option.map_some', Option.some.injEq] at hk
          subst hk
          exact resolveParent_isSome doc r (List.getElem?_mem hrec) hid hpar hnone
    cases f with
    | none =>
      exfalso
      rw [scanKeyFrames_fst_eq_none] at hf
      obtain ⟨r, hr, hid⟩ := hroot
      obtain ⟨i, hi, hri⟩ := List.getElem_of_mem hr
      have hk := loadKeyFrames_getElem? doc i
      rw [List.getElem?_eq_getElem hi, hri, Option.map_some'] at hk
      exact hf.2 i (List.mem_range.mpr hi) _ hk hid
    | some firstKF =>
      simp only [hbf, Bool.false_eq_true, if_false]

theorem setParents_mapPoints (km : List (Int × Nat)) (pm : List (Int × Int)) (ps : List Nat)
    (map : SLCVMap F) : (setParents km pm ps map).mapPoints = map.mapPoints := by
  induction ps generalizing map with
  | nil => rfl
  | cons p rest ih =>
    simp only [setParents]
    split
    · exact ih map
    · split
      · split
        · split
          · rw [ih]
            exact (changeParent_same map p _).1
          · exact ih map
        · exact ih map
      · exact ih map

theorem loadKeyFrames_mapPoints (doc : Document F) :
    (loadKeyFrames doc SLCVMap.empty).1.mapPoints = [] := by
  rw [loadKeyFrames_eq]
  simp only
  rw [setParents_mapPoints, (loadKeyFrameRecords_keyFrames _ _ _ _).2]
  rfl

/-- The keyframe object `loadKeyFrames` leaves at the address of a record:
it has the id and the pose of the record, is not bad and is in the map. -/
theorem loadKeyFrames_getElem?_some (doc : Document F) (i : Nat) (r : KfRecord F)
    (h : doc.KeyFrames[i]? = some r) :
    ∃ kf, (loadKeyFrames doc SLCVMap.empty).1.keyFrames[i]? = some kf ∧ kf.mnId = r.id ∧
      kf.Tcw = r.Tcw ∧ kf.mbBad = false ∧ kf.inMap = true := by
  rw [loadKeyFrames_getElem?, h]
  exact ⟨_, rfl, rfl, rfl, rfl, rfl⟩

theorem filterMap_range_getElem? {α β : Type} (g : α → Option β) (l : List α) :
    (List.range l.length).filterMap (fun i => (l[i]?).bind g) = l.filterMap g := by
  induction l using List.reverseRecOn with
  | nil => rfl
  | append_singleton l a ih =>
    rw [List.length_append, List.length_singleton, List.range_succ, List.filterMap_append,
      List.filterMap_append]
    congr 1
    · rw [← ih]
      apply List.filterMap_congr
      intro i hi
      rw [List.mem_range] at hi
      rw [List.getElem?_append_left hi]
    · have hget : (l ++ [a])[l.length]? = some a := by
        rw [List.getElem?_append_right (le_refl _), Nat.sub_self]
        rfl
      simp only [List.filterMap_cons, hget, Option.some_bind, List.filterMap_nil]

theorem forall₂_and_right {α β : Type} (R : α → β → Prop) (P : β → Prop) (l1 : List α)
    (l2 : List β) (h : List.Forall₂ R l1 l2) (hP : ∀ b ∈ l2, P b) :
    List.Forall₂ (fun a b => P b ∧ R a b) l1 l2 := by
  induction h with
  | nil => exact List.Forall₂.nil
  | cons hab _ ih =>
    exact List.Forall₂.cons ⟨hP _ (List.mem_cons_self _ _), hab⟩
      (ih (fun b hb => hP b (List.mem_cons_of_mem _ hb)))

theorem mem_keptObservations (m : SLCVMap F) (obs : List (Nat × Int)) (id idx : Int) :
    (id, idx) ∈ keptObservations m obs ↔
      ∃ o ∈ obs, ∃ kf, m.keyFrames[o.1]? = some kf ∧ kf.mbBad = false ∧ kf.mnId = id ∧
        o.2 = idx := by
  unfold keptObservations
  rw [List.mem_filterMap]
  constructor
  · rintro ⟨o, ho, h⟩
    cases hk : m.keyFrames[o.1]? with
    | none => rw [hk] at h; cases h
    | some kf =>
      rw [hk] at h
      simp only at h
      cases hb : kf.mbBad with
      | true => rw [hb] at h; cases h
      | false =>
        rw [hb] at h
        simp only [Bool.false_eq_true, if_false, Option.some.injEq, Prod.mk.injEq] at h
        exact ⟨o, ho, kf, hk, hb, h.1, h.2⟩
  · rintro ⟨o, ho, kf, hk, hb, h1, h2⟩
    refine ⟨o, ho, ?_⟩
    rw [hk]
    simp only [hb, Bool.false_eq_true, if_false, h1, h2]

theorem mem_foundObservations (km : List (Int × Nat)) (pairs : List (Int × Int)) (ptr : Nat)
    (idx : Int) :
    (ptr, idx) ∈ foundObservations km pairs ↔
      ∃ id, (id, idx) ∈ pairs ∧ mapFind id km = some ptr := by
  unfold foundObservations
  rw [List.mem_filterMap]
  constructor
  · rintro ⟨x, hx, h⟩
    cases hf : mapFind x.1 km with
    | none => rw [hf] at h; cases h
    | some kf =>
      rw [hf] at h
      simp only [Option.some.injEq, Prod.mk.injEq] at h
      refine ⟨x.1, ?_, ?_⟩
      · rw [← h.2]
        exact hx
      · rw [hf, h.1]
  · rintro ⟨id, hx, hf⟩
    refine ⟨(id, idx), hx, ?_⟩
    simp only [hf]

theorem mem_keyFrameLinks (m : SLCVMap F) (obs : List (Nat × Int)) (l : Int × Int) :
    l ∈ keyFrameLinks m obs ↔
      ∃ o ∈ obs, ∃ kf, m.keyFrames[o.1]? = some kf ∧ kf.mbBad = false ∧ kf.inMap = true ∧
        l = (kf.mnId, o.2) := by
  unfold keyFrameLinks
  rw [List.mem_filterMap]
  constructor
  · rintro ⟨o, ho, h⟩
    cases hk : m.keyFrames[o.1]? with
    | none => rw [hk] at h; cases h
    | some kf =>
      rw [hk] at h
      simp only at h
      by_cases hc : (!kf.mbBad && kf.inMap) = true
      · rw [if_pos hc, Option.some.injEq] at h
        simp only [Bool.and_eq_true, Bool.not_eq_true'] at hc
        exact ⟨o, ho, kf, hk, hc.1, hc.2, h.symm⟩
      · rw [if_neg hc] at h
        cases h
  · rintro ⟨o, ho, kf, hk, hb, hin, hl⟩
    refine ⟨o, ho, ?_⟩
    rw [hk]
    simp only [hb, hin, Bool.not_false, Bool.and_self, if_true, hl]

theorem eq_of_nodup_fst (l : List (Nat × Int)) (h : (l.map Prod.fst).Nodup) (a b : Nat × Int)
    (ha : a ∈ l) (hb : b ∈ l) (hab : a.1 = b.1) : a = b := by
  induction l with
  | nil => cases ha
  | cons x rest ih =>
    rw [List.map_cons, List.nodup_cons] at h
    rw [List.mem_cons] at ha hb
    rcases ha with rfl | ha <;> rcases hb with rfl | hb
    · rfl
    · exact absurd (List.mem_map.mpr ⟨b, hb, hab.symm⟩) h.1
    · exact absurd (List.mem_map.mpr ⟨a, ha, hab⟩) h.1
    · exact ih h.2 ha hb

/-- The links of a map point after `save` and `load`: when the keyframe
objects have distinct ids and the document has a keyframe record exactly for
the non-bad keyframes of the map, the loaded observations link the ids and
indices of the observations whose keyframe is not bad and in the map. -/
theorem keyFrameLinks_round_trip (m : SLCVMap F) (doc : Document F) (map2 : SLCVMap F)
    (hk2 : map2.keyFrames = (loadKeyFrames doc SLCVMap.empty).1.keyFrames)
    (hids : ∀ (p q : Nat) (kp kq : SLCVKeyFrame F), m.keyFrames[p]? = some kp →
      m.keyFrames[q]? = some kq → kp.mnId = kq.mnId → p = q)
    (hd1 : ∀ r ∈ doc.KeyFrames, ∃ p ∈ m.GetAllKeyFrames, ∃ kf,
      m.keyFrames[p]? = some kf ∧ r.id = kf.mnId)
    (hd2 : ∀ p ∈ m.GetAllKeyFrames, ∀ kf, m.keyFrames[p]? = some kf → kf.mbBad = false →
      ∃ r ∈ doc.KeyFrames, r.id = kf.mnId)
    (obs : List (Nat × Int)) (hnd : (obs.map Prod.fst).Nodup) (r : MpRecord F)
    (h1 : r.observingKfIds = (keptObservations m obs).map Prod.fst)
    (h2 : r.corrKpIndices = (keptObservations m obs).map Prod.snd) (l : Int × Int) :
    l ∈ keyFrameLinks map2 (loadedObservations (loadKeyFrames doc SLCVMap.empty).2 r) ↔
      l ∈ keyFrameLinks m obs := by
  have hzip : List.zip r.observingKfIds r.corrKpIndices = keptObservations m obs := by
    rw [h1, h2]
    exact (List.zip_of_prod rfl rfl).symm
  have hlo := loadObservations_eq (loadKeyFrames doc SLCVMap.empty).2 r.corrKpIndices
    r.observingKfIds 0 [] (by rw [h1, h2]; simp)
  rw [List.drop_zero, hzip] at hlo
  have hfun : ∀ a ∈ foundObservations (loadKeyFrames doc SLCVMap.empty).2
        (keptObservations m obs),
      ∀ b ∈ foundObservations (loadKeyFrames doc SLCVMap.empty).2 (keptObservations m obs),
      a.1 = b.1 → a.2 = b.2 := by
    rintro ⟨pa, ia⟩ ha ⟨pb, ib⟩ hb hab
    simp only at hab
    subst hab
    obtain ⟨ida, hka, hfa⟩ := (mem_foundObservations _ _ _ _).mp ha
    obtain ⟨idb, hkb, hfb⟩ := (mem_foundObservations _ _ _ _).mp hb
    obtain ⟨ra, hra, hia⟩ := mapFind_loadKeyFrames_kfsMap doc _ _ hfa
    obtain ⟨rb, hrb, hib⟩ := mapFind_loadKeyFrames_kfsMap doc _ _ hfb
    rw [hra, Option.some.injEq] at hrb
    subst hrb
    obtain ⟨oa, hoa, kfa, hkfa, _, hida, hidxa⟩ := (mem_keptObservations _ _ _ _).mp hka
    obtain ⟨ob, hob, kfb, hkfb, _, hidb, hidxb⟩ := (mem_keptObservations _ _ _ _).mp hkb
    have hp : oa.1 = ob.1 := hids _ _ _ _ hkfa hkfb (by rw [hida, hidb, ← hia, ← hib])
    have ho := eq_of_nodup_fst obs hnd oa ob hoa hob hp
    simp only
    rw [← hidxa, ← hidxb, ho]
  have hmem : ∀ x, x ∈ loadedObservations (loadKeyFrames doc SLCVMap.empty).2 r ↔
      x ∈ foundObservations (loadKeyFrames doc SLCVMap.empty).2 (keptObservations m obs) := by
    intro x
    unfold loadedObservations
    rw [hlo]
    simp only
    rw [mem_foldl_addObservation _ _ _ (by simpa using hfun)]
    simp
  rw [mem_keyFrameLinks, mem_keyFrameLinks]
  constructor
  · rintro ⟨⟨ptr, idx⟩, ho2, kf2, hkf2, _, _, hl⟩
    rw [hmem] at ho2
    obtain ⟨id, hkept, hfind⟩ := (mem_foundObservations _ _ _ _).mp ho2
    obtain ⟨r2, hr2, hid2⟩ := mapFind_loadKeyFrames_kfsMap doc _ _ hfind
    obtain ⟨kf3, hkf3, hid3, _⟩ := loadKeyFrames_getElem?_some doc ptr r2 hr2
    rw [hk2] at hkf2
    simp only at hkf2
    rw [hkf3, Option.some.injEq] at hkf2
    subst hkf2
    obtain ⟨o, ho, kf, hkf, hb, hid, hidx⟩ := (mem_keptObservations _ _ _ _).mp hkept
    obtain ⟨p, hp, kfp, hkfp, hidp⟩ := hd1 r2 (List.getElem?_mem hr2)
    have hop : o.1 = p := hids _ _ _ _ hkf hkfp (by rw [hid, ← hid2, hidp])
    obtain ⟨kfq, hkfq, hin⟩ := (mem_getAllKeyFrames m p).mp hp
    rw [← hop, hkf, Option.some.injEq] at hkfq
    subst hkfq
    refine ⟨o, ho, kf, hkf, hb, hin, ?_⟩
    rw [hl]
    simp only
    rw [hid3, hid2, hid, hidx]
  · rintro ⟨o, ho, kf, hkf, hb, hin, hl⟩
    have hp : o.1 ∈ m.GetAllKeyFrames := (mem_getAllKeyFrames m o.1).mpr ⟨kf, hkf, hin⟩
    obtain ⟨r2, hr2, hid2⟩ := hd2 o.1 hp kf hkf hb
    obtain ⟨ptr, hfind⟩ := mapFind_loadKeyFrames_isSome doc r2 hr2
    obtain ⟨r3, hr3, hid3⟩ := mapFind_loadKeyFrames_kfsMap doc _ _ hfind
    obtain ⟨kf3, hkf3, hid4, _, hb3, hin3⟩ := loadKeyFrames_getElem?_some doc ptr r3 hr3
    refine ⟨(ptr, o.2), ?_, kf3, ?_, hb3, hin3, ?_⟩
    · rw [hmem]
      exact (mem_foundObservations _ _ _ _).mpr
        ⟨r2.id, (mem_keptObservations _ _ _ _).mpr ⟨o, ho, kf, hkf, hb, hid2.symm, rfl⟩, hfind⟩
    · rw [hk2]
      exact hkf3
    · rw [hl, hid4, hid3, hid2]

theorem eq_of_nodup_ids (m : SLCVMap F)
    (h : (m.keyFrames.map fun kf => kf.mnId).Nodup) (p q : Nat) (kp kq : SLCVKeyFrame F)
    (hp : m.keyFrames[p]? = some kp) (hq : m.keyFrames[q]? = some kq)
    (hid : kp.mnId = kq.mnId) : p = q := by
  have hpl : p < m.keyFrames.length := by
    by_contra hc
    rw [List.getElem?_eq_none (by omega)] at hp
    cases hp
  have hql : q < m.keyFrames.length := by
    by_contra hc
    rw [List.getElem?_eq_none (by omega)] at hq
    cases hq
  rw [List.getElem?_eq_getElem hpl, Option.some.injEq] at hp
  rw [List.getElem?_eq_getElem hql, Option.some.injEq] at hq
  have hpl2 : p < (m.keyFrames.map fun kf => kf.mnId).length := by
    rw [List.length_map]
    exact hpl
  have hql2 : q < (m.keyFrames.map fun kf => kf.mnId).length := by
    rw [List.length_map]
    exact hql
  have heq : (m.keyFrames.map fun kf => kf.mnId)[p] = (m.keyFrames.map fun kf => kf.mnId)[q] := by
    rw [List.getElem_map, List.getElem_map, hp, hq]
    exact hid
  exact (h.getElem_inj_iff).mp heq

/-- The ids and poses of the keyframes of a loaded map: those of the records
of the document, in order. -/
theorem keyFramePoses_load (doc : Document F) (map2 : SLCVMap F)
    (hk2 : map2.keyFrames = (loadKeyFrames doc SLCVMap.empty).1.keyFrames) :
    keyFramePoses map2 = doc.KeyFrames.filterMap (fun r => some (r.id, r.Tcw)) := by
  unfold keyFramePoses
  rw [getAllKeyFrames_congr map2 _ hk2, getAllKeyFrames_eq_range _ (loadKeyFrames_inMap doc),
    loadKeyFrames_length,
    ← filterMap_range_getElem? (fun r => some (r.id, r.Tcw)) doc.KeyFrames]
  apply List.filterMap_congr
  intro p _
  rw [hk2, loadKeyFrames_getElem?]
  cases doc.KeyFrames[p]? with
  | none => rfl
  | some r => rfl

/-- The ids and poses in the keyframe records `save` writes: those of the
non-bad keyframes of the map. -/
theorem keyFramePoses_save (m : SLCVMap F)
    (hpar : ∀ p ∈ m.GetAllKeyFrames, ∀ kf, m.keyFrames[p]? = some kf → kf.mbBad = false →
      kf.mnId ≠ 0 → ∃ q par, kf.mpParent = some q ∧ m.keyFrames[q]? = some par) :
    (m.GetAllKeyFrames.filterMap (savedKeyFrame m)).filterMap (fun r => some (r.id, r.Tcw)) =
      keyFramePoses m := by
  unfold keyFramePoses
  rw [List.filterMap_filterMap]
  apply List.filterMap_congr
  intro p hp
  obtain ⟨kf, hk, _⟩ := (mem_getAllKeyFrames m p).mp hp
  cases hs : savedKeyFrame m p with
  | none =>
    rw [hk]
    simp only [Option.none_bind]
    cases hb : kf.mbBad with
    | true => rfl
    | false =>
      have hsome := saveKeyFrame_isSome m kf (hpar p hp kf hk hb)
      unfold savedKeyFrame at hs
      rw [hk] at hs
      simp only [hb, Bool.false_eq_true, if_false] at hs
      rw [hs] at hsome
      cases hsome
  | some r =>
    obtain ⟨kf2, hk2, hb, hid, hT, _⟩ := savedKeyFrame_eq_some m p r hs
    rw [hk2]
    simp only [Option.some_bind, hb, Bool.false_eq_true, if_false, hid, hT]

theorem load_without_repair_exists (conn : Nat → Nat → Option Int) (doc : Document F)
    (hroot : ∃ r ∈ doc.KeyFrames, r.id = 0)
    (hpar : ∀ r ∈ doc.KeyFrames, r.id ≠ 0 →
      ∃ pid, r.parentId = some pid ∧ ∃ r2 ∈ doc.KeyFrames, r2.id = pid)
    (hwf : ∀ r ∈ doc.MapPoints, r.observingKfIds.length ≤ r.corrKpIndices.length) :
    ∃ map2, load conn doc SLCVMap.empty = .ok map2 ∧
      map2.keyFrames = (loadKeyFrames doc SLCVMap.empty).1.keyFrames ∧
      map2.mapPoints = doc.MapPoints.map (loadedMapPoint (loadKeyFrames doc SLCVMap.empty).2) := by
  refine ⟨_, load_without_repair conn doc hroot hpar hwf, rfl, ?_⟩
  simp only
  rw [loadKeyFrames_mapPoints, List.nil_append]

/-- C2 (as amended): for every map whose keyframe objects have distinct ids,
that has a non-bad keyframe 0, in which every non-bad keyframe other than 0
has a parent that is a non-bad keyframe of the map, and every non-bad map
point has a reference keyframe (and observations of distinct, existing
keyframe objects): `save` writes a document, `load` of it into an empty map
completes (for any covisibility weights), the loaded keyframes are all
non-bad and have, in order, the ids and poses of the original non-bad
keyframes, and the loaded map points are, one for one, the original non-bad
map points: same id, and the same set of links (keyframe id, feature index)
to the non-bad keyframes that are in the map. -/
theorem save_load_round_trip (conn : Nat → Nat → Option Int) (m : SLCVMap F)
    (hids : (m.keyFrames.map fun kf => kf.mnId).Nodup)
    (hroot : ∃ p ∈ m.GetAllKeyFrames, ∃ kf, m.keyFrames[p]? = some kf ∧ kf.mbBad = false ∧
      kf.mnId = 0)
    (hpar : ∀ p ∈ m.GetAllKeyFrames, ∀ kf, m.keyFrames[p]? = some kf → kf.mbBad = false →
      kf.mnId ≠ 0 → ∃ q ∈ m.GetAllKeyFrames, ∃ par, kf.mpParent = some q ∧
        m.keyFrames[q]? = some par ∧ par.mbBad = false)
    (href : ∀ p ∈ m.GetAllMapPoints, ∀ mp, m.mapPoints[p]? = some mp → mp.mbBad = false →
      (∃ q ref, mp.mpRefKF = some q ∧ m.keyFrames[q]? = some ref) ∧
        (∀ o ∈ mp.mObservations, o.1 < m.keyFrames.length) ∧
        (mp.mObservations.map Prod.fst).Nodup) :
    ∃ doc map2, save m = some doc ∧ load conn doc SLCVMap.empty = .ok map2 ∧
      (∀ p ∈ map2.GetAllKeyFrames, keyFrameNotBad map2 p = true) ∧
      keyFramePoses map2 = keyFramePoses m ∧
      List.Forall₂
        (fun (p2 p : Nat) =>
          ∃ mp2 mp, map2.mapPoints[p2]? = some mp2 ∧ m.mapPoints[p]? = some mp ∧
            mp2.mbBad = false ∧ mp2.mnId = mp.mnId ∧
            ∀ l, l ∈ keyFrameLinks map2 mp2.mObservations ↔
              l ∈ keyFrameLinks m mp.mObservations)
        map2.GetAllMapPoints (m.GetAllMapPoints.filter (mapPointNotBad m)) := by
  have hpar2 : ∀ p ∈ m.GetAllKeyFrames, ∀ kf, m.keyFrames[p]? = some kf → kf.mbBad = false →
      kf.mnId ≠ 0 → ∃ q par, kf.mpParent = some q ∧ m.keyFrames[q]? = some par := by
    intro p hp kf hk hb h0
    obtain ⟨q, _, par, h1, h2, _⟩ := hpar p hp kf hk hb h0
    exact ⟨q, par, h1, h2⟩
  have href2 : ∀ p ∈ m.GetAllMapPoints, ∀ mp, m.mapPoints[p]? = some mp → mp.mbBad = false →
      (∃ q ref, mp.mpRefKF = some q ∧ m.keyFrames[q]? = some ref) ∧
        ∀ o ∈ mp.mObservations, o.1 < m.keyFrames.length :=
    fun p hp mp hk hb => ⟨(href p hp mp hk hb).1, (href p hp mp hk hb).2.1⟩
  have hkfs : m.GetAllKeyFrames ≠ [] := by
    obtain ⟨p, hp, _⟩ := hroot
    exact List.ne_nil_of_mem hp
  obtain ⟨doc, hsave, hK, hM⟩ : ∃ doc : Document F, save m = some doc ∧
      doc.KeyFrames = m.GetAllKeyFrames.filterMap (savedKeyFrame m) ∧
      doc.MapPoints = m.GetAllMapPoints.filterMap (savedMapPoint m) :=
    ⟨_, save_eq m hkfs hpar2 href2, rfl, rfl⟩
  -- the keyframe records of the document and the non-bad keyframes of the map
  have hd1 : ∀ r ∈ doc.KeyFrames, ∃ p ∈ m.GetAllKeyFrames, savedKeyFrame m p = some r := by
    intro r hr
    rw [hK] at hr
    exact List.mem_filterMap.mp hr
  have hd2 : ∀ p ∈ m.GetAllKeyFrames, ∀ kf, m.keyFrames[p]? = some kf → kf.mbBad = false →
      ∃ r ∈ doc.KeyFrames, r.id = kf.mnId := by
    intro p hp kf hk hb
    have hsome := saveKeyFrame_isSome m kf (hpar2 p hp kf hk hb)
    cases hs : saveKeyFrame m kf with
    | none => rw [hs] at hsome; cases hsome
    | some r =>
      have hsp : savedKeyFrame m p = some r := by
        unfold savedKeyFrame
        rw [hk]
        simp only [hb, Bool.false_eq_true, if_false, hs]
      obtain ⟨kf2, hk2, _, hid, _⟩ := savedKeyFrame_eq_some m p r hsp
      rw [hk, Option.some.injEq] at hk2
      subst hk2
      exact ⟨r, by rw [hK]; exact List.mem_filterMap.mpr ⟨p, hp, hsp⟩, hid⟩
  have hrecs : ∀ r ∈ doc.MapPoints, ∃ p ∈ m.GetAllMapPoints, ∃ mp, m.mapPoints[p]? = some mp ∧
      mp.mbBad = false ∧ saveMapPoint m mp = some r := by
    intro r hr
    rw [hM] at hr
    obtain ⟨p, hp, hsp⟩ := List.mem_filterMap.mp hr
    obtain ⟨mp, hk, hb, hs⟩ := savedMapPoint_eq_some m p r hsp
    exact ⟨p, hp, mp, hk, hb, hs⟩
  obtain ⟨map2, hload, hk2, hmp2⟩ := load_without_repair_exists conn doc
    (by
      obtain ⟨p, hp, kf, hk, hb, h0⟩ := hroot
      obtain ⟨r, hr, hid⟩ := hd2 p hp kf hk hb
      exact ⟨r, hr, by rw [hid, h0]⟩)
    (by
      intro r hr h0
      obtain ⟨p, hp, hsp⟩ := hd1 r hr
      obtain ⟨kf, hk, hb, hid, _, hcase⟩ := savedKeyFrame_eq_some m p r hsp
      rcases hcase with ⟨hz, _⟩ | ⟨hnz, q, par, hq, hparq, hpid⟩
      · exact absurd (by rw [hid, hz]) h0
      · obtain ⟨q2, hq2, par2, hq3, hpar3, hb2⟩ := hpar p hp kf hk hb hnz
        rw [hq, Option.some.injEq] at hq3
        subst hq3
        rw [hparq, Option.some.injEq] at hpar3
        subst hpar3
        obtain ⟨r2, hr2, hid2⟩ := hd2 q hq2 par hparq hb2
        exact ⟨par.mnId, hpid, r2, hr2, hid2⟩)
    (by
      intro r hr
      obtain ⟨p, hp, mp, hk, hb, hs⟩ := hrecs r hr
      obtain ⟨_, _, h3, h4, _⟩ := saveMapPoint_eq_some m mp r (href2 p hp mp hk hb).2 hs
      rw [h3, h4]
      simp)
  refine ⟨doc, map2, hsave, hload, ?_, ?_, ?_⟩
  · intro p hp
    obtain ⟨kf, hk, _⟩ := (mem_getAllKeyFrames _ p).mp hp
    unfold keyFrameNotBad
    rw [hk2] at hk ⊢
    rw [loadKeyFrames_getElem?] at hk ⊢
    cases hrec : doc.KeyFrames[p]? with
    | none => rw [hrec] at hk; cases hk
    | some r => rfl
  · rw [keyFramePoses_load doc map2 hk2, hK]
    exact keyFramePoses_save m hpar2
  · have hall : map2.GetAllMapPoints = List.range doc.MapPoints.length := by
      rw [getAllMapPoints_eq_range map2 (by
        intro mp hmp
        rw [hmp2] at hmp
        obtain ⟨r, _, hr⟩ := List.mem_map.mp hmp
        rw [← hr]
        rfl), hmp2, List.length_map]
    have hf : m.GetAllMapPoints.filter (fun p => (savedMapPoint m p).isSome)
        = m.GetAllMapPoints.filter (mapPointNotBad m) := by
      apply List.filter_congr
      intro p hp
      obtain ⟨mp, hk, _⟩ := (mem_getAllMapPoints m p).mp hp
      unfold savedMapPoint mapPointNotBad
      rw [hk]
      simp only
      cases hb : mp.mbBad with
      | true => rfl
      | false =>
        exact saveMapPoint_isSome m mp (href2 p hp mp hk hb).2 (href2 p hp mp hk hb).1
    have h2 := forall₂_filterMap (savedMapPoint m) m.GetAllMapPoints
    rw [hf, ← hM] at h2
    have h3 := forall₂_range _ _ _
      (forall₂_and_right _ (fun p => p ∈ m.GetAllMapPoints) _ _ h2
        (fun p hp => (List.mem_filter.mp hp).1))
    rw [hall]
    refine h3.imp ?_
    rintro i p ⟨r, hri, hp, hsp⟩
    obtain ⟨mp, hk, hb, hs⟩ := savedMapPoint_eq_some m p r hsp
    obtain ⟨hid, _, ho1, ho2, _⟩ := saveMapPoint_eq_some m mp r (href2 p hp mp hk hb).2 hs
    refine ⟨loadedMapPoint (loadKeyFrames doc SLCVMap.empty).2 r, mp, ?_, hk, rfl, hid, ?_⟩
    · rw [hmp2, List.getElem?_map, hri]
      rfl
    · intro l
      exact keyFrameLinks_round_trip m doc map2 hk2 (eq_of_nodup_ids m hids)
        (by
          intro r2 hr2
          obtain ⟨q, hq, hsq⟩ := hd1 r2 hr2
          obtain ⟨kf, hkf, _, hidq, _⟩ := savedKeyFrame_eq_some m q r2 hsq
          exact ⟨q, hq, kf, hkf, hidq⟩)
        hd2 mp.mObservations (href p hp mp hk hb).2.2 r ho1 ho2 l

theorem mixedMap_parents_in_map :
    ∀ p ∈ mixedMap.GetAllKeyFrames, ∀ kf, mixedMap.keyFrames[p]? = some kf → kf.mbBad = false →
      kf.mnId ≠ 0 → ∃ q ∈ mixedMap.GetAllKeyFrames, ∃ par, kf.mpParent = some q ∧
        mixedMap.keyFrames[q]? = some par ∧ par.mbBad = false := by
  intro p hp kf hk hb h0
  rw [mixedMap_getAllKeyFrames] at hp ⊢
  simp only [List.mem_cons, List.mem_singleton, List.not_mem_nil, or_false] at hp
  rcases hp with rfl | rfl | rfl
  · simp only [mixedMap, List.getElem?_cons_zero, Option.some.injEq] at hk
    subst hk
    exact absurd rfl h0
  · simp only [mixedMap, List.getElem?_cons_succ, List.getElem?_cons_zero,
      Option.some.injEq] at hk
    subst hk
    exact ⟨0, by decide, _, rfl, rfl, rfl⟩
  · simp only [mixedMap, List.getElem?_cons_succ, List.getElem?_cons_zero,
      Option.some.injEq] at hk
    subst hk
    cases hb

theorem mixedMap_refs_nodup :
    ∀ p ∈ mixedMap.GetAllMapPoints, ∀ mp, mixedMap.mapPoints[p]? = some mp → mp.mbBad = false →
      (∃ q ref, mp.mpRefKF = some q ∧ mixedMap.keyFrames[q]? = some ref) ∧
        (∀ o ∈ mp.mObservations, o.1 < mixedMap.keyFrames.length) ∧
        (mp.mObservations.map Prod.fst).Nodup := by
  intro p hp mp hk hb
  refine ⟨(mixedMap_refs p hp mp hk hb).1, (mixedMap_refs p hp mp hk hb).2, ?_⟩
  rw [mixedMap_getAllMapPoints] at hp
  simp only [List.mem_cons, List.mem_singleton, List.not_mem_nil, or_false] at hp
  rcases hp with rfl | rfl
  · simp only [mixedMap, List.getElem?_cons_zero, Option.some.injEq] at hk
    subst hk
    decide
  · simp only [mixedMap, List.getElem?_cons_succ, List.getElem?_cons_zero,
      Option.some.injEq] at hk
    subst hk
    cases hb

/-- C2, witness: the amended statement at `mixedMap`. -/
theorem save_load_round_trip_witness :
    (mixedMap.keyFrames.map fun kf => kf.mnId).Nodup ∧
    ∃ doc map2, save mixedMap = some doc ∧ load noConn doc SLCVMap.empty = .ok map2 ∧
      (∀ p ∈ map2.GetAllKeyFrames, keyFrameNotBad map2 p = true) ∧
      keyFramePoses map2 = keyFramePoses mixedMap ∧
      List.Forall₂
        (fun (p2 p : Nat) =>
          ∃ mp2 mp, map2.mapPoints[p2]? = some mp2 ∧ mixedMap.mapPoints[p]? = some mp ∧
            mp2.mbBad = false ∧ mp2.mnId = mp.mnId ∧
            ∀ l, l ∈ keyFrameLinks map2 mp2.mObservations ↔
              l ∈ keyFrameLinks mixedMap mp.mObservations)
        map2.GetAllMapPoints (mixedMap.GetAllMapPoints.filter (mapPointNotBad mixedMap)) :=
  ⟨by decide, save_load_round_trip noConn mixedMap (by decide)
    ⟨0, by decide, _, rfl, rfl, rfl⟩ mixedMap_parents_in_map mixedMap_refs_nodup⟩

/-- C2, counterexample: `mixedMap` contains keyframe 0, every non-bad keyframe
other than 0 has a parent and every non-bad map point has a reference
keyframe; its map point 10 is observed at feature 8 by keyframe 3, which is
not bad but not (any more) in the map. `save` writes that observation, `load`
finds no keyframe 3 and skips it: the loaded map point 10 has the links
(0, 5), (1, 6) where the original has (0, 5), (1, 6), (3, 8) to non-bad
keyframes. -/
theorem save_load_drops_link_to_erased_keyframe :
    (∃ kf ∈ mixedMap.keyFrames, kf.mnId = 0 ∧ kf.mbBad = false ∧ kf.inMap = true) ∧
    (∀ kf ∈ mixedMap.keyFrames, kf.mbBad = false → kf.mnId ≠ 0 → kf.mpParent.isSome = true) ∧
    (∀ mp ∈ mixedMap.mapPoints, mp.mbBad = false → mp.mpRefKF.isSome = true) ∧
    save mixedMap = some mixedDoc ∧
    (∀ conn : Nat → Nat → Option Int, load conn mixedDoc SLCVMap.empty = .ok mixedLoaded) ∧
    mixedMap.GetAllMapPoints.filter (mapPointNotBad mixedMap) = [0] ∧
    mixedLoaded.GetAllMapPoints = [0] ∧
    (mixedMap.mapPoints[0]?).map
      (fun mp => (mp.mnId, keptObservations mixedMap mp.mObservations))
      = some (10, [(0, 5), (1, 6), (3, 8)]) ∧
    (mixedLoaded.mapPoints[0]?).map
      (fun mp => (mp.mnId, keptObservations mixedLoaded mp.mObservations))
      = some (10, [(0, 5), (1, 6)]) := by
  refine ⟨by decide, by decide, by decide, rfl, fun _ => rfl, by decide, by decide,
    by decide, by decide⟩

end SLCVMapIO

namespace SLCVMap

variable {F : Type}

/-- C12 (as amended): the change counter read by `GetLastBigChangeIdx` is
left as it is by `AddKeyFrame`, `AddMapPoint`, `EraseKeyFrame`,
`EraseMapPoint` and `applyTransformation`, for every map and every argument;
only `InformNewBigChange` changes it, and it increases it by one. -/
theorem bigChangeIdx_only_by_InformNewBigChange [Field F] (tr : Trig F) (value : F)
    (type : TransformType) (m : SLCVMap F) (p : Nat) :
    (m.AddKeyFrame p).GetLastBigChangeIdx = m.GetLastBigChangeIdx ∧
    (m.AddMapPoint p).GetLastBigChangeIdx = m.GetLastBigChangeIdx ∧
    (m.EraseKeyFrame p).GetLastBigChangeIdx = m.GetLastBigChangeIdx ∧
    (m.EraseMapPoint p).GetLastBigChangeIdx = m.GetLastBigChangeIdx ∧
    (applyTransformation tr value type m).GetLastBigChangeIdx = m.GetLastBigChangeIdx ∧
    m.InformNewBigChange.GetLastBigChangeIdx = m.GetLastBigChangeIdx + 1 := by
  refine ⟨?_, ?_, ?_, ?_, ?_, rfl⟩
  · unfold AddKeyFrame
    split <;> rfl
  · unfold AddMapPoint
    split <;> rfl
  · unfold EraseKeyFrame
    split <;> rfl
  · unfold EraseMapPoint
    split <;> rfl
  · cases type <;> rfl

end SLCVMap

namespace SLCVMapIO

variable {F : Type}

/-- C12, counterexample: adding the keyframe object at address 3 of `mixedMap`
(not in the map before, in it after) leaves the change counter at 0; the same
for the other mutations, here `EraseKeyFrame`, `AddMapPoint`, `EraseMapPoint`
and a scale by 2. -/
theorem addKeyFrame_leaves_bigChangeIdx :
    mixedMap.GetAllKeyFrames = [0, 1, 2] ∧
    (SLCVMap.AddKeyFrame mixedMap 3).GetAllKeyFrames = [0, 1, 2, 3] ∧
    ¬ (SLCVMap.AddKeyFrame mixedMap 3).GetLastBigChangeIdx > mixedMap.GetLastBigChangeIdx ∧
    ¬ (SLCVMap.EraseKeyFrame mixedMap 1).GetLastBigChangeIdx > mixedMap.GetLastBigChangeIdx ∧
    ¬ (SLCVMap.AddMapPoint mixedMap 1).GetLastBigChangeIdx > mixedMap.GetLastBigChangeIdx ∧
    ¬ (SLCVMap.EraseMapPoint mixedMap 0).GetLastBigChangeIdx > mixedMap.GetLastBigChangeIdx ∧
    ¬ (SLCVMap.applyTransformation ⟨id, id, 1⟩ 2 .SCALE mixedMap).GetLastBigChangeIdx
        > mixedMap.GetLastBigChangeIdx := by
  refine ⟨by decide, by decide, by decide, by decide, by decide, by decide, by decide⟩

theorem mem_getAllMapPoints_addMapPoint (m : SLCVMap F) (p q : Nat) :
    q ∈ (m.AddMapPoint p).GetAllMapPoints ↔
      (q = p ∧ p < m.mapPoints.length) ∨ q ∈ m.GetAllMapPoints := by
  rw [mem_getAllMapPoints, mem_getAllMapPoints]
  unfold SLCVMap.AddMapPoint
  cases hp : m.mapPoints[p]? with
  | none =>
    simp only
    have hlen : ¬ p < m.mapPoints.length := by
      intro h
      rw [List.getElem?_eq_getElem h] at hp
      cases hp
    constructor
    · exact Or.inr
    · rintro (⟨_, h⟩ | h)
      · exact absurd h hlen
      · exact h
  | some mp =>
    simp only
    have hlen : p < m.mapPoints.length := by
      by_contra hc
      rw [List.getElem?_eq_none (by omega)] at hp
      cases hp
    by_cases hq : q = p
    · subst hq
      rw [List.getElem?_set_self hlen]
      constructor
      · intro _
        exact Or.inl ⟨rfl, hlen⟩
      · intro _
        exact ⟨_, rfl, rfl⟩
    · rw [List.getElem?_set_ne (fun h => hq h.symm)]
      constructor
      · exact Or.inr
      · rintro (⟨h, _⟩ | h)
        · exact absurd h hq
        · exact h

theorem mem_getAllMapPoints_eraseMapPoint (m : SLCVMap F) (p q : Nat) :
    q ∈ (m.EraseMapPoint p).GetAllMapPoints ↔ q ≠ p ∧ q ∈ m.GetAllMapPoints := by
  rw [mem_getAllMapPoints, mem_getAllMapPoints]
  unfold SLCVMap.EraseMapPoint
  cases hp : m.mapPoints[p]? with
  | none =>
    simp only
    constructor
    · rintro ⟨mp, hk, hin⟩
      refine ⟨?_, mp, hk, hin⟩
      rintro rfl
      rw [hp] at hk
      cases hk
    · exact fun h => h.2
  | some mp =>
    simp only
    have hlen : p < m.mapPoints.length := by
      by_contra hc
      rw [List.getElem?_eq_none (by omega)] at hp
      cases hp
    by_cases hq : q = p
    · subst hq
      rw [List.getElem?_set_self hlen]
      constructor
      · rintro ⟨mp2, hk, hin⟩
        rw [Option.some.injEq] at hk
        rw [← hk] at hin
        cases hin
      · exact fun h => absurd rfl h.1
    · rw [List.getElem?_set_ne (fun h => hq h.symm)]
      constructor
      · exact fun h => ⟨hq, h⟩
      · exact fun h => h.2

theorem mapPointNotBad_addMapPoint (m : SLCVMap F) (p q : Nat) :
    mapPointNotBad (m.AddMapPoint p) q = mapPointNotBad m q := by
  unfold mapPointNotBad SLCVMap.AddMapPoint
  cases hp : m.mapPoints[p]? with
  | none => rfl
  | some mp =>
    simp only
    by_cases hq : q = p
    · subst hq
      rw [hp]
      have hlen : q < m.mapPoints.length := by
        by_contra hc
        rw [List.getElem?_eq_none (by omega)] at hp
        cases hp
      rw [List.getElem?_set_self hlen]
    · rw [List.getElem?_set_ne (fun h => hq h.symm)]

theorem mapPointNotBad_eraseMapPoint (m : SLCVMap F) (p q : Nat) :
    mapPointNotBad (m.EraseMapPoint p) q = mapPointNotBad m q := by
  unfold mapPointNotBad SLCVMap.EraseMapPoint
  cases hp : m.mapPoints[p]? with
  | none => rfl
  | some mp =>
    simp only
    by_cases hq : q = p
    · subst hq
      rw [hp]
      have hlen : q < m.mapPoints.length := by
        by_contra hc
        rw [List.getElem?_eq_none (by omega)] at hp
        cases hp
      rw [List.getElem?_set_self hlen]
    · rw [List.getElem?_set_ne (fun h => hq h.symm)]

/-- C13 (as amended): `GetAllMapPoints` returns exactly the map points that
were added and not erased since, whatever their bad flag (the map never reads
the flag); and the snapshot has no bad point as long as none is added: from a
map whose snapshot has no bad point, `AddMapPoint` of a point that is not bad
and `EraseMapPoint` of any point give a map whose snapshot has no bad point. -/
theorem getAllMapPoints_is_pointer_set (m : SLCVMap F) (p : Nat)
    (hinv : NoBadInSnapshot m) (hp : mapPointNotBad m p = true) :
    (∀ q, q ∈ (m.AddMapPoint p).GetAllMapPoints ↔
      (q = p ∧ p < m.mapPoints.length) ∨ q ∈ m.GetAllMapPoints) ∧
    (∀ q r, q ∈ (m.EraseMapPoint r).GetAllMapPoints ↔ q ≠ r ∧ q ∈ m.GetAllMapPoints) ∧
    NoBadInSnapshot (m.AddMapPoint p) ∧
    ∀ r, NoBadInSnapshot (m.EraseMapPoint r) := by
  refine ⟨fun q => mem_getAllMapPoints_addMapPoint m p q,
    fun q r => mem_getAllMapPoints_eraseMapPoint m r q, ?_, ?_⟩
  · intro q hq
    rw [mapPointNotBad_addMapPoint]
    rcases (mem_getAllMapPoints_addMapPoint m p q).mp hq with ⟨rfl, _⟩ | h
    · exact hp
    · exact hinv q h
  · intro r q hq
    rw [mapPointNotBad_eraseMapPoint]
    exact hinv q ((mem_getAllMapPoints_eraseMapPoint m r q).mp hq).2

/-- C13, witness: `mixedMap` without its bad map point, and the addition of
its map point at address 0. -/
theorem getAllMapPoints_is_pointer_set_witness :
    NoBadInSnapshot (SLCVMap.EraseMapPoint mixedMap 1) ∧
    mapPointNotBad (SLCVMap.EraseMapPoint mixedMap 1) 0 = true ∧
    NoBadInSnapshot (SLCVMap.AddMapPoint (SLCVMap.EraseMapPoint mixedMap 1) 0) :=
  ⟨by unfold NoBadInSnapshot; decide, by decide,
    (getAllMapPoints_is_pointer_set (SLCVMap.EraseMapPoint mixedMap 1) 0
      (by unfold NoBadInSnapshot; decide) (by decide)).2.2.1⟩

/-- C13, counterexample: the map point at address 1 of `mixedMap` is bad. In
the map without it the snapshot has no bad point; `AddMapPoint` of it gives
`mixedMap` back, whose snapshot `[0, 1]` contains the bad point. -/
theorem getAllMapPoints_returns_bad_point :
    NoBadInSnapshot (SLCVMap.EraseMapPoint mixedMap 1) ∧
    (SLCVMap.AddMapPoint (SLCVMap.EraseMapPoint mixedMap 1) 1).GetAllMapPoints = [0, 1] ∧
    mapPointNotBad (SLCVMap.AddMapPoint (SLCVMap.EraseMapPoint mixedMap 1) 1) 1 = false ∧
    mixedMap.GetAllMapPoints = [0, 1] ∧ mapPointNotBad mixedMap 1 = false ∧
    ¬ NoBadInSnapshot mixedMap := by
  refine ⟨by unfold NoBadInSnapshot; decide, by decide, by decide, by decide, by decide, ?_⟩
  unfold NoBadInSnapshot
  decide

/-- C15, the code at the failing input: loading `isolatedDoc` (legacy
keyframes 0 and 1 without a covisibility edge) enters the repair loop, whose
first iteration finds the priority queue empty and takes its `top()`. -/
theorem load_repair_takes_top_of_empty_queue :
    buildSpanningTree isolatedDoc = true ∧
    buildQueue noConn [1] [0] = [] ∧
    load noConn isolatedDoc SLCVMap.empty = .error .emptyQueue := by
  refine ⟨by decide, by decide, rfl⟩

end SLCVMapIO


namespace SLCVOrbTracking

variable {F : Type}

/-! ### Members that the loops leave alone -/

theorem foldl_kept {α : Type} (f : State F → α → State F) (l : List α) (s : State F)
    (h : ∀ s a, (f s a).kept = s.kept) : (l.foldl f s).kept = s.kept := by
  induction l generalizing s with
  | nil => rfl
  | cons a rest ih => rw [List.foldl_cons, ih, h]

theorem foldl_fst_kept {α β : Type} (f : State F × β → α → State F × β) (l : List α)
    (acc : State F × β) (h : ∀ acc a, (f acc a).1.kept = acc.1.kept) :
    (l.foldl f acc).1.kept = acc.1.kept := by
  induction l generalizing acc with
  | nil => rfl
  | cons a rest ih => rw [List.foldl_cons, ih, h]

theorem setLink_kept (s : State F) (i : Nat) (v : Option Nat) : (setLink s i v).kept = s.kept := by
  unfold setLink
  split <;> rfl

theorem setOutlier_kept (s : State F) (i : Nat) (b : Bool) :
    (setOutlier s i b).kept = s.kept := by
  unfold setOutlier
  split <;> rfl

theorem writeLinks_kept (s : State F) (w : List (Nat × Nat)) : (writeLinks s w).kept = s.kept :=
  foldl_kept _ _ _ fun s a => setLink_kept s a.1 (some a.2)

theorem applyPoseOptimization_kept (s : State F) (r : PoseOptResult F) :
    (applyPoseOptimization s r).kept = s.kept := by
  unfold applyPoseOptimization
  exact (foldl_kept (fun s a => setOutlier s a.1 a.2) r.outliers (SetPose s r.Tcw)
    fun s a => setOutlier_kept s a.1 a.2).trans rfl

theorem nullOutlierLinks_kept (s : State F) : (nullOutlierLinks s).kept = s.kept := by
  unfold nullOutlierLinks
  apply foldl_kept
  intro s io
  split
  · rfl
  · exact setLink_kept s io none
  · rfl

theorem countInlierStep_kept (s : State F) (i : Nat) : (countInlierStep s i).kept = s.kept := by
  unfold countInlierStep
  split
  · rfl
  · rfl
  · split
    · rfl
    · rfl
    · dsimp only
      split <;> rfl

theorem countInliers_kept (s : State F) : (countInliers s).kept = s.kept :=
  foldl_kept _ _ _ countInlierStep_kept

theorem foldl_proj_kept {α β : Type} (p : β → State F) (f : β → α → β) (l : List α) (b : β)
    (h : ∀ b a, (p (f b a)).kept = (p b).kept) : (p (l.foldl f b)).kept = (p b).kept := by
  induction l generalizing b with
  | nil => rfl
  | cons a rest ih => rw [List.foldl_cons, ih, h]

theorem voteKeyFrames_kept (s : State F) : (voteKeyFrames s).1.kept = s.kept := by
  unfold voteKeyFrames
  refine (foldl_fst_kept _ _ _ ?_).trans rfl
  intro acc i
  split
  · rfl
  · rfl
  · split
    · exact setLink_kept _ _ _
    · rfl

theorem collectVoted_kept (s : State F) (c : List (Nat × Int)) :
    (collectVoted s c).s.kept = s.kept := by
  unfold collectVoted
  refine (foldl_proj_kept (fun v : Voted F => v.s) _ _ _ ?_).trans rfl
  intro v it
  dsimp only
  split <;> rfl

theorem addFirstUnmarked_kept (s : State F) (l : List Nat) :
    (addFirstUnmarked s l).kept = s.kept := by
  unfold addFirstUnmarked
  split <;> rfl

theorem addNeighbours_kept (env : Env F) (l : List Nat) (s : State F) :
    (addNeighbours env l s).kept = s.kept := by
  induction l generalizing s with
  | nil => rfl
  | cons pKF rest ih =>
    unfold addNeighbours
    split
    · rfl
    · dsimp only
      have h2 : (addFirstUnmarked
          (addFirstUnmarked s (env.GetBestCovisibilityKeyFrames s pKF 10))
          (env.GetChilds (addFirstUnmarked s (env.GetBestCovisibilityKeyFrames s pKF 10))
            pKF)).kept = s.kept := by
        rw [addFirstUnmarked_kept, addFirstUnmarked_kept]
      split
      · split
        · exact h2
        · rw [ih]
          exact h2
      · rw [ih]
        exact h2

theorem UpdateLocalKeyFrames_kept (env : Env F) (s : State F) :
    (UpdateLocalKeyFrames env s).kept = s.kept := by
  unfold UpdateLocalKeyFrames
  dsimp only
  have h1 := voteKeyFrames_kept s
  have h2 := collectVoted_kept (voteKeyFrames s).1 (voteKeyFrames s).2
  have h3 := addNeighbours_kept env
    (collectVoted (voteKeyFrames s).1 (voteKeyFrames s).2).s.mvpLocalKeyFrames
    (collectVoted (voteKeyFrames s).1 (voteKeyFrames s).2).s
  split
  · exact h1
  · split
    · exact Eq.trans rfl (h3.trans (h2.trans h1))
    · exact h3.trans (h2.trans h1)

theorem UpdateLocalPoints_kept (env : Env F) (s : State F) :
    (UpdateLocalPoints env s).kept = s.kept := by
  unfold UpdateLocalPoints
  refine (foldl_kept _ _ _ ?_).trans rfl
  intro s pKF
  apply foldl_kept
  intro s o
  split
  · rfl
  · split
    · rfl
    · split <;> rfl

theorem markMatchedPoints_kept (s : State F) : (markMatchedPoints s).kept = s.kept := by
  unfold markMatchedPoints
  apply foldl_kept
  intro s i
  split
  · split
    · exact setLink_kept _ _ _
    · rfl
  · rfl

theorem countToMatch_kept (env : Env F) (s : State F) : (countToMatch env s).1.kept = s.kept := by
  unfold countToMatch
  refine (foldl_fst_kept _ _ _ ?_).trans rfl
  intro acc pMP
  split
  · rfl
  · split
    · rfl
    · split <;> rfl

theorem SearchLocalPoints_kept (env : Env F) (s : State F) :
    (SearchLocalPoints env s).1.kept = s.kept := by
  unfold SearchLocalPoints
  dsimp only
  split
  · rw [writeLinks_kept, countToMatch_kept, markMatchedPoints_kept]
  · rw [countToMatch_kept, markMatchedPoints_kept]

theorem afterLocalMapOptimization_kept (env : Env F) (s : State F) :
    (afterLocalMapOptimization env s).kept = s.kept := by
  unfold afterLocalMapOptimization UpdateLocalMap
  dsimp only
  rw [applyPoseOptimization_kept, SearchLocalPoints_kept, UpdateLocalPoints_kept,
    UpdateLocalKeyFrames_kept]

/-! ### TrackLocalMap -/

theorem Observations_congr (s s2 : State F) (h : s2._map = s._map) (p : Nat) :
    Observations s2 p = Observations s p := by
  unfold Observations
  rw [h]

theorem isInlierFeature_congr (s s2 : State F) (hf : s2.mCurrentFrame = s.mCurrentFrame)
    (hm : s2._map = s._map) : isInlierFeature s2 = isInlierFeature s := by
  funext i
  unfold isInlierFeature
  rw [hf]
  simp only [Observations_congr s s2 hm]

theorem countInlierStep_spec (s : State F) (i : Nat) :
    (countInlierStep s i).mCurrentFrame = s.mCurrentFrame ∧
    (countInlierStep s i)._map = s._map ∧
    (countInlierStep s i).mnMatchesInliers =
      s.mnMatchesInliers + (if isInlierFeature s i = true then 1 else 0) := by
  unfold countInlierStep isInlierFeature
  cases h1 : s.mCurrentFrame.mvpMapPoints[i]? with
  | none => simp
  | some o =>
    cases o with
    | none => simp
    | some pMP =>
      cases h2 : s.mCurrentFrame.mvbOutlier[i]? with
      | none => simp
      | some b =>
        cases b with
        | true => simp
        | false =>
          have hobs : Observations (IncreaseFound s pMP) pMP = Observations s pMP :=
            Observations_congr _ _ rfl _
          dsimp only
          rw [hobs]
          by_cases hpos : Observations s pMP > 0
          · simp [hpos, IncreaseFound]
          · simp [hpos, IncreaseFound]

/-- The loop that counts the inliers adds to `mnMatchesInliers` the number of
features, among those it visits, that have a link, are not flagged as outlier
and whose map point has an observation; it leaves the frame and the map as
they are. -/
theorem countInliers_foldl (l : List Nat) (s : State F) :
    (l.foldl countInlierStep s).mCurrentFrame = s.mCurrentFrame ∧
    (l.foldl countInlierStep s)._map = s._map ∧
    (l.foldl countInlierStep s).mnMatchesInliers =
      s.mnMatchesInliers + ((l.filter (isInlierFeature s)).length : Int) := by
  induction l generalizing s with
  | nil => simp
  | cons i rest ih =>
    rw [List.foldl_cons]
    obtain ⟨hf, hm, hc⟩ := countInlierStep_spec s i
    obtain ⟨ih1, ih2, ih3⟩ := ih (countInlierStep s i)
    refine ⟨ih1.trans hf, ih2.trans hm, ?_⟩
    rw [ih3, hc, isInlierFeature_congr s _ hf hm, List.filter_cons]
    by_cases hi : isInlierFeature s i = true
    · simp only [hi, if_true, List.length_cons]
      push_cast
      ring
    · simp only [hi, if_false]
      simp

/-- C18: `TrackLocalMap` returns true if and only if the number `k` of
inliers (features of the current frame, after the local map was searched and
the pose optimized, that have a link, are not flagged as outlier and link to a
map point with at least one observation) is at least 30 and, when the current
frame id is less than `mnLastRelocFrameId + mMaxFrames`, at least 50. -/
theorem TrackLocalMap_true_iff (env : Env F) (s : State F) :
    (TrackLocalMap env s).1 = true ↔
      30 ≤ (inlierFeatures (afterLocalMapOptimization env s)).length ∧
      (s.mCurrentFrame.mnId < s.mnLastRelocFrameId + s.mMaxFrames →
        50 ≤ (inlierFeatures (afterLocalMapOptimization env s)).length) := by
  have hk := afterLocalMapOptimization_kept env s
  have hc := countInliers_foldl
    (List.range (afterLocalMapOptimization env s).mCurrentFrame.N)
    (resetMatchesInliers (afterLocalMapOptimization env s))
  have hk2 := countInliers_kept (resetMatchesInliers (afterLocalMapOptimization env s))
  have hk3 : (resetMatchesInliers (afterLocalMapOptimization env s)).kept
      = (afterLocalMapOptimization env s).kept := rfl
  have hid : (countInliers (resetMatchesInliers
      (afterLocalMapOptimization env s))).mCurrentFrame.mnId = s.mCurrentFrame.mnId :=
    congrArg Kept.mnId (hk2.trans (hk3.trans hk))
  have hre : (countInliers (resetMatchesInliers
      (afterLocalMapOptimization env s))).mnLastRelocFrameId = s.mnLastRelocFrameId :=
    congrArg Kept.mnLastRelocFrameId (hk2.trans (hk3.trans hk))
  have hmx : (countInliers (resetMatchesInliers
      (afterLocalMapOptimization env s))).mMaxFrames = s.mMaxFrames :=
    congrArg Kept.mMaxFrames (hk2.trans (hk3.trans hk))
  have hcount : (countInliers (resetMatchesInliers
      (afterLocalMapOptimization env s))).mnMatchesInliers =
      ((inlierFeatures (afterLocalMapOptimization env s)).length : Int) := by
    have h3 := hc.2.2
    rw [isInlierFeature_congr (afterLocalMapOptimization env s)
      (resetMatchesInliers (afterLocalMapOptimization env s)) rfl rfl] at h3
    have h0 : (resetMatchesInliers (afterLocalMapOptimization env s)).mnMatchesInliers = 0 :=
      rfl
    rw [h0, zero_add] at h3
    exact h3
  unfold TrackLocalMap
  dsimp only
  rw [hid, hre, hmx, hcount]
  split_ifs with h1 h2
  · simp only [Bool.false_eq_true, false_iff, not_and, not_forall]
    intro _
    exact ⟨h1.1, by omega⟩
  · simp only [Bool.false_eq_true, false_iff, not_and]
    intro h
    omega
  · simp only [true_iff]
    refine ⟨by omega, fun hlt => ?_⟩
    by_contra hc50
    exact h1 ⟨hlt, by omega⟩

/-! ### TrackWithOptFlow -/

theorem ratio_lt_iff (t a : Nat) : ((t : ℚ) < (a : ℚ) * (3 / 4)) ↔ 4 * t < 3 * a := by
  constructor
  · intro h
    have h2 : ((4 * t : Nat) : ℚ) < ((3 * a : Nat) : ℚ) := by
      push_cast
      linarith
    exact_mod_cast h2
  · intro h
    have h2 : ((4 * t : Nat) : ℚ) < ((3 * a : Nat) : ℚ) := by exact_mod_cast h
    push_cast at h2
    linarith

/-- C19: `TrackWithOptFlow` returns true only if the last frame has at least
100 keypoints and at least 75% of the attempted points were tracked
(`4 * tracked >= 3 * attempted`); it returns false when one of the two fails;
and whenever it returns false the current frame (its pose, keypoints and
links with the rest) and the VO-fallback flag are left as they were. -/
theorem TrackWithOptFlow_conditions [Zero F] [One F] (env : Env F) (s : State F) :
    ((TrackWithOptFlow env s).1 = true →
      100 ≤ s.mLastFrame.mvKeys.length ∧
      3 * (attemptedPoints s).length ≤ 4 * (trackedPoints env s).length) ∧
    ((s.mLastFrame.mvKeys.length < 100 ∨
        4 * (trackedPoints env s).length < 3 * (attemptedPoints s).length) →
      (TrackWithOptFlow env s).1 = false) ∧
    ((TrackWithOptFlow env s).1 = false →
      (TrackWithOptFlow env s).2.1.mCurrentFrame = s.mCurrentFrame ∧
      (TrackWithOptFlow env s).2.1.mbVO = s.mbVO ∧
      (TrackWithOptFlow env s).2.1.mVelocity = s.mVelocity) := by
  unfold TrackWithOptFlow
  dsimp only
  by_cases h100 : s.mLastFrame.mvKeys.length < 100
  · rw [if_pos h100]
    exact ⟨fun h => Bool.noConfusion h, fun _ => rfl, fun _ => ⟨rfl, rfl, rfl⟩⟩
  · rw [if_neg h100]
    by_cases hr : ((trackedPoints env s).length : ℚ) < ((attemptedPoints s).length : ℚ) * (3 / 4)
    · rw [if_pos hr]
      exact ⟨fun h => Bool.noConfusion h, fun _ => rfl, fun _ => ⟨rfl, rfl, rfl⟩⟩
    · rw [if_neg hr]
      rw [ratio_lt_iff] at hr
      split
      · refine ⟨fun _ => ⟨by omega, by omega⟩, ?_, fun h => Bool.noConfusion h⟩
        rintro (h | h)
        · exact absurd h h100
        · exact absurd h hr
      · exact ⟨fun h => Bool.noConfusion h, fun _ => rfl, fun _ => ⟨rfl, rfl, rfl⟩⟩

/-! ### The calls made by the strategies -/

theorem all_not_strategy (l : List Call) (h : (l.all fun c => !c.isStrategy) = true) :
    ∀ c ∈ l, c.isStrategy = false := by
  intro c hc
  rw [List.all_eq_true] at h
  simpa using h c hc

theorem TrackWithOptFlow_calls [Zero F] [One F] (env : Env F) (s : State F) :
    ∃ rest, (TrackWithOptFlow env s).2.2 = Call.TrackWithOptFlow :: rest ∧
      ∀ c ∈ rest, c.isStrategy = false := by
  unfold TrackWithOptFlow
  dsimp only
  split
  · exact ⟨[], rfl, all_not_strategy _ rfl⟩
  · split
    · exact ⟨_, rfl, all_not_strategy _ rfl⟩
    · split
      · exact ⟨_, rfl, all_not_strategy _ rfl⟩
      · exact ⟨_, rfl, all_not_strategy _ rfl⟩

theorem TrackWithMotionModel_calls [Mul F] [AddCommMonoid F] (env : Env F) (s : State F) :
    ∃ rest, (TrackWithMotionModel env s).2.2
        = Call.TrackWithMotionModel s.mVelocity.isNone :: rest ∧
      ∀ c ∈ rest, c.isStrategy = false := by
  unfold TrackWithMotionModel
  dsimp only
  split
  · split
    · exact ⟨_, rfl, all_not_strategy _ rfl⟩
    · exact ⟨_, rfl, all_not_strategy _ rfl⟩
  · exact ⟨_, rfl, all_not_strategy _ rfl⟩

theorem TrackReferenceKeyFrame_calls (env : Env F) (s : State F) :
    ∃ rest, (TrackReferenceKeyFrame env s).2.2 = Call.TrackReferenceKeyFrame :: rest ∧
      ∀ c ∈ rest, c.isStrategy = false := by
  unfold TrackReferenceKeyFrame
  dsimp only
  split
  · exact ⟨_, rfl, all_not_strategy _ rfl⟩
  · exact ⟨_, rfl, all_not_strategy _ rfl⟩

theorem SearchLocalPoints_calls (env : Env F) (s : State F) :
    ∀ c ∈ (SearchLocalPoints env s).2, c.isStrategy = false := by
  unfold SearchLocalPoints
  dsimp only
  split
  · exact all_not_strategy _ rfl
  · exact all_not_strategy _ rfl

theorem TrackLocalMap_calls (env : Env F) (s : State F) :
    ∃ rest, (TrackLocalMap env s).2.2 = Call.TrackLocalMap :: rest ∧
      ∀ c ∈ rest, c.isStrategy = false := by
  have hcalls : ∀ c ∈ (SearchLocalPoints env (UpdateLocalMap env s)).2 ++ [Call.PoseOptimization],
      c.isStrategy = false := by
    intro c hc
    rcases List.mem_append.mp hc with h | h
    · exact SearchLocalPoints_calls env _ c h
    · rw [List.mem_singleton] at h
      rw [h]
      rfl
  unfold TrackLocalMap
  dsimp only
  split
  · exact ⟨_, rfl, hcalls⟩
  · split
    · exact ⟨_, rfl, hcalls⟩
    · exact ⟨_, rfl, hcalls⟩

theorem relocRefine_calls (env : Env F) (s : State F) (pKF : Nat) (m : List (Option Nat))
    (Tcw : Mat4 F) (vbInliers : List Bool) :
    ∀ c ∈ (relocRefine env s pKF m Tcw vbInliers).2.2, c.isStrategy = false := by
  unfold relocRefine
  dsimp only
  split
  · exact all_not_strategy _ rfl
  · split
    · split
      · split
        · split
          · exact all_not_strategy _ rfl
          · exact all_not_strategy _ rfl
        · exact all_not_strategy _ rfl
      · exact all_not_strategy _ rfl
    · exact all_not_strategy _ rfl

/-- The calls recorded by the RANSAC loop grow by calls that are no strategy. -/
theorem relocBody_calls (env : Env F) (i : Nat) (c : Candidate F) (L : RelocLoop F) :
    ∃ more, (relocBody env i c L).calls = L.calls ++ more ∧
      ∀ x ∈ more, x.isStrategy = false := by
  unfold relocBody
  split
  · exact ⟨[], by simp, by simp⟩
  · dsimp only
    split
    · exact ⟨[.iterate], rfl, all_not_strategy _ rfl⟩
    · split
      · refine ⟨_, List.append_assoc _ _ _, ?_⟩
        intro x hx
        rcases List.mem_append.mp hx with h | h
        · rw [List.mem_singleton] at h
          rw [h]
          rfl
        · exact relocRefine_calls env _ _ _ _ _ x h
      · refine ⟨_, (List.append_assoc _ _ _).trans (List.append_assoc _ _ _), ?_⟩
        intro x hx
        rcases List.mem_append.mp hx with h | h
        · rw [List.mem_singleton] at h
          rw [h]
          rfl
        · rcases List.mem_append.mp h with h | h
          · exact relocRefine_calls env _ _ _ _ _ x h
          · rw [List.mem_singleton] at h
            rw [h]
            rfl

/-- C9: when the keyframe database returns no relocalization candidate,
`Relocalization` returns false at once, whatever the bound on its RANSAC
loop: the only calls made are `ComputeBoW` and
`DetectRelocalizationCandidates` (no `SearchByBoW`, no `SearchByProjection`,
no PnP solver built or iterated, no `PoseOptimization`), and the pose and
the links of the current frame and `mnLastRelocFrameId` are left as they
were. -/
theorem Relocalization_without_candidates (env : Env F) (fuel : Nat) (s : State F)
    (h : env.DetectRelocalizationCandidates (ComputeBoW s) = []) :
    ∃ s2 calls, Relocalization env fuel s = some (false, s2, calls) ∧
      calls = [.Relocalization, .ComputeBoW, .DetectRelocalizationCandidates] ∧
      Call.SearchByBoW ∉ calls ∧ Call.SearchByProjection ∉ calls ∧
      Call.PnPsolver ∉ calls ∧ Call.iterate ∉ calls ∧ Call.PoseOptimization ∉ calls ∧
      s2.mCurrentFrame.mTcw = s.mCurrentFrame.mTcw ∧
      s2.mCurrentFrame.mvpMapPoints = s.mCurrentFrame.mvpMapPoints ∧
      s2.mCurrentFrame.mvbOutlier = s.mCurrentFrame.mvbOutlier ∧
      s2.mnLastRelocFrameId = s.mnLastRelocFrameId := by
  refine ⟨ComputeBoW s, _, ?_, rfl, by decide, by decide, by decide, by decide, by decide,
    rfl, rfl, rfl, rfl⟩
  unfold Relocalization
  simp only [h, List.isEmpty_nil, if_true]

/-- C9, witness: the tracker after construction with capabilities that find
no candidate. -/
theorem Relocalization_without_candidates_witness :
    quietEnv.DetectRelocalizationCandidates (ComputeBoW (State.construct false 0 30)) = [] ∧
    ∃ s2 calls, Relocalization quietEnv 0 (State.construct false 0 30) = some (false, s2, calls) ∧
      calls = [.Relocalization, .ComputeBoW, .DetectRelocalizationCandidates] ∧
      Call.SearchByBoW ∉ calls ∧ Call.SearchByProjection ∉ calls ∧
      Call.PnPsolver ∉ calls ∧ Call.iterate ∉ calls ∧ Call.PoseOptimization ∉ calls ∧
      s2.mCurrentFrame.mTcw = (State.construct false 0 30 : State ℚ).mCurrentFrame.mTcw ∧
      s2.mCurrentFrame.mvpMapPoints
        = (State.construct false 0 30 : State ℚ).mCurrentFrame.mvpMapPoints ∧
      s2.mCurrentFrame.mvbOutlier
        = (State.construct false 0 30 : State ℚ).mCurrentFrame.mvbOutlier ∧
      s2.mnLastRelocFrameId = (State.construct false 0 30 : State ℚ).mnLastRelocFrameId :=
  ⟨rfl, Relocalization_without_candidates quietEnv 0 (State.construct false 0 30) rfl⟩

/-- C11 (as amended): after `Reset` the map has no keyframe and no map point
and `GetMaxKFid() = 0`, the keyframe database is empty, the two id counters
are 0, the four trajectory lists and the local keyframes and map points are
empty, the reference keyframe is null, the inlier counter is 0, `_bOK` and
`_initialized` are false; the motion model, the VO-fallback flag and the
last-relocalization frame id are what they were before the call. -/
theorem Reset_clears_and_keeps (s : State F) :
    (Reset s)._map.GetAllKeyFrames = [] ∧ (Reset s)._map.GetAllMapPoints = [] ∧
    (Reset s)._map.GetMaxKFid = 0 ∧ (Reset s).keyFrameDB = [] ∧
    (Reset s).frameNextId = 0 ∧ (Reset s).keyFrameNextId = 0 ∧
    (Reset s).mlRelativeFramePoses = [] ∧ (Reset s).mlpReferences = [] ∧
    (Reset s).mlFrameTimes = [] ∧ (Reset s).mlbLost = [] ∧
    (Reset s).mvpLocalKeyFrames = [] ∧ (Reset s).mvpLocalMapPoints = [] ∧
    (Reset s).mpReferenceKF = none ∧ (Reset s).mnMatchesInliers = 0 ∧
    (Reset s)._bOK = false ∧ (Reset s)._initialized = false ∧
    (Reset s).mVelocity = s.mVelocity ∧ (Reset s).mbVO = s.mbVO ∧
    (Reset s).mnLastRelocFrameId = s.mnLastRelocFrameId := by
  refine ⟨?_, ?_, rfl, rfl, rfl, rfl, rfl, rfl, rfl, rfl, rfl, rfl, rfl, rfl, rfl, rfl, rfl,
    rfl, rfl⟩
  · unfold SLCVMap.GetAllKeyFrames
    rw [List.filter_eq_nil_iff]
    intro p _
    simp only [Reset, SLCVMap.clear, List.getElem?_map]
    cases s._map.keyFrames[p]? <;> simp
  · unfold SLCVMap.GetAllMapPoints
    rw [List.filter_eq_nil_iff]
    intro p _
    simp only [Reset, SLCVMap.clear, List.getElem?_map]
    cases s._map.mapPoints[p]? <;> simp

/-- C11, counterexample: the tracker after construction has no motion model,
whatever the declared initial values; `trackedState` has one, is in
VO-fallback mode and has relocalized at frame 7, and `Reset` leaves all
three as they are. -/
theorem Reset_keeps_motion_model :
    (∀ (mbVO : Bool) (r m : Int), (State.construct mbVO r m : State ℚ).mVelocity = none) ∧
    (Reset trackedState).mVelocity = some 1 ∧
    (Reset trackedState).mVelocity ≠ (State.construct false 0 30 : State ℚ).mVelocity ∧
    (Reset trackedState).mbVO = true ∧
    (Reset trackedState).mbVO ≠ (State.construct false 0 30 : State ℚ).mbVO ∧
    (Reset trackedState).mnLastRelocFrameId = 7 ∧
    (Reset trackedState).mnLastRelocFrameId
      ≠ (State.construct false 0 30 : State ℚ).mnLastRelocFrameId := by
  refine ⟨fun _ _ _ => rfl, rfl, ?_, rfl, by decide, rfl, by decide⟩
  intro h
  cases h

/-! ### The strategies run for a frame -/

theorem relocCandidate_calls (env : Env F) (s : State F) (pKF : Nat) :
    ∀ c ∈ (relocCandidate env s pKF).2.2, c.isStrategy = false := by
  unfold relocCandidate
  dsimp only
  split
  · exact all_not_strategy _ rfl
  · split
    · exact all_not_strategy _ rfl
    · exact all_not_strategy _ rfl

theorem relocSetup_calls (env : Env F) (s : State F) (l : List Nat) :
    ∀ c ∈ (relocSetup env s l).2.2, c.isStrategy = false := by
  induction l with
  | nil =>
    intro c hc
    exact absurd hc (List.not_mem_nil c)
  | cons pKF rest ih =>
    intro c hc
    unfold relocSetup at hc
    rcases List.mem_append.mp hc with h | h
    · exact relocCandidate_calls env s pKF c h
    · exact ih c h

theorem relocFor_calls (env : Env F) (l : List Nat) (L : RelocLoop F) :
    ∃ more, (relocFor env l L).calls = L.calls ++ more ∧
      ∀ x ∈ more, x.isStrategy = false := by
  induction l generalizing L with
  | nil => exact ⟨[], by simp [relocFor], by simp⟩
  | cons i rest ih =>
    unfold relocFor
    split
    · exact ih L
    · split
      · exact ih L
      · rename_i c _ _
        dsimp only
        obtain ⟨m1, h1, hm1⟩ := relocBody_calls env i c L
        split
        · exact ⟨m1, h1, hm1⟩
        · obtain ⟨m2, h2, hm2⟩ := ih (relocBody env i c L)
          refine ⟨m1 ++ m2, by rw [h2, h1, List.append_assoc], ?_⟩
          intro x hx
          rcases List.mem_append.mp hx with h | h
          · exact hm1 x h
          · exact hm2 x h

theorem relocWhile_calls (env : Env F) (nKFs fuel : Nat) (L L2 : RelocLoop F)
    (h : relocWhile env nKFs fuel L = some L2) :
    ∃ more, L2.calls = L.calls ++ more ∧ ∀ x ∈ more, x.isStrategy = false := by
  induction fuel generalizing L with
  | zero =>
    unfold relocWhile at h
    split at h
    · exact absurd h (by simp)
    · cases h
      exact ⟨[], by simp, by simp⟩
  | succ fuel ih =>
    unfold relocWhile at h
    split at h
    · obtain ⟨m1, h1, hm1⟩ := relocFor_calls env (List.range nKFs) L
      obtain ⟨m2, h2, hm2⟩ := ih _ h
      refine ⟨m1 ++ m2, by rw [h2, h1, List.append_assoc], ?_⟩
      intro x hx
      rcases List.mem_append.mp hx with h | h
      · exact hm1 x h
      · exact hm2 x h
    · cases h
      exact ⟨[], by simp, by simp⟩

theorem Relocalization_calls (env : Env F) (fuel : Nat) (s : State F)
    (r : Bool × State F × List Call) (h : Relocalization env fuel s = some r) :
    ∃ rest, r.2.2 = Call.Relocalization :: rest ∧ ∀ c ∈ rest, c.isStrategy = false := by
  unfold Relocalization at h
  dsimp only at h
  split at h
  · cases h
    exact ⟨[Call.ComputeBoW, Call.DetectRelocalizationCandidates], rfl, all_not_strategy _ rfl⟩
  · split at h
    · exact absurd h (by simp)
    · rename_i L hL
      obtain ⟨more, hm, hmore⟩ := relocWhile_calls env _ _ _ _ hL
      have hrest : ∀ c ∈ [Call.ComputeBoW, Call.DetectRelocalizationCandidates] ++
          (relocSetup env (ComputeBoW s)
            (env.DetectRelocalizationCandidates (ComputeBoW s))).2.2 ++ more,
          c.isStrategy = false := by
        intro c hc
        rcases List.mem_append.mp hc with h1 | h1
        · rcases List.mem_append.mp h1 with h2 | h2
          · exact all_not_strategy [Call.ComputeBoW, Call.DetectRelocalizationCandidates] rfl c h2
          · exact relocSetup_calls env _ _ c h2
        · exact hmore c h1
      split at h
      · cases h
        exact ⟨_, by rw [hm]; rfl, hrest⟩
      · cases h
        exact ⟨_, by rw [hm]; rfl, hrest⟩

/-- A strategy call found in a call list that starts with the strategy `X` and
goes on with calls that are no strategy is `X`. -/
theorem eq_head_of_strategy (calls rest : List Call) (X y : Call) (h : calls = X :: rest)
    (hr : ∀ c ∈ rest, c.isStrategy = false) (hm : y ∈ calls) (hy : y.isStrategy = true) :
    y = X := by
  rw [h] at hm
  rcases List.mem_cons.mp hm with h1 | h1
  · exact h1
  · rw [hr y h1] at hy
    exact absurd hy (by decide)

theorem TrackWithOptFlow_mVelocity [Zero F] [One F] (env : Env F) (s : State F) :
    (TrackWithOptFlow env s).2.1.mVelocity = s.mVelocity := by
  unfold TrackWithOptFlow
  dsimp only
  split
  · rfl
  · split
    · rfl
    · split <;> rfl

theorem TrackWithOptFlow_smState [Zero F] [One F] (env : Env F) (s : State F) :
    (TrackWithOptFlow env s).2.1.smState = s.smState := by
  unfold TrackWithOptFlow
  dsimp only
  split
  · rfl
  · split
    · rfl
    · split <;> rfl

theorem TrackWithOptFlow_mbVO_of_false [Zero F] [One F] (env : Env F) (s : State F)
    (h : (TrackWithOptFlow env s).1 = false) : (TrackWithOptFlow env s).2.1.mbVO = s.mbVO := by
  unfold TrackWithOptFlow at h ⊢
  dsimp only at h ⊢
  split_ifs at h ⊢
  all_goals rfl

/-- The calls of the part of `track3DPts` that follows the strategy stage: at
most `TrackLocalMap` is a strategy. -/
theorem trackFinish_calls [Field F] (env : Env F) (st : State F × List Call) :
    ∃ more, (trackFinish env st).2 = st.2 ++ more ∧
      ∀ c ∈ more, c.isStrategy = true → c = Call.TrackLocalMap := by
  have hc3 : ∀ (b : Bool), ∀ c ∈ (if b then [Call.decorateSceneAndVideo, Call.updatePose]
      else [Call.decorateSceneAndVideo]), c.isStrategy = false := by
    intro b
    cases b
    · exact all_not_strategy _ rfl
    · exact all_not_strategy _ rfl
  unfold trackFinish
  dsimp only
  refine ⟨_, List.append_assoc _ _ _, ?_⟩
  intro c hc hs
  rcases List.mem_append.mp hc with h | h
  · split at h
    · obtain ⟨rest, hr, hrest⟩ := TrackLocalMap_calls env st.1
      exact eq_head_of_strategy _ rest _ c hr hrest h hs
    · exact absurd h (List.not_mem_nil c)
  · rw [hc3 _ c h] at hs
    exact absurd hs (by decide)

/-- The motion-model strategy is never recorded as called with an empty motion
model by the strategy stage. -/
theorem trackStrategy_not_empty_model [Field F] (env : Env F) (fuel : Nat) (s : State F)
    (r : State F × List Call) (h : trackStrategy env fuel s = some r) :
    Call.TrackWithMotionModel true ∉ r.2 := by
  intro hm
  unfold trackStrategy at h
  split at h
  · split at h
    · exact absurd h (by simp)
    · rename_i rr hrr
      cases h
      obtain ⟨rest, hr, hrest⟩ := Relocalization_calls env fuel s rr hrr
      exact absurd (eq_head_of_strategy _ rest _ _ hr hrest hm rfl) (by decide)
  · dsimp only at h
    obtain ⟨rest, hr, hrest⟩ := TrackWithOptFlow_calls env s
    split at h
    · exact absurd h (by simp)
    · rename_i r2 hr2
      cases h
      rcases List.mem_append.mp hm with h1 | h1
      · exact absurd (eq_head_of_strategy _ rest _ _ hr hrest h1 rfl) (by decide)
      · split_ifs at hr2 with hb hv hvel
        · cases hr2
          obtain ⟨rest2, hr2, hrest2⟩ := TrackWithMotionModel_calls env (afterOptFlow env s)
          have := eq_head_of_strategy _ rest2 _ _ hr2 hrest2 h1 rfl
          rw [Option.isSome_iff_exists] at hvel
          obtain ⟨v, hv2⟩ := hvel
          rw [hv2] at this
          exact absurd this (by simp)
        · cases hr2
          obtain ⟨rest2, hr2, hrest2⟩ := TrackReferenceKeyFrame_calls env (afterOptFlow env s)
          exact absurd (eq_head_of_strategy _ rest2 _ _ hr2 hrest2 h1 rfl) (by decide)
        · unfold trackVO at hr2
          dsimp only at hr2
          split at hr2
          · exact absurd hr2 (by simp)
          · rename_i bR s2 c2 hrel
            cases hr2
            obtain ⟨rest3, hr3, hrest3⟩ := Relocalization_calls env fuel _ _ hrel
            rcases List.mem_append.mp h1 with h2 | h2
            · unfold motionModelVO at h2
              split at h2
              · rename_i hvel
                obtain ⟨rest2, hr2, hrest2⟩ :=
                  TrackWithMotionModel_calls env (afterOptFlow env s)
                have := eq_head_of_strategy _ rest2 _ _ hr2 hrest2 h2 rfl
                rw [Option.isSome_iff_exists] at hvel
                obtain ⟨v, hv2⟩ := hvel
                rw [hv2] at this
                exact absurd this (by simp)
              · exact absurd h2 (List.not_mem_nil _)
            · exact absurd (eq_head_of_strategy _ rest3 _ _ hr3 hrest3 h2 rfl) (by decide)
        · cases hr2
          exact absurd h1 (List.not_mem_nil _)

/-- C10: for a frame processed while the state is not `TRACKING_LOST`, when
`TrackWithOptFlow` fails and `mbVO` is off, `track3DPts` returns, and it calls
`TrackWithMotionModel` (with a motion model that is not empty) and not
`TrackReferenceKeyFrame` if `mVelocity` is not empty, and
`TrackReferenceKeyFrame` and not `TrackWithMotionModel` if `mVelocity` is
empty; and no run of `track3DPts`, in whatever state, calls
`TrackWithMotionModel` with an empty motion model. -/
theorem track3DPts_strategy_routing [Field F] (env : Env F) (fuel : Nat)
    (mvKeys : List (F × F)) (s : State F)
    (hstate : s.smState ≠ .TRACKING_LOST)
    (hflow : (TrackWithOptFlow env (nextFrame mvKeys s)).1 = false)
    (hvo : s.mbVO = false) :
    (∃ s2 calls, track3DPts env fuel mvKeys s = some (s2, calls) ∧
      (s.mVelocity.isSome = true →
        Call.TrackWithMotionModel false ∈ calls ∧ Call.TrackReferenceKeyFrame ∉ calls) ∧
      (s.mVelocity.isSome = false →
        Call.TrackReferenceKeyFrame ∈ calls ∧ ∀ e, Call.TrackWithMotionModel e ∉ calls)) ∧
    (∀ (fuel2 : Nat) (mvKeys2 : List (F × F)) (s3 s4 : State F) (calls2 : List Call),
      track3DPts env fuel2 mvKeys2 s3 = some (s4, calls2) →
        Call.TrackWithMotionModel true ∉ calls2) := by
  have hbok : (afterOptFlow env (nextFrame mvKeys s))._bOK = false := hflow
  have hvo2 : (afterOptFlow env (nextFrame mvKeys s)).mbVO = false :=
    (TrackWithOptFlow_mbVO_of_false env _ hflow).trans hvo
  have hvel : (afterOptFlow env (nextFrame mvKeys s)).mVelocity = s.mVelocity :=
    TrackWithOptFlow_mVelocity env _
  obtain ⟨restF, hF, hrestF⟩ := TrackWithOptFlow_calls env (nextFrame mvKeys s)
  constructor
  · cases hv : s.mVelocity.isSome
    · -- no motion model: reference keyframe
      obtain ⟨restK, hK, hrestK⟩ :=
        TrackReferenceKeyFrame_calls env (afterOptFlow env (nextFrame mvKeys s))
      have hst : trackStrategy env fuel (nextFrame mvKeys s) = some
          ({ ({ (TrackReferenceKeyFrame env (afterOptFlow env (nextFrame mvKeys s))).2.1 with
                  _bOK := (TrackReferenceKeyFrame env
                    (afterOptFlow env (nextFrame mvKeys s))).1,
                  trackingType := .TrackingType_ORBSLAM } : State F) with
              _optFlowFrames :=
                (TrackReferenceKeyFrame env
                  (afterOptFlow env (nextFrame mvKeys s))).2.1._optFlowFrames + 1 },
            (TrackWithOptFlow env (nextFrame mvKeys s)).2.2 ++
              (TrackReferenceKeyFrame env (afterOptFlow env (nextFrame mvKeys s))).2.2) := by
        unfold trackStrategy
        rw [if_neg (by exact hstate)]
        dsimp only
        rw [if_pos hbok, if_pos hvo2, hvel, hv]
        rfl
      obtain ⟨more, hmore, hmoreS⟩ := trackFinish_calls env
        (({ ({ (TrackReferenceKeyFrame env (afterOptFlow env (nextFrame mvKeys s))).2.1 with
                  _bOK := (TrackReferenceKeyFrame env
                    (afterOptFlow env (nextFrame mvKeys s))).1,
                  trackingType := .TrackingType_ORBSLAM } : State F) with
              _optFlowFrames :=
                (TrackReferenceKeyFrame env
                  (afterOptFlow env (nextFrame mvKeys s))).2.1._optFlowFrames + 1 } : State F),
            (TrackWithOptFlow env (nextFrame mvKeys s)).2.2 ++
              (TrackReferenceKeyFrame env (afterOptFlow env (nextFrame mvKeys s))).2.2)
      refine ⟨_, _, by unfold track3DPts; rw [hst], fun h => Bool.noConfusion h, fun _ => ?_⟩
      rw [hmore]
      constructor
      · apply List.mem_append_left
        apply List.mem_append_right
        rw [hK]
        exact List.mem_cons_self _ _
      · intro e he
        rcases List.mem_append.mp he with h1 | h1
        · rcases List.mem_append.mp h1 with h2 | h2
          · exact absurd (eq_head_of_strategy _ restF _ _ hF hrestF h2 rfl) (by simp)
          · exact absurd (eq_head_of_strategy _ restK _ _ hK hrestK h2 rfl) (by simp)
        · exact absurd (hmoreS _ h1 rfl) (by simp)
    · -- a motion model: motion-model tracking
      obtain ⟨restM, hM, hrestM⟩ :=
        TrackWithMotionModel_calls env (afterOptFlow env (nextFrame mvKeys s))
      have hnone : (afterOptFlow env (nextFrame mvKeys s)).mVelocity.isNone = false := by
        rw [hvel]
        cases hs : s.mVelocity with
        | none => rw [hs] at hv; exact absurd hv (by simp)
        | some v => rfl
      rw [hnone] at hM
      have hst : trackStrategy env fuel (nextFrame mvKeys s) = some
          ({ ({ (TrackWithMotionModel env (afterOptFlow env (nextFrame mvKeys s))).2.1 with
                  _bOK := (TrackWithMotionModel env
                    (afterOptFlow env (nextFrame mvKeys s))).1,
                  trackingType := .TrackingType_MotionModel } : State F) with
              _optFlowFrames :=
                (TrackWithMotionModel env
                  (afterOptFlow env (nextFrame mvKeys s))).2.1._optFlowFrames + 1 },
            (TrackWithOptFlow env (nextFrame mvKeys s)).2.2 ++
              (TrackWithMotionModel env (afterOptFlow env (nextFrame mvKeys s))).2.2) := by
        unfold trackStrategy
        rw [if_neg (by exact hstate)]
        dsimp only
        rw [if_pos hbok, if_pos hvo2, hvel, hv]
        rfl
      obtain ⟨more, hmore, hmoreS⟩ := trackFinish_calls env
        (({ ({ (TrackWithMotionModel env (afterOptFlow env (nextFrame mvKeys s))).2.1 with
                  _bOK := (TrackWithMotionModel env
                    (afterOptFlow env (nextFrame mvKeys s))).1,
                  trackingType := .TrackingType_MotionModel } : State F) with
              _optFlowFrames :=
                (TrackWithMotionModel env
                  (afterOptFlow env (nextFrame mvKeys s))).2.1._optFlowFrames + 1 } : State F),
            (TrackWithOptFlow env (nextFrame mvKeys s)).2.2 ++
              (TrackWithMotionModel env (afterOptFlow env (nextFrame mvKeys s))).2.2)
      refine ⟨_, _, by unfold track3DPts; rw [hst], fun _ => ?_, fun h => Bool.noConfusion h⟩
      rw [hmore]
      constructor
      · apply List.mem_append_left
        apply List.mem_append_right
        rw [hM]
        exact List.mem_cons_self _ _
      · intro he
        rcases List.mem_append.mp he with h1 | h1
        · rcases List.mem_append.mp h1 with h2 | h2
          · exact absurd (eq_head_of_strategy _ restF _ _ hF hrestF h2 rfl) (by simp)
          · exact absurd (eq_head_of_strategy _ restM _ _ hM hrestM h2 rfl) (by simp)
        · exact absurd (hmoreS _ h1 rfl) (by simp)
  · intro fuel2 mvKeys2 s3 s4 calls2 h hm
    unfold track3DPts at h
    split at h
    · exact absurd h (by simp)
    · rename_i st hst
      have hh : (trackFinish env st).2 = calls2 := congrArg Prod.snd (Option.some.inj h)
      obtain ⟨more, hmore, hmoreS⟩ := trackFinish_calls env st
      rw [← hh, hmore] at hm
      rcases List.mem_append.mp hm with h1 | h1
      · exact trackStrategy_not_empty_model env fuel2 _ st hst h1
      · exact absurd (hmoreS _ h1 rfl) (by simp)

/-- C10, witness: with capabilities that find nothing, `modelState` (state OK,
a motion model, VO-fallback off) is routed through `TrackWithMotionModel`, and
the tracker after construction (no motion model) through
`TrackReferenceKeyFrame`; the calls of the first run are listed. -/
theorem track3DPts_strategy_routing_witness :
    (∃ s2 calls, track3DPts quietEnv 0 [] modelState = some (s2, calls) ∧
      Call.TrackWithMotionModel false ∈ calls ∧ Call.TrackReferenceKeyFrame ∉ calls) ∧
    (∃ s2 calls, track3DPts quietEnv 0 [] (State.construct false 0 30) = some (s2, calls) ∧
      Call.TrackReferenceKeyFrame ∈ calls ∧ ∀ e, Call.TrackWithMotionModel e ∉ calls) ∧
    (track3DPts quietEnv 0 [] modelState).map (fun r => r.2) =
      some [Call.TrackWithOptFlow, Call.TrackWithMotionModel false, Call.SearchByProjection,
        Call.SearchByProjection, Call.decorateSceneAndVideo] := by
  obtain ⟨⟨s2, calls, h, hm, _⟩, _⟩ :=
    track3DPts_strategy_routing quietEnv 0 [] modelState (by decide) rfl rfl
  obtain ⟨⟨s3, calls3, h3, _, hk⟩, _⟩ :=
    track3DPts_strategy_routing quietEnv 0 [] (State.construct false 0 30) (by decide) rfl rfl
  exact ⟨⟨s2, calls, h, hm rfl⟩, ⟨s3, calls3, h3, hk rfl⟩, by decide⟩

/-! ### The RANSAC loop of `Relocalization` -/

theorem all_not_test (l : List Call) (h : (l.all fun c => !c.isTest) = true) :
    ∀ c ∈ l, c.isTest = false := by
  intro c hc
  rw [List.all_eq_true] at h
  simpa using h c hc

theorem relocRefine_no_test (env : Env F) (s : State F) (pKF : Nat) (m : List (Option Nat))
    (Tcw : Mat4 F) (vbInliers : List Bool) :
    ∀ c ∈ (relocRefine env s pKF m Tcw vbInliers).2.2, c.isTest = false := by
  unfold relocRefine
  dsimp only
  split
  · exact all_not_test _ rfl
  · split
    · split
      · split
        · split
          · exact all_not_test _ rfl
          · exact all_not_test _ rfl
        · exact all_not_test _ rfl
      · exact all_not_test _ rfl
    · exact all_not_test _ rfl

theorem copyInliers_kept (m : List (Option Nat)) (vbInliers : List Bool) (s : State F) :
    (copyInliers m vbInliers s).1.kept = s.kept := by
  unfold copyInliers
  refine (foldl_fst_kept _ _ _ ?_).trans rfl
  intro acc j
  dsimp only
  split
  · split
    · rfl
    · exact setLink_kept _ _ _
  · exact setLink_kept _ _ _

theorem linkedPoints_kept (s : State F) : (linkedPoints s).1.kept = s.kept := by
  unfold linkedPoints
  refine (foldl_fst_kept _ _ _ ?_).trans rfl
  intro acc ip
  dsimp only
  split <;> rfl

theorem relocRefine_kept (env : Env F) (s : State F) (pKF : Nat) (m : List (Option Nat))
    (Tcw : Mat4 F) (vbInliers : List Bool) :
    (relocRefine env s pKF m Tcw vbInliers).2.1.kept = s.kept := by
  unfold relocRefine
  dsimp only
  split
  · simp only [applyPoseOptimization_kept, copyInliers_kept]
    rfl
  · split
    · split
      · split
        · split
          · simp only [nullOutlierLinks_kept, applyPoseOptimization_kept, writeLinks_kept,
              linkedPoints_kept, copyInliers_kept]
            rfl
          · simp only [nullOutlierLinks_kept, applyPoseOptimization_kept, writeLinks_kept,
              linkedPoints_kept, copyInliers_kept]
            rfl
        · simp only [nullOutlierLinks_kept, applyPoseOptimization_kept, writeLinks_kept,
            copyInliers_kept]
          rfl
      · simp only [nullOutlierLinks_kept, applyPoseOptimization_kept, writeLinks_kept,
          copyInliers_kept]
        rfl
    · simp only [nullOutlierLinks_kept, applyPoseOptimization_kept, copyInliers_kept]
      rfl

theorem liveCandidates_set (l : List (Candidate F)) (i : Nat) (c c1 : Candidate F)
    (h : l[i]? = some c) :
    liveCandidates (l.set i c1) =
      liveCandidates l - (if c.vbDiscarded then 0 else 1) +
        (if c1.vbDiscarded then 0 else 1) := by
  induction l generalizing i with
  | nil => simp at h
  | cons a rest ih =>
    cases i with
    | zero =>
      simp only [List.getElem?_cons_zero, Option.some.injEq] at h
      subst h
      simp only [List.set_cons_zero, liveCandidates]
      omega
    | succ i =>
      simp only [List.getElem?_cons_succ] at h
      simp only [List.set_cons_succ, liveCandidates, ih i h]
      omega

theorem liveCandidates_pos (l : List (Candidate F)) (h : 0 < liveCandidates l) :
    ∃ (i : Nat) (c : Candidate F), l[i]? = some c ∧ c.vbDiscarded = false := by
  induction l with
  | nil => exact absurd h (by simp [liveCandidates])
  | cons a rest ih =>
    cases hd : a.vbDiscarded
    · exact ⟨0, a, List.getElem?_cons_zero, hd⟩
    · simp only [liveCandidates, hd, if_true, zero_add] at h
      obtain ⟨i, c, hi, hc⟩ := ih h
      exact ⟨i + 1, c, List.getElem?_cons_succ.trans hi, hc⟩

theorem relocCandidate_spec (env : Env F) (s : State F) (pKF : Nat) :
    (relocCandidate env s pKF).1.pKF = pKF ∧ (relocCandidate env s pKF).1.nIterate = 0 ∧
    (relocCandidate env s pKF).2.1 = !(relocCandidate env s pKF).1.vbDiscarded ∧
    ((relocCandidate env s pKF).1.vbDiscarded = false →
      Candidate.admitted env s (relocCandidate env s pKF).1) ∧
    ∀ c ∈ (relocCandidate env s pKF).2.2, c.isTest = false := by
  unfold relocCandidate
  dsimp only
  split
  · exact ⟨rfl, rfl, rfl, fun h => Bool.noConfusion h, all_not_test _ rfl⟩
  · rename_i hbad
    split
    · exact ⟨rfl, rfl, rfl, fun h => Bool.noConfusion h, all_not_test _ rfl⟩
    · rename_i hn
      refine ⟨rfl, rfl, rfl, fun _ => ⟨?_, ?_, rfl, rfl⟩, all_not_test _ rfl⟩
      · simpa using hbad
      · exact Int.not_lt.mp hn

theorem relocSetup_count (env : Env F) (s : State F) (kfs : List Nat) :
    (relocSetup env s kfs).2.1 = liveCandidates (relocSetup env s kfs).1 := by
  induction kfs with
  | nil => rfl
  | cons pKF rest ih =>
    unfold relocSetup
    dsimp only
    rw [liveCandidates, ← ih, (relocCandidate_spec env s pKF).2.2.1]
    cases (relocCandidate env s pKF).1.vbDiscarded <;> rfl

theorem relocSetup_cand (env : Env F) (s : State F) (kfs : List Nat) :
    ∀ (i : Nat) (c : Candidate F), (relocSetup env s kfs).1[i]? = some c →
      kfs[i]? = some c.pKF ∧ c.nIterate = 0 ∧
      (c.vbDiscarded = false → Candidate.admitted env s c) := by
  induction kfs with
  | nil =>
    intro i c h
    simp [relocSetup] at h
  | cons pKF rest ih =>
    intro i c h
    unfold relocSetup at h
    dsimp only at h
    cases i with
    | zero =>
      simp only [List.getElem?_cons_zero, Option.some.injEq] at h
      subst h
      obtain ⟨h1, h2, _, h4, _⟩ := relocCandidate_spec env s pKF
      exact ⟨by rw [List.getElem?_cons_zero, h1], h2, h4⟩
    | succ i =>
      simp only [List.getElem?_cons_succ] at h
      rw [List.getElem?_cons_succ]
      exact ih i c h

theorem relocSetup_no_test (env : Env F) (s : State F) (kfs : List Nat) :
    ∀ c ∈ (relocSetup env s kfs).2.2, c.isTest = false := by
  induction kfs with
  | nil =>
    intro c hc
    exact absurd hc (List.not_mem_nil c)
  | cons pKF rest ih =>
    intro c hc
    unfold relocSetup at hc
    rcases List.mem_append.mp hc with h | h
    · exact (relocCandidate_spec env s pKF).2.2.2.2 c h
    · exact ih c h

/-- The invariant holds at the start of the RANSAC loop. -/
theorem relocStart_inv (env : Env F) (s : State F) (kfs : List Nat) :
    RelocInv env s kfs 0 0 (relocStart env s kfs) := by
  have hno : ∀ i n, Call.nGoodTested i n ∉ (relocStart env s kfs).calls := by
    intro i n h
    have h2 : (Call.nGoodTested i n).isTest = false := by
      rcases List.mem_append.mp h with h1 | h1
      · exact all_not_test
          [Call.Relocalization, Call.ComputeBoW, Call.DetectRelocalizationCandidates] rfl _ h1
      · exact relocSetup_no_test env s kfs _ h1
    exact absurd h2 (by simp [Call.isTest])
  refine ⟨relocSetup_count env s kfs, ?_, fun i n h => absurd h (hno i n), ?_, rfl⟩
  · intro i c h
    obtain ⟨h1, h2, h3⟩ := relocSetup_cand env s kfs i c h
    refine ⟨h1, fun hd => ⟨h3 hd, ?_, ?_⟩⟩
    · rw [h2]
      simp
    · intro k hk
      rw [h2] at hk
      exact absurd hk (Nat.not_lt_zero k)
  · constructor
    · intro h
      exact Bool.noConfusion h
    · rintro ⟨i, n, h, _⟩
      exact absurd h (hno i n)

/-- A candidate that is absent or discarded is passed over. -/
theorem RelocInv_skip (env : Env F) (s : State F) (kfs : List Nat) (t j : Nat)
    (L : RelocLoop F) (hI : RelocInv env s kfs t j L)
    (h : ∀ c, L.cands[j]? = some c → c.vbDiscarded = true) :
    RelocInv env s kfs t (j + 1) L := by
  refine ⟨hI.count_eq, ?_, hI.tested, hI.matched, hI.kept⟩
  intro i c hc
  obtain ⟨h1, h2⟩ := hI.cand i c hc
  refine ⟨h1, fun hd => ?_⟩
  obtain ⟨a, b, d⟩ := h2 hd
  refine ⟨a, ?_, d⟩
  have hne : i ≠ j := by
    intro e
    rw [e] at hc
    rw [h c hc] at hd
    exact Bool.noConfusion hd
  rw [b]
  by_cases hlt : i < j
  · rw [if_pos hlt, if_pos (by omega)]
  · rw [if_neg hlt, if_neg (by omega)]

/-- When all candidates have been visited the next pass starts. -/
theorem RelocInv_next (env : Env F) (s : State F) (kfs : List Nat) (t : Nat)
    (L : RelocLoop F) (hlen : L.cands.length = kfs.length)
    (hI : RelocInv env s kfs t kfs.length L) : RelocInv env s kfs (t + 1) 0 L := by
  refine ⟨hI.count_eq, ?_, hI.tested, hI.matched, hI.kept⟩
  intro i c hc
  obtain ⟨h1, h2⟩ := hI.cand i c hc
  refine ⟨h1, fun hd => ?_⟩
  obtain ⟨a, b, d⟩ := h2 hd
  refine ⟨a, ?_, d⟩
  have hi : i < kfs.length := by
    rw [← hlen]
    exact (List.getElem?_eq_some_iff.mp hc).1
  rw [b, if_pos hi, if_neg (Nat.not_lt_zero i)]

/-- One visit of a candidate that is not discarded keeps the invariant, for
any loop state that has the candidate list, the counter, the kept members,
the tests and `bMatch` of the state after the visit. -/
theorem RelocInv_step (env : Env F) (s : State F) (kfs : List Nat) (t i : Nat)
    (c : Candidate F) (L L2 : RelocLoop F) (hI : RelocInv env s kfs t i L)
    (hc : L.cands[i]? = some c) (hd : c.vbDiscarded = false)
    (hcands : L2.cands = L.cands.set i
      { c with nIterate := c.nIterate + 1,
               vbDiscarded := if (candidateSolver env s c.pKF c.nIterate).bNoMore then true
                 else c.vbDiscarded })
    (hcount : L2.nCandidates =
      if (candidateSolver env s c.pKF c.nIterate).bNoMore then L.nCandidates - 1
      else L.nCandidates)
    (hkept : L2.s.kept = L.s.kept)
    (htested : ∀ j n, Call.nGoodTested j n ∈ L2.calls →
      Call.nGoodTested j n ∈ L.calls ∨ ReachesTest env s kfs j n)
    (hmatched : L2.bMatch = true ↔ ∃ j n, Call.nGoodTested j n ∈ L2.calls ∧ n ≥ 50) :
    RelocInv env s kfs t (i + 1) L2 := by
  obtain ⟨hpk, hadm⟩ := hI.cand i c hc
  obtain ⟨adm, hn, hno⟩ := hadm hd
  rw [if_neg (Nat.lt_irrefl i)] at hn
  have hilt : i < L.cands.length := (List.getElem?_eq_some_iff.mp hc).1
  refine ⟨?_, ?_, ?_, hmatched, hkept.trans hI.kept⟩
  · rw [hcount, hcands, liveCandidates_set _ i c _ hc, hI.count_eq, hd]
    cases (candidateSolver env s c.pKF c.nIterate).bNoMore
    · simp
    · simp
  · intro i2 c2 hc2
    rw [hcands] at hc2
    by_cases he : i = i2
    · subst he
      rw [List.getElem?_set_self hilt] at hc2
      cases hc2
      refine ⟨hpk, fun hd2 => ?_⟩
      dsimp only at hd2 ⊢
      have hnm : (candidateSolver env s c.pKF c.nIterate).bNoMore = false := by
        cases hb : (candidateSolver env s c.pKF c.nIterate).bNoMore
        · rfl
        · rw [hb] at hd2
          exact Bool.noConfusion hd2
      refine ⟨adm, ?_, ?_⟩
      · rw [if_pos (Nat.lt_succ_self i), hn]
      · intro k hk
        by_cases hk2 : k < c.nIterate
        · exact hno k hk2
        · have : k = c.nIterate := by omega
          rw [this]
          exact hnm
    · rw [List.getElem?_set_ne he] at hc2
      obtain ⟨h1, h2⟩ := hI.cand i2 c2 hc2
      refine ⟨h1, fun hd2 => ?_⟩
      obtain ⟨a, b, d⟩ := h2 hd2
      refine ⟨a, ?_, d⟩
      rw [b]
      by_cases hlt : i2 < i
      · rw [if_pos hlt, if_pos (by omega)]
      · rw [if_neg hlt, if_neg (by omega)]
  · intro j n h
    rcases htested j n h with h1 | h1
    · exact hI.tested j n h1
    · exact h1

theorem not_test_of_mem (l : List Call) (hl : ∀ c ∈ l, c.isTest = false) (j : Nat) (n : Int) :
    Call.nGoodTested j n ∉ l := by
  intro h
  exact absurd (hl _ h) (by simp [Call.isTest])

/-- The body of the RANSAC loop for a candidate that is not discarded keeps
the invariant. -/
theorem relocBody_inv (env : Env F) (s : State F) (kfs : List Nat) (t i : Nat)
    (c : Candidate F) (L : RelocLoop F) (hI : RelocInv env s kfs t i L)
    (hc : L.cands[i]? = some c) (hd : c.vbDiscarded = false) (hb : L.bMatch = false) :
    RelocInv env s kfs t (i + 1) (relocBody env i c L) := by
  obtain ⟨hpk, hadm⟩ := hI.cand i c hc
  obtain ⟨adm, hn, hno⟩ := hadm hd
  obtain ⟨hbad, h15, hmat, hps⟩ := adm
  have hold : ¬ ∃ j n, Call.nGoodTested j n ∈ L.calls ∧ n ≥ 50 := by
    intro h
    rw [hI.matched.mpr h] at hb
    exact Bool.noConfusion hb
  have hit : ∀ j n, Call.nGoodTested j n ∉ [Call.iterate] :=
    not_test_of_mem _ (all_not_test _ rfl)
  cases hT : (candidateSolver env s c.pKF c.nIterate).Tcw with
  | none =>
    have hbody : relocBody env i c L =
        { L with
          cands := L.cands.set i
            { c with nIterate := c.nIterate + 1,
                     vbDiscarded :=
                       if (candidateSolver env s c.pKF c.nIterate).bNoMore then true
                       else c.vbDiscarded }
          nCandidates :=
            if (candidateSolver env s c.pKF c.nIterate).bNoMore then L.nCandidates - 1
            else L.nCandidates
          calls := L.calls ++ [.iterate] } := by
      simp only [relocBody, hps, hT]
    rw [hbody]
    refine RelocInv_step env s kfs t i c L _ hI hc hd rfl rfl rfl ?_ ?_
    · intro j n h
      rcases List.mem_append.mp h with h1 | h1
      · exact Or.inl h1
      · exact absurd h1 (hit j n)
    · constructor
      · intro h
        rw [show ({ L with
          cands := L.cands.set i
            { c with nIterate := c.nIterate + 1,
                     vbDiscarded :=
                       if (candidateSolver env s c.pKF c.nIterate).bNoMore then true
                       else c.vbDiscarded }
          nCandidates :=
            if (candidateSolver env s c.pKF c.nIterate).bNoMore then L.nCandidates - 1
            else L.nCandidates
          calls := L.calls ++ [.iterate] } : RelocLoop F).bMatch = L.bMatch from rfl, hb] at h
        exact Bool.noConfusion h
      · rintro ⟨j, n, h, hn50⟩
        rcases List.mem_append.mp h with h1 | h1
        · exact absurd ⟨j, n, h1, hn50⟩ hold
        · exact absurd h1 (hit j n)
  | some Tcw =>
    have hrt := relocRefine_no_test env L.s c.pKF c.vvpMapPointMatches Tcw
      (candidateSolver env s c.pKF c.nIterate).vbInliers
    have hrk := relocRefine_kept env L.s c.pKF c.vvpMapPointMatches Tcw
      (candidateSolver env s c.pKF c.nIterate).vbInliers
    cases hR : (relocRefine env L.s c.pKF c.vvpMapPointMatches Tcw
      (candidateSolver env s c.pKF c.nIterate).vbInliers).1 with
    | none =>
      have hbody : relocBody env i c L =
          { L with
            s := (relocRefine env L.s c.pKF c.vvpMapPointMatches Tcw
              (candidateSolver env s c.pKF c.nIterate).vbInliers).2.1
            cands := L.cands.set i
              { c with nIterate := c.nIterate + 1,
                       vbDiscarded :=
                         if (candidateSolver env s c.pKF c.nIterate).bNoMore then true
                         else c.vbDiscarded }
            nCandidates :=
              if (candidateSolver env s c.pKF c.nIterate).bNoMore then L.nCandidates - 1
              else L.nCandidates
            calls := L.calls ++ [.iterate] ++
              (relocRefine env L.s c.pKF c.vvpMapPointMatches Tcw
                (candidateSolver env s c.pKF c.nIterate).vbInliers).2.2 } := by
        simp only [relocBody, hps, hT, hR]
      rw [hbody]
      have hmem : ∀ j n, Call.nGoodTested j n ∈ L.calls ++ [Call.iterate] ++
          (relocRefine env L.s c.pKF c.vvpMapPointMatches Tcw
            (candidateSolver env s c.pKF c.nIterate).vbInliers).2.2 →
          Call.nGoodTested j n ∈ L.calls := by
        intro j n h
        rcases List.mem_append.mp h with h1 | h1
        · rcases List.mem_append.mp h1 with h2 | h2
          · exact h2
          · exact absurd h2 (hit j n)
        · exact absurd h1 (not_test_of_mem _ hrt j n)
      refine RelocInv_step env s kfs t i c L _ hI hc hd rfl rfl hrk ?_ ?_
      · intro j n h
        exact Or.inl (hmem j n h)
      · constructor
        · intro h
          exact absurd (h.symm.trans hb) (by decide)
        · rintro ⟨j, n, h, hn50⟩
          exact absurd ⟨j, n, hmem j n h, hn50⟩ hold
    | some nGood =>
      have hbody : relocBody env i c L =
          { L with
            s := (relocRefine env L.s c.pKF c.vvpMapPointMatches Tcw
              (candidateSolver env s c.pKF c.nIterate).vbInliers).2.1
            cands := L.cands.set i
              { c with nIterate := c.nIterate + 1,
                       vbDiscarded :=
                         if (candidateSolver env s c.pKF c.nIterate).bNoMore then true
                         else c.vbDiscarded }
            nCandidates :=
              if (candidateSolver env s c.pKF c.nIterate).bNoMore then L.nCandidates - 1
              else L.nCandidates
            calls := L.calls ++ [.iterate] ++
              (relocRefine env L.s c.pKF c.vvpMapPointMatches Tcw
                (candidateSolver env s c.pKF c.nIterate).vbInliers).2.2 ++
              [.nGoodTested i nGood]
            bMatch := decide (nGood ≥ 50) } := by
        simp only [relocBody, hps, hT, hR]
      rw [hbody]
      have hmem : ∀ j n, Call.nGoodTested j n ∈ L.calls ++ [Call.iterate] ++
          (relocRefine env L.s c.pKF c.vvpMapPointMatches Tcw
            (candidateSolver env s c.pKF c.nIterate).vbInliers).2.2 ++
            [Call.nGoodTested i nGood] →
          Call.nGoodTested j n ∈ L.calls ∨ (j = i ∧ n = nGood) := by
        intro j n h
        rcases List.mem_append.mp h with h0 | h0
        · rcases List.mem_append.mp h0 with h1 | h1
          · rcases List.mem_append.mp h1 with h2 | h2
            · exact Or.inl h2
            · exact absurd h2 (hit j n)
          · exact absurd h1 (not_test_of_mem _ hrt j n)
        · rw [List.mem_singleton] at h0
          cases h0
          exact Or.inr ⟨rfl, rfl⟩
      refine RelocInv_step env s kfs t i c L _ hI hc hd rfl rfl hrk ?_ ?_
      · intro j n h
        rcases hmem j n h with h1 | ⟨h1, h2⟩
        · exact Or.inl h1
        · right
          rw [h1, h2]
          refine ⟨c.pKF, hpk, hbad, h15, L.s, c.nIterate, Tcw, hT, ?_⟩
          rw [← hmat]
          exact hR
      · constructor
        · intro h
          exact ⟨i, nGood, List.mem_append_right _ (List.mem_singleton.mpr rfl),
            of_decide_eq_true h⟩
        · rintro ⟨j, n, h, hn50⟩
          rcases hmem j n h with h1 | ⟨_, h2⟩
          · exact absurd ⟨j, n, h1, hn50⟩ hold
          · rw [h2] at hn50
            exact decide_eq_true hn50

/-- The loop `for (i < nKFs)` from index `j` on keeps the invariant; it visits
all the candidates unless a match is found. -/
theorem relocFor_inv (env : Env F) (s : State F) (kfs : List Nat) (t m : Nat) :
    ∀ (j : Nat) (L : RelocLoop F), RelocInv env s kfs t j L → L.bMatch = false →
      L.cands.length = kfs.length →
      ∃ j2, RelocInv env s kfs t j2 (relocFor env (List.range' j m) L) ∧
        (relocFor env (List.range' j m) L).cands.length = kfs.length ∧
        ((relocFor env (List.range' j m) L).bMatch = false → j2 = j + m) := by
  induction m with
  | zero =>
    intro j L hI _ hlen
    exact ⟨j, hI, hlen, fun _ => rfl⟩
  | succ m ih =>
    intro j L hI hb hlen
    rw [List.range'_succ, relocFor]
    split
    · rename_i hnone
      obtain ⟨j2, h1, h2, h3⟩ := ih (j + 1) L
        (RelocInv_skip env s kfs t j L hI (fun c hc => by rw [hnone] at hc; cases hc)) hb hlen
      exact ⟨j2, h1, h2, fun h => by rw [h3 h]; omega⟩
    · rename_i c hsome
      split
      · rename_i hdisc
        obtain ⟨j2, h1, h2, h3⟩ := ih (j + 1) L
          (RelocInv_skip env s kfs t j L hI
            (fun c2 hc2 => by rw [hsome] at hc2; cases hc2; exact hdisc)) hb hlen
        exact ⟨j2, h1, h2, fun h => by rw [h3 h]; omega⟩
      · rename_i hdisc
        have hd : c.vbDiscarded = false := by
          cases hv : c.vbDiscarded
          · rfl
          · exact absurd hv hdisc
        have hI2 := relocBody_inv env s kfs t j c L hI hsome hd hb
        have hlen2 : (relocBody env j c L).cands.length = kfs.length := by
          obtain ⟨_, hadm⟩ := hI.cand j c hsome
          obtain ⟨adm, _, _⟩ := hadm hd
          have hps := adm.2.2.2
          rw [← hlen]
          unfold relocBody
          rw [hps]
          dsimp only
          split
          · exact List.length_set _ _ _
          · split
            · exact List.length_set _ _ _
            · exact List.length_set _ _ _
        dsimp only
        split
        · rename_i hm
          exact ⟨j + 1, hI2, hlen2, fun h => absurd (hm.symm.trans h) (by decide)⟩
        · rename_i hm
          have hb2 : (relocBody env j c L).bMatch = false := by
            cases hv : (relocBody env j c L).bMatch
            · rfl
            · exact absurd hv hm
          obtain ⟨j2, h1, h2, h3⟩ := ih (j + 1) _ hI2 hb2 hlen2
          exact ⟨j2, h1, h2, fun h => by rw [h3 h]; omega⟩

/-- When the solvers give up within `B` calls, no candidate is left after `B`
passes. -/
theorem RelocInv_exhausted (env : Env F) (s : State F) (B t : Nat) (L : RelocLoop F)
    (hfin : SolversGiveUp env B s)
    (hI : RelocInv env s (env.DetectRelocalizationCandidates s) t 0 L) (ht : B ≤ t) :
    ¬ L.nCandidates > 0 := by
  intro hpos
  rw [hI.count_eq] at hpos
  obtain ⟨i, c, hc, hd⟩ := liveCandidates_pos L.cands hpos
  obtain ⟨hpk, hadm⟩ := hI.cand i c hc
  obtain ⟨adm, hn, hno⟩ := hadm hd
  rw [if_neg (Nat.not_lt_zero i)] at hn
  obtain ⟨k, hk, hkb⟩ := hfin c.pKF (List.getElem?_mem hpk) adm.1 adm.2.1
  rw [hno k (by omega)] at hkb
  exact Bool.noConfusion hkb

/-- The RANSAC loop ends within `B` passes when the solvers give up within
`B` calls, and the invariant holds at its end. -/
theorem relocWhile_inv (env : Env F) (s : State F) (B : Nat) (hfin : SolversGiveUp env B s) :
    ∀ (fuel t : Nat) (L : RelocLoop F), B ≤ t + fuel →
      RelocInv env s (env.DetectRelocalizationCandidates s) t 0 L →
      L.cands.length = (env.DetectRelocalizationCandidates s).length →
      ∃ L2 t2 j2, relocWhile env (env.DetectRelocalizationCandidates s).length fuel L = some L2 ∧
        RelocInv env s (env.DetectRelocalizationCandidates s) t2 j2 L2 := by
  intro fuel
  induction fuel with
  | zero =>
    intro t L ht hI _
    unfold relocWhile
    split
    · rename_i hcond
      exact absurd hcond.1 (RelocInv_exhausted env s B t L hfin hI (by omega))
    · exact ⟨L, t, 0, rfl, hI⟩
  | succ fuel ih =>
    intro t L ht hI hlen
    unfold relocWhile
    split
    · rename_i hcond
      dsimp only
      rw [List.range_eq_range']
      obtain ⟨j2, h1, h2, h3⟩ := relocFor_inv env s _ t _ 0 L hI hcond.2 hlen
      cases hm : (relocFor env (List.range' 0 (env.DetectRelocalizationCandidates s).length)
          L).bMatch
      · have hj := h3 hm
        rw [hj, Nat.zero_add] at h1
        exact ih (t + 1) _ (by omega) (RelocInv_next env s _ t _ h2 h1) h2
      · refine ⟨_, t, j2, ?_, h1⟩
        cases fuel with
        | zero =>
          unfold relocWhile
          rw [if_neg (by rw [hm]; simp)]
        | succ f =>
          unfold relocWhile
          rw [if_neg (by rw [hm]; simp)]
    · exact ⟨L, t, 0, rfl, hI⟩

/-- With solvers that give up within `B` calls of `iterate`, `Relocalization`
returns within `B` passes of its RANSAC loop: it returns true exactly when a
test `if (nGood >= 50)` it reached saw 50 or more, every test it reached
belongs to a candidate that is not bad and has at least 15 bag-of-words
matches, and the members in `Kept` change only by the assignment to
`mnLastRelocFrameId` on success. -/
theorem Relocalization_run (env : Env F) (B : Nat) (s : State F)
    (hfin : SolversGiveUp env B (ComputeBoW s)) :
    ∃ b s2 calls, Relocalization env B s = some (b, s2, calls) ∧
      (b = true ↔ ∃ i nGood, Call.nGoodTested i nGood ∈ calls ∧ nGood ≥ 50) ∧
      (∀ i nGood, Call.nGoodTested i nGood ∈ calls →
        ReachesTest env (ComputeBoW s) (env.DetectRelocalizationCandidates (ComputeBoW s))
          i nGood) ∧
      (b = true → s2.mnLastRelocFrameId = s2.mCurrentFrame.mnId) ∧
      (b = false → s2.kept = s.kept) := by
  unfold Relocalization
  dsimp only
  split
  · have hno : ∀ i n, Call.nGoodTested i n ∉
        [Call.Relocalization, Call.ComputeBoW, Call.DetectRelocalizationCandidates] :=
      not_test_of_mem _ (all_not_test _ rfl)
    refine ⟨false, _, _, rfl, ?_, fun i n h => absurd h (hno i n),
      fun h => Bool.noConfusion h, fun _ => rfl⟩
    constructor
    · intro h
      exact Bool.noConfusion h
    · rintro ⟨i, n, h, _⟩
      exact absurd h (hno i n)
  · obtain ⟨L2, t2, j2, hw, hI⟩ := relocWhile_inv env (ComputeBoW s) B hfin B 0 _
      (by omega) (relocStart_inv env (ComputeBoW s) _) (by
        unfold relocStart
        dsimp only
        generalize env.DetectRelocalizationCandidates (ComputeBoW s) = kfs
        induction kfs with
        | nil => rfl
        | cons a rest ih =>
          unfold relocSetup
          simp only [List.length_cons, ih])
    rw [hw]
    dsimp only
    cases hm : L2.bMatch
    · rw [if_pos rfl]
      refine ⟨false, _, _, rfl, ?_, hI.tested, fun h => Bool.noConfusion h,
        fun _ => hI.kept.trans rfl⟩
      rw [← hI.matched, hm]
    · rw [if_neg (by simp)]
      refine ⟨true, _, _, rfl, ?_, hI.tested, fun _ => rfl, fun h => Bool.noConfusion h⟩
      rw [← hI.matched, hm]

/-- C17: when the PnP solvers give up within `B` calls of `iterate`,
`Relocalization` returns within `B` passes of its RANSAC loop, and it returns
true if and only if a test `if (nGood >= 50)` it reached saw 50 inliers or
more; every test it reached is for a candidate keyframe that is not bad and
has at least 15 bag-of-words matches, with the `nGood` in which the pose
optimizations and projection searches that follow a pose of its solver end.
When it returns true `mnLastRelocFrameId` is the id of the current frame,
when it returns false it is unchanged. -/
theorem Relocalization_true_iff (env : Env F) (B : Nat) (s : State F)
    (hfin : SolversGiveUp env B (ComputeBoW s)) :
    ∃ b s2 calls, Relocalization env B s = some (b, s2, calls) ∧
      (b = true ↔ ∃ i nGood, Call.nGoodTested i nGood ∈ calls ∧ nGood ≥ 50) ∧
      (∀ i nGood, Call.nGoodTested i nGood ∈ calls →
        ReachesTest env (ComputeBoW s) (env.DetectRelocalizationCandidates (ComputeBoW s))
          i nGood) ∧
      (b = true → s2.mnLastRelocFrameId = s2.mCurrentFrame.mnId) ∧
      (b = false → s2.mnLastRelocFrameId = s.mnLastRelocFrameId) := by
  obtain ⟨b, s2, calls, h, h1, h2, h3, h4⟩ := Relocalization_run env B s hfin
  exact ⟨b, s2, calls, h, h1, h2, h3, fun hb => congrArg Kept.mnLastRelocFrameId (h4 hb)⟩

/-- C17, witness: on `lostState` with `relocEnv` the solvers give up at their
second `iterate`; the relocalization passes over the bad keyframe 2, reaches
the test for candidate 1 (keyframe 0) with 60 inliers in the second pass and
returns true. -/
theorem Relocalization_true_iff_witness :
    (∃ b s2 calls, Relocalization relocEnv 2 lostState = some (b, s2, calls) ∧
      (b = true ↔ ∃ i nGood, Call.nGoodTested i nGood ∈ calls ∧ nGood ≥ 50) ∧
      (∀ i nGood, Call.nGoodTested i nGood ∈ calls →
        ReachesTest relocEnv (ComputeBoW lostState)
          (relocEnv.DetectRelocalizationCandidates (ComputeBoW lostState)) i nGood) ∧
      (b = true → s2.mnLastRelocFrameId = s2.mCurrentFrame.mnId) ∧
      (b = false → s2.mnLastRelocFrameId = lostState.mnLastRelocFrameId)) ∧
    (Relocalization relocEnv 2 lostState).map (fun r => (r.1, r.2.2, r.2.1.mnLastRelocFrameId))
      = some (true,
          [Call.Relocalization, Call.ComputeBoW, Call.DetectRelocalizationCandidates,
           Call.SearchByBoW, Call.PnPsolver, Call.iterate, Call.iterate,
           Call.PoseOptimization, Call.nGoodTested 1 60], 4) :=
  ⟨Relocalization_true_iff relocEnv 2 lostState (fun _ _ _ _ => ⟨1, by decide, rfl⟩),
    by decide⟩

/-! ### The VO branch of `track3DPts` -/

theorem foldl_frame {α : Type} (f : State F → α → State F) (l : List α) (s : State F)
    (h : ∀ s a, (f s a).mCurrentFrame = s.mCurrentFrame ∧ (f s a).mbVO = s.mbVO) :
    (l.foldl f s).mCurrentFrame = s.mCurrentFrame ∧ (l.foldl f s).mbVO = s.mbVO := by
  induction l generalizing s with
  | nil => exact ⟨rfl, rfl⟩
  | cons a rest ih =>
    rw [List.foldl_cons]
    exact ⟨(ih _).1.trans (h s a).1, (ih _).2.trans (h s a).2⟩

theorem increaseFoundVO_frame (s : State F) :
    (increaseFoundVO s).mCurrentFrame = s.mCurrentFrame ∧ (increaseFoundVO s).mbVO = s.mbVO := by
  unfold increaseFoundVO
  apply foldl_frame
  intro s i
  split
  · exact ⟨rfl, rfl⟩
  · exact ⟨rfl, rfl⟩
  · split
    · exact ⟨rfl, rfl⟩
    · exact ⟨rfl, rfl⟩
    · exact ⟨rfl, rfl⟩

theorem motionModelVO_true [Mul F] [AddCommMonoid F] (env : Env F) (s : State F) :
    (motionModelVO env s).1 = true ↔
      s.mVelocity.isSome = true ∧ (TrackWithMotionModel env s).1 = true := by
  unfold motionModelVO
  split
  · rename_i h
    exact ⟨fun h2 => ⟨h, h2⟩, fun h2 => h2.2⟩
  · rename_i h
    exact ⟨fun h2 => Bool.noConfusion h2, fun h2 => absurd h2.1 h⟩

/-- The VO branch after its relocalization has returned. -/
theorem trackVO_spec [Mul F] [AddCommMonoid F] (env : Env F) (fuel : Nat) (s : State F)
    (bOKReloc : Bool) (sR : State F) (cR : List Call)
    (hrel : Relocalization env fuel (motionModelVO env s).2.1 = some (bOKReloc, sR, cR)) :
    ∃ st, trackVO env fuel s = some (st, (motionModelVO env s).2.2 ++ cR) ∧
      st._bOK = (bOKReloc || (motionModelVO env s).1) ∧
      (bOKReloc = true → st.mbVO = false ∧ st.mCurrentFrame = sR.mCurrentFrame) ∧
      (bOKReloc = false → (motionModelVO env s).1 = true →
        st.mCurrentFrame.mTcw = (TrackWithMotionModel env s).2.1.mCurrentFrame.mTcw ∧
        st.mCurrentFrame.mvpMapPoints
          = (TrackWithMotionModel env s).2.1.mCurrentFrame.mvpMapPoints ∧
        st.mCurrentFrame.mvbOutlier
          = (TrackWithMotionModel env s).2.1.mCurrentFrame.mvbOutlier) := by
  unfold trackVO
  dsimp only
  rw [hrel]
  dsimp only
  refine ⟨_, rfl, rfl, ?_, ?_⟩
  · intro hb
    rw [hb]
    rw [if_neg (by simp), if_pos rfl]
    exact ⟨rfl, rfl⟩
  · intro hb hmm
    have hv := ((motionModelVO_true env s).mp hmm).1
    have hmv : motionModelVO env s = TrackWithMotionModel env s := by
      unfold motionModelVO
      rw [if_pos hv]
    rw [hb, hmm, if_pos ⟨rfl, rfl⟩, hv]
    dsimp only
    rw [hmv]
    split
    · rw [(increaseFoundVO_frame _).1]
      exact ⟨rfl, rfl, rfl⟩
    · exact ⟨rfl, rfl, rfl⟩

/-- C20: in VO-fallback mode (state not lost, `TrackWithOptFlow` failed, `mbVO`
set), when the PnP solvers of the relocalization give up within `B` calls of
`iterate`, the relocalization and the strategy stage of `track3DPts` return,
and after the strategy stage `_bOK` is true if and only if the relocalization
or the motion-model tracking (run only with a motion model) succeeded; when
the relocalization succeeds `mbVO` is cleared and the current frame is the one
the relocalization left, also if the motion-model tracking succeeded; when
only the motion-model tracking succeeds, the pose, the links and the outlier
flags of the current frame are those the motion-model tracking left. -/
theorem track3DPts_VO_fallback [Field F] (env : Env F) (B : Nat) (mvKeys : List (F × F))
    (s : State F)
    (hstate : s.smState ≠ .TRACKING_LOST)
    (hflow : (TrackWithOptFlow env (nextFrame mvKeys s)).1 = false)
    (hvo : s.mbVO = true)
    (hfin : SolversGiveUp env B
      (ComputeBoW (motionModelVO env (afterOptFlow env (nextFrame mvKeys s))).2.1)) :
    ∃ bOKReloc sR cR st calls,
      Relocalization env B (motionModelVO env (afterOptFlow env (nextFrame mvKeys s))).2.1
        = some (bOKReloc, sR, cR) ∧
      trackStrategy env B (nextFrame mvKeys s) = some (st, calls) ∧
      track3DPts env B mvKeys s = some (trackFinish env (st, calls)) ∧
      ((motionModelVO env (afterOptFlow env (nextFrame mvKeys s))).1 = true ↔
        s.mVelocity.isSome = true ∧
          (TrackWithMotionModel env (afterOptFlow env (nextFrame mvKeys s))).1 = true) ∧
      (st._bOK = true ↔
        bOKReloc = true ∨
          (motionModelVO env (afterOptFlow env (nextFrame mvKeys s))).1 = true) ∧
      (bOKReloc = true → st.mbVO = false ∧ st.mCurrentFrame = sR.mCurrentFrame) ∧
      (bOKReloc = false →
        (motionModelVO env (afterOptFlow env (nextFrame mvKeys s))).1 = true →
        st.mCurrentFrame.mTcw =
          (TrackWithMotionModel env
            (afterOptFlow env (nextFrame mvKeys s))).2.1.mCurrentFrame.mTcw ∧
        st.mCurrentFrame.mvpMapPoints =
          (TrackWithMotionModel env
            (afterOptFlow env (nextFrame mvKeys s))).2.1.mCurrentFrame.mvpMapPoints ∧
        st.mCurrentFrame.mvbOutlier =
          (TrackWithMotionModel env
            (afterOptFlow env (nextFrame mvKeys s))).2.1.mCurrentFrame.mvbOutlier) := by
  have hbok : (afterOptFlow env (nextFrame mvKeys s))._bOK = false := hflow
  have hvo2 : (afterOptFlow env (nextFrame mvKeys s)).mbVO = true :=
    (TrackWithOptFlow_mbVO_of_false env _ hflow).trans hvo
  have hvel : (afterOptFlow env (nextFrame mvKeys s)).mVelocity = s.mVelocity :=
    TrackWithOptFlow_mVelocity env _
  obtain ⟨b, sR, cR, hrel, _⟩ := Relocalization_run env B _ hfin
  obtain ⟨st, hst, hok, hR, hM⟩ := trackVO_spec env B _ b sR cR hrel
  have hstrat : trackStrategy env B (nextFrame mvKeys s) = some
      ({ st with _optFlowFrames := st._optFlowFrames + 1 },
        (TrackWithOptFlow env (nextFrame mvKeys s)).2.2 ++
          ((motionModelVO env (afterOptFlow env (nextFrame mvKeys s))).2.2 ++ cR)) := by
    unfold trackStrategy
    rw [if_neg (by exact hstate)]
    dsimp only
    rw [if_pos hbok, if_neg (by rw [hvo2]; simp), hst]
  refine ⟨b, sR, cR, _, _, hrel, hstrat, by unfold track3DPts; rw [hstrat], ?_, ?_, hR, hM⟩
  · rw [motionModelVO_true, hvel]
  · show st._bOK = true ↔ _
    rw [hok, Bool.or_eq_true]

/-- C20, witness: on `fallbackState`, with `relocEnv` the motion-model tracking
fails and the relocalization succeeds (`_bOK` true, `mbVO` cleared), with
`motionEnv` the relocalization fails and the motion-model tracking succeeds
(`_bOK` true, `mbVO` still set). -/
theorem track3DPts_VO_fallback_witness :
    (∃ bOKReloc sR cR st calls,
      Relocalization relocEnv 2
          (motionModelVO relocEnv (afterOptFlow relocEnv (nextFrame [] fallbackState))).2.1
        = some (bOKReloc, sR, cR) ∧
      trackStrategy relocEnv 2 (nextFrame [] fallbackState) = some (st, calls) ∧
      (st._bOK = true ↔
        bOKReloc = true ∨
          (motionModelVO relocEnv
            (afterOptFlow relocEnv (nextFrame [] fallbackState))).1 = true) ∧
      (bOKReloc = true → st.mbVO = false ∧ st.mCurrentFrame = sR.mCurrentFrame)) ∧
    (∃ bOKReloc sR cR st calls,
      Relocalization motionEnv 0
          (motionModelVO motionEnv (afterOptFlow motionEnv (nextFrame [] fallbackState))).2.1
        = some (bOKReloc, sR, cR) ∧
      trackStrategy motionEnv 0 (nextFrame [] fallbackState) = some (st, calls) ∧
      (st._bOK = true ↔
        bOKReloc = true ∨
          (motionModelVO motionEnv
            (afterOptFlow motionEnv (nextFrame [] fallbackState))).1 = true)) ∧
    (trackStrategy relocEnv 2 (nextFrame [] fallbackState)).map
        (fun r => (r.1._bOK, r.1.mbVO, r.2.filter Call.isStrategy))
      = some (true, false,
          [Call.TrackWithOptFlow, Call.TrackWithMotionModel false, Call.Relocalization]) ∧
    (trackStrategy motionEnv 0 (nextFrame [] fallbackState)).map
        (fun r => (r.1._bOK, r.1.mbVO, r.2.filter Call.isStrategy))
      = some (true, true,
          [Call.TrackWithOptFlow, Call.TrackWithMotionModel false, Call.Relocalization]) := by
  obtain ⟨b, sR, cR, st, calls, h1, h2, _, _, h5, h6, _⟩ :=
    track3DPts_VO_fallback relocEnv 2 [] fallbackState (by decide) rfl rfl
      (fun _ _ _ _ => ⟨1, by decide, rfl⟩)
  obtain ⟨b2, sR2, cR2, st2, calls2, k1, k2, _, _, k5, _, _⟩ :=
    track3DPts_VO_fallback motionEnv 0 [] fallbackState (by decide) rfl rfl
      (fun _ h _ _ => absurd h (List.not_mem_nil _))
  exact ⟨⟨b, sR, cR, st, calls, h1, h2, h5, h6⟩, ⟨b2, sR2, cR2, st2, calls2, k1, k2, k5⟩,
    by decide, by decide⟩

/-! ### The per-feature vectors of the current frame -/

/-- What `TrackWithOptFlow` returns when the last frame has at least 100
keypoints, at least 75% of the attempted points are tracked and `solvePnP`
succeeds. -/
theorem TrackWithOptFlow_of_tracked [Zero F] [One F] (env : Env F) (s : State F)
    (h100 : 100 ≤ s.mLastFrame.mvKeys.length)
    (hr : 3 * (attemptedPoints s).length ≤ 4 * (trackedPoints env s).length)
    (hp : (env.solvePnP
      { beforeOptFlow s with mnMatchesInliers := ((trackedPoints env s).length : Int) }
      ((trackedPoints env s).map fun x => x.1) ((trackedPoints env s).map fun x => x.2)).1
        = true) :
    TrackWithOptFlow env s =
      (true,
        { ({ beforeOptFlow s with
              mnMatchesInliers := ((trackedPoints env s).length : Int) } : State F) with
          mCurrentFrame :=
            { (beforeOptFlow s).mCurrentFrame with
              mTcw := some (poseOf
                (env.solvePnP
                  { beforeOptFlow s with
                    mnMatchesInliers := ((trackedPoints env s).length : Int) }
                  ((trackedPoints env s).map fun x => x.1)
                  ((trackedPoints env s).map fun x => x.2)).2.1
                (env.solvePnP
                  { beforeOptFlow s with
                    mnMatchesInliers := ((trackedPoints env s).length : Int) }
                  ((trackedPoints env s).map fun x => x.1)
                  ((trackedPoints env s).map fun x => x.2)).2.2)
              mvKeys := (trackedPoints env s).map fun x => x.2
              mvpMapPoints := (trackedPoints env s).map fun x => some x.1 }
          mbVO := true
          trackingType := .TrackingType_OptFlow },
        [.TrackWithOptFlow, .calcOpticalFlowPyrLK, .solvePnP]) := by
  unfold TrackWithOptFlow
  dsimp only
  rw [if_neg (by omega), if_neg (by rw [ratio_lt_iff]; omega), if_pos hp]

set_option maxRecDepth 100000 in
/-- C16, failing run: the last frame of `flowState` has 100 keypoints and four
links, the optical flow of `flowEnv` tracks the four points and `solvePnP`
succeeds. For a new frame with 100 keypoints `TrackWithOptFlow` returns true
and leaves the frame with `N = 100`, 100 outlier flags, but only 4 links and 4
keypoints; `track3DPts` then reads `mvpMapPoints[i]` past the end in its loop
"Clean VO matches" (`fault` is set), where no fault had occurred before. -/
theorem TrackWithOptFlow_shrinks_links :
    (TrackWithOptFlow flowEnv (nextFrame (List.replicate 100 (0, 0)) flowState)).1 = true ∧
    (TrackWithOptFlow flowEnv
      (nextFrame (List.replicate 100 (0, 0)) flowState)).2.1.mCurrentFrame.N = 100 ∧
    (TrackWithOptFlow flowEnv
      (nextFrame (List.replicate 100 (0, 0)) flowState)).2.1.mCurrentFrame.mvbOutlier.length
        = 100 ∧
    (TrackWithOptFlow flowEnv
      (nextFrame (List.replicate 100 (0, 0)) flowState)).2.1.mCurrentFrame.mvpMapPoints.length
        = 4 ∧
    (TrackWithOptFlow flowEnv
      (nextFrame (List.replicate 100 (0, 0)) flowState)).2.1.mCurrentFrame.mvKeys.length
        = 4 ∧
    (TrackWithOptFlow flowEnv (nextFrame (List.replicate 100 (0, 0)) flowState)).2.1.fault
      = false ∧
    (track3DPts flowEnv 0 (List.replicate 100 (0, 0)) flowState).map (fun r => r.1.fault)
      = some true := by
  have hof := TrackWithOptFlow_of_tracked flowEnv
    (nextFrame (List.replicate 100 (0, 0)) flowState) (by decide) (by decide) rfl
  refine ⟨?_, ?_, ?_, ?_, ?_, ?_, ?_⟩
  · rw [hof]
  · rw [hof]
    decide
  · rw [hof]
    decide
  · rw [hof]
    decide
  · rw [hof]
    decide
  · rw [hof]
    decide
  · unfold track3DPts trackStrategy afterOptFlow
    rw [if_neg (by decide)]
    dsimp only
    rw [hof]
    decide

end SLCVOrbTracking

namespace SLCVFrame

/-! ### Queries outside the image, and repetitions -/

end SLCVFrame

namespace SLCVMapIO

/-! ### The scale tables -/

theorem length_vectorResize {F : Type} [Zero F] (v : List F) (n : Nat) :
    (vectorResize v n).length = n := by
  unfold vectorResize
  rw [List.length_append, List.length_take, List.length_replicate]
  omega

/-- The first loop of `calculateScaleFactors` after the indices `1, ..., m`:
the tables keep their length and hold the powers up to index `m`. -/
theorem scaleStep_foldl {F : Type} [Field F] (scaleFactor : F) (n : Nat) (sf ls : List F)
    (hsf : sf.length = n) (hls : ls.length = n) (h0 : sf[0]? = some 1) (h0l : ls[0]? = some 1)
    (m : Nat) (hm : m + 1 ≤ n) :
    ∃ sf2 ls2, (List.range' 1 m).foldl (scaleStep scaleFactor) (some (sf, ls))
        = some (sf2, ls2) ∧ sf2.length = n ∧ ls2.length = n ∧
      ∀ j, j ≤ m → sf2[j]? = some (scaleFactor ^ j) ∧ ls2[j]? = some ((scaleFactor ^ j) ^ 2) := by
  induction m with
  | zero =>
    refine ⟨sf, ls, rfl, hsf, hls, ?_⟩
    intro j hj
    have : j = 0 := by omega
    subst this
    simp [h0, h0l]
  | succ m ih =>
    obtain ⟨sf2, ls2, hf, h1, h2, h3⟩ := ih (by omega)
    rw [List.range'_concat, List.foldl_append, hf]
    simp only [List.foldl_cons, List.foldl_nil, one_mul]
    have hprev := (h3 m (le_refl m)).1
    unfold scaleStep
    simp only [Nat.add_sub_cancel_left, hprev]
    rw [if_pos (by omega)]
    refine ⟨_, _, rfl, by rw [List.length_set]; exact h1, by rw [List.length_set]; exact h2, ?_⟩
    intro j hj
    rw [List.getElem?_set, List.getElem?_set]
    by_cases hjm : 1 + m = j
    · rw [if_pos hjm, if_pos hjm, if_pos (by omega), if_pos (by omega), ← hjm]
      constructor
      · rw [Nat.add_comm 1 m, pow_succ]
      · rw [Nat.add_comm 1 m, sq, pow_succ]
    · rw [if_neg hjm, if_neg hjm]
      exact h3 j (by omega)

/-- The second loop of `calculateScaleFactors` after the indices below `m`. -/
theorem invScaleStep_foldl {F : Type} [Field F] (n : Nat) (sf ls inv invl : List F)
    (hsf : sf.length = n) (hls : ls.length = n) (hinv : inv.length = n)
    (hinvl : invl.length = n) (m : Nat) (hm : m ≤ n) :
    ∃ inv2 invl2, (List.range m).foldl (invScaleStep sf ls) (some (inv, invl))
        = some (inv2, invl2) ∧ inv2.length = n ∧ invl2.length = n ∧
      ∀ j, j < m → inv2[j]? = (sf[j]?).map (fun a => 1 / a) ∧
        invl2[j]? = (ls[j]?).map (fun b => 1 / b) := by
  induction m with
  | zero => exact ⟨inv, invl, rfl, hinv, hinvl, fun j hj => absurd hj (Nat.not_lt_zero j)⟩
  | succ m ih =>
    obtain ⟨inv2, invl2, hf, h1, h2, h3⟩ := ih (by omega)
    rw [List.range_succ, List.foldl_append, hf]
    simp only [List.foldl_cons, List.foldl_nil]
    obtain ⟨ha, hsa⟩ := List.getElem?_eq_some_iff.mpr ⟨(by omega : m < sf.length), rfl⟩ |>
      fun h => (⟨sf[m], h⟩ : ∃ a, sf[m]? = some a)
    obtain ⟨hb, hsb⟩ := List.getElem?_eq_some_iff.mpr ⟨(by omega : m < ls.length), rfl⟩ |>
      fun h => (⟨ls[m], h⟩ : ∃ b, ls[m]? = some b)
    unfold invScaleStep
    simp only [hsa, hsb]
    rw [if_pos (by omega)]
    refine ⟨_, _, rfl, by rw [List.length_set]; exact h1, by rw [List.length_set]; exact h2, ?_⟩
    intro j hj
    rw [List.getElem?_set, List.getElem?_set]
    by_cases hjm : m = j
    · rw [if_pos hjm, if_pos hjm, if_pos (by omega), if_pos (by omega), ← hjm, hsa, hsb]
      exact ⟨rfl, rfl⟩
    · rw [if_neg hjm, if_neg hjm]
      exact h3 j (by omega)

/-- C30: for every `scaleFactor` other than 0 and every `nlevels ≥ 1`,
whatever the four lists held before, `calculateScaleFactors` leaves the four
lists of the specification: each has `nlevels` entries, and for every
`i < nlevels`, `_vScaleFactor[i] = scaleFactor ^ i`, `_vLevelSigma2[i] =
_vScaleFactor[i] ^ 2`, `_vInvScaleFactor[i] * _vScaleFactor[i] = 1` and
`_vInvLevelSigma2[i] * _vLevelSigma2[i] = 1`. -/
theorem calculateScaleFactors_tables {F : Type} [Field F] (scaleFactor : F) (nlevels : Int)
    (t : ScaleTables F) (hs : scaleFactor ≠ 0) (hn : 1 ≤ nlevels) :
    ∃ r, calculateScaleFactors scaleFactor nlevels t = some r ∧
      r = scaleTablesSpec scaleFactor nlevels.toNat ∧
      r._vScaleFactor.length = nlevels.toNat ∧ r._vLevelSigma2.length = nlevels.toNat ∧
      r._vInvScaleFactor.length = nlevels.toNat ∧ r._vInvLevelSigma2.length = nlevels.toNat ∧
      ∀ i, i < nlevels.toNat →
        ∃ a b c d, r._vScaleFactor[i]? = some a ∧ r._vLevelSigma2[i]? = some b ∧
          r._vInvScaleFactor[i]? = some c ∧ r._vInvLevelSigma2[i]? = some d ∧
          a = scaleFactor ^ i ∧ b = a ^ 2 ∧ c * a = 1 ∧ d * b = 1 := by
  have hn1 : 1 ≤ nlevels.toNat := by omega
  refine ⟨scaleTablesSpec scaleFactor nlevels.toNat, ?_, rfl, by simp [scaleTablesSpec],
    by simp [scaleTablesSpec], by simp [scaleTablesSpec], by simp [scaleTablesSpec], ?_⟩
  · unfold calculateScaleFactors
    rw [if_neg (by omega)]
    dsimp only
    have hl : (vectorResize ([] : List F) nlevels.toNat).length = nlevels.toNat :=
      length_vectorResize _ _
    obtain ⟨sf2, ls2, hf, h1, h2, h3⟩ := scaleStep_foldl scaleFactor nlevels.toNat
      ((vectorResize ([] : List F) nlevels.toNat).set 0 1)
      ((vectorResize ([] : List F) nlevels.toNat).set 0 1)
      (by rw [List.length_set]; exact hl) (by rw [List.length_set]; exact hl)
      (by rw [List.getElem?_set_self (by omega)]) (by rw [List.getElem?_set_self (by omega)])
      (nlevels.toNat - 1) (by omega)
    rw [hf]
    dsimp only
    obtain ⟨inv2, invl2, hg, k1, k2, k3⟩ := invScaleStep_foldl nlevels.toNat sf2 ls2
      (vectorResize t._vInvScaleFactor nlevels.toNat)
      (vectorResize t._vInvLevelSigma2 nlevels.toNat) h1 h2 (length_vectorResize _ _)
      (length_vectorResize _ _) nlevels.toNat (le_refl _)
    rw [hg]
    dsimp only
    have e1 : sf2 = (List.range nlevels.toNat).map fun i => scaleFactor ^ i := by
      apply List.ext_getElem?
      intro j
      by_cases hj : j < nlevels.toNat
      · rw [(h3 j (by omega)).1, List.getElem?_map, List.getElem?_range hj]
        rfl
      · rw [List.getElem?_eq_none (by omega), List.getElem?_eq_none (by simp; omega)]
    have e2 : ls2 = (List.range nlevels.toNat).map fun i => (scaleFactor ^ i) ^ 2 := by
      apply List.ext_getElem?
      intro j
      by_cases hj : j < nlevels.toNat
      · rw [(h3 j (by omega)).2, List.getElem?_map, List.getElem?_range hj]
        rfl
      · rw [List.getElem?_eq_none (by omega), List.getElem?_eq_none (by simp; omega)]
    have e3 : inv2 = (List.range nlevels.toNat).map fun i => 1 / scaleFactor ^ i := by
      apply List.ext_getElem?
      intro j
      by_cases hj : j < nlevels.toNat
      · rw [(k3 j hj).1, (h3 j (by omega)).1, List.getElem?_map, List.getElem?_range hj]
        rfl
      · rw [List.getElem?_eq_none (by omega), List.getElem?_eq_none (by simp; omega)]
    have e4 : invl2 = (List.range nlevels.toNat).map fun i => 1 / (scaleFactor ^ i) ^ 2 := by
      apply List.ext_getElem?
      intro j
      by_cases hj : j < nlevels.toNat
      · rw [(k3 j hj).2, (h3 j (by omega)).2, List.getElem?_map, List.getElem?_range hj]
        rfl
      · rw [List.getElem?_eq_none (by omega), List.getElem?_eq_none (by simp; omega)]
    rw [e1, e2, e3, e4]
    rfl
  · intro i hi
    have hp : scaleFactor ^ i ≠ 0 := pow_ne_zero i hs
    refine ⟨scaleFactor ^ i, (scaleFactor ^ i) ^ 2, 1 / scaleFactor ^ i,
      1 / (scaleFactor ^ i) ^ 2, ?_, ?_, ?_, ?_, rfl, rfl, ?_, ?_⟩
    · simp [scaleTablesSpec, List.getElem?_range hi]
    · simp [scaleTablesSpec, List.getElem?_range hi]
    · simp [scaleTablesSpec, List.getElem?_range hi]
    · simp [scaleTablesSpec, List.getElem?_range hi]
    · field_simp
    · field_simp

/-- C30, witness: `scaleFactor = 2`, `nlevels = 3`, lists that held other
values before; the tables are `[1, 2, 4]`, `[1, 4, 16]` and their inverses. -/
theorem calculateScaleFactors_tables_witness :
    (2 : ℚ) ≠ 0 ∧ (1 : Int) ≤ 3 ∧
    ∃ r, calculateScaleFactors (2 : ℚ) 3 ⟨[7], [], [5, 5, 5, 5], [9]⟩ = some r ∧
      r = scaleTablesSpec 2 (3 : Int).toNat ∧
      r._vScaleFactor.length = (3 : Int).toNat ∧ r._vLevelSigma2.length = (3 : Int).toNat ∧
      r._vInvScaleFactor.length = (3 : Int).toNat ∧
      r._vInvLevelSigma2.length = (3 : Int).toNat ∧
      ∀ i, i < (3 : Int).toNat →
        ∃ a b c d, r._vScaleFactor[i]? = some a ∧ r._vLevelSigma2[i]? = some b ∧
          r._vInvScaleFactor[i]? = some c ∧ r._vInvLevelSigma2[i]? = some d ∧
          a = (2 : ℚ) ^ i ∧ b = a ^ 2 ∧ c * a = 1 ∧ d * b = 1 :=
  ⟨by norm_num, by norm_num,
    calculateScaleFactors_tables 2 3 ⟨[7], [], [5, 5, 5, 5], [9]⟩ (by norm_num) (by norm_num)⟩

end SLCVMapIO

namespace SLCVMapIO

variable {F : Type}

/-! ### The repair loop builds a spanning tree of greatest weight -/

theorem treeWeight_cons (conn : Nat → Nat → Option Int) (a : Nat) (l : List Nat)
    (p : Nat → Nat) :
    treeWeight conn (a :: l) p = edgeWeight conn a (p a) + treeWeight conn l p := by
  simp [treeWeight]

theorem treeWeight_congr (conn : Nat → Nat → Option Int) (l : List Nat) (p q : Nat → Nat)
    (h : ∀ v ∈ l, p v = q v) : treeWeight conn l p = treeWeight conn l q := by
  unfold treeWeight
  congr 1
  apply List.map_congr_left
  intro v hv
  rw [h v hv]

theorem treeWeight_update_of_not_mem (conn : Nat → Nat → Option Int) (l : List Nat)
    (p : Nat → Nat) (y t : Nat) (hy : y ∉ l) :
    treeWeight conn l (Function.update p y t) = treeWeight conn l p := by
  apply treeWeight_congr
  intro v hv
  exact Function.update_noteq (fun (h : v = y) => hy (h ▸ hv)) _ _

/-- Changing the parent of one keyframe changes the weight of the tree by the
difference of the two edges. -/
theorem treeWeight_update (conn : Nat → Nat → Option Int) (l : List Nat) (hnd : l.Nodup)
    (p : Nat → Nat) (y t : Nat) (hy : y ∈ l) :
    treeWeight conn l (Function.update p y t)
      = treeWeight conn l p - edgeWeight conn y (p y) + edgeWeight conn y t := by
  induction l with
  | nil => cases hy
  | cons a rest ih =>
    rw [List.nodup_cons] at hnd
    rw [treeWeight_cons, treeWeight_cons]
    by_cases hay : a = y
    · subst hay
      rw [treeWeight_update_of_not_mem conn rest p a t hnd.1, Function.update_same]
      ring
    · have hy2 : y ∈ rest := by
        rcases List.mem_cons.mp hy with h | h
        · exact absurd h.symm hay
        · exact h
      rw [ih hnd.2 hy2, Function.update_noteq hay]
      ring

theorem edgeWeight_symm (conn : Nat → Nat → Option Int) (hsym : ∀ a b, conn a b = conn b a)
    (a b : Nat) : edgeWeight conn a b = edgeWeight conn b a := by
  unfold edgeWeight
  rw [hsym]

/-- Inside a set closed under `p` on which `q` agrees with `p`, what reaches
the root along `p` reaches it along `q`. -/
theorem reach_in_closed (p q : Nat → Nat) (root : Nat) (S : Nat → Prop)
    (hS : ∀ z, S z → z ≠ root → S (p z)) (hagree : ∀ z, S z → z ≠ root → q z = p z) :
    ∀ k z, S z → p^[k] z = root → ∃ k2, q^[k2] z = root := by
  intro k
  induction k with
  | zero =>
    intro z _ hz
    exact ⟨0, hz⟩
  | succ k ih =>
    intro z hSz hz
    by_cases hzr : z = root
    · exact ⟨0, hzr⟩
    · rw [Function.iterate_succ_apply] at hz
      obtain ⟨k2, hk2⟩ := ih (p z) (hS z hSz hzr) hz
      refine ⟨k2 + 1, ?_⟩
      rw [Function.iterate_succ_apply, hagree z hSz hzr]
      exact hk2

/-- Giving the keyframe `y` a new parent `t` keeps a spanning tree, when `t`
lies in a set closed under parents that does not contain `y`. -/
theorem isSpanningTree_update (conn : Nat → Nat → Option Int) (root : Nat) (others : List Nat)
    (p : Nat → Nat) (y t : Nat) (S : Nat → Prop)
    (hT : IsSpanningTree conn root others p)
    (hSV : ∀ z, S z → z ∈ root :: others)
    (hS : ∀ z, S z → z ≠ root → S (p z))
    (ht : S t) (hyS : ¬ S y) (hedge : (conn y t).isSome = true) :
    IsSpanningTree conn root others (Function.update p y t) := by
  have hagree : ∀ z, S z → z ≠ root → Function.update p y t z = p z := by
    intro z hz _
    exact Function.update_noteq (fun (h : z = y) => hyS (h ▸ hz)) _ _
  have hreachV : ∀ z, z ∈ root :: others → ∃ k, p^[k] z = root := by
    intro z hz
    rcases List.mem_cons.mp hz with h | h
    · exact ⟨0, h⟩
    · exact hT.reach z h
  have hSreach : ∀ z, S z → ∃ k, (Function.update p y t)^[k] z = root := by
    intro z hz
    obtain ⟨k, hk⟩ := hreachV z (hSV z hz)
    exact reach_in_closed p _ root S hS hagree k z hz hk
  have hall : ∀ k z, p^[k] z = root → ∃ k2, (Function.update p y t)^[k2] z = root := by
    intro k
    induction k with
    | zero =>
      intro z hz
      exact ⟨0, hz⟩
    | succ k ih =>
      intro z hz
      by_cases hzy : z = y
      · obtain ⟨k2, hk2⟩ := hSreach t ht
        refine ⟨k2 + 1, ?_⟩
        rw [Function.iterate_succ_apply, hzy, Function.update_same]
        exact hk2
      · rw [Function.iterate_succ_apply] at hz
        obtain ⟨k2, hk2⟩ := ih (p z) hz
        refine ⟨k2 + 1, ?_⟩
        rw [Function.iterate_succ_apply, Function.update_noteq hzy]
        exact hk2
  constructor
  · intro v hv
    by_cases hvy : v = y
    · rw [hvy, Function.update_same]
      exact ⟨hSV t ht, hedge⟩
    · rw [Function.update_noteq hvy]
      exact hT.edge v hv
  · intro v hv
    obtain ⟨k, hk⟩ := hT.reach v hv
    exact hall k v hk

/-- The path from a keyframe to the root does not visit a keyframe twice. -/
theorem path_distinct (p : Nat → Nat) (root v : Nat) (j : Nat) (hreach : ∃ K, p^[K] v = root)
    (hne : ∀ m, m ≤ j → p^[m] v ≠ root) :
    ∀ a b, a < b → b ≤ j → p^[a] v ≠ p^[b] v := by
  intro a b hab hbj heq
  obtain ⟨K, hK⟩ := hreach
  induction K using Nat.strong_induction_on with
  | _ K ih =>
    have hKj : j < K := by
      by_contra hc
      exact hne K (by omega) hK
    apply ih (K - b + a) (by omega)
    rw [Function.iterate_add_apply, heq, ← Function.iterate_add_apply]
    have hKb : K - b + b = K := by omega
    rw [hKb]
    exact hK

theorem path_mem_others (conn : Nat → Nat → Option Int) (root : Nat) (others graph : List Nat)
    (p : Nat → Nat) (v : Nat) (hT : IsSpanningTree conn root others p)
    (hrootG : root ∈ graph) (hv : v ∈ others) :
    ∀ i, (∀ m, m ≤ i → p^[m] v ∉ graph) → p^[i] v ∈ others := by
  intro i
  induction i with
  | zero =>
    intro _
    exact hv
  | succ i ih =>
    intro h
    have h1 := ih (fun m hm => h m (by omega))
    have h2 := (hT.edge _ h1).1
    rw [Function.iterate_succ_apply']
    rcases List.mem_cons.mp h2 with h3 | h3
    · exfalso
      apply h (i + 1) (le_refl _)
      rw [Function.iterate_succ_apply', h3]
      exact hrootG
    · exact h3

/-- The first keyframe of a path that lies in `G`. -/
theorem first_hit (x : Nat → Nat) (G : Nat → Prop) (h0 : ¬ G (x 0)) :
    ∀ K, G (x K) → ∃ i, (∀ m, m ≤ i → ¬ G (x m)) ∧ G (x (i + 1)) := by
  intro K
  induction K using Nat.strong_induction_on with
  | _ K ih =>
    intro h
    by_cases hex : ∃ m, m < K ∧ G (x m)
    · obtain ⟨m, hm, hGm⟩ := hex
      exact ih m hm hGm
    · have hall : ∀ m, m < K → ¬ G (x m) := fun m hm hG => hex ⟨m, hm, hG⟩
      cases K with
      | zero => exact absurd h h0
      | succ K => exact ⟨K, fun m hm => hall m (by omega), h⟩

/-- Reversal of a path: in a spanning tree whose parents keep `graph` closed,
let the path from `v` stay outside `graph` for the first `i + 1` keyframes.
Then there is a spanning tree in which `v` has the parent `u` of `graph`, the
path is reversed up to its keyframe `i`, every other parent is kept, and the
weight is changed by the edge to `u` less the edge leaving keyframe `i`. -/
theorem reverse_path (conn : Nat → Nat → Option Int) (root : Nat) (others graph : List Nat)
    (p : Nat → Nat) (v u : Nat) (w : Int)
    (hnd : others.Nodup) (hsym : ∀ a b, conn a b = conn b a)
    (hT : IsSpanningTree conn root others p)
    (hrootG : root ∈ graph) (hGV : ∀ g, g ∈ graph → g ∈ root :: others)
    (hclosed : ∀ g, g ∈ graph → g ≠ root → p g ∈ graph)
    (hv : v ∈ others) (hu : u ∈ graph) (hvu : conn v u = some w) :
    ∀ i, (∀ m, m ≤ i → p^[m] v ∉ graph) →
      ∃ p2, IsSpanningTree conn root others p2 ∧
        (∀ z, (∀ m, m ≤ i → z ≠ p^[m] v) → p2 z = p z) ∧
        p2 v = u ∧ (∀ m, m < i → p2 (p^[m + 1] v) = p^[m] v) ∧
        treeWeight conn others p2 + edgeWeight conn (p^[i] v) (p^[i + 1] v)
          = treeWeight conn others p + w := by
  intro i
  induction i with
  | zero =>
    intro hout
    have hvG : v ∉ graph := hout 0 (le_refl _)
    refine ⟨Function.update p v u, ?_, ?_, ?_, ?_, ?_⟩
    · exact isSpanningTree_update conn root others p v u (fun z => z ∈ graph) hT hGV hclosed
        hu hvG (by rw [hvu]; rfl)
    · intro z hz
      exact Function.update_noteq (hz 0 (le_refl _)) _ _
    · exact Function.update_same _ _ _
    · intro m hm
      omega
    · rw [treeWeight_update conn others hnd p v u hv]
      have hw : edgeWeight conn v u = w := by simp [edgeWeight, hvu]
      rw [hw]
      simp only [Function.iterate_zero, id_eq, Function.iterate_succ, Function.comp_apply]
      ring
  | succ i ih =>
    intro hout
    obtain ⟨p2, hT2, hag, hpv, hrev, hw⟩ := ih (fun m hm => hout m (by omega))
    have hne : ∀ m, m ≤ i + 1 → p^[m] v ≠ root := fun m hm h => hout m hm (h ▸ hrootG)
    have hdist := path_distinct p root v (i + 1) (hT.reach v hv) hne
    have hmem : ∀ m, m ≤ i + 1 → p^[m] v ∈ others := fun m hm =>
      path_mem_others conn root others graph p v hT hrootG hv m
        (fun m2 hm2 => hout m2 (by omega))
    have hstep : p^[i + 1] v = p (p^[i] v) := Function.iterate_succ_apply' p i v
    have hstep2 : p^[i + 1 + 1] v = p (p^[i + 1] v) := Function.iterate_succ_apply' p (i + 1) v
    have hkeep : p2 (p^[i + 1] v) = p (p^[i + 1] v) :=
      hag _ (fun m hm h => hdist m (i + 1) (by omega) (le_refl _) h.symm)
    have hT3 : IsSpanningTree conn root others
        (Function.update p2 (p^[i + 1] v) (p^[i] v)) := by
      apply isSpanningTree_update conn root others p2 (p^[i + 1] v) (p^[i] v)
        (fun z => z ∈ graph ∨ ∃ m, m ≤ i ∧ z = p^[m] v) hT2
      · rintro z (hz | ⟨m, hm, rfl⟩)
        · exact hGV z hz
        · exact List.mem_cons_of_mem _ (hmem m (by omega))
      · rintro z (hz | ⟨m, hm, rfl⟩) hzr
        · left
          rw [hag z (fun m hm h => hout m (by omega) (h ▸ hz))]
          exact hclosed z hz hzr
        · cases m with
          | zero =>
            left
            simp only [Function.iterate_zero, id_eq]
            rw [hpv]
            exact hu
          | succ m =>
            right
            exact ⟨m, by omega, hrev m (by omega)⟩
      · right
        exact ⟨i, le_refl _, rfl⟩
      · rintro (hz | ⟨m, hm, hz⟩)
        · exact hout (i + 1) (le_refl _) hz
        · exact hdist m (i + 1) (by omega) (le_refl _) hz.symm
      · rw [hsym, hstep]
        exact (hT.edge _ (hmem i (by omega))).2
    refine ⟨_, hT3, ?_, ?_, ?_, ?_⟩
    · intro z hz
      rw [Function.update_noteq (hz (i + 1) (le_refl _))]
      exact hag z (fun m hm => hz m (by omega))
    · have h0 : v ≠ p^[i + 1] v := hdist 0 (i + 1) (by omega) (le_refl _)
      rw [Function.update_noteq h0]
      exact hpv
    · intro m hm
      by_cases hmi : m = i
      · rw [hmi]
        exact Function.update_same _ _ _
      · rw [Function.update_noteq (hdist (m + 1) (i + 1) (by omega) (le_refl _))]
        exact hrev m (by omega)
    · rw [treeWeight_update conn others hnd p2 _ _ (hmem (i + 1) (le_refl _)), hkeep, ← hstep2,
        edgeWeight_symm conn hsym (p^[i + 1] v) (p^[i] v)]
      linarith

/-- The exchange step of the proof that the repair loop is optimal: a spanning
tree that has the parents of the keyframes of `graph` can be changed, without
loss of weight, into one that also gives `v` the parent `u`, when the edge
from `v` to `u` is of greatest weight among those that leave `graph`. -/
theorem exchange_step (conn : Nat → Nat → Option Int) (root : Nat) (others graph : List Nat)
    (p : Nat → Nat) (v u : Nat) (w : Int)
    (hnd : others.Nodup) (hsym : ∀ a b, conn a b = conn b a)
    (hT : IsSpanningTree conn root others p)
    (hrootG : root ∈ graph) (hGV : ∀ g, g ∈ graph → g ∈ root :: others)
    (hclosed : ∀ g, g ∈ graph → g ≠ root → p g ∈ graph)
    (hv : v ∈ others) (hvG : v ∉ graph) (hu : u ∈ graph) (hvu : conn v u = some w)
    (hmax : ∀ a, a ∈ others → a ∉ graph → ∀ b, b ∈ graph → ∀ w2, conn a b = some w2 → w2 ≤ w) :
    ∃ p2, IsSpanningTree conn root others p2 ∧ (∀ g, g ∈ graph → p2 g = p g) ∧ p2 v = u ∧
      treeWeight conn others p ≤ treeWeight conn others p2 := by
  obtain ⟨K, hK⟩ := hT.reach v hv
  obtain ⟨i, hout, hin⟩ := first_hit (fun m => p^[m] v) (fun z => z ∈ graph) hvG K
    (by show p^[K] v ∈ graph; rw [hK]; exact hrootG)
  obtain ⟨p2, hT2, hag, hpv, _, hw⟩ := reverse_path conn root others graph p v u w hnd hsym hT
    hrootG hGV hclosed hv hu hvu i hout
  refine ⟨p2, hT2, ?_, hpv, ?_⟩
  · intro g hg
    exact hag g (fun m hm h => hout m hm (h ▸ hg))
  · have hmemi := path_mem_others conn root others graph p v hT hrootG hv i hout
    have hstep : p^[i + 1] v = p (p^[i] v) := Function.iterate_succ_apply' p i v
    have hedge := (hT.edge _ hmemi).2
    rw [← hstep] at hedge
    obtain ⟨w2, hw2⟩ := Option.isSome_iff_exists.mp hedge
    have hle := hmax _ hmemi (hout i (le_refl _)) _ hin w2 hw2
    have hew : edgeWeight conn (p^[i] v) (p^[i + 1] v) = w2 := by
      unfold edgeWeight
      rw [hw2]
      rfl
    rw [hew] at hw
    linarith

/-- While a keyframe is out of the tree and connected to the root, some
covisibility edge leads from a keyframe out of the tree into the tree. -/
theorem crossing_edge (conn : Nat → Nat → Option Int) (root : Nat) (others graph : List Nat)
    (hrootG : root ∈ graph) (v : Nat) (hc : Connected conn root others v)
    (hvV : v ∈ root :: others) (hvG : v ∉ graph) :
    ∃ a b, a ∈ root :: others ∧ a ∉ graph ∧ b ∈ graph ∧ (conn a b).isSome = true := by
  unfold Connected at hc
  induction hc using Relation.ReflTransGen.head_induction_on with
  | refl => exact absurd hrootG hvG
  | @head a c hab _ ih =>
    by_cases hcG : c ∈ graph
    · exact ⟨a, c, hvV, hvG, hcG, hab.2⟩
    · exact ih hab.1 hcG

theorem parentFn_of_parentOf (map : SLCVMap F) (v q : Nat) (h : parentOf map v = some q) :
    parentFn map v = q := by
  simp [parentFn, h]

/-- The state of the repair loop when no keyframe is left out of the tree. -/
theorem repairLoop_done (conn : Nat → Nat → Option Int) (root : Nat) (others graph : List Nat)
    (map : SLCVMap F) (hroot : root ∉ others)
    (hGV : ∀ g, g ∈ graph → g ∈ root :: others)
    (hall : ∀ x, x ∈ others → x ∈ graph)
    (hpar : ∀ g, g ∈ graph → g ≠ root →
      ∃ q, q ∈ graph ∧ parentOf map g = some q ∧ (conn g q).isSome = true)
    (hreach : ∀ g, g ∈ graph → ∃ k, (parentFn map)^[k] g = root)
    (hext : ∀ p, IsSpanningTree conn root others p →
      ∃ p2, IsSpanningTree conn root others p2 ∧
        treeWeight conn others p ≤ treeWeight conn others p2 ∧
        ∀ g, g ∈ graph → g ≠ root → parentOf map g = some (p2 g)) :
    IsSpanningTree conn root others (parentFn map) ∧
      ∀ p, IsSpanningTree conn root others p →
        treeWeight conn others p ≤ treeWeight conn others (parentFn map) := by
  have hne : ∀ x, x ∈ others → x ≠ root := fun x hx h => hroot (h ▸ hx)
  refine ⟨⟨?_, ?_⟩, ?_⟩
  · intro v hv
    obtain ⟨q, hq, hpq, hc⟩ := hpar v (hall v hv) (hne v hv)
    rw [parentFn_of_parentOf map v q hpq]
    exact ⟨hGV q hq, hc⟩
  · intro v hv
    exact hreach v (hall v hv)
  · intro p hp
    obtain ⟨p2, _, hle, hag⟩ := hext p hp
    have heq : treeWeight conn others p2 = treeWeight conn others (parentFn map) := by
      apply treeWeight_congr
      intro v hv
      exact (parentFn_of_parentOf map v _ (hag v (hall v hv) (hne v hv))).symm
    rw [← heq]
    exact hle

/-- The repair loop, from a state in which the tree built so far can be
completed to a spanning tree at least as heavy as any given one: the loop
ends, and the parents it leaves form a spanning tree of greatest weight. -/
theorem repairLoop_prim (conn : Nat → Nat → Option Int) (root : Nat) (others : List Nat)
    (hnd : others.Nodup) (hroot : root ∉ others) (hsym : ∀ a b, conn a b = conn b a)
    (hconn : ∀ v, v ∈ others → Connected conn root others v) :
    ∀ (fuel : Nat) (graph uncon : List Nat) (map : SLCVMap F),
      uncon.length ≤ fuel → root ∈ graph →
      (∀ x, x ∈ root :: others ↔ x ∈ graph ∨ x ∈ uncon) →
      (∀ x, x ∈ uncon → x ∉ graph) →
      (∀ x, x ∈ others → x < map.keyFrames.length) →
      (∀ g, g ∈ graph → g ≠ root →
        ∃ q, q ∈ graph ∧ parentOf map g = some q ∧ (conn g q).isSome = true) →
      (∀ g, g ∈ graph → ∃ k, (parentFn map)^[k] g = root) →
      (∀ p, IsSpanningTree conn root others p →
        ∃ p2, IsSpanningTree conn root others p2 ∧
          treeWeight conn others p ≤ treeWeight conn others p2 ∧
          ∀ g, g ∈ graph → g ≠ root → parentOf map g = some (p2 g)) →
      ∃ map2, repairLoop conn fuel graph uncon map = .ok map2 ∧ SameUpToParents map map2 ∧
        IsSpanningTree conn root others (parentFn map2) ∧
        ∀ p, IsSpanningTree conn root others p →
          treeWeight conn others p ≤ treeWeight conn others (parentFn map2) := by
  have hdone : ∀ (fuel : Nat) (graph : List Nat) (map : SLCVMap F),
      (∀ x, x ∈ root :: others ↔ x ∈ graph ∨ x ∈ ([] : List Nat)) →
      (∀ g, g ∈ graph → g ≠ root →
        ∃ q, q ∈ graph ∧ parentOf map g = some q ∧ (conn g q).isSome = true) →
      (∀ g, g ∈ graph → ∃ k, (parentFn map)^[k] g = root) →
      (∀ p, IsSpanningTree conn root others p →
        ∃ p2, IsSpanningTree conn root others p2 ∧
          treeWeight conn others p ≤ treeWeight conn others p2 ∧
          ∀ g, g ∈ graph → g ≠ root → parentOf map g = some (p2 g)) →
      ∃ map2, repairLoop conn fuel graph [] map = .ok map2 ∧ SameUpToParents map map2 ∧
        IsSpanningTree conn root others (parentFn map2) ∧
        ∀ p, IsSpanningTree conn root others p →
          treeWeight conn others p ≤ treeWeight conn others (parentFn map2) := by
    intro fuel graph map hsplit hpar hreach hext
    have hGV : ∀ g, g ∈ graph → g ∈ root :: others := fun g hg => (hsplit g).mpr (Or.inl hg)
    have hall : ∀ x, x ∈ others → x ∈ graph := fun x hx => by
      rcases (hsplit x).mp (List.mem_cons_of_mem _ hx) with h | h
      · exact h
      · cases h
    have hres := repairLoop_done conn root others graph map hroot hGV hall hpar hreach hext
    refine ⟨map, ?_, SameUpToParents.refl map, hres.1, hres.2⟩
    cases fuel <;> rfl
  intro fuel
  induction fuel with
  | zero =>
    intro graph uncon map hlen hrootG hsplit hdisj hvalid hpar hreach hext
    have hnil : uncon = [] := List.length_eq_zero.mp (Nat.le_zero.mp hlen)
    subst hnil
    exact hdone 0 graph map hsplit hpar hreach hext
  | succ fuel ih =>
    intro graph uncon map hlen hrootG hsplit hdisj hvalid hpar hreach hext
    cases huc : uncon with
    | nil =>
      subst huc
      exact hdone (fuel + 1) graph map hsplit hpar hreach hext
    | cons u0 us =>
      have hne : uncon ≠ [] := by rw [huc]; exact List.cons_ne_nil _ _
      rw [← huc]
      have hGV : ∀ g, g ∈ graph → g ∈ root :: others := fun g hg => (hsplit g).mpr (Or.inl hg)
      have hUV : ∀ x, x ∈ uncon → x ∈ others := by
        intro x hx
        rcases List.mem_cons.mp ((hsplit x).mpr (Or.inr hx)) with h | h
        · exact absurd (h ▸ hrootG) (hdisj x hx)
        · exact h
      have hVU : ∀ a, a ∈ root :: others → a ∉ graph → a ∈ uncon := by
        intro a ha hag
        rcases (hsplit a).mp ha with h | h
        · exact absurd h hag
        · exact h
      rcases repairLoop_step conn fuel graph uncon hne map with ⟨hq, _⟩ | ⟨u, g, w, _, hu, hg, hc, hmax, heq⟩
      · exfalso
        have hu0 : u0 ∈ uncon := by rw [huc]; exact List.mem_cons_self _ _
        obtain ⟨a, b, ha, hag, hb, hab⟩ := crossing_edge conn root others graph hrootG u0
          (hconn u0 (hUV u0 hu0)) (List.mem_cons_of_mem _ (hUV u0 hu0)) (hdisj u0 hu0)
        obtain ⟨w2, hw2⟩ := Option.isSome_iff_exists.mp hab
        have hmem := (mem_buildQueue conn uncon graph a b w2).mpr ⟨hVU a ha hag, hb, hw2⟩
        rw [hq] at hmem
        cases hmem
      · rw [heq]
        have huO : u ∈ others := hUV u hu
        have huG : u ∉ graph := hdisj u hu
        have hult : u < map.keyFrames.length := hvalid u huO
        have hpu : parentOf (ChangeParent map u g) u = some g := by
          rw [parentOf_changeParent, if_pos ⟨rfl, hult⟩]
        have hpo : ∀ x, x ≠ u → parentOf (ChangeParent map u g) x = parentOf map x := by
          intro x hx
          rw [parentOf_changeParent, if_neg (fun h => hx h.1)]
        have hclosedFn : ∀ z, z ∈ graph → z ≠ root → parentFn map z ∈ graph := by
          intro z hz hzr
          obtain ⟨q, hq, hpq, _⟩ := hpar z hz hzr
          rw [parentFn_of_parentOf map z q hpq]
          exact hq
        have hagreeFn : ∀ z, z ∈ graph → z ≠ root →
            parentFn (ChangeParent map u g) z = parentFn map z := by
          intro z hz _
          unfold parentFn
          rw [hpo z (fun h => huG (h ▸ hz))]
        have hreachG : ∀ z, z ∈ graph → ∃ k, (parentFn (ChangeParent map u g))^[k] z = root := by
          intro z hz
          obtain ⟨k, hk⟩ := hreach z hz
          exact reach_in_closed (parentFn map) _ root (fun z => z ∈ graph) hclosedFn hagreeFn
            k z hz hk
        obtain ⟨map2, hres, hsame, htree, hopt⟩ := ih (setInsert u graph) (setErase u uncon)
          (ChangeParent map u g)
          (by have := length_setErase_lt u uncon hu; omega)
          ((mem_setInsert _ _ _).mpr (Or.inr hrootG))
          (by
            intro x
            rw [hsplit x, mem_setInsert, mem_setErase]
            constructor
            · rintro (h | h)
              · exact Or.inl (Or.inr h)
              · by_cases hxu : x = u
                · exact Or.inl (Or.inl hxu)
                · exact Or.inr ⟨h, hxu⟩
            · rintro ((h | h) | h)
              · exact Or.inr (h ▸ hu)
              · exact Or.inl h
              · exact Or.inr h.1)
          (by
            intro x hx hxg
            rw [mem_setErase] at hx
            rcases (mem_setInsert _ _ _).mp hxg with h | h
            · exact hx.2 h
            · exact hdisj x hx.1 h)
          (by
            intro x hx
            rw [(changeParent_same map u g).length_eq]
            exact hvalid x hx)
          (by
            intro z hz hzr
            rcases (mem_setInsert _ _ _).mp hz with h | h
            · rw [h]
              exact ⟨g, (mem_setInsert _ _ _).mpr (Or.inr hg), hpu, by rw [hc]; rfl⟩
            · obtain ⟨q, hq, hpq, hcq⟩ := hpar z h hzr
              refine ⟨q, (mem_setInsert _ _ _).mpr (Or.inr hq), ?_, hcq⟩
              rw [hpo z (fun h2 => huG (h2 ▸ h))]
              exact hpq)
          (by
            intro z hz
            rcases (mem_setInsert _ _ _).mp hz with h | h
            · obtain ⟨k, hk⟩ := hreachG g hg
              refine ⟨k + 1, ?_⟩
              rw [Function.iterate_succ_apply, h, parentFn_of_parentOf _ u g hpu]
              exact hk
            · exact hreachG z h)
          (by
            intro p hp
            obtain ⟨p2, hT2, hle, hag⟩ := hext p hp
            have hclosed : ∀ z, z ∈ graph → z ≠ root → p2 z ∈ graph := by
              intro z hz hzr
              obtain ⟨q, hq, hpq, _⟩ := hpar z hz hzr
              have h1 := hag z hz hzr
              rw [hpq] at h1
              rw [← Option.some.inj h1]
              exact hq
            obtain ⟨p3, hT3, hag3, hp3u, hle3⟩ := exchange_step conn root others graph p2 u g w
              hnd hsym hT2 hrootG hGV hclosed huO huG hg hc
              (fun a ha hag2 b hb w2 hw2 => hmax a (hVU a (List.mem_cons_of_mem _ ha) hag2) b hb w2 hw2)
            refine ⟨p3, hT3, le_trans hle hle3, ?_⟩
            intro z hz hzr
            rcases (mem_setInsert _ _ _).mp hz with h | h
            · rw [h, hpu, hp3u]
            · rw [hpo z (fun h2 => huG (h2 ▸ h)), hag z h hzr, hag3 z h])
        exact ⟨map2, hres, (changeParent_same map u g).symm.trans hsame, htree, hopt⟩

theorem firstKF_eq (doc : Document F) :
    firstKF doc =
      (scanKeyFrames (loadKeyFrames doc SLCVMap.empty).1
        (List.range doc.KeyFrames.length) (none, false)).1 := by
  unfold firstKF
  simp only
  rw [getAllKeyFrames_eq_range _ (loadKeyFrames_inMap doc), loadKeyFrames_length]

theorem mem_otherKeyFrames (n root x : Nat) : x ∈ otherKeyFrames n root ↔ x < n ∧ x ≠ root := by
  unfold otherKeyFrames
  rw [mem_setErase, List.mem_range]

theorem otherKeyFrames_nodup (n root : Nat) : (otherKeyFrames n root).Nodup :=
  (List.nodup_range n).filter _

/-- C27: let the covisibility weights be symmetric and every keyframe be
connected to the keyframe `root` with id 0 (`firstKF`) through covisibility
edges, for a document whose map-point records can be read and for which the
spanning-tree repair runs. Then `load` into an empty map completes, and the
parent pointers it leaves form a spanning tree of the covisibility graph
rooted at `root` (every other keyframe has a parent joined to it by an edge,
and following parents leads to `root`) whose total edge weight is at least the
total edge weight of every spanning tree of the covisibility graph. -/
theorem load_repair_maximum_spanning_tree (conn : Nat → Nat → Option Int) (doc : Document F)
    (root : Nat)
    (hwf : ∀ r ∈ doc.MapPoints, r.observingKfIds.length ≤ r.corrKpIndices.length)
    (hfirst : firstKF doc = some root) (hb : buildSpanningTree doc = true)
    (hsym : ∀ a b, conn a b = conn b a)
    (hconn : ∀ v, v < doc.KeyFrames.length →
      Connected conn root (otherKeyFrames doc.KeyFrames.length root) v) :
    ∃ map2, load conn doc SLCVMap.empty = .ok map2 ∧
      (∃ kf, map2.keyFrames[root]? = some kf ∧ kf.mnId = 0) ∧
      map2.keyFrames.length = doc.KeyFrames.length ∧
      IsSpanningTree conn root (otherKeyFrames doc.KeyFrames.length root) (parentFn map2) ∧
      ∀ p, IsSpanningTree conn root (otherKeyFrames doc.KeyFrames.length root) p →
        treeWeight conn (otherKeyFrames doc.KeyFrames.length root) p
          ≤ treeWeight conn (otherKeyFrames doc.KeyFrames.length root) (parentFn map2) := by
  obtain ⟨m2, hm2⟩ := loadMapPoints_ok (loadKeyFrames doc SLCVMap.empty).2 doc.MapPoints
    (loadKeyFrames doc SLCVMap.empty).1 hwf
  obtain ⟨hk, _, hload⟩ := load_of_loadMapPoints conn doc m2 hm2
  have hlen2 : m2.keyFrames.length = doc.KeyFrames.length := by
    rw [hk, loadKeyFrames_length]
  rw [firstKF_eq] at hfirst
  rw [buildSpanningTree_eq] at hb
  obtain ⟨hrmem, kf, hkf, hkf0⟩ : root ∈ List.range doc.KeyFrames.length ∧
      ∃ kf, (loadKeyFrames doc SLCVMap.empty).1.keyFrames[root]? = some kf ∧ kf.mnId = 0 := by
    rcases scanKeyFrames_fst_eq_some _ _ none false root hfirst with hc | h
    · cases hc
    · exact h
  have hrset : root ∈ (List.range doc.KeyFrames.length).foldl
      (fun s kf => setInsert kf s) [] :=
    (mem_foldl_setInsert _ _ _).mpr (Or.inl hrmem)
  have hscan : scanKeyFrames (loadKeyFrames doc SLCVMap.empty).1
      (List.range doc.KeyFrames.length) (none, false) = (some root, true) :=
    Prod.ext hfirst hb
  rw [hscan] at hload
  simp only [if_true] at hload
  obtain ⟨map2, hres, hsame, htree, hopt⟩ := repairLoop_prim conn root
    (otherKeyFrames doc.KeyFrames.length root) (otherKeyFrames_nodup _ _)
    (fun h => ((mem_otherKeyFrames _ _ _).mp h).2 rfl) hsym
    (fun v hv => hconn v ((mem_otherKeyFrames _ _ _).mp hv).1)
    ((List.range doc.KeyFrames.length).foldl (fun s kf => setInsert kf s) []).length
    [root]
    (setErase root ((List.range doc.KeyFrames.length).foldl (fun s kf => setInsert kf s) []))
    m2
    (Nat.le_of_lt (length_setErase_lt root _ hrset))
    (List.mem_singleton.mpr rfl)
    (by
      intro x
      rw [List.mem_cons, mem_otherKeyFrames, List.mem_singleton, mem_setErase,
        mem_foldl_setInsert, List.mem_range]
      constructor
      · rintro (h | h)
        · exact Or.inl h
        · exact Or.inr ⟨Or.inl h.1, h.2⟩
      · rintro (h | ⟨h | h, h2⟩)
        · exact Or.inl h
        · exact Or.inr ⟨h, h2⟩
        · cases h)
    (by
      intro x hx hxg
      exact ((mem_setErase _ _ _).mp hx).2 (List.mem_singleton.mp hxg))
    (by
      intro x hx
      rw [hlen2]
      exact ((mem_otherKeyFrames _ _ _).mp hx).1)
    (by
      intro g hg hgr
      exact absurd (List.mem_singleton.mp hg) hgr)
    (by
      intro g hg
      exact ⟨0, List.mem_singleton.mp hg⟩)
    (by
      intro p hp
      exact ⟨p, hp, le_refl _, fun g hg hgr => absurd (List.mem_singleton.mp hg) hgr⟩)
  refine ⟨map2, ?_, ?_, ?_, htree, hopt⟩
  · rw [hload]
    exact hres
  · obtain ⟨kb, hkb, hkbid, _⟩ := hsame.getElem? root kf (by rw [hk]; exact hkf)
    exact ⟨kb, hkb, by rw [hkbid, hkf0]⟩
  · rw [← hsame.length_eq, hlen2]

theorem connTriangle_symm (a b : Nat) : connTriangle a b = connTriangle b a := by
  unfold connTriangle
  split_ifs <;> first | rfl | omega

/-- C27, witness: `triangleDoc` with the weights `connTriangle`: the repair
gives keyframe 1 the parent 0 (weight 5) and keyframe 2 the parent 1
(weight 7), a tree of weight 12. -/
theorem load_repair_maximum_spanning_tree_witness :
    (∀ r ∈ triangleDoc.MapPoints, r.observingKfIds.length ≤ r.corrKpIndices.length) ∧
    firstKF triangleDoc = some 0 ∧ buildSpanningTree triangleDoc = true ∧
    (∀ a b, connTriangle a b = connTriangle b a) ∧
    (∀ v, v < triangleDoc.KeyFrames.length →
      Connected connTriangle 0 (otherKeyFrames triangleDoc.KeyFrames.length 0) v) ∧
    (∃ map2, load connTriangle triangleDoc SLCVMap.empty = .ok map2 ∧
      parentOf map2 1 = some 0 ∧ parentOf map2 2 = some 1 ∧
      treeWeight connTriangle (otherKeyFrames triangleDoc.KeyFrames.length 0) (parentFn map2)
        = 12) ∧
    ∃ map2, load connTriangle triangleDoc SLCVMap.empty = .ok map2 ∧
      (∃ kf, map2.keyFrames[0]? = some kf ∧ kf.mnId = 0) ∧
      map2.keyFrames.length = triangleDoc.KeyFrames.length ∧
      IsSpanningTree connTriangle 0 (otherKeyFrames triangleDoc.KeyFrames.length 0)
        (parentFn map2) ∧
      ∀ p, IsSpanningTree connTriangle 0 (otherKeyFrames triangleDoc.KeyFrames.length 0) p →
        treeWeight connTriangle (otherKeyFrames triangleDoc.KeyFrames.length 0) p
          ≤ treeWeight connTriangle (otherKeyFrames triangleDoc.KeyFrames.length 0)
            (parentFn map2) := by
  have hwf : ∀ r ∈ triangleDoc.MapPoints,
      r.observingKfIds.length ≤ r.corrKpIndices.length := by
    simp [triangleDoc]
  have hconn : ∀ v, v < triangleDoc.KeyFrames.length →
      Connected connTriangle 0 (otherKeyFrames triangleDoc.KeyFrames.length 0) v := by
    intro v hv
    have hv3 : v < 3 := hv
    interval_cases v
    · exact Relation.ReflTransGen.refl
    · exact Relation.ReflTransGen.single ⟨List.mem_cons_self _ _, by decide⟩
    · exact Relation.ReflTransGen.single ⟨List.mem_cons_self _ _, by decide⟩
  exact ⟨hwf, by decide, by decide, connTriangle_symm, hconn,
    ⟨_, rfl, by decide, by decide, by decide⟩,
    load_repair_maximum_spanning_tree connTriangle triangleDoc 0 hwf (by decide) (by decide)
      connTriangle_symm hconn⟩

end SLCVMapIO

namespace SLCVOrbTracking

variable {F : Type}

/-! ### What the loops over the features leave alone -/

theorem foldl_eq_of_step {α β : Type} (g : State F → β) (f : State F → α → State F)
    (l : List α) (s : State F) (h : ∀ s a, g (f s a) = g s) : g (l.foldl f s) = g s := by
  induction l generalizing s with
  | nil => rfl
  | cons a rest ih => rw [List.foldl_cons, ih, h]

theorem setLink_mTcw (s : State F) (i : Nat) (v : Option Nat) :
    (setLink s i v).mCurrentFrame.mTcw = s.mCurrentFrame.mTcw := by
  unfold setLink
  split <;> rfl

theorem setOutlier_mTcw (s : State F) (i : Nat) (b : Bool) :
    (setOutlier s i b).mCurrentFrame.mTcw = s.mCurrentFrame.mTcw := by
  unfold setOutlier
  split <;> rfl

theorem cleanVOMatches_kept (s : State F) : (cleanVOMatches s).kept = s.kept := by
  unfold cleanVOMatches
  apply foldl_kept
  intro s i
  split
  · rfl
  · rfl
  · split
    · exact (setLink_kept _ _ _).trans (setOutlier_kept _ _ _)
    · rfl

theorem cleanVOMatches_mTcw (s : State F) :
    (cleanVOMatches s).mCurrentFrame.mTcw = s.mCurrentFrame.mTcw := by
  unfold cleanVOMatches
  apply foldl_eq_of_step (fun s => s.mCurrentFrame.mTcw)
  intro s i
  dsimp only
  split
  · rfl
  · rfl
  · split
    · exact (setLink_mTcw _ _ _).trans (setOutlier_mTcw _ _ _)
    · rfl

theorem discardOutlierLinks_kept (s : State F) : (discardOutlierLinks s).kept = s.kept := by
  unfold discardOutlierLinks
  apply foldl_kept
  intro s i
  split
  · rfl
  · rfl
  · split
    · rfl
    · exact setLink_kept _ _ _
    · rfl

theorem discardOutlierLinks_mTcw (s : State F) :
    (discardOutlierLinks s).mCurrentFrame.mTcw = s.mCurrentFrame.mTcw := by
  unfold discardOutlierLinks
  apply foldl_eq_of_step (fun s => s.mCurrentFrame.mTcw)
  intro s i
  dsimp only
  split
  · rfl
  · rfl
  · split
    · rfl
    · exact setLink_mTcw _ _ _
    · rfl

theorem updateMotionModel_frame [Field F] (env : Env F) (s : State F) :
    (updateMotionModel env s).mCurrentFrame = s.mCurrentFrame ∧
    (updateMotionModel env s)._bOK = s._bOK ∧ (updateMotionModel env s)._map = s._map ∧
    (updateMotionModel env s).fault = s.fault := by
  unfold updateMotionModel
  split
  · exact ⟨rfl, rfl, rfl, rfl⟩
  · exact ⟨rfl, rfl, rfl, rfl⟩

theorem logTrajectory_frame [Mul F] [AddCommMonoid F] (env : Env F) (s : State F) :
    (logTrajectory env s).mCurrentFrame = s.mCurrentFrame ∧
    (logTrajectory env s)._bOK = s._bOK ∧ (logTrajectory env s)._map = s._map ∧
    (logTrajectory env s).fault = s.fault := by
  unfold logTrajectory
  split
  · exact ⟨rfl, rfl, rfl, rfl⟩
  · split
    · exact ⟨rfl, rfl, rfl, rfl⟩
    · exact ⟨rfl, rfl, rfl, rfl⟩

/-! ### A frame tracked by optical flow -/

/-- What makes `TrackWithOptFlow` return true. -/
theorem TrackWithOptFlow_true [Zero F] [One F] (env : Env F) (s : State F)
    (h : (TrackWithOptFlow env s).1 = true) :
    100 ≤ s.mLastFrame.mvKeys.length ∧
    3 * (attemptedPoints s).length ≤ 4 * (trackedPoints env s).length ∧
    (env.solvePnP
      { beforeOptFlow s with mnMatchesInliers := ((trackedPoints env s).length : Int) }
      ((trackedPoints env s).map fun x => x.1) ((trackedPoints env s).map fun x => x.2)).1
        = true := by
  unfold TrackWithOptFlow at h
  dsimp only at h
  split_ifs at h with h1 h2 h3
  rw [ratio_lt_iff] at h2
  exact ⟨by omega, by omega, h3⟩

/-- The part of `track3DPts` after the strategy stage, for a frame tracked in
VO-fallback mode: `TrackLocalMap` is not run, the frame stays tracked and keeps
its pose. -/
theorem trackFinish_VO [Field F] (env : Env F) (st : State F × List Call)
    (hok : st.1._bOK = true) (hvo : st.1.mbVO = true) :
    (trackFinish env st).2 = st.2 ++ [] ++ [Call.decorateSceneAndVideo, Call.updatePose] ∧
    (trackFinish env st).1._bOK = true ∧
    (trackFinish env st).1.mCurrentFrame.mTcw = st.1.mCurrentFrame.mTcw := by
  unfold trackFinish
  dsimp only
  rw [if_neg (by rw [hvo]; simp)]
  dsimp only
  rw [if_pos hok, if_pos hok]
  refine ⟨rfl, ?_, ?_⟩
  · rw [(logTrajectory_frame env _).2.1]
    split
    · show (discardOutlierLinks (cleanVOMatches (updateMotionModel env st.1)))._bOK = true
      rw [show (discardOutlierLinks (cleanVOMatches (updateMotionModel env st.1)))._bOK
          = (updateMotionModel env st.1)._bOK from
        congrArg Kept._bOK ((discardOutlierLinks_kept _).trans (cleanVOMatches_kept _)),
        (updateMotionModel_frame env st.1).2.1, hok]
    · show (discardOutlierLinks (cleanVOMatches (updateMotionModel env st.1)))._bOK = true
      rw [show (discardOutlierLinks (cleanVOMatches (updateMotionModel env st.1)))._bOK
          = (updateMotionModel env st.1)._bOK from
        congrArg Kept._bOK ((discardOutlierLinks_kept _).trans (cleanVOMatches_kept _)),
        (updateMotionModel_frame env st.1).2.1, hok]
  · rw [(logTrajectory_frame env _).1]
    split
    · show (discardOutlierLinks (cleanVOMatches (updateMotionModel env st.1))).mCurrentFrame.mTcw
        = _
      rw [discardOutlierLinks_mTcw, cleanVOMatches_mTcw, (updateMotionModel_frame env st.1).1]
    · show (discardOutlierLinks (cleanVOMatches (updateMotionModel env st.1))).mCurrentFrame.mTcw
        = _
      rw [discardOutlierLinks_mTcw, cleanVOMatches_mTcw, (updateMotionModel_frame env st.1).1]

/-- C29: for a frame processed while the state is not `TRACKING_LOST`, when
`TrackWithOptFlow` returns true it has set `mbVO` and the pose that `solvePnP`
computed, and `track3DPts` returns (whatever the bound on relocalization
loops) without a call of `TrackWithMotionModel`, `TrackReferenceKeyFrame`,
`Relocalization` or `TrackLocalMap`, with `_bOK` true and that pose as the pose
of the current frame. -/
theorem track3DPts_tracked_by_optflow [Field F] (env : Env F) (fuel : Nat)
    (mvKeys : List (F × F)) (s : State F)
    (hstate : s.smState ≠ .TRACKING_LOST)
    (hflow : (TrackWithOptFlow env (nextFrame mvKeys s)).1 = true) :
    (TrackWithOptFlow env (nextFrame mvKeys s)).2.1.mbVO = true ∧
    (∃ R t, (TrackWithOptFlow env (nextFrame mvKeys s)).2.1.mCurrentFrame.mTcw
      = some (poseOf R t)) ∧
    ∃ s2 calls, track3DPts env fuel mvKeys s = some (s2, calls) ∧
      (∀ e, Call.TrackWithMotionModel e ∉ calls) ∧ Call.TrackReferenceKeyFrame ∉ calls ∧
      Call.Relocalization ∉ calls ∧ Call.TrackLocalMap ∉ calls ∧
      s2._bOK = true ∧
      s2.mCurrentFrame.mTcw
        = (TrackWithOptFlow env (nextFrame mvKeys s)).2.1.mCurrentFrame.mTcw := by
  obtain ⟨h100, hr, hp⟩ := TrackWithOptFlow_true env _ hflow
  have hof := TrackWithOptFlow_of_tracked env (nextFrame mvKeys s) h100 hr hp
  have hvo : (TrackWithOptFlow env (nextFrame mvKeys s)).2.1.mbVO = true := by
    rw [hof]
  have hpose : ∃ R t, (TrackWithOptFlow env (nextFrame mvKeys s)).2.1.mCurrentFrame.mTcw
      = some (poseOf R t) := by
    rw [hof]
    exact ⟨_, _, rfl⟩
  obtain ⟨restF, hF, hrestF⟩ := TrackWithOptFlow_calls env (nextFrame mvKeys s)
  have hst : trackStrategy env fuel (nextFrame mvKeys s) = some
      ({ afterOptFlow env (nextFrame mvKeys s) with
          _optFlowFrames := (afterOptFlow env (nextFrame mvKeys s))._optFlowFrames + 1 },
        (TrackWithOptFlow env (nextFrame mvKeys s)).2.2 ++ []) := by
    unfold trackStrategy
    rw [if_neg (by exact hstate)]
    dsimp only
    rw [if_neg (by
      show ¬ (afterOptFlow env (nextFrame mvKeys s))._bOK = false
      unfold afterOptFlow
      rw [hflow]
      simp)]
  obtain ⟨hc, hb, hT⟩ := trackFinish_VO env
    (({ afterOptFlow env (nextFrame mvKeys s) with
          _optFlowFrames := (afterOptFlow env (nextFrame mvKeys s))._optFlowFrames + 1 }
        : State F),
      (TrackWithOptFlow env (nextFrame mvKeys s)).2.2 ++ []) hflow hvo
  have hno : ∀ c, c.isStrategy = true → c ≠ Call.TrackWithOptFlow →
      c ∉ (trackFinish env
        (({ afterOptFlow env (nextFrame mvKeys s) with
          _optFlowFrames := (afterOptFlow env (nextFrame mvKeys s))._optFlowFrames + 1 }
        : State F),
        (TrackWithOptFlow env (nextFrame mvKeys s)).2.2 ++ [])).2 := by
    intro c hcs hne hmem
    rw [hc] at hmem
    rcases List.mem_append.mp hmem with h1 | h1
    · rcases List.mem_append.mp h1 with h2 | h2
      · rcases List.mem_append.mp h2 with h3 | h3
        · exact hne (eq_head_of_strategy _ restF _ _ hF hrestF h3 hcs)
        · exact absurd h3 (List.not_mem_nil c)
      · exact absurd h2 (List.not_mem_nil c)
    · rw [all_not_strategy [Call.decorateSceneAndVideo, Call.updatePose] rfl c h1] at hcs
      exact Bool.noConfusion hcs
  refine ⟨hvo, hpose, _, _, by unfold track3DPts; rw [hst], fun e => hno _ rfl (by simp),
    hno _ rfl (by simp), hno _ rfl (by simp), hno _ rfl (by simp), hb, hT⟩

set_option maxRecDepth 100000 in
/-- C29, witness: `flowState` (state OK, last frame with 100 keypoints and
four links) with `flowEnv`, whose optical flow tracks the four points and whose
`solvePnP` succeeds, for a new frame with four keypoints. -/
theorem track3DPts_tracked_by_optflow_witness :
    (TrackWithOptFlow flowEnv (nextFrame (List.replicate 4 (0, 0)) flowState)).2.1.mbVO
      = true ∧
    ∃ s2 calls, track3DPts flowEnv 0 (List.replicate 4 (0, 0)) flowState = some (s2, calls) ∧
      (∀ e, Call.TrackWithMotionModel e ∉ calls) ∧ Call.TrackReferenceKeyFrame ∉ calls ∧
      Call.Relocalization ∉ calls ∧ Call.TrackLocalMap ∉ calls ∧
      s2._bOK = true ∧
      s2.mCurrentFrame.mTcw =
        (TrackWithOptFlow flowEnv
          (nextFrame (List.replicate 4 (0, 0)) flowState)).2.1.mCurrentFrame.mTcw := by
  have h := track3DPts_tracked_by_optflow flowEnv 0 (List.replicate 4 (0, 0)) flowState
    (by decide)
    (by
      rw [TrackWithOptFlow_of_tracked flowEnv (nextFrame (List.replicate 4 (0, 0)) flowState)
        (by decide) (by decide) rfl])
  exact ⟨h.1, h.2.2⟩

/-! ### The counter `nCandidates` of `Relocalization` -/

/-- The body of the RANSAC loop keeps `nCandidates` equal to the number of
candidates not discarded. -/
theorem relocBody_count (env : Env F) (i : Nat) (c : Candidate F) (L : RelocLoop F)
    (hcount : L.nCandidates = liveCandidates L.cands) (hc : L.cands[i]? = some c)
    (hd : c.vbDiscarded = false) :
    (relocBody env i c L).nCandidates = liveCandidates (relocBody env i c L).cands := by
  have hset : ∀ (b : Bool),
      (if b then L.nCandidates - 1 else L.nCandidates) =
        liveCandidates (L.cands.set i
          { c with nIterate := c.nIterate + 1,
                   vbDiscarded := if b then true else c.vbDiscarded }) := by
    intro b
    rw [liveCandidates_set _ i c _ hc, hcount, hd]
    cases b
    · simp
    · simp
  unfold relocBody
  split
  · exact hcount
  · dsimp only
    split
    · exact hset _
    · split
      · exact hset _
      · exact hset _

theorem relocFor_count (env : Env F) (l : List Nat) (L : RelocLoop F)
    (hcount : L.nCandidates = liveCandidates L.cands) :
    (relocFor env l L).nCandidates = liveCandidates (relocFor env l L).cands := by
  induction l generalizing L with
  | nil => exact hcount
  | cons i rest ih =>
    rw [relocFor]
    split
    · exact ih L hcount
    · rename_i c hc
      split
      · exact ih L hcount
      · rename_i hd
        have hd2 : c.vbDiscarded = false := by
          cases hv : c.vbDiscarded
          · rfl
          · exact absurd hv hd
        dsimp only
        split
        · exact relocBody_count env i c L hcount hc hd2
        · exact ih _ (relocBody_count env i c L hcount hc hd2)

/-- A bound on finitely many numbers that exist. -/
theorem exists_bound {α : Type} (P : α → Nat → Prop) (l : List α)
    (h : ∀ a ∈ l, ∃ k, P a k) : ∃ B, ∀ a ∈ l, ∃ k, k < B ∧ P a k := by
  induction l with
  | nil => exact ⟨0, fun a ha => absurd ha (List.not_mem_nil a)⟩
  | cons x rest ih =>
    obtain ⟨B, hB⟩ := ih (fun a ha => h a (List.mem_cons_of_mem x ha))
    obtain ⟨k, hk⟩ := h x (List.mem_cons_self x rest)
    refine ⟨max B (k + 1), ?_⟩
    intro a ha
    rcases List.mem_cons.mp ha with rfl | ha
    · exact ⟨k, by omega, hk⟩
    · obtain ⟨k2, hk2, hp⟩ := hB a ha
      exact ⟨k2, by omega, hp⟩

/-- C28: in `Relocalization`, `nCandidates` equals the number of candidates not
discarded at the start of the RANSAC loop, after the body of the loop for any
candidate that is not discarded, and after any run of the loop `for (i <
nKFs)`; and when the PnP solver of every candidate keyframe that is not bad
and has at least 15 bag-of-words matches reports `bNoMore` at some call of
`iterate`, the loop `while (nCandidates > 0 && !bMatch)` ends: with a bound on
its passes that is large enough `Relocalization` returns. -/
theorem Relocalization_nCandidates (env : Env F) (s : State F)
    (hfin : ∀ pKF ∈ env.DetectRelocalizationCandidates (ComputeBoW s),
      keyFrameIsBad (ComputeBoW s) pKF = false →
      (env.SearchByBoW (3 / 4) (ComputeBoW s) (some pKF)).1 ≥ 15 →
      ∃ k, (candidateSolver env (ComputeBoW s) pKF k).bNoMore = true) :
    (∀ (st : State F) (kfs : List Nat),
      (relocStart env st kfs).nCandidates = liveCandidates (relocStart env st kfs).cands) ∧
    (∀ (L : RelocLoop F) (i : Nat) (c : Candidate F),
      L.nCandidates = liveCandidates L.cands → L.cands[i]? = some c →
      c.vbDiscarded = false →
      (relocBody env i c L).nCandidates = liveCandidates (relocBody env i c L).cands) ∧
    (∀ (L : RelocLoop F) (l : List Nat), L.nCandidates = liveCandidates L.cands →
      (relocFor env l L).nCandidates = liveCandidates (relocFor env l L).cands) ∧
    ∃ fuel r, Relocalization env fuel s = some r := by
  refine ⟨fun st kfs => relocSetup_count env st kfs,
    fun L i c h1 h2 h3 => relocBody_count env i c L h1 h2 h3,
    fun L l h => relocFor_count env l L h, ?_⟩
  have hB : ∃ B, ∀ pKF ∈ env.DetectRelocalizationCandidates (ComputeBoW s),
      ∃ k, k < B ∧ (keyFrameIsBad (ComputeBoW s) pKF = false →
        (env.SearchByBoW (3 / 4) (ComputeBoW s) (some pKF)).1 ≥ 15 →
        (candidateSolver env (ComputeBoW s) pKF k).bNoMore = true) := by
    apply exists_bound
    intro pKF hp
    by_cases hadm : keyFrameIsBad (ComputeBoW s) pKF = false ∧
        (env.SearchByBoW (3 / 4) (ComputeBoW s) (some pKF)).1 ≥ 15
    · obtain ⟨k, hk⟩ := hfin pKF hp hadm.1 hadm.2
      exact ⟨k, fun _ _ => hk⟩
    · exact ⟨0, fun h1 h2 => absurd ⟨h1, h2⟩ hadm⟩
  obtain ⟨B, hB⟩ := hB
  obtain ⟨b, s2, calls, hrun, _⟩ := Relocalization_run env B s (by
    intro pKF hp h1 h2
    obtain ⟨k, hk, hP⟩ := hB pKF hp
    exact ⟨k, hk, hP h1 h2⟩)
  exact ⟨B, _, hrun⟩

/-- C28, witness: on `lostState` with `relocEnv` every solver reports
`bNoMore` at its second call of `iterate`. -/
theorem Relocalization_nCandidates_witness :
    (∀ (st : State ℚ) (kfs : List Nat),
      (relocStart relocEnv st kfs).nCandidates
        = liveCandidates (relocStart relocEnv st kfs).cands) ∧
    (∃ fuel r, Relocalization relocEnv fuel lostState = some r) ∧
    (relocStart relocEnv (ComputeBoW lostState) [2, 0]).nCandidates = 1 :=
  ⟨(Relocalization_nCandidates relocEnv lostState (fun _ _ _ _ => ⟨1, rfl⟩)).1,
    (Relocalization_nCandidates relocEnv lostState (fun _ _ _ _ => ⟨1, rfl⟩)).2.2.2,
    by decide⟩

/-! ### The trajectory log -/

theorem history_of_kept (a b : State F) (h : a.kept = b.kept) : a.history = b.history :=
  congrArg Kept.history h

theorem TrackWithOptFlow_history [Zero F] [One F] (env : Env F) (s : State F) :
    (TrackWithOptFlow env s).2.1.history = s.history := by
  unfold TrackWithOptFlow
  dsimp only
  split
  · rfl
  · split
    · rfl
    · split <;> rfl

theorem UpdateLastFrame_history [Mul F] [AddCommMonoid F] (s : State F) :
    (UpdateLastFrame s).history = s.history := by
  unfold UpdateLastFrame
  split
  · split <;> rfl
  · rfl

theorem discardOutliers_kept (s : State F) (n : Int) :
    (discardOutliers s n).s.kept = s.kept := by
  unfold discardOutliers
  refine (foldl_proj_kept (fun d : Discard F => d.s) _ _ _ ?_).trans rfl
  intro d i
  dsimp only
  split
  · rfl
  · rfl
  · split
    · rfl
    · exact ((setOutlier_kept _ _ _).trans (setLink_kept _ _ _))
    · split <;> rfl

theorem TrackWithMotionModel_history [Mul F] [AddCommMonoid F] (env : Env F) (s : State F) :
    (TrackWithMotionModel env s).2.1.history = s.history := by
  have h0 : ∀ (T : Option (Mat4 F)),
      (fillLinksNull (SetPose (UpdateLastFrame s) T)).history = s.history :=
    fun T => Eq.trans rfl (UpdateLastFrame_history s)
  have h1 : ∀ (T : Option (Mat4 F)) (w : List (Nat × Nat)),
      (writeLinks (fillLinksNull (SetPose (UpdateLastFrame s) T)) w).history = s.history :=
    fun T w => (history_of_kept _ _ (writeLinks_kept _ _)).trans (h0 T)
  have h2 : ∀ (T : Option (Mat4 F)) (w w2 : List (Nat × Nat)),
      (writeLinks (fillLinksNull
        (writeLinks (fillLinksNull (SetPose (UpdateLastFrame s) T)) w)) w2).history
        = s.history :=
    fun T w w2 => (history_of_kept _ _ (writeLinks_kept _ _)).trans
      (Eq.trans rfl (h1 T w))
  unfold TrackWithMotionModel
  dsimp only
  split
  · split
    · exact h2 _ _ _
    · refine Eq.trans rfl ((history_of_kept _ _ (discardOutliers_kept _ _)).trans ?_)
      exact (history_of_kept _ _ (applyPoseOptimization_kept _ _)).trans (h2 _ _ _)
  · refine Eq.trans rfl ((history_of_kept _ _ (discardOutliers_kept _ _)).trans ?_)
    exact (history_of_kept _ _ (applyPoseOptimization_kept _ _)).trans (h1 _ _)

theorem TrackReferenceKeyFrame_history (env : Env F) (s : State F) :
    (TrackReferenceKeyFrame env s).2.1.history = s.history := by
  unfold TrackReferenceKeyFrame
  dsimp only
  split
  · rfl
  · refine (history_of_kept _ _ (discardOutliers_kept _ _)).trans ?_
    exact (history_of_kept _ _ (applyPoseOptimization_kept _ _)).trans rfl

theorem relocBody_kept (env : Env F) (i : Nat) (c : Candidate F) (L : RelocLoop F) :
    (relocBody env i c L).s.kept = L.s.kept := by
  unfold relocBody
  split
  · rfl
  · dsimp only
    split
    · rfl
    · split
      · exact relocRefine_kept _ _ _ _ _ _
      · exact relocRefine_kept _ _ _ _ _ _

theorem relocFor_kept (env : Env F) (l : List Nat) (L : RelocLoop F) :
    (relocFor env l L).s.kept = L.s.kept := by
  induction l generalizing L with
  | nil => rfl
  | cons i rest ih =>
    rw [relocFor]
    split
    · exact ih L
    · split
      · exact ih L
      · dsimp only
        split
        · exact relocBody_kept env i _ L
        · exact (ih _).trans (relocBody_kept env i _ L)

theorem relocWhile_kept (env : Env F) (nKFs fuel : Nat) (L L2 : RelocLoop F)
    (h : relocWhile env nKFs fuel L = some L2) : L2.s.kept = L.s.kept := by
  induction fuel generalizing L with
  | zero =>
    unfold relocWhile at h
    split at h
    · exact absurd h (by simp)
    · cases h
      rfl
  | succ fuel ih =>
    unfold relocWhile at h
    split at h
    · exact (ih _ h).trans (relocFor_kept env _ L)
    · cases h
      rfl

theorem Relocalization_history (env : Env F) (fuel : Nat) (s : State F)
    (r : Bool × State F × List Call) (h : Relocalization env fuel s = some r) :
    r.2.1.history = s.history := by
  unfold Relocalization at h
  dsimp only at h
  split at h
  · cases h
    rfl
  · split at h
    · exact absurd h (by simp)
    · rename_i L hL
      have hk : L.s.history = s.history :=
        (history_of_kept _ _ (relocWhile_kept env _ _ _ _ hL)).trans rfl
      split at h
      · cases h
        exact hk
      · cases h
        exact Eq.trans rfl hk

theorem increaseFoundVO_history (s : State F) : (increaseFoundVO s).history = s.history := by
  unfold increaseFoundVO
  apply foldl_eq_of_step State.history
  intro s i
  split
  · rfl
  · rfl
  · split <;> rfl

theorem motionModelVO_history [Mul F] [AddCommMonoid F] (env : Env F) (s : State F) :
    (motionModelVO env s).2.1.history = s.history := by
  unfold motionModelVO
  split
  · exact TrackWithMotionModel_history env s
  · rfl

theorem trackVO_history [Mul F] [AddCommMonoid F] (env : Env F) (fuel : Nat) (s : State F)
    (r : State F × List Call) (h : trackVO env fuel s = some r) :
    r.1.history = s.history := by
  unfold trackVO at h
  dsimp only at h
  split at h
  · exact absurd h (by simp)
  · rename_i bR s2 c2 hrel
    have h2 : s2.history = s.history :=
      (Relocalization_history env fuel _ _ hrel).trans (motionModelVO_history env s)
    cases h
    refine Eq.trans rfl ?_
    split
    · split
      · exact (increaseFoundVO_history _).trans (Eq.trans rfl h2)
      · exact Eq.trans rfl h2
    · split
      · exact Eq.trans rfl h2
      · exact h2

theorem trackStrategy_history [Field F] (env : Env F) (fuel : Nat) (s : State F)
    (r : State F × List Call) (h : trackStrategy env fuel s = some r) :
    r.1.history = s.history := by
  have hof : (afterOptFlow env s).history = s.history :=
    Eq.trans rfl (TrackWithOptFlow_history env s)
  unfold trackStrategy at h
  split at h
  · split at h
    · exact absurd h (by simp)
    · rename_i rr hrr
      cases h
      exact Eq.trans rfl (Relocalization_history env fuel s rr hrr)
  · dsimp only at h
    split at h
    · exact absurd h (by simp)
    · rename_i r2 hr2
      cases h
      refine Eq.trans rfl ?_
      split_ifs at hr2
      · cases hr2
        exact Eq.trans rfl ((TrackWithMotionModel_history env _).trans hof)
      · cases hr2
        exact Eq.trans rfl ((TrackReferenceKeyFrame_history env _).trans hof)
      · exact (trackVO_history env fuel _ r2 hr2).trans hof
      · cases hr2
        exact hof

theorem TrackLocalMap_kept (env : Env F) (s : State F) :
    (TrackLocalMap env s).2.1.kept = s.kept := by
  have h : (countInliers (resetMatchesInliers (afterLocalMapOptimization env s))).kept
      = s.kept :=
    (countInliers_kept _).trans (Eq.trans rfl (afterLocalMapOptimization_kept env s))
  unfold TrackLocalMap
  dsimp only
  split
  · exact h
  · split
    · exact h
    · exact h

theorem trackFinish_eq [Field F] (env : Env F) (st : State F × List Call) :
    (trackFinish env st).1 = logTrajectory env (beforeLog env st) := rfl

theorem afterLocalMap_kept (env : Env F) (st : State F × List Call) :
    (afterLocalMap env st).1.history = st.1.history ∧
    (afterLocalMap env st).1.mCurrentFrame.N = st.1.mCurrentFrame.N ∧
    (afterLocalMap env st).1._map = st.1._map := by
  unfold afterLocalMap
  split
  · have h := TrackLocalMap_kept env st.1
    refine ⟨?_, ?_, ?_⟩
    · show (TrackLocalMap env st.1).2.1.history = st.1.history
      exact history_of_kept _ _ h
    · show (TrackLocalMap env st.1).2.1.mCurrentFrame.N = st.1.mCurrentFrame.N
      exact congrArg Kept.N h
    · show (TrackLocalMap env st.1).2.1._map = st.1._map
      exact congrArg Kept._map h
  · exact ⟨rfl, rfl, rfl⟩

theorem afterSuccess_kept [Field F] (env : Env F) (s : State F) :
    (afterSuccess env s).history = s.history ∧
    (afterSuccess env s).mCurrentFrame.N = s.mCurrentFrame.N ∧
    (afterSuccess env s)._map = s._map ∧ (afterSuccess env s)._bOK = s._bOK := by
  unfold afterSuccess
  split
  · have h : (discardOutlierLinks (cleanVOMatches (updateMotionModel env s))).kept
        = (updateMotionModel env s).kept :=
      (discardOutlierLinks_kept _).trans (cleanVOMatches_kept _)
    have hu : (updateMotionModel env s).history = s.history ∧
        (updateMotionModel env s).mCurrentFrame.N = s.mCurrentFrame.N ∧
        (updateMotionModel env s)._map = s._map ∧ (updateMotionModel env s)._bOK = s._bOK := by
      unfold updateMotionModel
      split
      · exact ⟨rfl, rfl, rfl, rfl⟩
      · exact ⟨rfl, rfl, rfl, rfl⟩
    exact ⟨(history_of_kept _ _ h).trans hu.1, (congrArg Kept.N h).trans hu.2.1,
      (congrArg Kept._map h).trans hu.2.2.1, (congrArg Kept._bOK h).trans hu.2.2.2⟩
  · exact ⟨rfl, rfl, rfl, rfl⟩

/-- The tracker at the trajectory log of `track3DPts` has the four lists and
the state of the state machine of the tracker before the frame. -/
theorem beforeLog_history [Field F] (env : Env F) (st : State F × List Call) :
    (beforeLog env st).history = st.1.history := by
  have h : (afterSuccess env (afterLocalMap env st).1).history = st.1.history :=
    (afterSuccess_kept env _).1.trans (afterLocalMap_kept env st).1
  unfold beforeLog
  dsimp only
  split
  · exact h
  · exact h

/-- What the trajectory log appends. -/
theorem logTrajectory_spec [Mul F] [AddCommMonoid F] (env : Env F) (s : State F) :
    (logTrajectory env s).mCurrentFrame = s.mCurrentFrame ∧
    (logTrajectory env s).mpReferenceKF = s.mpReferenceKF ∧
    (s.mCurrentFrame.mpReferenceKF.isSome = true ∧ s.mCurrentFrame.mTcw.isSome = true →
      ∃ Tcr, (logTrajectory env s).mlRelativeFramePoses = s.mlRelativeFramePoses ++ [Tcr] ∧
        (logTrajectory env s).mlpReferences = s.mlpReferences ++ [s.mpReferenceKF] ∧
        (logTrajectory env s).mlFrameTimes = s.mlFrameTimes ++ [s.mCurrentFrame.mTimeStamp] ∧
        (logTrajectory env s).mlbLost
          = s.mlbLost ++ [decide (s.smState = .TRACKING_LOST)]) ∧
    (¬ (s.mCurrentFrame.mpReferenceKF.isSome = true ∧ s.mCurrentFrame.mTcw.isSome = true) →
      ∀ Tcr pRef t, s.mlRelativeFramePoses.getLast? = some Tcr →
        s.mlpReferences.getLast? = some pRef → s.mlFrameTimes.getLast? = some t →
        (logTrajectory env s).mlRelativeFramePoses = s.mlRelativeFramePoses ++ [Tcr] ∧
        (logTrajectory env s).mlpReferences = s.mlpReferences ++ [pRef] ∧
        (logTrajectory env s).mlFrameTimes = s.mlFrameTimes ++ [t] ∧
        (logTrajectory env s).mlbLost
          = s.mlbLost ++ [decide (s.smState = .TRACKING_LOST)]) ∧
    (¬ (s.mCurrentFrame.mpReferenceKF.isSome = true ∧ s.mCurrentFrame.mTcw.isSome = true) →
      (s.mlRelativeFramePoses = [] ∨ s.mlpReferences = [] ∨ s.mlFrameTimes = []) →
      (logTrajectory env s).mlRelativeFramePoses = s.mlRelativeFramePoses ∧
      (logTrajectory env s).mlpReferences = s.mlpReferences ∧
      (logTrajectory env s).mlFrameTimes = s.mlFrameTimes ∧
      (logTrajectory env s).mlbLost = s.mlbLost) := by
  unfold logTrajectory
  dsimp only
  split
  · rename_i pRef Tcw hr hT
    refine ⟨rfl, rfl, fun _ => ⟨_, rfl, rfl, rfl, rfl⟩, fun hn => ?_, fun hn => ?_⟩
    · exact absurd ⟨by rw [hr]; rfl, by rw [hT]; rfl⟩ hn
    · exact absurd ⟨by rw [hr]; rfl, by rw [hT]; rfl⟩ hn
  · rename_i hne
    have hno : ¬ (s.mCurrentFrame.mpReferenceKF.isSome = true ∧
        s.mCurrentFrame.mTcw.isSome = true) := by
      rintro ⟨h1, h2⟩
      obtain ⟨a, ha⟩ := Option.isSome_iff_exists.mp h1
      obtain ⟨b, hb⟩ := Option.isSome_iff_exists.mp h2
      exact hne a b ha hb
    split
    · rename_i Tcr pRef t h1 h2 h3
      refine ⟨rfl, rfl, fun h => absurd h hno, ?_, ?_⟩
      · intro _ Tcr2 pRef2 t2 e1 e2 e3
        rw [h1] at e1
        rw [h2] at e2
        rw [h3] at e3
        cases e1
        cases e2
        cases e3
        exact ⟨rfl, rfl, rfl, rfl⟩
      · intro _ hemp
        rcases hemp with h | h | h
        · rw [h] at h1
          cases h1
        · rw [h] at h2
          cases h2
        · rw [h] at h3
          cases h3
    · rename_i hnl
      refine ⟨rfl, rfl, fun h => absurd h hno, ?_, fun _ _ => ⟨rfl, rfl, rfl, rfl⟩⟩
      intro _ Tcr pRef t e1 e2 e3
      exact absurd e3 (hnl Tcr pRef t e1 e2)

/-- C23 (as amended): a call of `track3DPts` that returns appends one entry to
each of the four trajectory lists when the current frame has a reference
keyframe and a pose (the relative pose, `mpReferenceKF`, the frame time and
the lost flag), and also when it has not but the first three lists are
non-empty (copies of their last entries, and the lost flag); when the frame
has no reference keyframe or no pose and one of the first three lists is
empty, it appends nothing. In every case lists of equal length stay of equal
length. -/
theorem track3DPts_trajectory_log [Field F] (env : Env F) (fuel : Nat)
    (mvKeys : List (F × F)) (s s2 : State F) (calls : List Call)
    (h : track3DPts env fuel mvKeys s = some (s2, calls)) :
    (s2.mCurrentFrame.mpReferenceKF.isSome = true ∧ s2.mCurrentFrame.mTcw.isSome = true →
      ∃ Tcr, s2.mlRelativeFramePoses = s.mlRelativeFramePoses ++ [Tcr] ∧
        s2.mlpReferences = s.mlpReferences ++ [s2.mpReferenceKF] ∧
        s2.mlFrameTimes = s.mlFrameTimes ++ [s2.mCurrentFrame.mTimeStamp] ∧
        s2.mlbLost = s.mlbLost ++ [decide (s.smState = .TRACKING_LOST)]) ∧
    (¬ (s2.mCurrentFrame.mpReferenceKF.isSome = true ∧ s2.mCurrentFrame.mTcw.isSome = true) →
      ∀ Tcr pRef t, s.mlRelativeFramePoses.getLast? = some Tcr →
        s.mlpReferences.getLast? = some pRef → s.mlFrameTimes.getLast? = some t →
        s2.mlRelativeFramePoses = s.mlRelativeFramePoses ++ [Tcr] ∧
        s2.mlpReferences = s.mlpReferences ++ [pRef] ∧
        s2.mlFrameTimes = s.mlFrameTimes ++ [t] ∧
        s2.mlbLost = s.mlbLost ++ [decide (s.smState = .TRACKING_LOST)]) ∧
    (¬ (s2.mCurrentFrame.mpReferenceKF.isSome = true ∧ s2.mCurrentFrame.mTcw.isSome = true) →
      (s.mlRelativeFramePoses = [] ∨ s.mlpReferences = [] ∨ s.mlFrameTimes = []) →
      s2.mlRelativeFramePoses = s.mlRelativeFramePoses ∧ s2.mlpReferences = s.mlpReferences ∧
      s2.mlFrameTimes = s.mlFrameTimes ∧ s2.mlbLost = s.mlbLost) ∧
    (s.mlRelativeFramePoses.length = s.mlpReferences.length ∧
      s.mlpReferences.length = s.mlFrameTimes.length ∧
      s.mlFrameTimes.length = s.mlbLost.length →
      s2.mlRelativeFramePoses.length = s2.mlpReferences.length ∧
      s2.mlpReferences.length = s2.mlFrameTimes.length ∧
      s2.mlFrameTimes.length = s2.mlbLost.length) := by
  unfold track3DPts at h
  split at h
  · exact absurd h (by simp)
  · rename_i st hst
    have hs2 : s2 = logTrajectory env (beforeLog env st) :=
      (congrArg Prod.fst (Option.some.inj h)).symm.trans (trackFinish_eq env st)
    have hh : (beforeLog env st).history = s.history :=
      (beforeLog_history env st).trans
        ((trackStrategy_history env fuel _ st hst).trans rfl)
    have e1 : (beforeLog env st).mlRelativeFramePoses = s.mlRelativeFramePoses :=
      congrArg (fun p => p.1) hh
    have e2 : (beforeLog env st).mlpReferences = s.mlpReferences :=
      congrArg (fun p => p.2.1) hh
    have e3 : (beforeLog env st).mlFrameTimes = s.mlFrameTimes :=
      congrArg (fun p => p.2.2.1) hh
    have e4 : (beforeLog env st).mlbLost = s.mlbLost := congrArg (fun p => p.2.2.2.1) hh
    have e5 : (beforeLog env st).smState = s.smState := congrArg (fun p => p.2.2.2.2) hh
    obtain ⟨hf, hr, hA, hB, hC⟩ := logTrajectory_spec env (beforeLog env st)
    rw [e1, e2, e3, e4, e5, ← hs2] at hA hB
    rw [e1, e2, e3, e4, ← hs2] at hC
    rw [← hs2] at hf hr
    rw [← hf, ← hr] at hA
    rw [← hf] at hB hC
    refine ⟨hA, hB, hC, ?_⟩
    rintro ⟨l1, l2, l3⟩
    by_cases hp : s2.mCurrentFrame.mpReferenceKF.isSome = true ∧
        s2.mCurrentFrame.mTcw.isSome = true
    · obtain ⟨Tcr, a1, a2, a3, a4⟩ := hA hp
      rw [a1, a2, a3, a4]
      simp only [List.length_append, List.length_singleton]
      omega
    · cases g1 : s.mlRelativeFramePoses.getLast? with
      | none =>
        obtain ⟨a1, a2, a3, a4⟩ := hC hp (Or.inl (List.getLast?_eq_none_iff.mp g1))
        rw [a1, a2, a3, a4]
        exact ⟨l1, l2, l3⟩
      | some Tcr =>
        cases g2 : s.mlpReferences.getLast? with
        | none =>
          obtain ⟨a1, a2, a3, a4⟩ := hC hp (Or.inr (Or.inl (List.getLast?_eq_none_iff.mp g2)))
          rw [a1, a2, a3, a4]
          exact ⟨l1, l2, l3⟩
        | some pRef =>
          cases g3 : s.mlFrameTimes.getLast? with
          | none =>
            obtain ⟨a1, a2, a3, a4⟩ :=
              hC hp (Or.inr (Or.inr (List.getLast?_eq_none_iff.mp g3)))
            rw [a1, a2, a3, a4]
            exact ⟨l1, l2, l3⟩
          | some t =>
            obtain ⟨a1, a2, a3, a4⟩ := hB hp Tcr pRef t g1 g2 g3
            rw [a1, a2, a3, a4]
            simp only [List.length_append, List.length_singleton]
            omega

/-- C23, witness: a frame processed by `loggedState`, whose lists have one
entry each, with capabilities that find nothing: the frame gets no pose, and
copies of the last entries are appended. -/
theorem track3DPts_trajectory_log_witness :
    ∃ s2 calls, track3DPts quietEnv 0 [] loggedState = some (s2, calls) ∧
      s2.mlRelativeFramePoses = loggedState.mlRelativeFramePoses ++ [1] ∧
      s2.mlpReferences = loggedState.mlpReferences ++ [some 0] ∧
      s2.mlFrameTimes = loggedState.mlFrameTimes ++ [0] ∧
      s2.mlbLost = loggedState.mlbLost ++ [decide (loggedState.smState = .TRACKING_LOST)] := by
  have hpose : (track3DPts quietEnv 0 [] loggedState).map
      (fun r => r.1.mCurrentFrame.mTcw.isSome) = some false := by decide
  cases hrun : track3DPts quietEnv 0 [] loggedState with
  | none =>
    rw [hrun] at hpose
    exact absurd hpose (by simp)
  | some r =>
    rw [hrun] at hpose
    simp only [Option.map_some', Option.some.injEq] at hpose
    exact ⟨r.1, r.2, rfl,
      (track3DPts_trajectory_log quietEnv 0 [] loggedState r.1 r.2 hrun).2.1
        (fun hp => by rw [hpose] at hp; exact absurd hp.2 (by simp)) 1 (some 0) 0 rfl rfl rfl⟩

/-- C23, counterexample: the first frame processed by the tracker after
construction, with capabilities that find nothing: the frame has no pose and
no reference keyframe, the lists are empty, and the call appends nothing. -/
theorem track3DPts_appends_nothing :
    (track3DPts quietEnv 0 [] (State.construct false 0 30)).map
      (fun r => (r.1.mlRelativeFramePoses.length, r.1.mlpReferences.length,
        r.1.mlFrameTimes.length, r.1.mlbLost.length, r.1.mCurrentFrame.mTcw.isSome,
        r.1.mCurrentFrame.mpReferenceKF.isSome))
      = some (0, 0, 0, 0, false, false) := by
  decide

/-! ### The links left by a tracked frame -/

/-- What `setLink` writes: entry `i` of the links, and `fault`. -/
theorem setLink_spec (s : State F) (i : Nat) (v : Option Nat) :
    (∀ j, j ≠ i → (setLink s i v).mCurrentFrame.mvpMapPoints[j]?
      = s.mCurrentFrame.mvpMapPoints[j]?) ∧
    (i < s.mCurrentFrame.mvpMapPoints.length →
      (setLink s i v).mCurrentFrame.mvpMapPoints[i]? = some v) ∧
    (setLink s i v).mCurrentFrame.mvbOutlier = s.mCurrentFrame.mvbOutlier ∧
    (setLink s i v)._map = s._map ∧
    ((setLink s i v).fault = false → s.fault = false) := by
  unfold setLink
  split
  · rename_i h
    refine ⟨fun j hj => ?_, fun _ => ?_, rfl, rfl, fun h => h⟩
    · exact List.getElem?_set_ne (Ne.symm hj)
    · exact List.getElem?_set_self h
  · rename_i h
    exact ⟨fun j _ => rfl, fun h2 => absurd h2 h, rfl, rfl, fun h => Bool.noConfusion h⟩

/-- What `setOutlier` writes: entry `i` of the outlier flags, and `fault`. -/
theorem setOutlier_spec (s : State F) (i : Nat) (b : Bool) :
    (∀ j, j ≠ i → (setOutlier s i b).mCurrentFrame.mvbOutlier[j]?
      = s.mCurrentFrame.mvbOutlier[j]?) ∧
    (setOutlier s i b).mCurrentFrame.mvpMapPoints = s.mCurrentFrame.mvpMapPoints ∧
    (setOutlier s i b)._map = s._map ∧
    ((setOutlier s i b).fault = false → s.fault = false) := by
  unfold setOutlier
  split
  · exact ⟨fun j hj => List.getElem?_set_ne (Ne.symm hj), rfl, rfl, fun h => h⟩
  · exact ⟨fun j _ => rfl, rfl, rfl, fun h => Bool.noConfusion h⟩

/-- A loop over distinct indices whose body establishes `P` at its index from
`R` there, and keeps `R` and `P` at the other indices, establishes `P` at all
the indices. -/
theorem foldl_establish (f : State F → Nat → State F) (R P : State F → Nat → Prop)
    (hstep : ∀ s i, R s i → P (f s i) i)
    (hR : ∀ s i j, j ≠ i → R s j → R (f s i) j)
    (hP : ∀ s i j, j ≠ i → P s j → P (f s i) j) :
    ∀ (l : List Nat) (s : State F), l.Nodup → (∀ j ∈ l, R s j) →
      (∀ j, j ∉ l → P s j → P (l.foldl f s) j) ∧ ∀ j ∈ l, P (l.foldl f s) j := by
  intro l
  induction l with
  | nil =>
    intro s _ _
    exact ⟨fun j _ h => h, fun j hj => absurd hj (List.not_mem_nil j)⟩
  | cons a rest ih =>
    intro s hnd hRs
    rw [List.nodup_cons] at hnd
    have hR2 : ∀ j ∈ rest, R (f s a) j := by
      intro j hj
      have hne : j ≠ a := by
        intro e
        rw [e] at hj
        exact hnd.1 hj
      exact hR s a j hne (hRs j (List.mem_cons_of_mem a hj))
    obtain ⟨h1, h2⟩ := ih (f s a) hnd.2 hR2
    rw [List.foldl_cons]
    constructor
    · intro j hj hPj
      have hja : j ≠ a := fun e => hj (by rw [e]; exact List.mem_cons_self a rest)
      have hjr : j ∉ rest := fun e => hj (List.mem_cons_of_mem a e)
      exact h1 j hjr (hP s a j hja hPj)
    · intro j hj
      rcases List.mem_cons.mp hj with e | e
      · rw [e]
        exact h1 a hnd.1 (hstep s a (hRs a (List.mem_cons_self a rest)))
      · exact h2 j e

/-- After the loop "Clean VO matches" every link of a feature below `N` is to
a map point with an observation. -/
theorem cleanVOMatches_links (s : State F) :
    ∀ i, i < s.mCurrentFrame.N → ∀ p,
      (cleanVOMatches s).mCurrentFrame.mvpMapPoints[i]? = some (some p) →
      1 ≤ Observations (cleanVOMatches s) p := by
  have h := (foldl_establish
    (fun s i =>
      match s.mCurrentFrame.mvpMapPoints[i]? with
      | none => { s with fault := true }
      | some none => s
      | some (some pMP) =>
        if Observations s pMP < 1 then setLink (setOutlier s i false) i none else s)
    (fun _ _ => True)
    (fun s i => ∀ p, s.mCurrentFrame.mvpMapPoints[i]? = some (some p) → 1 ≤ Observations s p)
    ?_ (fun _ _ _ _ _ => trivial) ?_ (List.range s.mCurrentFrame.N) s (List.nodup_range _)
    (fun _ _ => trivial)).2
  · intro i hi
    exact h i (List.mem_range.mpr hi)
  · intro s i _ p
    dsimp only
    split
    · rename_i hl
      intro hp
      rw [show ({ s with fault := true } : State F).mCurrentFrame.mvpMapPoints
        = s.mCurrentFrame.mvpMapPoints from rfl, hl] at hp
      cases hp
    · rename_i hl
      intro hp
      rw [hl] at hp
      cases hp
    · rename_i pMP hl
      split
      · intro hp
        have hlen : i < (setOutlier s i false).mCurrentFrame.mvpMapPoints.length := by
          rw [(setOutlier_spec s i false).2.1]
          exact (List.getElem?_eq_some_iff.mp hl).1
        rw [(setLink_spec _ i none).2.1 hlen] at hp
        cases hp
      · rename_i hobs
        intro hp
        rw [hl] at hp
        cases hp
        omega
  · intro s i j hj hPj p
    dsimp only
    split
    · exact hPj p
    · exact hPj p
    · split
      · intro hp
        rw [(setLink_spec _ i none).1 j hj, (setOutlier_spec s i false).2.1] at hp
        rw [Observations_congr s _ ((setLink_spec _ i none).2.2.2.1.trans
          (setOutlier_spec s i false).2.2.1)]
        exact hPj p hp
      · exact hPj p

/-- After the loop that discards the outlier links, a link of a feature below
`N` that was to a map point with an observation still is, and its outlier flag
is false unless a vector was read past its end. -/
theorem discardOutlierLinks_links (s : State F)
    (h1 : ∀ i, i < s.mCurrentFrame.N → ∀ p,
      s.mCurrentFrame.mvpMapPoints[i]? = some (some p) → 1 ≤ Observations s p) :
    ∀ i, i < s.mCurrentFrame.N → ∀ p,
      (discardOutlierLinks s).mCurrentFrame.mvpMapPoints[i]? = some (some p) →
      1 ≤ Observations (discardOutlierLinks s) p ∧
      ((discardOutlierLinks s).fault = false →
        (discardOutlierLinks s).mCurrentFrame.mvbOutlier[i]? = some false) := by
  have h := (foldl_establish
    (fun s i =>
      match s.mCurrentFrame.mvpMapPoints[i]? with
      | none => { s with fault := true }
      | some none => s
      | some (some _) =>
        match s.mCurrentFrame.mvbOutlier[i]? with
        | none => { s with fault := true }
        | some true => setLink s i none
        | some false => s)
    (fun s i => ∀ p, s.mCurrentFrame.mvpMapPoints[i]? = some (some p) → 1 ≤ Observations s p)
    (fun s i => ∀ p, s.mCurrentFrame.mvpMapPoints[i]? = some (some p) →
      1 ≤ Observations s p ∧ (s.fault = false → s.mCurrentFrame.mvbOutlier[i]? = some false))
    ?_ ?_ ?_ (List.range s.mCurrentFrame.N) s (List.nodup_range _)
    (fun j hj => h1 j (List.mem_range.mp hj))).2
  · intro i hi
    exact h i (List.mem_range.mpr hi)
  · intro s i hR p
    dsimp only
    split
    · rename_i hl
      intro hp
      rw [show ({ s with fault := true } : State F).mCurrentFrame.mvpMapPoints
        = s.mCurrentFrame.mvpMapPoints from rfl, hl] at hp
      cases hp
    · rename_i hl
      intro hp
      rw [hl] at hp
      cases hp
    · rename_i q hl
      split
      · intro hp
        exact ⟨hR p hp, fun hf => Bool.noConfusion hf⟩
      · intro hp
        rw [(setLink_spec s i none).2.1 (List.getElem?_eq_some_iff.mp hl).1] at hp
        cases hp
      · rename_i ho
        intro hp
        exact ⟨hR p hp, fun _ => ho⟩
  · intro s i j hj hRj p
    dsimp only
    split
    · exact hRj p
    · exact hRj p
    · split
      · exact hRj p
      · intro hp
        rw [(setLink_spec s i none).1 j hj] at hp
        rw [Observations_congr s _ (setLink_spec s i none).2.2.2.1]
        exact hRj p hp
      · exact hRj p
  · intro s i j hj hPj p
    dsimp only
    split
    · intro hp
      exact ⟨(hPj p hp).1, fun hf => Bool.noConfusion hf⟩
    · exact hPj p
    · split
      · intro hp
        exact ⟨(hPj p hp).1, fun hf => Bool.noConfusion hf⟩
      · intro hp
        rw [(setLink_spec s i none).1 j hj] at hp
        rw [Observations_congr s _ (setLink_spec s i none).2.2.2.1,
          (setLink_spec s i none).2.2.1]
        exact ⟨(hPj p hp).1, fun hf => (hPj p hp).2 ((setLink_spec s i none).2.2.2.2 hf)⟩
      · exact hPj p

theorem cleanVOMatches_N (s : State F) :
    (cleanVOMatches s).mCurrentFrame.N = s.mCurrentFrame.N :=
  congrArg Kept.N (cleanVOMatches_kept s)

/-- The links of a frame that `track3DPts` leaves tracked. -/
theorem trackFinish_links [Field F] (env : Env F) (st : State F × List Call)
    (hok : (trackFinish env st).1._bOK = true) :
    ∀ i p, i < (trackFinish env st).1.mCurrentFrame.N →
      (trackFinish env st).1.mCurrentFrame.mvpMapPoints[i]? = some (some p) →
      1 ≤ Observations (trackFinish env st).1 p ∧
      ((trackFinish env st).1.fault = false →
        (trackFinish env st).1.mCurrentFrame.mvbOutlier[i]? = some false) := by
  rw [trackFinish_eq] at hok ⊢
  obtain ⟨hf, hb, hm, hfa⟩ := logTrajectory_frame env (beforeLog env st)
  rw [hb] at hok
  have hok2 : (afterLocalMap env st).1._bOK = true := by
    rw [← (afterSuccess_kept env (afterLocalMap env st).1).2.2.2]
    revert hok
    unfold beforeLog
    dsimp only
    split
    · exact fun h => h
    · exact fun h => h
  have hA : afterSuccess env (afterLocalMap env st).1
      = discardOutlierLinks (cleanVOMatches (updateMotionModel env (afterLocalMap env st).1)) := by
    unfold afterSuccess
    rw [if_pos hok2]
  have hclean := discardOutlierLinks_links
    (cleanVOMatches (updateMotionModel env (afterLocalMap env st).1))
    (fun i hi => cleanVOMatches_links (updateMotionModel env (afterLocalMap env st).1) i
      (by rw [← cleanVOMatches_N]; exact hi))
  rw [← hA] at hclean
  have hN : (afterSuccess env (afterLocalMap env st).1).mCurrentFrame.N
      = (cleanVOMatches (updateMotionModel env (afterLocalMap env st).1)).mCurrentFrame.N := by
    rw [hA]
    exact congrArg Kept.N (discardOutlierLinks_kept _)
  have hfr : (beforeLog env st).mCurrentFrame.N
        = (afterSuccess env (afterLocalMap env st).1).mCurrentFrame.N ∧
      (beforeLog env st).mCurrentFrame.mvpMapPoints
        = (afterSuccess env (afterLocalMap env st).1).mCurrentFrame.mvpMapPoints ∧
      (beforeLog env st).mCurrentFrame.mvbOutlier
        = (afterSuccess env (afterLocalMap env st).1).mCurrentFrame.mvbOutlier ∧
      (beforeLog env st)._map = (afterSuccess env (afterLocalMap env st).1)._map ∧
      (beforeLog env st).fault = (afterSuccess env (afterLocalMap env st).1).fault := by
    unfold beforeLog
    dsimp only
    split
    · exact ⟨rfl, rfl, rfl, rfl, rfl⟩
    · exact ⟨rfl, rfl, rfl, rfl, rfl⟩
  intro i p hi hp
  rw [hf, hfr.1, hN] at hi
  rw [hf, hfr.2.1] at hp
  rw [hf, hfa, Observations_congr _ _ hm, hfr.2.2.1, hfr.2.2.2.2,
    Observations_congr _ _ hfr.2.2.2.1]
  exact hclean i hi p hp

/-- Within the first `N` entries of the link vector: after a call of
`track3DPts` that returns with the frame tracked (`_bOK` true), every feature
`i < N` of the current frame whose link is not null links to a map point with
at least one observation, and its outlier flag is false (provided no vector
was read past its end during the call). -/
theorem track3DPts_links_clean [Field F] (env : Env F) (fuel : Nat) (mvKeys : List (F × F))
    (s s2 : State F) (calls : List Call)
    (h : track3DPts env fuel mvKeys s = some (s2, calls)) (hok : s2._bOK = true) :
    ∀ i p, i < s2.mCurrentFrame.N → s2.mCurrentFrame.mvpMapPoints[i]? = some (some p) →
      1 ≤ Observations s2 p ∧
      (s2.fault = false → s2.mCurrentFrame.mvbOutlier[i]? = some false) := by
  unfold track3DPts at h
  split at h
  · exact absurd h (by simp)
  · rename_i st hst
    have hs2 : (trackFinish env st).1 = s2 := congrArg Prod.fst (Option.some.inj h)
    rw [← hs2] at hok ⊢
    exact trackFinish_links env st hok

set_option maxRecDepth 100000 in
/-- An instance: the frame of four keypoints that `flowState` tracks by
optical flow with `flowEnv`: it is tracked, no vector is read past its end,
and feature 0 keeps its link to map point 0, which has four observations. -/
theorem track3DPts_links_clean_witness :
    ∃ s2 calls, track3DPts flowEnv 0 (List.replicate 4 (0, 0)) flowState = some (s2, calls) ∧
      s2._bOK = true ∧ s2.fault = false ∧ 0 < s2.mCurrentFrame.N ∧
      s2.mCurrentFrame.mvpMapPoints[0]? = some (some 0) ∧
      1 ≤ Observations s2 0 ∧ s2.mCurrentFrame.mvbOutlier[0]? = some false := by
  have hof := TrackWithOptFlow_of_tracked flowEnv
    (nextFrame (List.replicate 4 (0, 0)) flowState) (by decide) (by decide) rfl
  have hfacts : (track3DPts flowEnv 0 (List.replicate 4 (0, 0)) flowState).map
      (fun r => (r.1._bOK, r.1.fault, decide (0 < r.1.mCurrentFrame.N),
        r.1.mCurrentFrame.mvpMapPoints[0]?)) = some (true, false, true, some (some 0)) := by
    unfold track3DPts trackStrategy afterOptFlow
    rw [if_neg (by decide)]
    dsimp only
    rw [hof]
    decide
  cases hrun : track3DPts flowEnv 0 (List.replicate 4 (0, 0)) flowState with
  | none =>
    rw [hrun] at hfacts
    exact absurd hfacts (by simp)
  | some r =>
    rw [hrun] at hfacts
    simp only [Option.map_some', Option.some.injEq, Prod.mk.injEq, decide_eq_true_eq] at hfacts
    obtain ⟨f1, f2, f3, f4⟩ := hfacts
    have hc := track3DPts_links_clean flowEnv 0 (List.replicate 4 (0, 0)) flowState r.1 r.2
      hrun f1 0 0 f3 f4
    exact ⟨r.1, r.2, rfl, f1, f2, f3, f4, hc.1, hc.2 f2⟩

/-! ### The size of the local keyframe set -/

theorem keyFrameIsBad_congr (s s2 : State F) (h : s2._map = s._map) (k : Nat) :
    keyFrameIsBad s2 k = keyFrameIsBad s k := by
  unfold keyFrameIsBad
  rw [h]

theorem voteKeyFrames_local (s : State F) :
    (voteKeyFrames s).1.mvpLocalKeyFrames = s.mvpLocalKeyFrames ∧
    (voteKeyFrames s).1._map = s._map := by
  unfold voteKeyFrames
  have h : ∀ (l : List Nat) (acc : State F × List (Nat × Int)),
      (l.foldl
        (fun (acc : State F × List (Nat × Int)) i =>
          match acc.1.mCurrentFrame.mvpMapPoints[i]? with
          | none => ({ acc.1 with fault := true }, acc.2)
          | some none => acc
          | some (some pMP) =>
            if mapPointIsBad acc.1 pMP then (setLink acc.1 i none, acc.2)
            else (acc.1, (GetObservations acc.1 pMP).foldl (fun c o => counterIncr o.1 c) acc.2))
        acc).1.mvpLocalKeyFrames = acc.1.mvpLocalKeyFrames ∧
      (l.foldl
        (fun (acc : State F × List (Nat × Int)) i =>
          match acc.1.mCurrentFrame.mvpMapPoints[i]? with
          | none => ({ acc.1 with fault := true }, acc.2)
          | some none => acc
          | some (some pMP) =>
            if mapPointIsBad acc.1 pMP then (setLink acc.1 i none, acc.2)
            else (acc.1, (GetObservations acc.1 pMP).foldl (fun c o => counterIncr o.1 c) acc.2))
        acc).1._map = acc.1._map := by
    intro l
    induction l with
    | nil => exact fun acc => ⟨rfl, rfl⟩
    | cons a rest ih =>
      intro acc
      rw [List.foldl_cons]
      refine ⟨(ih _).1.trans ?_, (ih _).2.trans ?_⟩
      · split
        · rfl
        · rfl
        · split
          · unfold setLink
            split <;> rfl
          · rfl
      · split
        · rfl
        · rfl
        · split
          · unfold setLink
            split <;> rfl
          · rfl
  exact h _ _

/-- The second loop of `UpdateLocalKeyFrames` adds every voted keyframe that
is not bad. -/
theorem collectVoted_list (s : State F) (c : List (Nat × Int)) :
    (collectVoted s c).s.mvpLocalKeyFrames
      = (c.map fun it => it.1).filter fun k => !keyFrameIsBad s k := by
  unfold collectVoted
  have h : ∀ (l : List (Nat × Int)) (v : Voted F), v.s._map = s._map →
      (l.foldl
        (fun (v : Voted F) it =>
          if keyFrameIsBad v.s it.1 then v
          else
            { s := pushLocalKeyFrame v.s it.1
              max := if it.2 > v.max then it.2 else v.max
              pKFmax := if it.2 > v.max then some it.1 else v.pKFmax })
        v).s.mvpLocalKeyFrames
        = v.s.mvpLocalKeyFrames ++ (l.map fun it => it.1).filter fun k => !keyFrameIsBad s k := by
    intro l
    induction l with
    | nil =>
      intro v _
      simp
    | cons a rest ih =>
      intro v hv
      rw [List.foldl_cons, List.map_cons, List.filter_cons]
      rw [← keyFrameIsBad_congr s v.s hv a.1]
      cases hb : keyFrameIsBad v.s a.1
      · rw [if_neg (by simp), ih _ (by exact hv)]
        simp [pushLocalKeyFrame]
      · rw [if_pos rfl, ih v hv]
        simp
  rw [h c _ rfl]
  rfl

theorem addFirstUnmarked_list (s : State F) (l : List Nat) :
    (addFirstUnmarked s l).mvpLocalKeyFrames = s.mvpLocalKeyFrames ∨
    ∃ k, (addFirstUnmarked s l).mvpLocalKeyFrames = s.mvpLocalKeyFrames ++ [k] := by
  unfold addFirstUnmarked
  split
  · exact Or.inr ⟨_, rfl⟩
  · exact Or.inl rfl

/-- The third loop of `UpdateLocalKeyFrames` only appends, and it appends
nothing to a set of more than 80 keyframes and at most three keyframes to a
smaller one before it tests the size again. -/
theorem addNeighbours_list (env : Env F) (l : List Nat) (s : State F) :
    (∃ more, (addNeighbours env l s).mvpLocalKeyFrames = s.mvpLocalKeyFrames ++ more) ∧
    (addNeighbours env l s).mvpLocalKeyFrames.length ≤ max s.mvpLocalKeyFrames.length 83 := by
  induction l generalizing s with
  | nil => exact ⟨⟨[], by simp [addNeighbours]⟩, by simp [addNeighbours]⟩
  | cons pKF rest ih =>
    rw [addNeighbours]
    split
    · exact ⟨⟨[], by simp⟩, by omega⟩
    · rename_i hle
      dsimp only
      have h1 := addFirstUnmarked_list s (env.GetBestCovisibilityKeyFrames s pKF 10)
      have h2 := addFirstUnmarked_list
        (addFirstUnmarked s (env.GetBestCovisibilityKeyFrames s pKF 10))
        (env.GetChilds (addFirstUnmarked s (env.GetBestCovisibilityKeyFrames s pKF 10)) pKF)
      have h3 : ∃ m2, (addFirstUnmarked
            (addFirstUnmarked s (env.GetBestCovisibilityKeyFrames s pKF 10))
            (env.GetChilds (addFirstUnmarked s (env.GetBestCovisibilityKeyFrames s pKF 10))
              pKF)).mvpLocalKeyFrames = s.mvpLocalKeyFrames ++ m2 ∧ m2.length ≤ 2 := by
        rcases h1 with e1 | ⟨k1, e1⟩ <;> rcases h2 with e2 | ⟨k2, e2⟩
        · exact ⟨[], by rw [e2, e1]; simp, by simp⟩
        · exact ⟨[k2], by rw [e2, e1], by simp⟩
        · exact ⟨[k1], by rw [e2, e1], by simp⟩
        · exact ⟨[k1, k2], by rw [e2, e1]; simp, by simp⟩
      obtain ⟨m2, e, hm2⟩ := h3
      have hlen : (addFirstUnmarked
            (addFirstUnmarked s (env.GetBestCovisibilityKeyFrames s pKF 10))
            (env.GetChilds (addFirstUnmarked s (env.GetBestCovisibilityKeyFrames s pKF 10))
              pKF)).mvpLocalKeyFrames.length ≤ 82 := by
        rw [e, List.length_append]
        omega
      have hrec := ih (addFirstUnmarked
            (addFirstUnmarked s (env.GetBestCovisibilityKeyFrames s pKF 10))
            (env.GetChilds (addFirstUnmarked s (env.GetBestCovisibilityKeyFrames s pKF 10))
              pKF))
      have hrec2 : (∃ more, (addNeighbours env rest (addFirstUnmarked
            (addFirstUnmarked s (env.GetBestCovisibilityKeyFrames s pKF 10))
            (env.GetChilds (addFirstUnmarked s (env.GetBestCovisibilityKeyFrames s pKF 10))
              pKF))).mvpLocalKeyFrames = s.mvpLocalKeyFrames ++ more) ∧
          (addNeighbours env rest (addFirstUnmarked
            (addFirstUnmarked s (env.GetBestCovisibilityKeyFrames s pKF 10))
            (env.GetChilds (addFirstUnmarked s (env.GetBestCovisibilityKeyFrames s pKF 10))
              pKF))).mvpLocalKeyFrames.length ≤ max s.mvpLocalKeyFrames.length 83 := by
        obtain ⟨⟨more, hmore⟩, hb⟩ := hrec
        refine ⟨⟨m2 ++ more, by rw [hmore, e, List.append_assoc]⟩, ?_⟩
        omega
      split
      · rename_i pParent _
        split
        · refine ⟨⟨m2 ++ [pParent], ?_⟩, ?_⟩
          · show (addFirstUnmarked _ _).mvpLocalKeyFrames ++ [pParent] = _
            rw [e, List.append_assoc]
          · show ((addFirstUnmarked _ _).mvpLocalKeyFrames ++ [pParent]).length ≤ _
            rw [List.length_append, List.length_singleton]
            omega
        · exact hrec2
      · exact hrec2

/-- C21 (as amended): when no linked map point votes, `UpdateLocalKeyFrames`
leaves the local keyframe set as it was. Otherwise the set it leaves starts
with all the keyframes voted for that are not bad, whatever their number `V`,
and has at most `max(V, 83)` entries: the third loop adds nothing to a set of
more than 80, and at most three keyframes between two tests of the size. -/
theorem UpdateLocalKeyFrames_size (env : Env F) (s : State F) :
    ((voteKeyFrames s).2 = [] →
      (UpdateLocalKeyFrames env s).mvpLocalKeyFrames = s.mvpLocalKeyFrames) ∧
    ((voteKeyFrames s).2 ≠ [] →
      (∃ more, (UpdateLocalKeyFrames env s).mvpLocalKeyFrames = votedKeyFrames s ++ more) ∧
      (UpdateLocalKeyFrames env s).mvpLocalKeyFrames.length
        ≤ max (votedKeyFrames s).length 83) := by
  have hv : (collectVoted (voteKeyFrames s).1 (voteKeyFrames s).2).s.mvpLocalKeyFrames
      = votedKeyFrames s := by
    rw [collectVoted_list]
    unfold votedKeyFrames
    congr 1
    funext k
    rw [keyFrameIsBad_congr s _ (voteKeyFrames_local s).2]
  constructor
  · intro h
    unfold UpdateLocalKeyFrames
    dsimp only
    rw [if_pos (by rw [h]; rfl)]
    exact (voteKeyFrames_local s).1
  · intro h
    have hl := addNeighbours_list env
      (collectVoted (voteKeyFrames s).1 (voteKeyFrames s).2).s.mvpLocalKeyFrames
      (collectVoted (voteKeyFrames s).1 (voteKeyFrames s).2).s
    rw [hv] at hl
    unfold UpdateLocalKeyFrames
    dsimp only
    rw [if_neg (by
      intro he
      exact h (List.isEmpty_iff.mp he))]
    rw [hv]
    split
    · exact hl
    · exact hl

set_option maxRecDepth 100000 in
/-- C21, counterexample: in `crowdedState` the one linked map point is
observed by 81 keyframes that are not bad; `UpdateLocalKeyFrames` leaves all
81 in the local keyframe set. -/
theorem UpdateLocalKeyFrames_more_than_80 :
    (UpdateLocalKeyFrames quietEnv crowdedState).mvpLocalKeyFrames.length = 81 ∧
    (votedKeyFrames crowdedState).length = 81 ∧
    crowdedState.mvpLocalKeyFrames.length = 0 := by
  decide

/-! ### TrackWithMotionModel -/

theorem discardOutliers_eq (s : State F) (n : Int) :
    discardOutliers s n
      = (List.range s.mCurrentFrame.N).foldl discardStep
          { s := s, nmatches := n, nmatchesMap := 0 } := rfl

/-- One turn of the loop "Discard outliers": what it does to the counters, and
that it writes entry `i` of the two vectors only. -/
theorem discardStep_spec (d : Discard F) (i : Nat) :
    (discardStep d i).nmatches = d.nmatches - (if isOutlierLink d.s i then 1 else 0) ∧
    (discardStep d i).nmatchesMap = d.nmatchesMap + (if isInlierFeature d.s i then 1 else 0) ∧
    (discardStep d i).s._map = d.s._map ∧
    ∀ j, j ≠ i →
      (discardStep d i).s.mCurrentFrame.mvpMapPoints[j]? = d.s.mCurrentFrame.mvpMapPoints[j]? ∧
      (discardStep d i).s.mCurrentFrame.mvbOutlier[j]? = d.s.mCurrentFrame.mvbOutlier[j]? := by
  unfold discardStep isOutlierLink isInlierFeature
  cases hl : d.s.mCurrentFrame.mvpMapPoints[i]? with
  | none => exact ⟨by simp, by simp, rfl, fun j _ => ⟨rfl, rfl⟩⟩
  | some o =>
    cases o with
    | none => exact ⟨by simp, by simp, rfl, fun j _ => ⟨rfl, rfl⟩⟩
    | some pMP =>
      cases ho : d.s.mCurrentFrame.mvbOutlier[i]? with
      | none => exact ⟨by simp, by simp, rfl, fun j _ => ⟨rfl, rfl⟩⟩
      | some b =>
        cases b with
        | true =>
          refine ⟨by simp, by simp, ?_, fun j hj => ⟨?_, ?_⟩⟩
          · exact (setOutlier_spec _ i false).2.2.1.trans (setLink_spec d.s i none).2.2.2.1
          · show (setOutlier (setLink d.s i none) i false).mCurrentFrame.mvpMapPoints[j]? = _
            rw [(setOutlier_spec _ i false).2.1, (setLink_spec d.s i none).1 j hj]
          · show (setOutlier (setLink d.s i none) i false).mCurrentFrame.mvbOutlier[j]? = _
            rw [(setOutlier_spec _ i false).1 j hj, (setLink_spec d.s i none).2.2.1]
        | false =>
          dsimp only
          by_cases hobs : Observations d.s pMP > 0
          · rw [if_pos hobs]
            exact ⟨by simp, by simp [hobs], rfl, fun j _ => ⟨rfl, rfl⟩⟩
          · rw [if_neg hobs]
            exact ⟨by simp, by simp [hobs], rfl, fun j _ => ⟨rfl, rfl⟩⟩

theorem isOutlierLink_congr (s s2 : State F) (i : Nat)
    (h1 : s2.mCurrentFrame.mvpMapPoints[i]? = s.mCurrentFrame.mvpMapPoints[i]?)
    (h2 : s2.mCurrentFrame.mvbOutlier[i]? = s.mCurrentFrame.mvbOutlier[i]?) :
    isOutlierLink s2 i = isOutlierLink s i := by
  unfold isOutlierLink
  rw [h1, h2]

theorem isInlierFeature_congr_at (s s2 : State F) (i : Nat)
    (h1 : s2.mCurrentFrame.mvpMapPoints[i]? = s.mCurrentFrame.mvpMapPoints[i]?)
    (h2 : s2.mCurrentFrame.mvbOutlier[i]? = s.mCurrentFrame.mvbOutlier[i]?)
    (hm : s2._map = s._map) :
    isInlierFeature s2 i = isInlierFeature s i := by
  unfold isInlierFeature
  rw [h1, h2]
  split
  · rw [Observations_congr s s2 hm]
  · rfl

/-- The loop "Discard outliers" over distinct features: `nmatches` loses the
links flagged as outlier, `nmatchesMap` gains the links that are not flagged
and whose map point has an observation, both read before the loop. -/
theorem discardStep_foldl (s0 : State F) :
    ∀ (l : List Nat) (d : Discard F), l.Nodup →
      (∀ j ∈ l, d.s.mCurrentFrame.mvpMapPoints[j]? = s0.mCurrentFrame.mvpMapPoints[j]? ∧
        d.s.mCurrentFrame.mvbOutlier[j]? = s0.mCurrentFrame.mvbOutlier[j]?) →
      d.s._map = s0._map →
      (l.foldl discardStep d).nmatches
        = d.nmatches - ((l.filter (isOutlierLink s0)).length : Int) ∧
      (l.foldl discardStep d).nmatchesMap
        = d.nmatchesMap + ((l.filter (isInlierFeature s0)).length : Int) := by
  intro l
  induction l with
  | nil =>
    intro d _ _ _
    simp
  | cons a rest ih =>
    intro d hnd hent hmap
    rw [List.nodup_cons] at hnd
    obtain ⟨h1, h2, h3, h4⟩ := discardStep_spec d a
    have ha := hent a (List.mem_cons_self a rest)
    obtain ⟨r1, r2⟩ := ih (discardStep d a) hnd.2
      (by
        intro j hj
        have hne : j ≠ a := by
          intro e
          rw [e] at hj
          exact hnd.1 hj
        have := hent j (List.mem_cons_of_mem a hj)
        exact ⟨(h4 j hne).1.trans this.1, (h4 j hne).2.trans this.2⟩)
      (h3.trans hmap)
    rw [List.foldl_cons, r1, r2, h1, h2, isOutlierLink_congr s0 d.s a ha.1 ha.2,
      isInlierFeature_congr_at s0 d.s a ha.1 ha.2 hmap, List.filter_cons, List.filter_cons]
    constructor
    · cases isOutlierLink s0 a
      · simp
      · simp
        omega
    · cases isInlierFeature s0 a
      · simp
      · simp
        omega

theorem discardOutliers_counts (s : State F) (n : Int) :
    (discardOutliers s n).nmatches = n - ((outlierLinks s).length : Int) ∧
    (discardOutliers s n).nmatchesMap = ((inlierFeatures s).length : Int) := by
  rw [discardOutliers_eq]
  obtain ⟨h1, h2⟩ := discardStep_foldl s (List.range s.mCurrentFrame.N)
    { s := s, nmatches := n, nmatchesMap := 0 } (List.nodup_range _)
    (fun _ _ => ⟨rfl, rfl⟩) rfl
  exact ⟨h1, by rw [h2]; simp [inlierFeatures]⟩

/-- `TrackWithMotionModel` in terms of its first part. -/
theorem TrackWithMotionModel_eq [Mul F] [AddCommMonoid F] (env : Env F) (s : State F) :
    ((TrackWithMotionModel env s).1 =
      if (searchLastFrame env s).1 < 20 then false
      else decide ((discardOutliers
        (applyPoseOptimization (searchLastFrame env s).2
          (env.PoseOptimization (searchLastFrame env s).2))
        (searchLastFrame env s).1).nmatches > 20)) ∧
    ((TrackWithMotionModel env s).2.1.mbVO =
      if (searchLastFrame env s).1 < 20 then (searchLastFrame env s).2.mbVO
      else decide ((discardOutliers
        (applyPoseOptimization (searchLastFrame env s).2
          (env.PoseOptimization (searchLastFrame env s).2))
        (searchLastFrame env s).1).nmatchesMap < 10)) := by
  unfold TrackWithMotionModel searchLastFrame
  dsimp only
  split_ifs <;> exact ⟨rfl, rfl⟩

theorem searchLastFrame_mbVO [Mul F] [AddCommMonoid F] (env : Env F) (s : State F) :
    (searchLastFrame env s).2.mbVO = s.mbVO := by
  have h0 : (UpdateLastFrame s).mbVO = s.mbVO := by
    unfold UpdateLastFrame
    split
    · split <;> rfl
    · rfl
  unfold searchLastFrame
  dsimp only
  split
  · exact (congrArg Kept.mbVO (writeLinks_kept _ _)).trans
      (Eq.trans rfl ((congrArg Kept.mbVO (writeLinks_kept _ _)).trans (Eq.trans rfl h0)))
  · exact (congrArg Kept.mbVO (writeLinks_kept _ _)).trans (Eq.trans rfl h0)

/-- C25: `TrackWithMotionModel` returns false, and leaves `mbVO` as it was,
when the projection search finds fewer than 20 matches even with the doubled
window (`searchLastFrame` gives the last count of matches). Otherwise it
returns true if and only if the count of matches less the links that the pose
optimization flagged as outliers is more than 20, and it leaves `mbVO` true if
and only if fewer than 10 features have a link that is not flagged as outlier
to a map point with at least one observation. -/
theorem TrackWithMotionModel_result [Mul F] [AddCommMonoid F] (env : Env F) (s : State F) :
    ((searchLastFrame env s).1 < 20 →
      (TrackWithMotionModel env s).1 = false ∧ (TrackWithMotionModel env s).2.1.mbVO = s.mbVO) ∧
    (20 ≤ (searchLastFrame env s).1 →
      ((TrackWithMotionModel env s).1 = true ↔
        (searchLastFrame env s).1 -
          ((outlierLinks (applyPoseOptimization (searchLastFrame env s).2
            (env.PoseOptimization (searchLastFrame env s).2))).length : Int) > 20) ∧
      ((TrackWithMotionModel env s).2.1.mbVO = true ↔
        (inlierFeatures (applyPoseOptimization (searchLastFrame env s).2
          (env.PoseOptimization (searchLastFrame env s).2))).length < 10)) := by
  obtain ⟨h1, h2⟩ := TrackWithMotionModel_eq env s
  obtain ⟨c1, c2⟩ := discardOutliers_counts
    (applyPoseOptimization (searchLastFrame env s).2
      (env.PoseOptimization (searchLastFrame env s).2)) (searchLastFrame env s).1
  constructor
  · intro h
    rw [h1, h2, if_pos h, if_pos h]
    exact ⟨rfl, searchLastFrame_mbVO env s⟩
  · intro h
    rw [h1, h2, if_neg (by omega), if_neg (by omega), c1, c2]
    constructor
    · exact decide_eq_true_iff
    · rw [decide_eq_true_iff]
      omega

set_option maxRecDepth 100000 in
/-- C25, witness: on `motionState` with `outlierEnv` the search finds 25
matches on features 0 to 24 of a frame of 30 keypoints, the pose optimization
flags feature 0: 24 matches remain, `TrackWithMotionModel` returns true, and
since the linked map point of `mixedMap` has observations, `mbVO` is left
false; no vector is read past its end. -/
theorem TrackWithMotionModel_result_witness :
    ((TrackWithMotionModel outlierEnv
        (nextFrame (List.replicate 30 (0, 0)) motionState)).1 = true ↔
      (searchLastFrame outlierEnv (nextFrame (List.replicate 30 (0, 0)) motionState)).1 -
        ((outlierLinks (applyPoseOptimization
          (searchLastFrame outlierEnv (nextFrame (List.replicate 30 (0, 0)) motionState)).2
          (outlierEnv.PoseOptimization
            (searchLastFrame outlierEnv
              (nextFrame (List.replicate 30 (0, 0)) motionState)).2))).length : Int) > 20) ∧
    (TrackWithMotionModel outlierEnv
      (nextFrame (List.replicate 30 (0, 0)) motionState)).1 = true ∧
    (TrackWithMotionModel outlierEnv
      (nextFrame (List.replicate 30 (0, 0)) motionState)).2.1.mbVO = false ∧
    (TrackWithMotionModel outlierEnv
      (nextFrame (List.replicate 30 (0, 0)) motionState)).2.1.fault = false ∧
    (outlierLinks (applyPoseOptimization
      (searchLastFrame outlierEnv (nextFrame (List.replicate 30 (0, 0)) motionState)).2
      (outlierEnv.PoseOptimization
        (searchLastFrame outlierEnv
          (nextFrame (List.replicate 30 (0, 0)) motionState)).2))).length = 1 :=
  ⟨((TrackWithMotionModel_result outlierEnv
      (nextFrame (List.replicate 30 (0, 0)) motionState)).2 (by decide)).1,
    by decide, by decide, by decide, by decide⟩

end SLCVOrbTracking

namespace SLCVFrame

/-! ### The grid code over machine arithmetic -/

/-- The binade of a number fixes its unit in the last place. -/
theorem ulpExponent_eq (q : ℚ) (e : Int) (h1 : (2 : ℚ) ^ e ≤ |q|) (h2 : |q| < (2 : ℚ) ^ (e + 1))
    (he : -126 ≤ e) : ulpExponent q = e - 23 := by
  have hpos : (0 : ℚ) < |q| := lt_of_lt_of_le (zpow_pos (by norm_num) e) h1
  have hlog : Int.log 2 |q| = e := by
    have ha : e ≤ Int.log 2 |q| :=
      (Int.zpow_le_iff_le_log (by norm_num) hpos).mp (by exact_mod_cast h1)
    have hb : Int.log 2 |q| < e + 1 :=
      (Int.lt_zpow_iff_log_lt (by norm_num) hpos).mp (by exact_mod_cast h2)
    omega
  unfold ulpExponent
  rw [hlog, max_eq_left he]

theorem fl32_eq (q : ℚ) (e : Int) (h1 : (2 : ℚ) ^ e ≤ |q|) (h2 : |q| < (2 : ℚ) ^ (e + 1))
    (he : -126 ≤ e) :
    fl32 q = (roundHalfEven (q / 2 ^ (e - 23)) : ℚ) * 2 ^ (e - 23) := by
  have hpos : (0 : ℚ) < |q| := lt_of_lt_of_le (zpow_pos (by norm_num) e) h1
  unfold fl32
  rw [if_neg (abs_pos.mp hpos), ulpExponent_eq q e h1 h2 he]

theorem roundHalfEven_intCast (m : Int) : roundHalfEven (m : ℚ) = m := by
  unfold roundHalfEven
  rw [Int.floor_intCast, sub_self, if_pos (by norm_num)]

/-- A number with 24 significant bits is a binary32 number: rounding leaves
it as it is. -/
theorem fl32_repr (m e : Int) (hm1 : 2 ^ 23 ≤ |m|) (hm2 : |m| < 2 ^ 24) (he : -126 ≤ e) :
    fl32 ((m : ℚ) * 2 ^ (e - 23)) = (m : ℚ) * 2 ^ (e - 23) := by
  have hp : (0 : ℚ) < 2 ^ (e - 23) := zpow_pos (by norm_num) _
  have habs : |(m : ℚ) * 2 ^ (e - 23)| = (|m| : ℚ) * 2 ^ (e - 23) := by
    rw [abs_mul, abs_of_pos hp]
  have hm1q : ((2 : ℚ) ^ (23 : ℕ)) ≤ (|m| : ℚ) := by exact_mod_cast hm1
  have hm2q : (|m| : ℚ) < ((2 : ℚ) ^ (24 : ℕ)) := by exact_mod_cast hm2
  have he1 : (2 : ℚ) ^ e = 2 ^ (23 : ℕ) * 2 ^ (e - 23) := by
    rw [← zpow_natCast, ← zpow_add₀ (by norm_num)]
    congr 1
    omega
  have he2 : (2 : ℚ) ^ (e + 1) = 2 ^ (24 : ℕ) * 2 ^ (e - 23) := by
    rw [← zpow_natCast, ← zpow_add₀ (by norm_num)]
    congr 1
    omega
  rw [fl32_eq _ e (by rw [habs, he1]; exact mul_le_mul_of_nonneg_right hm1q hp.le)
    (by rw [habs, he2]; exact mul_lt_mul_of_pos_right hm2q hp) he,
    mul_div_assoc, div_self hp.ne', mul_one, roundHalfEven_intCast]

theorem fl32_of (q : ℚ) (m e : Int) (hq : q = (m : ℚ) * 2 ^ (e - 23)) (hm1 : 2 ^ 23 ≤ |m|)
    (hm2 : |m| < 2 ^ 24) (he : -126 ≤ e) : fl32 q = q := by
  rw [hq]
  exact fl32_repr m e hm1 hm2 he

theorem fl32_63 : fl32 63 = 63 :=
  fl32_of 63 16515072 5 (by norm_num) (by decide) (by decide) (by decide)

end SLCVFrame

namespace SLCVOrbTracking

/-! ### Links beyond the `N` features of a frame -/

set_option maxRecDepth 100000 in
/-- C22, failing run: the last frame of `orphanState` has 100 keypoints and
links of four features to map point 2, which no keyframe observes; in the new
image two keypoints are found (`N = 2`), the optical flow of `flowEnv` tracks
the four points and `solvePnP` succeeds. `TrackWithOptFlow` returns true and
leaves the frame with four links; `track3DPts` reports the frame as tracked
(`_bOK` true) without reading any vector past its end, its loops "Clean VO
matches" and the discard of outlier links visit the features 0 and 1 only, and
the features 2 and 3 keep their links to the map point without observation,
for which the frame has no outlier flag; the frame becomes the last frame of
the next call. -/
theorem track3DPts_keeps_unobserved_links :
    orphanState.fault = false ∧
    (TrackWithOptFlow flowEnv (nextFrame [(0, 0), (0, 0)] orphanState)).1 = true ∧
    (track3DPts flowEnv 0 [(0, 0), (0, 0)] orphanState).map
      (fun r => (r.1._bOK, r.1.fault, r.1.mCurrentFrame.N)) = some (true, false, 2) ∧
    (track3DPts flowEnv 0 [(0, 0), (0, 0)] orphanState).map
      (fun r => r.1.mCurrentFrame.mvpMapPoints) = some [none, none, some 2, some 2] ∧
    (track3DPts flowEnv 0 [(0, 0), (0, 0)] orphanState).map
      (fun r => r.1.mCurrentFrame.mvbOutlier) = some [false, false] ∧
    (track3DPts flowEnv 0 [(0, 0), (0, 0)] orphanState).map
      (fun r => Observations r.1 2) = some 0 ∧
    (track3DPts flowEnv 0 [(0, 0), (0, 0)] orphanState).map
      (fun r => r.1.mLastFrame.mvpMapPoints) = some [none, none, some 2, some 2] := by
  have hof := TrackWithOptFlow_of_tracked flowEnv
    (nextFrame [(0, 0), (0, 0)] orphanState) (by decide) (by decide) rfl
  refine ⟨rfl, ?_, ?_, ?_, ?_, ?_, ?_⟩
  · rw [hof]
  all_goals
    unfold track3DPts trackStrategy afterOptFlow
    rw [if_neg (by decide)]
    dsimp only
    rw [hof]
    decide

end SLCVOrbTracking
